import Mathlib

/-!
Verification of `bpp::SimpleGraph` (bpp-core, src/Bpp/Graph/Graph.cpp).

A shallow embedding of the `bpp::SimpleGraph` class and theorems about its
operations.

Modelling conventions

* `Graph::Node` and `Graph::Edge` are `unsigned int`; they are natural numbers
  here and every increment or decrement of a counter is reduced modulo
  `UINT_MOD`.
* A `std::map` keyed by `unsigned int` is the list of its `(key, value)`
  entries in iteration order (ascending keys).  The operations below keep that
  order; none of the theorems needs more of a map than what its statement
  says.
* A member function is a function from the object state to a `Result`: it
  returns a value, throws a `bpp::Exception`, or has undefined behaviour
  (an end iterator is dereferenced or erased).  The first two carry the state
  of the object at that point and the observer callbacks made so far.
* A recursive member function takes a bound on the depth of its recursion
  and has the outcome `none` when the bound is reached (`Bounded`); the
  theorems about them hold for every bound above a stated one.
-/

namespace Bpp

/-- Number of values of `unsigned int`. -/
def UINT_MOD : Nat := 4294967296

/-- Stands for `Graph::Node` (`unsigned int`). -/
abbrev Node := Nat

/-- Stands for `Graph::Edge` (`unsigned int`). -/
abbrev Edge := Nat

/-- Entries of a `std::map<unsigned int, β>` in iteration order. -/
abbrev UMap (β : Type) := List (Nat × β)

/-- Lookup `m.find(k)`: `none` stands for `m.end()`. -/
def mapFind {β : Type} : UMap β → Nat → Option β
  | [], _ => none
  | (k', v) :: rest, k => if k' = k then some v else mapFind rest k

/-- Creation of the entry for a key `k` that the map does not hold, at its
place in the key order. -/
def mapPut {β : Type} : UMap β → Nat → β → UMap β
  | [], k, v => [(k, v)]
  | (k', v') :: rest, k, v =>
    if k < k' then (k, v) :: (k', v') :: rest else (k', v') :: mapPut rest k v

/-- Insertion `m.insert(pair(k, v))`: an existing entry for `k` is kept as it is. -/
def mapInsert {β : Type} (m : UMap β) (k : Nat) (v : β) : UMap β :=
  match mapFind m k with
  | some _ => m
  | none => mapPut m k v

/-- Removal `m.erase(it)` for an iterator `it` found at key `k`. -/
def mapErase {β : Type} : UMap β → Nat → UMap β
  | [], _ => []
  | (k', v) :: rest, k => if k' = k then mapErase rest k else (k', v) :: mapErase rest k

/-- Write through the iterator `m.find(k)`: the value at `k` becomes `f` of it. -/
def mapModify {β : Type} : UMap β → Nat → (β → β) → UMap β
  | [], _, _ => []
  | (k', v) :: rest, k, f =>
    if k' = k then (k', f v) :: rest else (k', v) :: mapModify rest k f

/-- Assignment `m[k] = v`: the entry for `k` is created or overwritten. -/
def mapAssign {β : Type} (m : UMap β) (k : Nat) (v : β) : UMap β :=
  match mapFind m k with
  | some _ => mapModify m k (fun _ => v)
  | none => mapPut m k v

/-- Access `m[k]` with the value-initialised default `d`: the value found and
the map, which has a new entry `(k, d)` when it had none for `k`. -/
def mapIndex {β : Type} (m : UMap β) (k : Nat) (d : β) : β × UMap β :=
  match mapFind m k with
  | some v => (v, m)
  | none => (d, mapPut m k d)

/-- Keys of a map in iteration order. -/
def mapKeys {β : Type} (m : UMap β) : List Nat := m.map Prod.fst

/-- Value type of `nodeStructureType`: `first` holds the outgoing relations
(neighbour to edge), `second` the incoming ones. -/
abbrev NodeRow := UMap Edge × UMap Edge

/-- Data members of `SimpleGraph`.  `observers_` holds the addresses in
`std::set<GraphObserver*>` in iteration order. -/
structure SimpleGraph where
  directed_ : Bool
  observers_ : List Nat
  numberOfNodes_ : Nat
  highestNodeID_ : Nat
  highestEdgeID_ : Nat
  nodeStructure_ : UMap NodeRow
  edgeStructure_ : UMap (Node × Node)
  root_ : Node
  deriving DecidableEq, Repr

/-- The constructor `SimpleGraph::SimpleGraph(bool directed_p)`. -/
def SimpleGraph.new (directed_p : Bool) : SimpleGraph :=
  { directed_ := directed_p
    observers_ := []
    numberOfNodes_ := 0
    highestNodeID_ := 0
    highestEdgeID_ := 0
    nodeStructure_ := []
    edgeStructure_ := []
    root_ := 0 }

/-- The `bpp::Exception`s thrown in Graph.cpp, one constructor per message. -/
inductive GraphException where
  /-- Message "This GraphObserver was already an observer of this Graph" -/
  | alreadyObserver
  /-- Message "This GraphObserver was not an observer of this Graph" -/
  | notAnObserver
  /-- Message "The fist node was not the origin of an edge." -/
  | notOriginOfEdge
  /-- Message "The second node was not in a relation with the first one." -/
  | notInRelation
  /-- Message "This node must exist: `node` as `name`." -/
  | nodeMustExist (node : Node) (name : String)
  /-- Message "This edge must exist: `edge` as `name`." -/
  | edgeMustExist (edge : Edge) (name : String)
  /-- Message "The requested node is not in the structure." -/
  | nodeNotInStructure
  /-- Message "Cannot make an undirected graph from a directed one containing reciprocal relations." -/
  | cannotMakeUndirected
  /-- Message "Cannot state reciprocal link in an undirected graph." -/
  | cannotStateReciprocal
  deriving DecidableEq, Repr

/-- One call of a `GraphObserver` member function, on the observer at the given address. -/
inductive Callback where
  | deletedEdgesUpdate (observer : Nat) (edges : List Edge)
  | deletedNodesUpdate (observer : Nat) (nodes : List Node)
  deriving DecidableEq, Repr

/-- Outcome of a member function call. -/
inductive Result (α : Type) where
  /-- Normal return with the value, the state of the graph and the callbacks made. -/
  | returned (val : α) (g : SimpleGraph) (calls : List Callback)
  /-- An exception left the function, with the state and callbacks at that point. -/
  | threw (ex : GraphException) (g : SimpleGraph) (calls : List Callback)
  /-- An end iterator was dereferenced or erased. -/
  | undefinedBehavior
  deriving DecidableEq, Repr

/-- Puts the callbacks made earlier in front of those of an outcome. -/
def Result.after {α : Type} (calls : List Callback) : Result α → Result α
  | .returned v g c => .returned v g (calls ++ c)
  | .threw ex g c => .threw ex g (calls ++ c)
  | .undefinedBehavior => .undefinedBehavior

/-- Sequencing of two statements: the second runs on the state left by the
first, when the first returned. -/
def Result.andThen {α β : Type} (r : Result α) (f : α → SimpleGraph → Result β) : Result β :=
  match r with
  | .returned v g c => Result.after c (f v g)
  | .threw ex g c => .threw ex g c
  | .undefinedBehavior => .undefinedBehavior

/-- Member function `SimpleGraph::nodeMustExist_`. -/
def nodeMustExist_ (g : SimpleGraph) (node : Node) (name : String) : Result Unit :=
  match mapFind g.nodeStructure_ node with
  | none => .threw (.nodeMustExist node name) g []
  | some _ => .returned () g []

/-- Member function `SimpleGraph::edgeMustExist_`: the exception is thrown when `find` does
NOT return `end()`. -/
def edgeMustExist_ (g : SimpleGraph) (edge : Edge) (name : String) : Result Unit :=
  match mapFind g.edgeStructure_ edge with
  | some _ => .threw (.edgeMustExist edge name) g []
  | none => .returned () g []

/-- Member function `SimpleGraph::getEdge`. -/
def getEdge (g : SimpleGraph) (nodeA nodeB : Node) : Result Edge :=
  match mapFind g.nodeStructure_ nodeA with
  | none => .threw .notOriginOfEdge g []
  | some row =>
    match mapFind row.1 nodeB with
    | none => .threw .notInRelation g []
    | some e => .returned e g []

/-- Member function `SimpleGraph::linkInNodeStructure_`: each of the two statements
dereferences `nodeStructure_.find(..)` without a test. -/
def linkInNodeStructure_ (g : SimpleGraph) (nodeA nodeB : Node) (edge : Edge) : Result Unit :=
  match mapFind g.nodeStructure_ nodeA with
  | none => .undefinedBehavior
  | some _ =>
    let g1 := { g with nodeStructure_ := (mapModify g.nodeStructure_ nodeA
      (fun row => (mapInsert row.1 nodeB edge, row.2))) }
    match mapFind g1.nodeStructure_ nodeB with
    | none => .undefinedBehavior
    | some _ =>
      .returned () { g1 with nodeStructure_ := (mapModify g1.nodeStructure_ nodeB
        (fun row => (row.1, mapInsert row.2 nodeA edge))) } []

/-- Member function `SimpleGraph::linkInEdgeStructure_`. -/
def linkInEdgeStructure_ (g : SimpleGraph) (nodeA nodeB : Node) (edge : Edge) : Result Unit :=
  .returned () { g with edgeStructure_ := mapAssign g.edgeStructure_ edge (nodeA, nodeB) } []

/-- Member function `SimpleGraph::link`. -/
def link (g : SimpleGraph) (nodeA nodeB : Node) : Result Edge :=
  (nodeMustExist_ g nodeA "first node").andThen fun _ g =>
  (nodeMustExist_ g nodeB "second node").andThen fun _ g =>
  let edgeID := (g.highestEdgeID_ + 1) % UINT_MOD
  let g := { g with highestEdgeID_ := edgeID }
  (linkInNodeStructure_ g nodeA nodeB edgeID).andThen fun _ g =>
  (if !g.directed_ then linkInNodeStructure_ g nodeB nodeA edgeID
   else .returned () g []).andThen fun _ g =>
  (linkInEdgeStructure_ g nodeA nodeB edgeID).andThen fun _ g =>
  .returned edgeID g []

/-- Member function `SimpleGraph::unlinkInNodeStructure_`: `foundForwardRelation` is
dereferenced and `foundBackwardsRelation` erased without a test. -/
def unlinkInNodeStructure_ (g : SimpleGraph) (nodeA nodeB : Node) : Result Edge :=
  match mapFind g.nodeStructure_ nodeA with
  | none => .undefinedBehavior
  | some rowA =>
    match mapFind rowA.1 nodeB with
    | none => .undefinedBehavior
    | some foundEdge =>
      let g1 := { g with nodeStructure_ := (mapModify g.nodeStructure_ nodeA
        (fun row => (mapErase row.1 nodeB, row.2))) }
      match mapFind g1.nodeStructure_ nodeB with
      | none => .undefinedBehavior
      | some rowB =>
        match mapFind rowB.2 nodeA with
        | none => .undefinedBehavior
        | some _ =>
          .returned foundEdge { g1 with nodeStructure_ := (mapModify g1.nodeStructure_ nodeB
            (fun row => (row.1, mapErase row.2 nodeA))) } []

/-- Member function `SimpleGraph::unlinkInEdgeStructure_`: `foundEdge` is erased without a test. -/
def unlinkInEdgeStructure_ (g : SimpleGraph) (edge : Edge) : Result Unit :=
  match mapFind g.edgeStructure_ edge with
  | none => .undefinedBehavior
  | some _ => .returned () { g with edgeStructure_ := mapErase g.edgeStructure_ edge } []

/-- Member function `SimpleGraph::notifyDeletedEdges`: one `deletedEdgesUpdate` call per
element of `observers_`, in iteration order. -/
def notifyDeletedEdges (g : SimpleGraph) (edgesToDelete : List Edge) : Result Unit :=
  .returned () g (g.observers_.map fun o => Callback.deletedEdgesUpdate o edgesToDelete)

/-- Member function `SimpleGraph::notifyDeletedNodes`. -/
def notifyDeletedNodes (g : SimpleGraph) (nodesToDelete : List Node) : Result Unit :=
  .returned () g (g.observers_.map fun o => Callback.deletedNodesUpdate o nodesToDelete)

/-- The loop of `unlink` over `deletedEdges`. -/
def unlinkEdgesLoop : SimpleGraph → List Edge → Result Unit
  | g, [] => .returned () g []
  | g, e :: rest => (unlinkInEdgeStructure_ g e).andThen fun _ g => unlinkEdgesLoop g rest

/-- Member function `SimpleGraph::unlink`. -/
def unlink (g : SimpleGraph) (nodeA nodeB : Node) : Result (List Edge) :=
  (nodeMustExist_ g nodeA "first node").andThen fun _ g =>
  (nodeMustExist_ g nodeB "second node").andThen fun _ g =>
  (unlinkInNodeStructure_ g nodeA nodeB).andThen fun foundEdge g =>
  let deletedEdges := [foundEdge]
  (unlinkEdgesLoop g deletedEdges).andThen fun _ g =>
  (notifyDeletedEdges g deletedEdges).andThen fun _ g =>
  .returned deletedEdges g []

/-- Member function `SimpleGraph::createNode`: `nodeStructure_[newNode]` creates an empty row
when there is none. -/
def createNode (g : SimpleGraph) : Result Node :=
  let newNode := g.highestNodeID_
  let g := { g with highestNodeID_ := (g.highestNodeID_ + 1) % UINT_MOD }
  let g := { g with nodeStructure_ := (mapIndex g.nodeStructure_ newNode ([], [])).2 }
  .returned newNode { g with numberOfNodes_ := (g.numberOfNodes_ + 1) % UINT_MOD } []

/-- Member function `SimpleGraph::createNodeOnEdge`: `edgeStructure_[edge]` creates the record
`(0, 0)` when there is none. -/
def createNodeOnEdge (g : SimpleGraph) (edge : Edge) : Result Node :=
  (edgeMustExist_ g edge "").andThen fun _ g =>
  (createNode g).andThen fun newNode g =>
  let nodes := (mapIndex g.edgeStructure_ edge (0, 0)).1
  let g := { g with edgeStructure_ := (mapIndex g.edgeStructure_ edge (0, 0)).2 }
  let nodeA := nodes.1
  let nodeB := nodes.2
  (unlink g nodeA nodeB).andThen fun _ g =>
  (link g nodeA newNode).andThen fun _ g =>
  (link g newNode nodeB).andThen fun _ g =>
  .returned newNode g []

/-- Member function `SimpleGraph::getNeighbors_`. -/
def getNeighbors_ (g : SimpleGraph) (node : Node) (outgoing : Bool) : Result (List Node) :=
  (nodeMustExist_ g node "").andThen fun _ g =>
  match mapFind g.nodeStructure_ node with
  | none => .threw .nodeNotInStructure g []
  | some row =>
    let forOrBack := if outgoing then row.1 else row.2
    .returned (mapKeys forOrBack) g []

/-- Member function `SimpleGraph::getIncomingNeighbors`. -/
def getIncomingNeighbors (g : SimpleGraph) (node : Node) : Result (List Node) :=
  getNeighbors_ g node false

/-- Member function `SimpleGraph::getOutgoingNeighbors`. -/
def getOutgoingNeighbors (g : SimpleGraph) (node : Node) : Result (List Node) :=
  getNeighbors_ g node true

/-- Member function `SimpleGraph::getNeighbors`: the incoming neighbours are inserted first. -/
def getNeighbors (g : SimpleGraph) (node : Node) : Result (List Node) :=
  (getNeighbors_ g node false).andThen fun incoming g =>
  (getNeighbors_ g node true).andThen fun outgoing g =>
  .returned (incoming ++ outgoing) g []

/-- The loop of `isolate_` over the vector `neighbors`. -/
def isolateLoop (node : Node) : SimpleGraph → List Node → Result Unit
  | g, [] => .returned () g []
  | g, currNeighbor :: rest =>
    (unlink g node currNeighbor).andThen fun _ g => isolateLoop node g rest

/-- Member function `SimpleGraph::isolate_`. -/
def isolate_ (g : SimpleGraph) (node : Node) : Result Unit :=
  (getNeighbors g node).andThen fun neighbors g => isolateLoop node g neighbors

/-- Member function `SimpleGraph::deleteNode`. -/
def deleteNode (g : SimpleGraph) (node : Node) : Result Unit :=
  (nodeMustExist_ g node "node to delete").andThen fun _ g =>
  (isolate_ g node).andThen fun _ g =>
  match mapFind g.nodeStructure_ node with
  | none => .undefinedBehavior
  | some _ =>
    .returned () { g with nodeStructure_ := mapErase g.nodeStructure_ node,
                          numberOfNodes_ := (g.numberOfNodes_ + UINT_MOD - 1) % UINT_MOD } []

/-- The inner loop of `containsReciprocalRelations` over the outgoing relations
of `nodeA`: `none` when the function returned `true`, otherwise the set
`alreadyMetRelations` after the loop. -/
def reciprocalInnerLoop (nodeA : Node) : List (Nat × Nat) → UMap Edge → Option (List (Nat × Nat))
  | met, [] => some met
  | met, (nodeB, _) :: rest =>
    let p := (min nodeA nodeB, max nodeA nodeB)
    if p ∈ met then none else reciprocalInnerLoop nodeA (p :: met) rest

/-- The outer loop of `containsReciprocalRelations` over `nodeStructure_`;
the value is the one returned. -/
def reciprocalOuterLoop : List (Nat × Nat) → UMap NodeRow → Bool
  | _, [] => false
  | met, (nodeA, row) :: rest =>
    match reciprocalInnerLoop nodeA met row.1 with
    | none => true
    | some met' => reciprocalOuterLoop met' rest

/-- Member function `SimpleGraph::containsReciprocalRelations`; the `std::set` of pairs is kept
as a list, of which only membership is used. -/
def containsReciprocalRelations (g : SimpleGraph) : Result Bool :=
  if !g.directed_ then .threw .cannotStateReciprocal g []
  else .returned (reciprocalOuterLoop [] g.nodeStructure_) g []

/-- Rows of `nodeStructure_` after both statements of `linkInNodeStructure_`
have run: `nodeB` is inserted among the outgoing relations of `nodeA`, then
`nodeA` among the incoming relations of `nodeB`. -/
def addRelation (ns : UMap NodeRow) (nodeA nodeB : Node) (edge : Edge) : UMap NodeRow :=
  mapModify (mapModify ns nodeA (fun row => (mapInsert row.1 nodeB edge, row.2))) nodeB
    (fun row => (row.1, mapInsert row.2 nodeA edge))

/-- Rows of `nodeStructure_` after both erasures of `unlinkInNodeStructure_`. -/
def removeRelation (ns : UMap NodeRow) (nodeA nodeB : Node) : UMap NodeRow :=
  mapModify (mapModify ns nodeA (fun row => (mapErase row.1 nodeB, row.2))) nodeB
    (fun row => (row.1, mapErase row.2 nodeA))

/-- The state `link` leaves when both nodes exist. -/
def linkState (g : SimpleGraph) (a b : Node) : SimpleGraph :=
  let e := (g.highestEdgeID_ + 1) % UINT_MOD
  { g with
    highestEdgeID_ := e
    nodeStructure_ :=
      if g.directed_ then addRelation g.nodeStructure_ a b e
      else addRelation (addRelation g.nodeStructure_ a b e) b a e
    edgeStructure_ := mapAssign g.edgeStructure_ e (a, b) }

/-- Insertion into the `std::set<GraphObserver*>`, at the place of the address
in iteration order. -/
def setInsert : List Nat → Nat → List Nat
  | [], o => [o]
  | o' :: rest, o => if o < o' then o :: o' :: rest else o' :: setInsert rest o

/-- Member function `SimpleGraph::registerObserver`: `insert(observer).second` is false when the
address is already in the set. -/
def registerObserver (g : SimpleGraph) (observer : Nat) : Result Unit :=
  if observer ∈ g.observers_ then .threw .alreadyObserver g []
  else .returned () { g with observers_ := setInsert g.observers_ observer } []

/-- Member function `SimpleGraph::unregisterObserver`: `erase(observer)` is zero when the
address is not in the set. -/
def unregisterObserver (g : SimpleGraph) (observer : Nat) : Result Unit :=
  if observer ∈ g.observers_ then
    .returned () { g with observers_ := g.observers_.filter (fun o => decide (o ≠ observer)) } []
  else .threw .notAnObserver g []

/-- The state `unlink` leaves when it returns after removing `edge`. -/
def unlinkState (g : SimpleGraph) (a b : Node) (edge : Edge) : SimpleGraph :=
  { g with
    nodeStructure_ := removeRelation g.nodeStructure_ a b
    edgeStructure_ := mapErase g.edgeStructure_ edge }

/-- A call of one of the four primitive mutators. -/
inductive Call where
  | createNode
  | link (nodeA nodeB : Node)
  | unlink (nodeA nodeB : Node)
  | deleteNode (node : Node)
  deriving DecidableEq, Repr

/-- Runs the calls one after the other on the graph; the value is the list of
the `Node`s returned by `createNode` and the list of the `Edge`s returned by
`link`, both in call order. -/
def runCalls : SimpleGraph → List Call → Result (List Node × List Edge)
  | g, [] => .returned ([], []) g []
  | g, .createNode :: rest =>
    (createNode g).andThen fun n g =>
    (runCalls g rest).andThen fun ids g => .returned (n :: ids.1, ids.2) g []
  | g, .link a b :: rest =>
    (link g a b).andThen fun e g =>
    (runCalls g rest).andThen fun ids g => .returned (ids.1, e :: ids.2) g []
  | g, .unlink a b :: rest =>
    (unlink g a b).andThen fun _ g => runCalls g rest
  | g, .deleteNode n :: rest =>
    (deleteNode g n).andThen fun _ g => runCalls g rest

/-- Number of `createNode` calls in a list of calls. -/
def numCreateNode : List Call → Nat
  | [] => 0
  | .createNode :: rest => numCreateNode rest + 1
  | _ :: rest => numCreateNode rest

/-- Number of `link` calls in a list of calls. -/
def numLink : List Call → Nat
  | [] => 0
  | .link _ _ :: rest => numLink rest + 1
  | _ :: rest => numLink rest

/-- Postcondition of an outcome: `P` holds of the value and state when the
function returned. -/
def Result.Returns {α : Type} (P : α → SimpleGraph → Prop) : Result α → Prop
  | .returned v g _ => P v g
  | .threw _ _ _ => True
  | .undefinedBehavior => True

/-- Both id counters of `g'` are those of `g`. -/
def SameCounters (g g' : SimpleGraph) : Prop :=
  g'.highestNodeID_ = g.highestNodeID_ ∧ g'.highestEdgeID_ = g.highestEdgeID_

/-- The calls `createNode(); deleteNode(0); createNode(); deleteNode(1); ...`,
`n` pairs of them. -/
def createDeleteCalls (n : Nat) : List Call :=
  (List.range n).flatMap fun k => [Call.createNode, Call.deleteNode k]

/-- A directed graph without nodes whose node counter holds `n`. -/
def emptyWithCounter (n : Nat) : SimpleGraph :=
  { SimpleGraph.new true with highestNodeID_ := n }

/-- Two nodes `0` and `1` without relation: a new graph after two `createNode` calls. -/
def twoNodes (directed : Bool) : SimpleGraph :=
  { SimpleGraph.new directed with
    numberOfNodes_ := 2
    highestNodeID_ := 2
    nodeStructure_ := [(0, ([], [])), (1, ([], []))] }

/-- The graph `twoNodes` with observers registered at the addresses `3` and `7`. -/
def twoNodesObserved (directed : Bool) : SimpleGraph :=
  { twoNodes directed with observers_ := [3, 7] }

/-- The graph `twoNodes` after `link(0, 1)`, which returned the edge `1`. -/
def twoNodesLinked (directed : Bool) : SimpleGraph :=
  { twoNodes directed with
    highestEdgeID_ := 1
    nodeStructure_ :=
      if directed then [(0, ([(1, 1)], [])), (1, ([], [(0, 1)]))]
      else [(0, ([(1, 1)], [(1, 1)])), (1, ([(0, 1)], [(0, 1)]))]
    edgeStructure_ := [(1, (0, 1))] }

/-- A directed graph holding the node `1` only: `twoNodes` after `deleteNode(0)`. -/
def nodeZeroDeleted : SimpleGraph :=
  { SimpleGraph.new true with
    numberOfNodes_ := 1
    highestNodeID_ := 2
    nodeStructure_ := [(1, ([], []))] }

/-- A `std::map` holds one entry per key. -/
def UniqueKeys {β : Type} (m : UMap β) : Prop := (mapKeys m).Nodup

instance instDecidableUniqueKeys {β : Type} (m : UMap β) : Decidable (UniqueKeys m) :=
  inferInstanceAs (Decidable (mapKeys m).Nodup)

/-- The maps of the node structure hold one entry per key: `nodeStructure_`
itself and the outgoing map of every row. -/
def UniqueNodeKeys (g : SimpleGraph) : Prop :=
  UniqueKeys g.nodeStructure_ ∧ ∀ p ∈ g.nodeStructure_, UniqueKeys p.2.1

/-- The pair `(min(nodeA, nodeB), max(nodeA, nodeB))` under which
`containsReciprocalRelations` records a relation. -/
def canonicalPair (p : Node × Node) : Nat × Nat := (min p.1 p.2, max p.1 p.2)

/-- The outgoing relations `(nodeA, nodeB)` in the order in which the two loops
of `containsReciprocalRelations` meet them. -/
def outgoingRelations (ns : UMap NodeRow) : List (Node × Node) :=
  ns.flatMap fun p => (mapKeys p.2.1).map fun b => (p.1, b)

/-- The scan both loops perform: `none` when a pair is met that is in the set
already, otherwise the set after all pairs were inserted. -/
def scanPairs : List (Nat × Nat) → List (Nat × Nat) → Option (List (Nat × Nat))
  | met, [] => some met
  | met, p :: rest => if p ∈ met then none else scanPairs (p :: met) rest

/-- A directed graph on the nodes `0`, `1`, `2` with the edges `0 -> 1`, `1 -> 2`
and `1 -> 0`, linked in that order. -/
def reciprocalPair : SimpleGraph :=
  { SimpleGraph.new true with
    numberOfNodes_ := 3
    highestNodeID_ := 3
    highestEdgeID_ := 3
    nodeStructure_ :=
      [(0, ([(1, 1)], [(1, 3)])), (1, ([(0, 3), (2, 2)], [(0, 1)])), (2, ([], [(1, 2)]))]
    edgeStructure_ := [(1, (0, 1)), (2, (1, 2)), (3, (1, 0))] }

/-- A directed graph on the nodes `0 .. 3` with the edges `0 -> 1`, `0 -> 2`,
`0 -> 3` (ids `1`, `2`, `3`) and an observer at the address `5`. -/
def outStar : SimpleGraph :=
  { SimpleGraph.new true with
    observers_ := [5]
    numberOfNodes_ := 4
    highestNodeID_ := 4
    highestEdgeID_ := 3
    nodeStructure_ :=
      [(0, ([(1, 1), (2, 2), (3, 3)], [])), (1, ([], [(0, 1)])), (2, ([], [(0, 2)])),
       (3, ([], [(0, 3)]))]
    edgeStructure_ := [(1, (0, 1)), (2, (0, 2)), (3, (0, 3))] }

/-- Member function `SimpleGraph::createNodeFromNode`. -/
def createNodeFromNode (g : SimpleGraph) (origin : Node) : Result Node :=
  (nodeMustExist_ g origin "origin node").andThen fun _ g =>
  (createNode g).andThen fun newNode g =>
  (link g origin newNode).andThen fun _ g =>
  .returned newNode g []

/-- Member function `SimpleGraph::setRoot`. -/
def setRoot (g : SimpleGraph) (newRoot : Node) : Result Unit :=
  (nodeMustExist_ g newRoot "new root").andThen fun _ g =>
  .returned () { g with root_ := newRoot } []

/-- The inner loop of `makeDirected` over the outgoing relations of `nodeA` in
the saved structure; the value is the set `alreadyConvertedRelations` after
the loop.  The relation is linked when the insertion into the set fails, that
is when the pair was met before. -/
def makeDirectedInnerLoop (nodeA : Node) :
    SimpleGraph → List (Nat × Nat) → UMap Edge → Result (List (Nat × Nat))
  | g, met, [] => .returned met g []
  | g, met, (nodeB, edge) :: rest =>
    let p := (min nodeA nodeB, max nodeA nodeB)
    if p ∈ met then
      (linkInNodeStructure_ g nodeA nodeB edge).andThen fun _ g =>
      makeDirectedInnerLoop nodeA g met rest
    else makeDirectedInnerLoop nodeA g (p :: met) rest

/-- The outer loop of `makeDirected` over the rows of the saved structure. -/
def makeDirectedOuterLoop :
    SimpleGraph → List (Nat × Nat) → UMap NodeRow → Result Unit
  | g, _, [] => .returned () g []
  | g, met, (nodeA, row) :: rest =>
    (makeDirectedInnerLoop nodeA g met row.1).andThen fun met' g =>
    makeDirectedOuterLoop g met' rest

/-- Member function `SimpleGraph::makeDirected`: `nodeStructure_` is copied and
cleared before the loops. -/
def makeDirected (g : SimpleGraph) : Result Unit :=
  if g.directed_ then .returned () g []
  else
    let undirectedStructure := g.nodeStructure_
    let g := { g with nodeStructure_ := [] }
    (makeDirectedOuterLoop g [] undirectedStructure).andThen fun _ g =>
    .returned () { g with directed_ := true } []

/-- The inner loop of `makeUndirected` over the outgoing relations of `nodeA`
in the saved structure. -/
def makeUndirectedInnerLoop (nodeA : Node) : SimpleGraph → UMap Edge → Result Unit
  | g, [] => .returned () g []
  | g, (nodeB, edge) :: rest =>
    (linkInNodeStructure_ g nodeA nodeB edge).andThen fun _ g =>
    (linkInNodeStructure_ g nodeB nodeA edge).andThen fun _ g =>
    makeUndirectedInnerLoop nodeA g rest

/-- The outer loop of `makeUndirected` over the rows of the saved structure. -/
def makeUndirectedOuterLoop : SimpleGraph → UMap NodeRow → Result Unit
  | g, [] => .returned () g []
  | g, (nodeA, row) :: rest =>
    (makeUndirectedInnerLoop nodeA g row.1).andThen fun _ g =>
    makeUndirectedOuterLoop g rest

/-- Member function `SimpleGraph::makeUndirected`: `nodeStructure_` is copied and
cleared before the loops. -/
def makeUndirected (g : SimpleGraph) : Result Unit :=
  if !g.directed_ then .returned () g []
  else
    (containsReciprocalRelations g).andThen fun reciprocal g =>
    if reciprocal then .threw .cannotMakeUndirected g []
    else
      let directedStructure := g.nodeStructure_
      let g := { g with nodeStructure_ := [] }
      (makeUndirectedOuterLoop g directedStructure).andThen fun _ g =>
      .returned () { g with directed_ := false } []

/-- Outcome of a recursive member function run with a bound on the depth of
the recursion: `none` when the bound was reached. -/
abbrev Bounded (α : Type) := Option (Result α)

/-- Sequencing for outcomes of bounded runs. -/
def Bounded.andThen {α β : Type} (r : Bounded α) (f : α → SimpleGraph → Bounded β) :
    Bounded β :=
  match r with
  | none => none
  | some (.returned v g c) => (f v g).map (Result.after c)
  | some (.threw ex g c) => some (.threw ex g c)
  | some .undefinedBehavior => some .undefinedBehavior

/-- The loop of `nodesAreMetOnlyOnce_` over `neighbors`; `recur` stands for the
recursive call.  The value is the flag `neverMetANodeMoreThanOnce` and the set
`metNodes` after the loop. -/
def metOnlyOnceLoop (recur : Node → List Node → SimpleGraph → Bounded (Bool × List Node))
    (originNode : Node) :
    List Node → Bool → List Node → SimpleGraph → Bounded (Bool × List Node)
  | [], flag, metNodes, g => some (.returned (flag, metNodes) g [])
  | currNeighbor :: rest, flag, metNodes, g =>
    if !flag then some (.returned (flag, metNodes) g [])
    else if currNeighbor = originNode then
      metOnlyOnceLoop recur originNode rest flag metNodes g
    else
      (recur currNeighbor metNodes g).andThen fun r g =>
      metOnlyOnceLoop recur originNode rest r.1 r.2 g

/-- Member function `SimpleGraph::nodesAreMetOnlyOnce_`, with a bound on the depth of
the recursion.  The `std::set` `metNodes` is kept as a list, of which only
membership is used; the value is the returned flag and `metNodes` after the
call. -/
def nodesAreMetOnlyOnce_ : Nat → SimpleGraph → Node → List Node → Node →
    Bounded (Bool × List Node)
  | 0, _, _, _, _ => none
  | fuel + 1, g, node, metNodes, originNode =>
    let neverMetANodeMoreThanOnce := !(decide (node ∈ metNodes))
    let metNodes := if node ∈ metNodes then metNodes else node :: metNodes
    Bounded.andThen (some (getOutgoingNeighbors g node)) fun neighbors g =>
    metOnlyOnceLoop (fun n met g => nodesAreMetOnlyOnce_ fuel g n met node) originNode
      neighbors neverMetANodeMoreThanOnce metNodes g

/-- Member function `SimpleGraph::isTree`, with a bound on the depth of the recursion. -/
def isTree (fuel : Nat) (g : SimpleGraph) : Bounded Bool :=
  (nodesAreMetOnlyOnce_ fuel g g.root_ [] g.root_).andThen fun r g =>
  if !r.1 then some (.returned false g [])
  else some (.returned ((mapKeys g.nodeStructure_).all fun n => decide (n ∈ r.2)) g [])

/-- The loop of `fillListOfLeaves_` over `neighbors`; `recur` stands for the
recursive call.  The value is `foundLeaves` after the loop. -/
def fillLeavesLoop (recur : Node → List Node → SimpleGraph → Bounded (List Node))
    (originNode : Node) : List Node → List Node → SimpleGraph → Bounded (List Node)
  | [], foundLeaves, g => some (.returned foundLeaves g [])
  | currNeighbor :: rest, foundLeaves, g =>
    if currNeighbor ≠ originNode then
      (recur currNeighbor foundLeaves g).andThen fun foundLeaves g =>
      fillLeavesLoop recur originNode rest foundLeaves g
    else fillLeavesLoop recur originNode rest foundLeaves g

/-- Member function `SimpleGraph::fillListOfLeaves_`, with a bound on the depth of the
recursion; the value is `foundLeaves` after the call. -/
def fillListOfLeaves_ : Nat → SimpleGraph → Node → List Node → Node → Bool → Nat →
    Bounded (List Node)
  | 0, _, _, _, _, _, _ => none
  | fuel + 1, g, startingNode, foundLeaves, originNode, limitedRecursions, maxRecursions =>
    Bounded.andThen (some (getNeighbors g startingNode)) fun neighbors g =>
    if neighbors.length > 1 then
      if !limitedRecursions || decide (maxRecursions > 0) then
        fillLeavesLoop
          (fun n found g => fillListOfLeaves_ fuel g n found startingNode limitedRecursions
            ((maxRecursions + UINT_MOD - 1) % UINT_MOD))
          originNode neighbors foundLeaves g
      else some (.returned foundLeaves g [])
    else some (.returned (foundLeaves ++ [startingNode]) g [])

/-- Modelled from the spec: the default arguments of `fillListOfLeaves_`, which
are declared in Graph.h; `getLeaves` passes neither `limitedRecursions` nor
`maxRecursions`, and the spec gives `getLeaves` no depth limit. -/
def defaultLimitedRecursions : Bool := false

/-- Modelled from the spec: the default of `maxRecursions` declared in Graph.h;
it is not read while `limitedRecursions` is false. -/
def defaultMaxRecursions : Nat := 0

/-- Member function `SimpleGraph::getLeaves`, with a bound on the depth of the recursion. -/
def getLeaves (fuel : Nat) (g : SimpleGraph) : Bounded (List Node) :=
  fillListOfLeaves_ fuel g g.root_ [] g.root_ defaultLimitedRecursions defaultMaxRecursions

/-- Member function `SimpleGraph::getLeavesFromNode`, with a bound on the depth of the
recursion. -/
def getLeavesFromNode (fuel : Nat) (g : SimpleGraph) (node : Node) (maxDepth : Nat) :
    Bounded (List Node) :=
  fillListOfLeaves_ fuel g node [] node (decide (maxDepth ≠ 0)) maxDepth

/-- One call of a public mutating member function; the returned value is dropped. -/
inductive Mutation where
  | createNode
  | link (nodeA nodeB : Node)
  | unlink (nodeA nodeB : Node)
  | deleteNode (node : Node)
  | createNodeFromNode (origin : Node)
  | createNodeOnEdge (edge : Edge)
  | makeDirected
  | makeUndirected
  deriving DecidableEq, Repr

/-- Outcome of an operation with its value dropped. -/
def Result.discard {α : Type} (r : Result α) : Result Unit :=
  r.andThen fun _ g => .returned () g []

/-- Runs one mutation on the graph. -/
def applyMutation (g : SimpleGraph) : Mutation → Result Unit
  | .createNode => (createNode g).discard
  | .link a b => (link g a b).discard
  | .unlink a b => (unlink g a b).discard
  | .deleteNode n => (deleteNode g n).discard
  | .createNodeFromNode o => (createNodeFromNode g o).discard
  | .createNodeOnEdge e => (createNodeOnEdge g e).discard
  | .makeDirected => makeDirected g
  | .makeUndirected => makeUndirected g

/-- Runs the mutations one after the other; the run returns when each of them
returned. -/
def runMutations : SimpleGraph → List Mutation → Result Unit
  | g, [] => .returned () g []
  | g, m :: rest => (applyMutation g m).andThen fun _ g => runMutations g rest

/-- The three nodes `0`, `1`, `2` linked as a path by `link(0, 1)` and `link(1, 2)`. -/
def pathThree (directed : Bool) : SimpleGraph :=
  { SimpleGraph.new directed with
    numberOfNodes_ := 3
    highestNodeID_ := 3
    highestEdgeID_ := 2
    nodeStructure_ :=
      if directed then
        [(0, ([(1, 1)], [])), (1, ([(2, 2)], [(0, 1)])), (2, ([], [(1, 2)]))]
      else
        [(0, ([(1, 1)], [(1, 1)])), (1, ([(0, 1), (2, 2)], [(0, 1), (2, 2)])),
         (2, ([(1, 2)], [(1, 2)]))]
    edgeStructure_ := [(1, (0, 1)), (2, (1, 2))] }

/-- The graph `pathThree` after `link(0, 2)`, which closes a cycle. -/
def cycleThree (directed : Bool) : SimpleGraph :=
  { pathThree directed with
    highestEdgeID_ := 3
    nodeStructure_ :=
      if directed then
        [(0, ([(1, 1), (2, 3)], [])), (1, ([(2, 2)], [(0, 1)])), (2, ([], [(0, 3), (1, 2)]))]
      else
        [(0, ([(1, 1), (2, 3)], [(1, 1), (2, 3)])), (1, ([(0, 1), (2, 2)], [(0, 1), (2, 2)])),
         (2, ([(0, 3), (1, 2)], [(0, 3), (1, 2)]))]
    edgeStructure_ := [(1, (0, 1)), (2, (1, 2)), (3, (0, 2))] }

/-- The star with the center `0` and the nodes `1`, `2`, `3`, each attached by
`link(0, i)`. -/
def starThree (directed : Bool) : SimpleGraph :=
  { SimpleGraph.new directed with
    numberOfNodes_ := 4
    highestNodeID_ := 4
    highestEdgeID_ := 3
    nodeStructure_ :=
      if directed then
        [(0, ([(1, 1), (2, 2), (3, 3)], [])), (1, ([], [(0, 1)])), (2, ([], [(0, 2)])),
         (3, ([], [(0, 3)]))]
      else
        [(0, ([(1, 1), (2, 2), (3, 3)], [(1, 1), (2, 2), (3, 3)])), (1, ([(0, 1)], [(0, 1)])),
         (2, ([(0, 2)], [(0, 2)])), (3, ([(0, 3)], [(0, 3)]))]
    edgeStructure_ := [(1, (0, 1)), (2, (0, 2)), (3, (0, 3))] }

/-- The graph `twoNodes` with its node structure cleared: what `makeDirected`
and `makeUndirected` leave of it. -/
def twoNodesCleared (directed : Bool) : SimpleGraph :=
  { twoNodes directed with nodeStructure_ := [] }

/-- A property of the rows that the writes of the member functions keep: it
holds of the empty row and is kept by an insertion into and a removal from
either map of a row. -/
structure RowInvariant (R : NodeRow → Prop) : Prop where
  empty : R ([], [])
  insertOut : ∀ (row : NodeRow) (k : Node) (e : Edge), R row → R (mapInsert row.1 k e, row.2)
  insertIn : ∀ (row : NodeRow) (k : Node) (e : Edge), R row → R (row.1, mapInsert row.2 k e)
  eraseOut : ∀ (row : NodeRow) (k : Node), R row → R (mapErase row.1 k, row.2)
  eraseIn : ∀ (row : NodeRow) (k : Node), R row → R (row.1, mapErase row.2 k)

/-- Every row of the node structure has the property `R`. -/
def AllRows (R : NodeRow → Prop) (g : SimpleGraph) : Prop :=
  ∀ p ∈ g.nodeStructure_, R p.2

/-- Both maps of the row list their keys in strictly ascending order. -/
def RowSorted (row : NodeRow) : Prop :=
  (mapKeys row.1).Sorted (· < ·) ∧ (mapKeys row.2).Sorted (· < ·)

/-- The calls that build a path on `n` nodes in a new graph: `n` times
`createNode()`, then `link(i, i + 1)` for `i = 0 .. n - 2`. -/
def pathCalls (n : Nat) : List Call :=
  List.replicate n Call.createNode ++ (List.range (n - 1)).map fun i => Call.link i (i + 1)

/-- Keys of the outgoing map of node `i` once the first `j` links of the path
are made. -/
def pathOut (directed : Bool) (j i : Nat) : List Node :=
  (if directed = false ∧ 0 < i ∧ i ≤ j then [i - 1] else []) ++ (if i < j then [i + 1] else [])

/-- Keys of the incoming map of node `i` once the first `j` links of the path
are made. -/
def pathIn (directed : Bool) (j i : Nat) : List Node :=
  (if 0 < i ∧ i ≤ j then [i - 1] else []) ++ (if directed = false ∧ i < j then [i + 1] else [])

/-- The graph holds the nodes `0 .. n - 1`, root `0`, and the adjacency of the
path after its first `j` links. -/
structure IsPathPrefix (directed : Bool) (n j : Nat) (g : SimpleGraph) : Prop where
  directed_eq : g.directed_ = directed
  root_eq : g.root_ = 0
  keys_lt : ∀ k ∈ mapKeys g.nodeStructure_, k < n
  rows : ∀ i, i < n → ∃ row, mapFind g.nodeStructure_ i = some row ∧
    mapKeys row.1 = pathOut directed j i ∧ mapKeys row.2 = pathIn directed j i

/-- The graph after `k` calls of `createNode()` on a new graph. -/
structure NodesCreated (directed : Bool) (k : Nat) (g : SimpleGraph) : Prop where
  directed_eq : g.directed_ = directed
  root_eq : g.root_ = 0
  counter : k < UINT_MOD → g.highestNodeID_ = k
  keys_lt : ∀ i ∈ mapKeys g.nodeStructure_, i < k
  rows : ∀ i, i < k → mapFind g.nodeStructure_ i = some ([], [])

/-- The state `createNode` leaves. -/
def createNodeState (g : SimpleGraph) : SimpleGraph :=
  { g with
    highestNodeID_ := (g.highestNodeID_ + 1) % UINT_MOD
    nodeStructure_ := (mapIndex g.nodeStructure_ g.highestNodeID_ ([], [])).2
    numberOfNodes_ := (g.numberOfNodes_ + 1) % UINT_MOD }

/-- The edge that the outgoing map of `nodeA` holds for `nodeB` in a node
structure, if any. -/
def outAt (ns : UMap NodeRow) (nodeA nodeB : Node) : Option Edge :=
  (mapFind ns nodeA).bind fun row => mapFind row.1 nodeB

/-- The edge that the incoming map of `nodeB` holds for `nodeA` in a node
structure, if any. -/
def inAt (ns : UMap NodeRow) (nodeB nodeA : Node) : Option Edge :=
  (mapFind ns nodeB).bind fun row => mapFind row.2 nodeA

/-- Invariant 1 of the data model: for every record `e -> (a, b)` of the edge
table the outgoing map of `a` maps `b` to `e`, and the incoming map of `b`
maps `a` to `e` when the graph is directed, the outgoing map of `b` maps `a`
to `e` when it is undirected. -/
def EdgesInAdjacency (g : SimpleGraph) : Prop :=
  ∀ e a b, mapFind g.edgeStructure_ e = some (a, b) →
    outAt g.nodeStructure_ a b = some e ∧
    (if g.directed_ = true then inAt g.nodeStructure_ b a = some e
     else outAt g.nodeStructure_ b a = some e)

/-- The maps that `link(nodeA, nodeB)` writes for Invariant 1 hold no entry for
the pair yet. -/
def NoEntry (g : SimpleGraph) (nodeA nodeB : Node) : Prop :=
  outAt g.nodeStructure_ nodeA nodeB = none ∧
  (if g.directed_ = true then inAt g.nodeStructure_ nodeB nodeA = none
   else outAt g.nodeStructure_ nodeB nodeA = none)

/-- The mutations that the amended Invariant 1 covers, in the state in which
they are called: `link` and `createNodeFromNode` only on a pair without entry,
`createNode`, `unlink`, `deleteNode` and `makeUndirected` in every state, and
neither `createNodeOnEdge` nor `makeDirected`. -/
def Conforms (g : SimpleGraph) : Mutation → Prop
  | .createNode => True
  | .link a b => NoEntry g a b
  | .unlink _ _ => True
  | .deleteNode _ => True
  | .createNodeFromNode o => NoEntry g o g.highestNodeID_
  | .createNodeOnEdge _ => False
  | .makeDirected => False
  | .makeUndirected => True

/-- Every mutation of the run conforms in the state in which it is called. -/
def ConformingRun : SimpleGraph → List Mutation → Prop
  | _, [] => True
  | g, m :: rest =>
    Conforms g m ∧ ∀ g' c, applyMutation g m = .returned () g' c → ConformingRun g' rest

/-- The directed graph `twoNodes` after `link(0, 1)` was called twice: the
adjacency still holds the first edge, the edge table holds both. -/
def twoNodesLinkedTwice : SimpleGraph :=
  { twoNodes true with
    highestEdgeID_ := 2
    nodeStructure_ := [(0, ([(1, 1)], [])), (1, ([], [(0, 1)]))]
    edgeStructure_ := [(1, (0, 1)), (2, (0, 1))] }

/-- The directed graph left by `createNode()`, `createNode()`, `link(0, 1)`,
`createNodeFromNode(1)`, `unlink(0, 1)`, `deleteNode(0)`: the nodes `1` and `2`
and the edge `2` from `1` to `2`. -/
def oneEdgeLeft : SimpleGraph :=
  { SimpleGraph.new true with
    numberOfNodes_ := 2
    highestNodeID_ := 3
    highestEdgeID_ := 2
    nodeStructure_ := [(1, ([(2, 2)], [])), (2, ([], [(1, 2)]))]
    edgeStructure_ := [(2, (1, 2))] }

/-- The directed graph left by `createNode()`, `createNodeFromNode(0)` twice,
`createNodeFromNode(1)` and `createNodeFromNode(2)`: the node `0` has the
children `1` and `2`, the node `1` the child `3` and the node `2` the child `4`. -/
def twoLevelTree : SimpleGraph :=
  { SimpleGraph.new true with
    numberOfNodes_ := 5
    highestNodeID_ := 5
    highestEdgeID_ := 4
    nodeStructure_ :=
      [(0, ([(1, 1), (2, 2)], [])), (1, ([(3, 3)], [(0, 1)])), (2, ([(4, 4)], [(0, 2)])),
       (3, ([], [(1, 3)])), (4, ([], [(2, 4)]))]
    edgeStructure_ := [(1, (0, 1)), (2, (0, 2)), (3, (1, 3)), (4, (2, 4))] }

/-- The list `getNeighbors(node)` returns has at most one element. -/
def AtMostOneNeighbor (g : SimpleGraph) (node : Node) : Prop :=
  ∃ neighbors, getNeighbors g node = .returned neighbors g [] ∧ neighbors.length ≤ 1

/-- Member function `SimpleGraph::getHighestNodeID`. -/
def getHighestNodeID (g : SimpleGraph) : Result Nat := .returned g.highestNodeID_ g []

/-- Member function `SimpleGraph::getHighestEdgeID`. -/
def getHighestEdgeID (g : SimpleGraph) : Result Nat := .returned g.highestEdgeID_ g []

/-- Number of `createNode()` calls that a mutation makes when it returns. -/
def Mutation.newNodes : Mutation → Nat
  | .createNode => 1
  | .createNodeFromNode _ => 1
  | .createNodeOnEdge _ => 1
  | _ => 0

/-- Number of `link` calls that a mutation makes when it returns. -/
def Mutation.newEdges : Mutation → Nat
  | .link _ _ => 1
  | .createNodeFromNode _ => 1
  | .createNodeOnEdge _ => 2
  | _ => 0

/-- Number of `createNode()` calls that a returning run of the mutations makes. -/
def nodeCreations (ms : List Mutation) : Nat := (ms.map Mutation.newNodes).sum

/-- Number of `link` calls that a returning run of the mutations makes. -/
def edgeCreations (ms : List Mutation) : Nat := (ms.map Mutation.newEdges).sum

/-- The state `g'` has the counters and the root of `g` and no key in the node
structure or in the edge table that `g` has not. -/
def NoNewIds (g g' : SimpleGraph) : Prop :=
  g'.highestNodeID_ = g.highestNodeID_ ∧ g'.highestEdgeID_ = g.highestEdgeID_ ∧
  g'.root_ = g.root_ ∧
  (∀ n ∈ mapKeys g'.nodeStructure_, n ∈ mapKeys g.nodeStructure_) ∧
  (∀ e ∈ mapKeys g'.edgeStructure_, e ∈ mapKeys g.edgeStructure_)

/-- Invariant 2 as the code keeps it: every key of the node structure is below
`highestNodeID_` and every key of the edge table is at most `highestEdgeID_`. -/
def IdsWithinCounters (g : SimpleGraph) : Prop :=
  (∀ n ∈ mapKeys g.nodeStructure_, n < g.highestNodeID_) ∧
  (∀ e ∈ mapKeys g.edgeStructure_, e ≤ g.highestEdgeID_)

/-- Member function `SimpleGraph::createNodeFromEdge`. -/
def createNodeFromEdge (g : SimpleGraph) (origin : Edge) : Result Node :=
  (edgeMustExist_ g origin "origin edge").andThen fun _ g =>
  (createNodeOnEdge g origin).andThen fun anchor g =>
  (createNodeFromNode g anchor).andThen fun newNode g =>
  .returned newNode g []

/-- One call of a public member function that changes the structure of the
graph or its root: one of the mutations, `setRoot` or `createNodeFromEdge`. -/
inductive Operation where
  | mutate (m : Mutation)
  | setRoot (newRoot : Node)
  | createNodeFromEdge (origin : Edge)
  deriving DecidableEq, Repr

/-- Runs one operation on the graph. -/
def applyOperation (g : SimpleGraph) : Operation → Result Unit
  | .mutate m => applyMutation g m
  | .setRoot newRoot => setRoot g newRoot
  | .createNodeFromEdge origin => (createNodeFromEdge g origin).discard

/-- Runs the operations one after the other; the run returns when each of them
returned. -/
def runOperations : SimpleGraph → List Operation → Result Unit
  | g, [] => .returned () g []
  | g, op :: rest => (applyOperation g op).andThen fun _ g => runOperations g rest

/-- The operations that the amended Invariant 4 covers, in the state in which
they are called: `deleteNode` on a node other than the root, `setRoot`,
`createNode`, `unlink`, and `link` and `createNodeFromNode` on a pair without
entry; `createNodeOnEdge`, `makeDirected`, `makeUndirected` and
`createNodeFromEdge` are not among them. -/
def Permitted (g : SimpleGraph) : Operation → Prop
  | .mutate (.deleteNode node) => node ≠ g.root_
  | .mutate .makeUndirected => False
  | .mutate m => Conforms g m
  | .setRoot _ => True
  | .createNodeFromEdge _ => False

/-- Every operation of the run is permitted in the state in which it is called. -/
def PermittedRun : SimpleGraph → List Operation → Prop
  | _, [] => True
  | g, op :: rest =>
    Permitted g op ∧ ∀ g' c, applyOperation g op = .returned () g' c → PermittedRun g' rest

/-- The root is a key of the node structure, or the node structure is empty
and the root is the id that the next `createNode()` gives. -/
def RootPresentOrNext (g : SimpleGraph) : Prop :=
  g.root_ ∈ mapKeys g.nodeStructure_ ∨
  (g.nodeStructure_ = [] ∧ g.root_ = g.highestNodeID_)

/-- The directed graph left by `createNode()`, `link(0, 0)`, `createNodeOnEdge(7)`:
the edge table holds a record under the id `7`, which no `link` returned. -/
def absentEdgeRegistered : SimpleGraph :=
  { SimpleGraph.new true with
    numberOfNodes_ := 2
    highestNodeID_ := 2
    highestEdgeID_ := 3
    nodeStructure_ := [(0, ([(1, 2)], [(1, 3)])), (1, ([(0, 3)], [(0, 2)]))]
    edgeStructure_ := [(2, (0, 1)), (3, (1, 0)), (7, (0, 0))] }

/-- The directed graph left by `createNode()`, `createNode()`, `link(1, 0)`,
`link(1, 0)`, `deleteNode(1)`: the node `0` alone, and the record of the edge
`2` from `1` to `0` in the edge table. -/
def danglingEndpoint : SimpleGraph :=
  { SimpleGraph.new true with
    numberOfNodes_ := 1
    highestNodeID_ := 2
    highestEdgeID_ := 2
    nodeStructure_ := [(0, ([], []))]
    edgeStructure_ := [(2, (1, 0))] }

/-- The node `w` is an outgoing neighbour of the node `v`: the node structure
has a row for `v` whose outgoing map has the key `w`. -/
def Outgoing (g : SimpleGraph) (v w : Node) : Prop :=
  ∃ row, mapFind g.nodeStructure_ v = some row ∧ w ∈ mapKeys row.1

/-- Every outgoing neighbour of a node is a node of the graph. -/
def NeighborsExist (g : SimpleGraph) : Prop :=
  ∀ v w, Outgoing g v w → w ∈ mapKeys g.nodeStructure_

/-- The nodes `c 0, ..., c (k - 1)` are pairwise distinct and each has the next
one as an outgoing neighbour, the last one the first: `c` runs around a cycle
of `k` nodes. -/
structure IsCycle (g : SimpleGraph) (k : Nat) (c : Nat → Node) : Prop where
  periodic : ∀ i, c (i + k) = c i
  distinct : ∀ i j, i < k → j < k → c i = c j → i = j
  edges : ∀ i, Outgoing g (c i) (c (i + 1))

/-- What a call `nodesAreMetOnlyOnce_(node, metNodes, originNode)` that returned
`true` has done, `met` being `metNodes` before and `met'` after the call: the
nodes inserted form a subtree below `node`, which no outgoing relation leaves
but one from `node` to `originNode`, and which holds no cycle of three or more
nodes. -/
structure MetOnce (g : SimpleGraph) (node origin : Node) (met met' : List Node) : Prop where
  fresh : node ∉ met
  here : node ∈ met'
  mono : ∀ x ∈ met, x ∈ met'
  closed : ∀ v, v ∈ met' → v ∉ met → ∀ w, Outgoing g v w →
    (w ∈ met' ∧ w ∉ met) ∨ (v = node ∧ w = origin)
  acyclic : ∀ k c, 3 ≤ k → IsCycle g k c → (∀ i, c i ∈ met' ∧ c i ∉ met) → False

/-- State of the loop of `nodesAreMetOnlyOnce_` over the neighbours of `node`
while the flag is `true`: `met0` is `metNodes` when the loop starts, `M` is
`metNodes` now, and `P` lists the neighbours for which the recursive call was
made. -/
structure LoopMet (g : SimpleGraph) (node : Node) (met0 P M : List Node) : Prop where
  mono : ∀ x ∈ met0, x ∈ M
  done : ∀ p ∈ P, p ∈ M ∧ p ∉ met0
  closed : ∀ v, v ∈ M → v ∉ met0 → ∀ w, Outgoing g v w → (w ∈ M ∧ w ∉ met0) ∨ w = node
  acyclic : ∀ k c, 3 ≤ k → IsCycle g k c → (∀ i, (c i ∈ M ∧ c i ∉ met0) ∨ c i = node) →
    (∀ i, c i = node → c (i + 1) ∈ P) → False

/-- The outgoing and the incoming maps of a node structure mirror each other:
the outgoing map of `x` has an entry for `y` exactly when the incoming map of
`y` has one for `x`. -/
def Mirrored (ns : UMap NodeRow) : Prop :=
  ∀ x y, outAt ns x y ≠ none ↔ inAt ns y x ≠ none

/-- The calls that build a tree on a new graph: `createNode()` for the root,
then `createNodeFromNode(o)` for every `o` of `origins`, in order. -/
def treeCalls (origins : List Nat) : List Mutation :=
  .createNode :: origins.map Mutation.createNodeFromNode

/-- Parent of the node `v` in the tree that `treeCalls origins` builds on a new
graph: the node `v > 0` is created by the call number `v - 1` from its
origin.  The value is `0` for the root and for a `v` that was not created. -/
def parentOf (origins : List Nat) (v : Nat) : Nat :=
  if v = 0 then 0 else origins.getD (v - 1) 0

/-- The node `v` is reached from the node `x` by going from a node to its
parent some number of times. -/
def IsAncestor (origins : List Nat) (v x : Nat) : Prop :=
  ∃ n, (parentOf origins)^[n] x = v

/-- The node `x` was created and no created node has it as parent. -/
def LeafOf (origins : List Nat) (x : Nat) : Prop :=
  x ≤ origins.length ∧ ∀ w, 0 < w → w ≤ origins.length → parentOf origins w ≠ x

/-- The graph is the directed tree given by `origins`: it holds the nodes
`0 .. origins.length`, the root is `0`, the incoming map of a node other than
the root holds its parent, and the outgoing map of a node holds the nodes
that have it as parent. -/
structure IsOutTree (origins : List Nat) (g : SimpleGraph) : Prop where
  directed_eq : g.directed_ = true
  root_eq : g.root_ = 0
  counter : g.highestNodeID_ = (origins.length + 1) % UINT_MOD
  absent : ∀ v, origins.length < v → mapFind g.nodeStructure_ v = none
  rows : ∀ v, v ≤ origins.length → ∃ row, mapFind g.nodeStructure_ v = some row ∧
    mapKeys row.2 = (if v = 0 then [] else [parentOf origins v]) ∧
    (mapKeys row.1).Sorted (· < ·) ∧
    ∀ w, w ∈ mapKeys row.1 ↔ (0 < w ∧ w ≤ origins.length ∧ parentOf origins w = v)
  parent_lt : ∀ v, 0 < v → v ≤ origins.length → parentOf origins v < v

/-- Origins of `4294967295` calls of `createNodeFromNode`: the node `1` is
created from the root, the node `2` from the node `1`, and every later node
from the root. -/
def wrapOrigins : List Nat := 0 :: 1 :: List.replicate (UINT_MOD - 3) 0

/-- The calls `fillListOfLeaves_(v, .., o, ..)` that follow each other without
end in the graph that `treeCalls (wrapOrigins ++ [2])` builds. -/
def WrapCycle (v o : Node) : Prop :=
  (v = 0 ∧ o = 0) ∨ (v = 2 ∧ o = 0) ∨ (v = 1 ∧ o = 2) ∨ (v = 0 ∧ o = 1)

/-- Some adjacency map holds the edge `e`: the outgoing or the incoming map of
some node maps some node to `e`. -/
def HeldByAdjacency (ns : UMap NodeRow) (e : Edge) : Prop :=
  ∃ x y, outAt ns x y = some e ∨ inAt ns x y = some e

/-- The calls `link(1, 0); unlink(1, 0)`, `n` pairs of them. -/
def linkUnlinkCalls (n : Nat) : List Mutation :=
  (List.range n).flatMap fun _ => [Mutation.link 1 0, Mutation.unlink 1 0]

/-- The directed graph with the nodes `0` and `1` and the edge `1` from `0` to
`1`, in which `highestEdgeID_` is `c`. -/
def linkedWithCounter (c : Nat) : SimpleGraph :=
  { twoNodesLinked true with highestEdgeID_ := c }

/-- The graph `linkedWithCounter` with `highestEdgeID_` at `UINT_MOD - 1`, the
largest `unsigned int`. -/
def linkedBeforeWrap : SimpleGraph := linkedWithCounter (UINT_MOD - 1)

/-- One call of `fillListOfLeaves_` in a traversal with `limitedRecursions`
true: the arguments `startingNode`, `originNode` and `maxRecursions`. -/
structure LeavesCall where
  startingNode : Node
  originNode : Node
  maxRecursions : Nat

/-- The call `s` of the limited traversal makes the recursive call `t`: the
starting node of `s` has more than one neighbour and the budget of `s` is not
zero; `t` starts at a neighbour other than the node `s` came from, comes from
the starting node of `s`, and has the budget of `s` less one. -/
def LimitedStep (g : SimpleGraph) (s t : LeavesCall) : Prop :=
  ∃ neighbors, getNeighbors g s.startingNode = .returned neighbors g [] ∧
    1 < neighbors.length ∧ 0 < s.maxRecursions ∧
    t.startingNode ∈ neighbors ∧ t.startingNode ≠ s.originNode ∧
    t.originNode = s.startingNode ∧ t.maxRecursions + 1 = s.maxRecursions

/-- The limited traversal that starts with the call `s` reaches the node `x`:
`s`, or a call made from it through recursive calls, starts at `x`. -/
def LimitedReaches (g : SimpleGraph) (s : LeavesCall) (x : Node) : Prop :=
  ∃ t, Relation.ReflTransGen (LimitedStep g) s t ∧ t.startingNode = x

/-- The outcome of a traversal that started with the list `found`: it returned
`found` followed by a list whose elements are exactly the nodes with the
property `S`, or it threw an exception with the property `T`; in both cases
the graph is the one the traversal started on and no observer was called. -/
def ReportsExactly (S : Node → Prop) (T : GraphException → Prop) (g : SimpleGraph)
    (found : List Node) (r : Bounded (List Node)) : Prop :=
  (∃ L, r = some (.returned (found ++ L) g []) ∧ ∀ x, x ∈ L ↔ S x) ∨
  ∃ ex, r = some (.threw ex g []) ∧ T ex

/-- The graph left by `createNode()`, `link(0, 0)`, `makeDirected()` on a new
undirected graph: the node structure is empty and the edge table holds the
record of the edge `1` from `0` to `0`. -/
def selfLoopCleared : SimpleGraph :=
  { SimpleGraph.new true with
    numberOfNodes_ := 1
    highestNodeID_ := 1
    highestEdgeID_ := 1
    edgeStructure_ := [(1, (0, 0))] }

/-- Every edge that an adjacency map of `g'` holds is held by an adjacency map
of `g`. -/
def HeldBefore (g g' : SimpleGraph) : Prop :=
  ∀ e, HeldByAdjacency g'.nodeStructure_ e → HeldByAdjacency g.nodeStructure_ e

/-! # Theorems -/

/-! ## Maps -/

theorem mapFind_mapModify {β : Type} (m : UMap β) (k k' : Nat) (f : β → β) :
    mapFind (mapModify m k f) k' = if k' = k then (mapFind m k').map f else mapFind m k' := by
  induction m with
  | nil => simp [mapModify, mapFind]
  | cons p rest ih =>
    obtain ⟨k0, v⟩ := p
    simp only [mapModify, mapFind]
    split_ifs <;> simp_all [mapFind]

theorem mapFind_mapPut_self {β : Type} (m : UMap β) (k : Nat) (v : β)
    (h : mapFind m k = none) : mapFind (mapPut m k v) k = some v := by
  induction m with
  | nil => simp [mapPut, mapFind]
  | cons p rest ih =>
    obtain ⟨k0, v0⟩ := p
    simp only [mapFind] at h
    by_cases h0 : k0 = k
    · simp [h0] at h
    · rw [if_neg h0] at h
      simp only [mapPut]
      by_cases h1 : k < k0
      · simp [h1, mapFind]
      · simp [h1, mapFind, h0, ih h]

theorem mapFind_mapPut_ne {β : Type} (m : UMap β) (k k' : Nat) (v : β) (h : k' ≠ k) :
    mapFind (mapPut m k v) k' = mapFind m k' := by
  have hk : ¬ k = k' := fun e => h e.symm
  induction m with
  | nil => simp [mapPut, mapFind, hk]
  | cons p rest ih =>
    obtain ⟨k0, v0⟩ := p
    simp only [mapPut]
    by_cases h1 : k < k0
    · simp [h1, mapFind, hk]
    · rw [if_neg h1]
      by_cases h2 : k0 = k' <;> simp [mapFind, h2, ih]

theorem mapFind_mapPut {β : Type} (m : UMap β) (k k' : Nat) (v : β) (h : mapFind m k = none) :
    mapFind (mapPut m k v) k' = if k' = k then some v else mapFind m k' := by
  by_cases hk : k' = k
  · subst hk; simp [mapFind_mapPut_self m k' v h]
  · simp [hk, mapFind_mapPut_ne m k k' v hk]

theorem mapFind_mapInsert {β : Type} (m : UMap β) (k k' : Nat) (v : β) :
    mapFind (mapInsert m k v) k' =
      if k' = k then some ((mapFind m k).getD v) else mapFind m k' := by
  unfold mapInsert
  cases h : mapFind m k with
  | none => simp [mapFind_mapPut m k k' v h]
  | some w =>
    by_cases hk : k' = k
    · subst hk; simp [h]
    · simp [hk]

theorem mapFind_mapAssign {β : Type} (m : UMap β) (k k' : Nat) (v : β) :
    mapFind (mapAssign m k v) k' = if k' = k then some v else mapFind m k' := by
  unfold mapAssign
  cases h : mapFind m k with
  | none => simp [mapFind_mapPut m k k' v h]
  | some w =>
    by_cases hk : k' = k
    · subst hk; simp [mapFind_mapModify, h]
    · simp [mapFind_mapModify, hk]

theorem mapFind_mapErase {β : Type} (m : UMap β) (k k' : Nat) :
    mapFind (mapErase m k) k' = if k' = k then none else mapFind m k' := by
  induction m with
  | nil => simp [mapErase, mapFind]
  | cons p rest ih =>
    obtain ⟨k0, v0⟩ := p
    simp only [mapErase, mapFind]
    split_ifs <;> simp_all [mapFind]

theorem mem_mapKeys_iff {β : Type} (m : UMap β) (k : Nat) :
    k ∈ mapKeys m ↔ ∃ v, mapFind m k = some v := by
  induction m with
  | nil => simp [mapKeys, mapFind]
  | cons p rest ih =>
    obtain ⟨k', v'⟩ := p
    have ih' : k ∈ List.map Prod.fst rest ↔ ∃ v, mapFind rest k = some v := ih
    by_cases h : k' = k
    · subst h; simp [mapKeys, mapFind]
    · have hk : ¬ k = k' := fun e => h e.symm
      simp only [mapKeys, List.map_cons, List.mem_cons, hk, false_or, mapFind, h, if_false]
      exact ih'

theorem mapFind_eq_none_iff {β : Type} (m : UMap β) (k : Nat) :
    mapFind m k = none ↔ k ∉ mapKeys m := by
  rw [mem_mapKeys_iff]
  cases h : mapFind m k <;> simp

/-! ## Outcomes -/

@[simp] theorem Result.after_nil {α : Type} (r : Result α) : Result.after [] r = r := by
  cases r <;> rfl

@[simp] theorem Result.andThen_returned {α β : Type} (v : α) (g : SimpleGraph)
    (c : List Callback) (f : α → SimpleGraph → Result β) :
    (Result.returned v g c).andThen f = Result.after c (f v g) := rfl

@[simp] theorem Result.andThen_threw {α β : Type} (ex : GraphException) (g : SimpleGraph)
    (c : List Callback) (f : α → SimpleGraph → Result β) :
    (Result.threw ex g c : Result α).andThen f = Result.threw ex g c := rfl

@[simp] theorem Result.andThen_undefinedBehavior {α β : Type} (f : α → SimpleGraph → Result β) :
    (Result.undefinedBehavior : Result α).andThen f = Result.undefinedBehavior := rfl

@[simp] theorem Result.after_returned {α : Type} (c c' : List Callback) (v : α)
    (g : SimpleGraph) : Result.after c (Result.returned v g c') = Result.returned v g (c ++ c') :=
  rfl

@[simp] theorem Result.after_threw {α : Type} (c c' : List Callback) (ex : GraphException)
    (g : SimpleGraph) :
    Result.after c (Result.threw ex g c' : Result α) = Result.threw ex g (c ++ c') := rfl

@[simp] theorem Result.after_undefinedBehavior {α : Type} (c : List Callback) :
    Result.after c (Result.undefinedBehavior : Result α) = Result.undefinedBehavior := rfl

theorem nodeMustExist_of_find {g : SimpleGraph} {node : Node} {row : NodeRow} (name : String)
    (h : mapFind g.nodeStructure_ node = some row) :
    nodeMustExist_ g node name = .returned () g [] := by
  simp [nodeMustExist_, h]

theorem nodeMustExist_of_absent {g : SimpleGraph} {node : Node} (name : String)
    (h : mapFind g.nodeStructure_ node = none) :
    nodeMustExist_ g node name = .threw (.nodeMustExist node name) g [] := by
  simp [nodeMustExist_, h]

/-! ## Adjacency rows after `link` and `unlink` -/

theorem mapFind_addRelation (ns : UMap NodeRow) (a b : Node) (e : Edge) (n : Node) :
    mapFind (addRelation ns a b e) n =
      (mapFind ns n).map fun row =>
        (if n = a then mapInsert row.1 b e else row.1,
         if n = b then mapInsert row.2 a e else row.2) := by
  unfold addRelation
  rw [mapFind_mapModify, mapFind_mapModify]
  by_cases h1 : n = a
  · subst h1
    by_cases h2 : n = b
    · subst h2; cases mapFind ns n <;> simp
    · cases mapFind ns n <;> simp [h2]
  · by_cases h2 : n = b
    · subst h2; cases mapFind ns n <;> simp [h1]
    · cases mapFind ns n <;> simp [h1, h2]

theorem mapFind_removeRelation (ns : UMap NodeRow) (a b : Node) (n : Node) :
    mapFind (removeRelation ns a b) n =
      (mapFind ns n).map fun row =>
        (if n = a then mapErase row.1 b else row.1,
         if n = b then mapErase row.2 a else row.2) := by
  unfold removeRelation
  rw [mapFind_mapModify, mapFind_mapModify]
  by_cases h1 : n = a
  · subst h1
    by_cases h2 : n = b
    · subst h2; cases mapFind ns n <;> simp
    · cases mapFind ns n <;> simp [h2]
  · by_cases h2 : n = b
    · subst h2; cases mapFind ns n <;> simp [h1]
    · cases mapFind ns n <;> simp [h1, h2]

theorem linkInNodeStructure_of_find {g : SimpleGraph} {a b : Node} {ra rb : NodeRow}
    (e : Edge) (ha : mapFind g.nodeStructure_ a = some ra)
    (hb : mapFind g.nodeStructure_ b = some rb) :
    linkInNodeStructure_ g a b e =
      .returned () { g with nodeStructure_ := addRelation g.nodeStructure_ a b e } [] := by
  unfold linkInNodeStructure_
  simp only [ha]
  have h : ∃ r, mapFind (mapModify g.nodeStructure_ a
      (fun row => (mapInsert row.1 b e, row.2))) b = some r := by
    rw [mapFind_mapModify]
    by_cases hab : b = a <;> simp [hab, hb, ha]
  obtain ⟨r, hr⟩ := h
  simp only [hr]
  rfl

theorem link_of_find {g : SimpleGraph} {a b : Node} {ra rb : NodeRow}
    (ha : mapFind g.nodeStructure_ a = some ra) (hb : mapFind g.nodeStructure_ b = some rb) :
    link g a b = .returned ((g.highestEdgeID_ + 1) % UINT_MOD) (linkState g a b) [] := by
  obtain ⟨d, obs, nn, hn, he, ns, es, rt⟩ := g
  simp only at ha hb
  unfold link
  rw [nodeMustExist_of_find _ ha]
  simp only [Result.andThen_returned, Result.after_nil]
  rw [nodeMustExist_of_find _ hb]
  simp only [Result.andThen_returned, Result.after_nil]
  rw [linkInNodeStructure_of_find _ ha hb]
  simp only [Result.andThen_returned, Result.after_nil]
  cases d
  · have ha' : ∃ r, mapFind (addRelation ns a b ((he + 1) % UINT_MOD)) a = some r := by
      rw [mapFind_addRelation, ha]; exact ⟨_, rfl⟩
    have hb' : ∃ r, mapFind (addRelation ns a b ((he + 1) % UINT_MOD)) b = some r := by
      rw [mapFind_addRelation, hb]; exact ⟨_, rfl⟩
    obtain ⟨ra', ha'⟩ := ha'
    obtain ⟨rb', hb'⟩ := hb'
    simp only [Bool.not_false, if_true]
    rw [linkInNodeStructure_of_find _ hb' ha']
    simp [linkInEdgeStructure_, linkState]
  · simp [linkInEdgeStructure_, linkState]

theorem mem_mapKeys_mapInsert {β : Type} (m : UMap β) (k k' : Nat) (v : β) :
    k' ∈ mapKeys (mapInsert m k v) ↔ k' = k ∨ k' ∈ mapKeys m := by
  rw [mem_mapKeys_iff, mem_mapKeys_iff, mapFind_mapInsert]
  by_cases h : k' = k <;> simp [h]

theorem mem_mapKeys_mapErase {β : Type} (m : UMap β) (k k' : Nat) :
    k' ∈ mapKeys (mapErase m k) ↔ k' ≠ k ∧ k' ∈ mapKeys m := by
  rw [mem_mapKeys_iff, mem_mapKeys_iff, mapFind_mapErase]
  by_cases h : k' = k <;> simp [h]

theorem getNeighbors_of_find {g : SimpleGraph} {node : Node} {row : NodeRow} (outgoing : Bool)
    (h : mapFind g.nodeStructure_ node = some row) :
    getNeighbors_ g node outgoing =
      .returned (mapKeys (if outgoing then row.1 else row.2)) g [] := by
  simp [getNeighbors_, nodeMustExist_of_find _ h, h]

theorem getNeighbors_of_absent {g : SimpleGraph} {node : Node} (outgoing : Bool)
    (h : mapFind g.nodeStructure_ node = none) :
    getNeighbors_ g node outgoing = .threw (.nodeMustExist node "") g [] := by
  simp [getNeighbors_, nodeMustExist_of_absent _ h]

/-- Rows after `linkInNodeStructure_`: every row is still there with all its
keys, and the two new keys are present. -/
theorem addRelation_rows {ns : UMap NodeRow} (a b : Node) (e : Edge) {n : Node} {row : NodeRow}
    (h : mapFind ns n = some row) :
    ∃ row', mapFind (addRelation ns a b e) n = some row' ∧
      (∀ k, k ∈ mapKeys row.1 → k ∈ mapKeys row'.1) ∧
      (∀ k, k ∈ mapKeys row.2 → k ∈ mapKeys row'.2) ∧
      (n = a → b ∈ mapKeys row'.1) ∧ (n = b → a ∈ mapKeys row'.2) := by
  refine ⟨_, by rw [mapFind_addRelation, h]; rfl, ?_, ?_, ?_, ?_⟩
  · intro k hk
    by_cases h1 : n = a
    · simp only [h1, if_true, mem_mapKeys_mapInsert]; exact Or.inr hk
    · simpa only [h1, if_false] using hk
  · intro k hk
    by_cases h1 : n = b
    · simp only [h1, if_true, mem_mapKeys_mapInsert]; exact Or.inr hk
    · simpa only [h1, if_false] using hk
  · intro h1
    simp [h1, mem_mapKeys_mapInsert]
  · intro h1
    simp [h1, mem_mapKeys_mapInsert]

/-- C2: when `nodeA` and `nodeB` both have a row in `nodeStructure_`,
`link(nodeA, nodeB)` returns, and in the state it leaves
`getOutgoingNeighbors(nodeA)` contains `nodeB`; in an undirected graph
`getOutgoingNeighbors(nodeB)` contains `nodeA`, and in a directed graph
`getIncomingNeighbors(nodeB)` contains `nodeA`. -/
theorem link_then_neighbors (g : SimpleGraph) (a b : Node) (ra rb : NodeRow)
    (ha : mapFind g.nodeStructure_ a = some ra) (hb : mapFind g.nodeStructure_ b = some rb) :
    ∃ e g', link g a b = .returned e g' [] ∧
      (∃ ns, getOutgoingNeighbors g' a = .returned ns g' [] ∧ b ∈ ns) ∧
      (g.directed_ = false →
        ∃ ns, getOutgoingNeighbors g' b = .returned ns g' [] ∧ a ∈ ns) ∧
      (g.directed_ = true →
        ∃ ns, getIncomingNeighbors g' b = .returned ns g' [] ∧ a ∈ ns) := by
  refine ⟨_, _, link_of_find ha hb, ?_⟩
  obtain ⟨ra1, ha1, -, -, hab1, -⟩ :=
    addRelation_rows a b ((g.highestEdgeID_ + 1) % UINT_MOD) ha
  obtain ⟨rb1, hb1, -, -, -, hba1⟩ :=
    addRelation_rows a b ((g.highestEdgeID_ + 1) % UINT_MOD) hb
  cases hd : g.directed_
  · obtain ⟨ra2, ha2, hout, -, -, -⟩ :=
      addRelation_rows b a ((g.highestEdgeID_ + 1) % UINT_MOD) ha1
    obtain ⟨rb2, hb2, -, -, hba2, -⟩ :=
      addRelation_rows b a ((g.highestEdgeID_ + 1) % UINT_MOD) hb1
    have ha' : mapFind (linkState g a b).nodeStructure_ a = some ra2 := by
      simpa [linkState, hd] using ha2
    have hb' : mapFind (linkState g a b).nodeStructure_ b = some rb2 := by
      simpa [linkState, hd] using hb2
    refine ⟨⟨_, getNeighbors_of_find true ha', ?_⟩, ?_, ?_⟩
    · exact hout b (hab1 rfl)
    · intro _
      exact ⟨_, getNeighbors_of_find true hb', hba2 rfl⟩
    · intro h; cases h
  · have ha' : mapFind (linkState g a b).nodeStructure_ a = some ra1 := by
      simpa [linkState, hd] using ha1
    have hb' : mapFind (linkState g a b).nodeStructure_ b = some rb1 := by
      simpa [linkState, hd] using hb1
    refine ⟨⟨_, getNeighbors_of_find true ha', hab1 rfl⟩, ?_, ?_⟩
    · intro h; cases h
    · intro _
      exact ⟨_, getNeighbors_of_find false hb', hba1 rfl⟩

theorem link_of_absent_first {g : SimpleGraph} {a : Node} (b : Node)
    (ha : mapFind g.nodeStructure_ a = none) :
    link g a b = .threw (.nodeMustExist a "first node") g [] := by
  simp [link, nodeMustExist_of_absent _ ha]

theorem link_of_absent_second {g : SimpleGraph} {a b : Node} {ra : NodeRow}
    (ha : mapFind g.nodeStructure_ a = some ra) (hb : mapFind g.nodeStructure_ b = none) :
    link g a b = .threw (.nodeMustExist b "second node") g [] := by
  simp [link, nodeMustExist_of_find _ ha, nodeMustExist_of_absent _ hb]

/-- C3: when `nodeA` or `nodeB` has no row in `nodeStructure_`, `link` throws
the exception of `nodeMustExist_` (for the first of the two that is absent),
no callback is made, and the state at the throw is the state before the call,
all data members included. -/
theorem link_absent_node_throws (g : SimpleGraph) (a b : Node)
    (h : mapFind g.nodeStructure_ a = none ∨ mapFind g.nodeStructure_ b = none) :
    link g a b =
      .threw (if (mapFind g.nodeStructure_ a).isNone then .nodeMustExist a "first node"
              else .nodeMustExist b "second node") g [] := by
  cases ha : mapFind g.nodeStructure_ a with
  | none => simpa using link_of_absent_first b ha
  | some ra =>
    have hb : mapFind g.nodeStructure_ b = none := by
      rcases h with h | h
      · rw [ha] at h; cases h
      · exact h
    simpa using link_of_absent_second ha hb

theorem unlinkInNodeStructure_of_find {g : SimpleGraph} {a b : Node} {ra rb : NodeRow}
    {e e' : Edge} (ha : mapFind g.nodeStructure_ a = some ra)
    (hb : mapFind g.nodeStructure_ b = some rb)
    (hout : mapFind ra.1 b = some e) (hin : mapFind rb.2 a = some e') :
    unlinkInNodeStructure_ g a b =
      .returned e { g with nodeStructure_ := removeRelation g.nodeStructure_ a b } [] := by
  unfold unlinkInNodeStructure_
  simp only [ha, hout]
  have h : ∃ r, mapFind (mapModify g.nodeStructure_ a
      (fun row => (mapErase row.1 b, row.2))) b = some r ∧ r.2 = rb.2 := by
    rw [mapFind_mapModify]
    by_cases hab : b = a
    · subst hab
      rw [ha] at hb
      cases hb
      simp [ha]
    · simp [hab, hb]
  obtain ⟨r, hr, hr2⟩ := h
  simp only [hr, hr2, hin]
  rfl

/-- The forward relation is looked up and dereferenced without a test: with no
entry for `nodeB` among the outgoing relations of `nodeA` the behaviour of
`unlinkInNodeStructure_` is undefined. -/
theorem unlinkInNodeStructure_no_relation {g : SimpleGraph} {a b : Node} {ra : NodeRow}
    (ha : mapFind g.nodeStructure_ a = some ra) (hout : mapFind ra.1 b = none) :
    unlinkInNodeStructure_ g a b = .undefinedBehavior := by
  unfold unlinkInNodeStructure_
  simp only [ha, hout]

theorem unlink_of_find {g : SimpleGraph} {a b : Node} {ra rb : NodeRow}
    {e e' : Edge} {p : Node × Node} (ha : mapFind g.nodeStructure_ a = some ra)
    (hb : mapFind g.nodeStructure_ b = some rb)
    (hout : mapFind ra.1 b = some e) (hin : mapFind rb.2 a = some e')
    (he : mapFind g.edgeStructure_ e = some p) :
    unlink g a b = .returned [e] (unlinkState g a b e)
      (g.observers_.map fun o => Callback.deletedEdgesUpdate o [e]) := by
  unfold unlink
  rw [nodeMustExist_of_find _ ha]
  simp only [Result.andThen_returned, Result.after_nil]
  rw [nodeMustExist_of_find _ hb]
  simp only [Result.andThen_returned, Result.after_nil]
  rw [unlinkInNodeStructure_of_find ha hb hout hin]
  simp [unlinkEdgesLoop, unlinkInEdgeStructure_, he, notifyDeletedEdges, unlinkState]

/-- With both nodes present and no entry for `nodeB` among the outgoing
relations of `nodeA`, `unlink` has undefined behaviour. -/
theorem unlink_no_relation {g : SimpleGraph} {a b : Node} {ra rb : NodeRow}
    (ha : mapFind g.nodeStructure_ a = some ra) (hb : mapFind g.nodeStructure_ b = some rb)
    (hout : mapFind ra.1 b = none) :
    unlink g a b = .undefinedBehavior := by
  unfold unlink
  rw [nodeMustExist_of_find _ ha]
  simp only [Result.andThen_returned, Result.after_nil]
  rw [nodeMustExist_of_find _ hb]
  simp only [Result.andThen_returned, Result.after_nil]
  rw [unlinkInNodeStructure_no_relation ha hout]
  rfl

/-- Rows of the state left by `link`: the row of `nodeA` maps `nodeB` to the
new edge when it had no entry for `nodeB`, and the row of `nodeB` has an
incoming entry for `nodeA`. -/
theorem linkState_rows {g : SimpleGraph} {a b : Node} {ra rb : NodeRow}
    (ha : mapFind g.nodeStructure_ a = some ra) (hb : mapFind g.nodeStructure_ b = some rb)
    (hno : mapFind ra.1 b = none) :
    ∃ ra' rb' e', mapFind (linkState g a b).nodeStructure_ a = some ra' ∧
      mapFind (linkState g a b).nodeStructure_ b = some rb' ∧
      mapFind ra'.1 b = some ((g.highestEdgeID_ + 1) % UINT_MOD) ∧
      mapFind rb'.2 a = some e' := by
  cases hd : g.directed_
  · simp only [linkState, hd, Bool.false_eq_true, if_false, mapFind_addRelation, ha, hb,
      Option.map_some']
    refine ⟨_, _, ?_, rfl, rfl, ?_, ?_⟩
    · exact ((mapFind rb.2 a).getD ((g.highestEdgeID_ + 1) % UINT_MOD))
    · by_cases hab : a = b
      · subst hab
        simp [mapFind_mapInsert, hno]
      · simp [mapFind_mapInsert, hno, hab]
    · by_cases hab : a = b
      · subst hab
        rw [ha] at hb; cases hb
        simp [mapFind_mapInsert]
      · have hba : ¬ b = a := fun h => hab h.symm
        simp [mapFind_mapInsert, hba]
  · simp only [linkState, hd, if_true, mapFind_addRelation, ha, hb, Option.map_some']
    refine ⟨_, _, ?_, rfl, rfl, ?_, ?_⟩
    · exact ((mapFind rb.2 a).getD ((g.highestEdgeID_ + 1) % UINT_MOD))
    · simp [mapFind_mapInsert, hno]
    · simp [mapFind_mapInsert]

/-- C5: when `nodeA` and `nodeB` have rows and `nodeA` has no outgoing entry for
`nodeB`, `link(nodeA, nodeB)` returns an edge `e`, and `unlink(nodeA, nodeB)` in the
state it leaves returns exactly `[e]`, leaves an edge table without a record
for `e`, and makes exactly the calls `deletedEdgesUpdate([e])`, one for each
element of `observers_` in iteration order. -/
theorem unlink_after_link (g : SimpleGraph) (a b : Node) (ra rb : NodeRow)
    (ha : mapFind g.nodeStructure_ a = some ra) (hb : mapFind g.nodeStructure_ b = some rb)
    (hno : mapFind ra.1 b = none) :
    ∃ e g1 g2, link g a b = .returned e g1 [] ∧
      unlink g1 a b =
        .returned [e] g2 (g.observers_.map fun o => Callback.deletedEdgesUpdate o [e]) ∧
      mapFind g2.edgeStructure_ e = none := by
  obtain ⟨ra', rb', e', ha', hb', hout, hin⟩ := linkState_rows ha hb hno
  have he : mapFind (linkState g a b).edgeStructure_ ((g.highestEdgeID_ + 1) % UINT_MOD)
      = some (a, b) := by
    simp [linkState, mapFind_mapAssign]
  refine ⟨(g.highestEdgeID_ + 1) % UINT_MOD, linkState g a b,
    unlinkState (linkState g a b) a b ((g.highestEdgeID_ + 1) % UINT_MOD),
    link_of_find ha hb, ?_, ?_⟩
  · rw [unlink_of_find ha' hb' hout hin he]
    rfl
  · simp [unlinkState, mapFind_mapErase]

theorem Result.Returns_after {α : Type} {P : α → SimpleGraph → Prop} {r : Result α}
    (c : List Callback) (h : r.Returns P) : (Result.after c r).Returns P := by
  cases r <;> exact h

theorem Result.Returns_andThen {α β : Type} {Q : α → SimpleGraph → Prop}
    {P : β → SimpleGraph → Prop} {r : Result α} {f : α → SimpleGraph → Result β}
    (hr : r.Returns Q) (hf : ∀ v g, Q v g → (f v g).Returns P) : (r.andThen f).Returns P := by
  cases r with
  | returned v g c => exact Result.Returns_after c (hf v g hr)
  | threw ex g c => trivial
  | undefinedBehavior => trivial

theorem Result.Returns_of_eq {α : Type} {P : α → SimpleGraph → Prop} {r : Result α}
    {v : α} {g : SimpleGraph} {c : List Callback} (h : r.Returns P)
    (hr : r = .returned v g c) : P v g := by
  subst hr; exact h

theorem SameCounters.refl (g : SimpleGraph) : SameCounters g g := ⟨rfl, rfl⟩

theorem SameCounters.trans {g g' g'' : SimpleGraph} (h : SameCounters g g')
    (h' : SameCounters g' g'') : SameCounters g g'' :=
  ⟨h'.1.trans h.1, h'.2.trans h.2⟩

theorem nodeMustExist_returns (g : SimpleGraph) (node : Node) (name : String) :
    (nodeMustExist_ g node name).Returns fun _ g' => g = g' := by
  unfold nodeMustExist_
  cases mapFind g.nodeStructure_ node <;> simp [Result.Returns]

theorem unlinkInNodeStructure_sameCounters (g : SimpleGraph) (a b : Node) :
    (unlinkInNodeStructure_ g a b).Returns fun _ g' => SameCounters g g' := by
  unfold unlinkInNodeStructure_
  dsimp only
  repeat' split
  all_goals trivial

theorem unlinkEdgesLoop_sameCounters (g : SimpleGraph) (es : List Edge) :
    (unlinkEdgesLoop g es).Returns fun _ g' => SameCounters g g' := by
  induction es generalizing g with
  | nil => exact ⟨rfl, rfl⟩
  | cons e rest ih =>
    unfold unlinkEdgesLoop
    refine Result.Returns_andThen (Q := fun _ g' => SameCounters g g') ?_ ?_
    · unfold unlinkInEdgeStructure_
      split
      · trivial
      · exact ⟨rfl, rfl⟩
    · intro _ g1 h1
      have := ih g1
      revert this
      cases unlinkEdgesLoop g1 rest <;> simp only [Result.Returns, imp_self]
      exact fun h => h1.trans h

theorem Result.Returns_mono {α : Type} {P Q : α → SimpleGraph → Prop} {r : Result α}
    (h : r.Returns P) (hPQ : ∀ v g, P v g → Q v g) : r.Returns Q := by
  cases r with
  | returned v g c => exact hPQ v g h
  | threw ex g c => trivial
  | undefinedBehavior => trivial

theorem unlink_sameCounters (g : SimpleGraph) (a b : Node) :
    (unlink g a b).Returns fun _ g' => SameCounters g g' := by
  unfold unlink
  refine Result.Returns_andThen (nodeMustExist_returns g a _) ?_
  rintro _ _ rfl
  refine Result.Returns_andThen (nodeMustExist_returns g b _) ?_
  rintro _ _ rfl
  refine Result.Returns_andThen (unlinkInNodeStructure_sameCounters g a b) ?_
  intro e g1 h1
  refine Result.Returns_andThen (unlinkEdgesLoop_sameCounters g1 [e]) ?_
  intro _ g2 h2
  exact h1.trans h2

theorem isolateLoop_sameCounters (node : Node) (g : SimpleGraph) (ns : List Node) :
    (isolateLoop node g ns).Returns fun _ g' => SameCounters g g' := by
  induction ns generalizing g with
  | nil => exact ⟨rfl, rfl⟩
  | cons n rest ih =>
    unfold isolateLoop
    refine Result.Returns_andThen (unlink_sameCounters g node n) ?_
    intro _ g1 h1
    exact Result.Returns_mono (ih g1) fun _ _ h => h1.trans h

theorem getNeighbors__returns (g : SimpleGraph) (node : Node) (outgoing : Bool) :
    (getNeighbors_ g node outgoing).Returns fun _ g' => g = g' := by
  unfold getNeighbors_
  refine Result.Returns_andThen (nodeMustExist_returns g node _) ?_
  rintro _ _ rfl
  split
  · trivial
  · rfl

theorem getNeighbors_returns (g : SimpleGraph) (node : Node) :
    (getNeighbors g node).Returns fun _ g' => g = g' := by
  unfold getNeighbors
  refine Result.Returns_andThen (getNeighbors__returns g node false) ?_
  rintro _ _ rfl
  refine Result.Returns_andThen (getNeighbors__returns g node true) ?_
  rintro _ _ rfl
  rfl

theorem deleteNode_sameCounters (g : SimpleGraph) (node : Node) :
    (deleteNode g node).Returns fun _ g' => SameCounters g g' := by
  unfold deleteNode
  refine Result.Returns_andThen (nodeMustExist_returns g node _) ?_
  rintro _ _ rfl
  refine Result.Returns_andThen (Q := fun _ g' => SameCounters g g') ?_ ?_
  · unfold isolate_
    refine Result.Returns_andThen (getNeighbors_returns g node) ?_
    rintro ns _ rfl
    exact isolateLoop_sameCounters node g ns
  · intro _ g1 h1
    split
    · trivial
    · exact ⟨h1.1, h1.2⟩

theorem createNode_eq (g : SimpleGraph) :
    ∃ g', createNode g = .returned g.highestNodeID_ g' [] ∧
      g'.highestNodeID_ = (g.highestNodeID_ + 1) % UINT_MOD ∧
      g'.highestEdgeID_ = g.highestEdgeID_ :=
  ⟨_, rfl, rfl, rfl⟩

theorem link_returns (g : SimpleGraph) (a b : Node) :
    (link g a b).Returns fun e g' =>
      e = (g.highestEdgeID_ + 1) % UINT_MOD ∧ g'.highestEdgeID_ = e ∧
      g'.highestNodeID_ = g.highestNodeID_ := by
  cases ha : mapFind g.nodeStructure_ a with
  | none => rw [link_of_absent_first b ha]; trivial
  | some ra =>
    cases hb : mapFind g.nodeStructure_ b with
    | none => rw [link_of_absent_second ha hb]; trivial
    | some rb =>
      rw [link_of_find ha hb]
      exact ⟨rfl, rfl, rfl⟩

theorem Result.andThen_eq_returned {α β : Type} {r : Result α}
    {f : α → SimpleGraph → Result β} {v : β} {g : SimpleGraph} {c : List Callback}
    (h : r.andThen f = .returned v g c) :
    ∃ v1 g1 c1 c2, r = .returned v1 g1 c1 ∧ f v1 g1 = .returned v g c2 ∧ c = c1 ++ c2 := by
  cases r with
  | returned v1 g1 c1 =>
    simp only [Result.andThen_returned] at h
    cases hf : f v1 g1 with
    | returned v2 g2 c2 =>
      rw [hf] at h
      simp only [Result.after_returned, Result.returned.injEq] at h
      obtain ⟨rfl, rfl, rfl⟩ := h
      exact ⟨v1, g1, c1, c2, rfl, hf, rfl⟩
    | threw ex g2 c2 => rw [hf] at h; cases h
    | undefinedBehavior => rw [hf] at h; cases h
  | threw ex g1 c1 => cases h
  | undefinedBehavior => cases h

/-- The ids returned along a run are consecutive as long as no counter wraps. -/
theorem runCalls_ids (calls : List Call) :
    ∀ (g : SimpleGraph) (ns : List Node) (es : List Edge) (g' : SimpleGraph)
      (c : List Callback),
      runCalls g calls = .returned (ns, es) g' c →
      g.highestNodeID_ + numCreateNode calls ≤ UINT_MOD →
      g.highestEdgeID_ + numLink calls < UINT_MOD →
      ns = List.range' g.highestNodeID_ (numCreateNode calls) ∧
      es = List.range' (g.highestEdgeID_ + 1) (numLink calls) := by
  induction calls with
  | nil =>
    intro g ns es g' c h _ _
    simp only [runCalls, Result.returned.injEq, Prod.mk.injEq] at h
    obtain ⟨⟨rfl, rfl⟩, -, -⟩ := h
    simp [numCreateNode, numLink]
  | cons call rest ih =>
    intro g ns es g' c h hn he
    cases call with
    | createNode =>
      simp only [runCalls] at h
      obtain ⟨n, g1, c1, c2, h1, h2, -⟩ := Result.andThen_eq_returned h
      obtain ⟨ids, g2, c3, c4, h3, h4, -⟩ := Result.andThen_eq_returned h2
      obtain ⟨g1', hc, hN, hE⟩ := createNode_eq g
      rw [hc] at h1
      simp only [Result.returned.injEq] at h1 h4
      obtain ⟨rfl, rfl, -⟩ := h1
      obtain ⟨hids, -, -⟩ := h4
      simp only [Prod.mk.injEq] at hids
      obtain ⟨rfl, rfl⟩ := hids
      simp only [numCreateNode, numLink] at hn he ⊢
      by_cases hk : numCreateNode rest = 0
      · have := ih g1' ids.1 ids.2 g2 c3 h3 (by rw [hk]; exact Nat.le_of_lt (by
          rw [hN]; exact Nat.mod_lt _ (by decide))) (by rw [hE]; exact he)
        rw [hk] at this ⊢
        simp only [List.range'_zero] at this
        simp [this.1, this.2, hE, List.range']
      · have hlt : g.highestNodeID_ + 1 < UINT_MOD := by omega
        have hN' : g1'.highestNodeID_ = g.highestNodeID_ + 1 := by
          rw [hN]; exact Nat.mod_eq_of_lt hlt
        have := ih g1' ids.1 ids.2 g2 c3 h3 (by rw [hN']; omega) (by rw [hE]; exact he)
        rw [hN', hE] at this
        simp [this.1, this.2, List.range'_succ]
    | link a b =>
      simp only [runCalls] at h
      obtain ⟨e, g1, c1, c2, h1, h2, -⟩ := Result.andThen_eq_returned h
      obtain ⟨ids, g2, c3, c4, h3, h4, -⟩ := Result.andThen_eq_returned h2
      obtain ⟨he1, hE, hN⟩ := Result.Returns_of_eq (link_returns g a b) h1
      simp only [Result.returned.injEq] at h4
      obtain ⟨hids, -, -⟩ := h4
      simp only [Prod.mk.injEq] at hids
      obtain ⟨rfl, rfl⟩ := hids
      simp only [numCreateNode, numLink] at hn he ⊢
      have hlt : g.highestEdgeID_ + 1 < UINT_MOD := by omega
      have he1' : e = g.highestEdgeID_ + 1 := by rw [he1]; exact Nat.mod_eq_of_lt hlt
      have := ih g1 ids.1 ids.2 g2 c3 h3 (by rw [hN]; exact hn) (by rw [hE, he1']; omega)
      rw [hN, hE, he1'] at this
      simp [this.1, this.2, he1', List.range'_succ]
    | unlink a b =>
      simp only [runCalls] at h
      obtain ⟨v, g1, c1, c2, h1, h2, -⟩ := Result.andThen_eq_returned h
      obtain ⟨hN, hE⟩ := Result.Returns_of_eq (unlink_sameCounters g a b) h1
      simp only [numCreateNode, numLink] at hn he ⊢
      have := ih g1 ns es g' c2 h2 (by rw [hN]; exact hn) (by rw [hE]; exact he)
      rw [hN, hE] at this
      exact this
    | deleteNode n =>
      simp only [runCalls] at h
      obtain ⟨v, g1, c1, c2, h1, h2, -⟩ := Result.andThen_eq_returned h
      obtain ⟨hN, hE⟩ := Result.Returns_of_eq (deleteNode_sameCounters g n) h1
      simp only [numCreateNode, numLink] at hn he ⊢
      have := ih g1 ns es g' c2 h2 (by rw [hN]; exact hn) (by rw [hE]; exact he)
      rw [hN, hE] at this
      exact this

/-- C1 (amended): along every run of `createNode`, `link`, `unlink` and
`deleteNode` calls that returns and in which neither id counter wraps around
(the graph's `highestNodeID_` plus the number of `createNode` calls is at most
`UINT_MOD`, its `highestEdgeID_` plus the number of `link` calls is below
`UINT_MOD`), the `Node`s returned by `createNode` are strictly increasing in
call order, hence pairwise distinct, and so are the `Edge`s returned by
`link`; none of them is below the counter the run started with, whatever was
deleted in between. -/
theorem ids_strictly_increasing (g : SimpleGraph) (calls : List Call) (ns : List Node)
    (es : List Edge) (g' : SimpleGraph) (c : List Callback)
    (h : runCalls g calls = .returned (ns, es) g' c)
    (hn : g.highestNodeID_ + numCreateNode calls ≤ UINT_MOD)
    (he : g.highestEdgeID_ + numLink calls < UINT_MOD) :
    ns.Pairwise (· < ·) ∧ ns.Nodup ∧ es.Pairwise (· < ·) ∧ es.Nodup ∧
    (∀ n ∈ ns, g.highestNodeID_ ≤ n) ∧ (∀ e ∈ es, g.highestEdgeID_ < e) := by
  obtain ⟨rfl, rfl⟩ := runCalls_ids calls g ns es g' c h hn he
  refine ⟨List.pairwise_lt_range' _ _, List.nodup_range' _ _, List.pairwise_lt_range' _ _,
    List.nodup_range' _ _, ?_, ?_⟩
  · intro n hn'
    rw [List.mem_range'_1] at hn'
    exact hn'.1
  · intro e he'
    rw [List.mem_range'_1] at he'
    exact he'.1

/-! ## The example graphs are reached from a new graph -/

theorem twoNodes_reached (directed : Bool) :
    runCalls (SimpleGraph.new directed) [.createNode, .createNode] =
      .returned ([0, 1], []) (twoNodes directed) [] := by
  cases directed <;> rfl

theorem twoNodesObserved_reached (directed : Bool) :
    ((registerObserver (twoNodes directed) 7).andThen fun _ g => registerObserver g 3) =
      .returned () (twoNodesObserved directed) [] := by
  cases directed <;> rfl

theorem twoNodesLinked_reached (directed : Bool) :
    link (twoNodes directed) 0 1 = .returned 1 (twoNodesLinked directed) [] := by
  cases directed <;> rfl

theorem nodeZeroDeleted_reached :
    deleteNode (twoNodes true) 0 = .returned () nodeZeroDeleted [] := by
  rfl

theorem runCalls_append (xs ys : List Call) :
    ∀ (g g1 g2 : SimpleGraph) (ns ns2 : List Node) (es es2 : List Edge)
      (c c2 : List Callback),
      runCalls g xs = .returned (ns, es) g1 c →
      runCalls g1 ys = .returned (ns2, es2) g2 c2 →
      runCalls g (xs ++ ys) = .returned (ns ++ ns2, es ++ es2) g2 (c ++ c2) := by
  induction xs with
  | nil =>
    intro g g1 g2 ns ns2 es es2 c c2 h1 h2
    simp only [runCalls, Result.returned.injEq, Prod.mk.injEq] at h1
    obtain ⟨⟨rfl, rfl⟩, rfl, rfl⟩ := h1
    simpa using h2
  | cons x rest ih =>
    intro g g1 g2 ns ns2 es es2 c c2 h1 h2
    cases x with
    | createNode =>
      rw [List.cons_append]
      simp only [runCalls] at h1 ⊢
      obtain ⟨n, ga, ca, cb, ha, hb, rfl⟩ := Result.andThen_eq_returned h1
      obtain ⟨ids, gb, cc, cd, hc, hd, rfl⟩ := Result.andThen_eq_returned hb
      simp only [Result.returned.injEq, Prod.mk.injEq] at hd
      obtain ⟨⟨rfl, rfl⟩, rfl, rfl⟩ := hd
      rw [ha]
      simp only [Result.andThen_returned]
      rw [ih ga gb g2 ids.1 ns2 ids.2 es2 cc c2 hc h2]
      simp
    | link a b =>
      rw [List.cons_append]
      simp only [runCalls] at h1 ⊢
      obtain ⟨n, ga, ca, cb, ha, hb, rfl⟩ := Result.andThen_eq_returned h1
      obtain ⟨ids, gb, cc, cd, hc, hd, rfl⟩ := Result.andThen_eq_returned hb
      simp only [Result.returned.injEq, Prod.mk.injEq] at hd
      obtain ⟨⟨rfl, rfl⟩, rfl, rfl⟩ := hd
      rw [ha]
      simp only [Result.andThen_returned]
      rw [ih ga gb g2 ids.1 ns2 ids.2 es2 cc c2 hc h2]
      simp
    | unlink a b =>
      rw [List.cons_append]
      simp only [runCalls] at h1 ⊢
      obtain ⟨n, ga, ca, cb, ha, hb, rfl⟩ := Result.andThen_eq_returned h1
      rw [ha]
      simp only [Result.andThen_returned]
      rw [ih ga g1 g2 ns ns2 es es2 cb c2 hb h2]
      simp
    | deleteNode a =>
      rw [List.cons_append]
      simp only [runCalls] at h1 ⊢
      obtain ⟨n, ga, ca, cb, ha, hb, rfl⟩ := Result.andThen_eq_returned h1
      rw [ha]
      simp only [Result.andThen_returned]
      rw [ih ga g1 g2 ns ns2 es es2 cb c2 hb h2]
      simp

theorem createDelete_step (k : Nat) (hk : k + 1 < UINT_MOD) :
    runCalls (emptyWithCounter k) [.createNode, .deleteNode k] =
      .returned ([k], []) (emptyWithCounter (k + 1)) [] := by
  have h1 : (k + 1) % UINT_MOD = k + 1 := Nat.mod_eq_of_lt hk
  have h2 : 1 % UINT_MOD = 1 := by norm_num [UINT_MOD]
  have h3 : (1 + UINT_MOD - 1) % UINT_MOD = 0 := by norm_num [UINT_MOD]
  simp [runCalls, createNode, emptyWithCounter, SimpleGraph.new, mapIndex, mapFind, mapPut,
    deleteNode, nodeMustExist_, isolate_, getNeighbors, getNeighbors_, mapKeys, isolateLoop,
    mapErase, h1, h2, h3]

/-- Running `n` pairs `createNode(); deleteNode(..)` on a new directed graph
leaves a graph without nodes whose node counter holds `n`. -/
theorem createDeleteCalls_reaches (n : Nat) (hn : n < UINT_MOD) :
    runCalls (SimpleGraph.new true) (createDeleteCalls n) =
      .returned (List.range n, []) (emptyWithCounter n) [] := by
  induction n with
  | zero => rfl
  | succ k ih =>
    have hk : k < UINT_MOD := by omega
    have := runCalls_append _ _ _ _ _ _ _ _ _ _ _ (ih hk) (createDelete_step k hn)
    simpa [createDeleteCalls, List.range_succ, List.flatMap_append] using this

/-! ## The claims at concrete graphs -/

/-- Witness of C1 (amended): a run on a new directed graph. -/
theorem ids_strictly_increasing_witness :
    [0, 1, 2].Pairwise (· < ·) ∧ [0, 1, 2].Nodup ∧ [1, 2].Pairwise (· < ·) ∧ [1, 2].Nodup ∧
    (∀ n ∈ [0, 1, 2], (SimpleGraph.new true).highestNodeID_ ≤ n) ∧
    (∀ e ∈ [1, 2], (SimpleGraph.new true).highestEdgeID_ < e) :=
  ids_strictly_increasing (SimpleGraph.new true)
    [.createNode, .createNode, .link 0 1, .unlink 0 1, .createNode, .link 0 2, .deleteNode 1]
    [0, 1, 2] [1, 2]
    { SimpleGraph.new true with
      numberOfNodes_ := 2
      highestNodeID_ := 3
      highestEdgeID_ := 2
      nodeStructure_ := [(0, ([(2, 2)], [])), (2, ([], [(0, 2)]))]
      edgeStructure_ := [(2, (0, 2))] }
    [] rfl (by decide) (by decide)

/-- C1 (counterexample): on a new directed graph, 4294967295 pairs
`createNode(); deleteNode(..)` return the nodes `0 .. 4294967294` and leave a
graph without nodes whose `highestNodeID_` is 4294967295; the next two
`createNode` calls return 4294967295 and then 0.  The `Node`s returned along
the run are neither strictly increasing nor pairwise distinct: 0 is handed out
a second time, after the node 0 was deleted. -/
theorem node_id_handed_out_again :
    runCalls (emptyWithCounter 4294967295) [.createNode, .createNode] =
      .returned ([4294967295, 0], [])
        { emptyWithCounter 1 with
          numberOfNodes_ := 2
          nodeStructure_ := [(0, ([], [])), (4294967295, ([], []))] } [] ∧
    runCalls (SimpleGraph.new true)
        (createDeleteCalls 4294967295 ++ [.createNode, .createNode]) =
      .returned (List.range 4294967295 ++ [4294967295, 0], [])
        { emptyWithCounter 1 with
          numberOfNodes_ := 2
          nodeStructure_ := [(0, ([], [])), (4294967295, ([], []))] } [] ∧
    ¬ (List.range 4294967295 ++ [4294967295, 0]).Pairwise (· < ·) ∧
    ¬ (List.range 4294967295 ++ [4294967295, 0]).Nodup := by
  have h2 : runCalls (emptyWithCounter 4294967295) [.createNode, .createNode] =
      .returned ([4294967295, 0], [])
        { emptyWithCounter 1 with
          numberOfNodes_ := 2
          nodeStructure_ := [(0, ([], [])), (4294967295, ([], []))] } [] := by
    decide
  refine ⟨h2, ?_, ?_, ?_⟩
  · have h1 := createDeleteCalls_reaches 4294967295 (by decide)
    have := runCalls_append _ _ _ _ _ _ _ _ _ _ _ h1 h2
    simpa using this
  · intro h
    rw [List.pairwise_append] at h
    have := h.2.1
    simp at this
  · intro h
    rw [List.nodup_append] at h
    have h0 : (0 : Nat) ∈ List.range 4294967295 := List.mem_range.mpr (by decide)
    exact h.2.2 h0 (by simp)

/-- Witness of C2: `link(0, 1)` on two unrelated nodes of a directed graph. -/
theorem link_then_neighbors_witness :
    mapFind (twoNodes true).nodeStructure_ 0 = some ([], []) ∧
    mapFind (twoNodes true).nodeStructure_ 1 = some ([], []) ∧
    ∃ e g', link (twoNodes true) 0 1 = .returned e g' [] ∧
      (∃ ns, getOutgoingNeighbors g' 0 = .returned ns g' [] ∧ 1 ∈ ns) ∧
      ((twoNodes true).directed_ = false →
        ∃ ns, getOutgoingNeighbors g' 1 = .returned ns g' [] ∧ 0 ∈ ns) ∧
      ((twoNodes true).directed_ = true →
        ∃ ns, getIncomingNeighbors g' 1 = .returned ns g' [] ∧ 0 ∈ ns) :=
  ⟨rfl, rfl, link_then_neighbors (twoNodes true) 0 1 ([], []) ([], []) rfl rfl⟩

/-- Witness of C3: `link(0, 5)` on a graph whose nodes are `0` and `1`. -/
theorem link_absent_node_throws_witness :
    (mapFind (twoNodes false).nodeStructure_ 0 = none ∨
      mapFind (twoNodes false).nodeStructure_ 5 = none) ∧
    link (twoNodes false) 0 5 =
      .threw (.nodeMustExist 5 "second node") (twoNodes false) [] :=
  ⟨Or.inr rfl, link_absent_node_throws (twoNodes false) 0 5 (Or.inr rfl)⟩

/-- C4 (the code at an undirected graph): after `link(0, 1)` and `unlink(0, 1)`
on two unrelated nodes of an undirected graph, the reciprocal entries written
by `link` are still in the rows: `0` is an outgoing neighbour of `1`, `1` an
incoming neighbour of `0`, so `getNeighbors(0)` holds `1` and `getNeighbors(1)`
holds `0`, while the edge table is empty. -/
theorem unlink_keeps_reciprocal_entries :
    link (twoNodes false) 0 1 = .returned 1 (twoNodesLinked false) [] ∧
    ∃ g2, unlink (twoNodesLinked false) 0 1 = .returned [1] g2 [] ∧
      g2.nodeStructure_ = [(0, ([], [(1, 1)])), (1, ([(0, 1)], []))] ∧
      g2.edgeStructure_ = [] ∧
      getNeighbors g2 0 = .returned [1] g2 [] ∧
      getNeighbors g2 1 = .returned [0] g2 [] ∧
      getOutgoingNeighbors g2 1 = .returned [0] g2 [] ∧
      getIncomingNeighbors g2 0 = .returned [1] g2 [] :=
  ⟨rfl, _, rfl, rfl, rfl, rfl, rfl, rfl, rfl⟩

/-- Witness of C5: two unrelated nodes of an undirected graph with observers
at the addresses `3` and `7`. -/
theorem unlink_after_link_witness :
    mapFind (twoNodesObserved false).nodeStructure_ 0 = some ([], []) ∧
    mapFind (twoNodesObserved false).nodeStructure_ 1 = some ([], []) ∧
    ∃ e g1 g2, link (twoNodesObserved false) 0 1 = .returned e g1 [] ∧
      unlink g1 0 1 =
        .returned [e] g2
          ((twoNodesObserved false).observers_.map fun o =>
            Callback.deletedEdgesUpdate o [e]) ∧
      mapFind g2.edgeStructure_ e = none :=
  ⟨rfl, rfl, unlink_after_link (twoNodesObserved false) 0 1 ([], []) ([], []) rfl rfl rfl⟩

/-- C6 (the code at two unrelated nodes): `unlink(0, 1)` on the existing nodes
`0` and `1`, where `0` has no outgoing entry for `1`, throws nothing: the end
iterator of the outgoing map of `0` is dereferenced. -/
theorem unlink_unrelated_nodes_undefined :
    mapFind (twoNodes true).nodeStructure_ 0 = some ([], []) ∧
    mapFind (twoNodes true).nodeStructure_ 1 = some ([], []) ∧
    unlink (twoNodes true) 0 1 = .undefinedBehavior ∧
    unlink (twoNodes false) 0 1 = .undefinedBehavior :=
  ⟨rfl, rfl, rfl, rfl⟩

/-- C7 (the code at an existing edge): on the graph with the single edge `1`
from `0` to `1`, `createNodeOnEdge(1)` throws the exception of `edgeMustExist_`
and leaves the graph as it was. -/
theorem createNodeOnEdge_existing_edge_throws :
    mapFind (twoNodesLinked true).edgeStructure_ 1 = some (0, 1) ∧
    createNodeOnEdge (twoNodesLinked true) 1 =
      .threw (.edgeMustExist 1 "") (twoNodesLinked true) [] ∧
    createNodeOnEdge (twoNodesLinked false) 1 =
      .threw (.edgeMustExist 1 "") (twoNodesLinked false) [] :=
  ⟨rfl, rfl, rfl⟩

/-- C8 (the code at an absent edge): on the directed graph holding the node `1`
only and no edge, `createNodeOnEdge(7)` passes `edgeMustExist_`, creates the
node `2`, creates the edge record `7 -> (0, 0)` and then throws the exception
of `nodeMustExist_` for the node `0` out of `unlink(0, 0)`; the node and the
record stay.  On the graph with the unrelated nodes `0` and `1` the same call
reaches `unlink(0, 0)` with both checks passed and dereferences an end
iterator. -/
theorem createNodeOnEdge_absent_edge_mutates :
    mapFind nodeZeroDeleted.edgeStructure_ 7 = none ∧
    createNodeOnEdge nodeZeroDeleted 7 =
      .threw (.nodeMustExist 0 "first node")
        { nodeZeroDeleted with
          numberOfNodes_ := 2
          highestNodeID_ := 3
          nodeStructure_ := [(1, ([], [])), (2, ([], []))]
          edgeStructure_ := [(7, (0, 0))] } [] ∧
    mapFind (twoNodes true).edgeStructure_ 7 = none ∧
    createNodeOnEdge (twoNodes true) 7 = .undefinedBehavior :=
  ⟨rfl, rfl, rfl, rfl⟩

/-- C9 (the code at a node with an incoming edge): in the directed graph with
the edge from `0` to `1`, `deleteNode(1)` calls `unlink(1, 0)`, which
dereferences the end iterator of the outgoing map of `1`; in the undirected
graph with the edge between `0` and `1`, `deleteNode(0)` calls `unlink(0, 1)`
twice and the second call does the same. -/
theorem deleteNode_incident_edge_undefined :
    getNeighbors (twoNodesLinked true) 1 = .returned [0] (twoNodesLinked true) [] ∧
    deleteNode (twoNodesLinked true) 1 = .undefinedBehavior ∧
    getNeighbors (twoNodesLinked false) 0 = .returned [1, 1] (twoNodesLinked false) [] ∧
    deleteNode (twoNodesLinked false) 0 = .undefinedBehavior :=
  ⟨rfl, rfl, rfl, rfl⟩

/-! ## `containsReciprocalRelations` -/

theorem reciprocalInnerLoop_eq_scan (a : Node) (m : UMap Edge) (met : List (Nat × Nat)) :
    reciprocalInnerLoop a met m =
      scanPairs met ((mapKeys m).map fun b => canonicalPair (a, b)) := by
  induction m generalizing met with
  | nil => rfl
  | cons p rest ih =>
    obtain ⟨b, e⟩ := p
    simp only [reciprocalInnerLoop, mapKeys, List.map_cons, scanPairs, canonicalPair]
    split
    · rfl
    · exact ih _

theorem scanPairs_append (xs ys met : List (Nat × Nat)) :
    scanPairs met (xs ++ ys) = (scanPairs met xs).bind fun met' => scanPairs met' ys := by
  induction xs generalizing met with
  | nil => rfl
  | cons p rest ih =>
    simp only [List.cons_append, scanPairs]
    split
    · rfl
    · exact ih _

theorem reciprocalOuterLoop_eq_scan (ns : UMap NodeRow) (met : List (Nat × Nat)) :
    reciprocalOuterLoop met ns = true ↔
      scanPairs met ((outgoingRelations ns).map canonicalPair) = none := by
  induction ns generalizing met with
  | nil => simp [reciprocalOuterLoop, outgoingRelations, scanPairs]
  | cons p rest ih =>
    obtain ⟨a, row⟩ := p
    simp only [reciprocalOuterLoop, outgoingRelations, List.flatMap_cons, List.map_append,
      List.map_map, scanPairs_append]
    rw [reciprocalInnerLoop_eq_scan]
    have hfun : (canonicalPair ∘ fun b => (a, b)) = fun b => canonicalPair (a, b) := rfl
    rw [hfun]
    cases h : scanPairs met ((mapKeys row.1).map fun b => canonicalPair (a, b)) with
    | none => simp
    | some met' =>
      simp only [Option.bind_some]
      exact ih met'

theorem scanPairs_eq_none_iff (ps met : List (Nat × Nat)) :
    scanPairs met ps = none ↔ ¬ (ps.Nodup ∧ ∀ p ∈ ps, p ∉ met) := by
  induction ps generalizing met with
  | nil => simp [scanPairs]
  | cons p rest ih =>
    simp only [scanPairs]
    by_cases hp : p ∈ met
    · simp only [hp, if_true, true_iff]
      intro h
      exact h.2 p (List.mem_cons_self _ _) hp
    · simp only [hp, if_false]
      rw [ih, List.nodup_cons]
      constructor
      · intro h h'
        apply h
        refine ⟨h'.1.2, ?_⟩
        intro q hq hq'
        rcases List.mem_cons.mp hq' with rfl | hq'
        · exact h'.1.1 hq
        · exact h'.2 q (List.mem_cons_of_mem _ hq) hq'
      · intro h h'
        apply h
        refine ⟨⟨?_, h'.1⟩, ?_⟩
        · intro hpr
          exact h'.2 p hpr (List.mem_cons_self _ _)
        · intro q hq hq'
          rcases List.mem_cons.mp hq with rfl | hq
          · exact hp hq'
          · exact h'.2 q hq (List.mem_cons_of_mem _ hq')

theorem reciprocalOuterLoop_iff (ns : UMap NodeRow) :
    reciprocalOuterLoop [] ns = true ↔ ¬ ((outgoingRelations ns).map canonicalPair).Nodup := by
  rw [reciprocalOuterLoop_eq_scan, scanPairs_eq_none_iff]
  simp

theorem mem_of_mapFind {β : Type} {m : UMap β} {k : Nat} {v : β} (h : mapFind m k = some v) :
    (k, v) ∈ m := by
  induction m with
  | nil => cases h
  | cons p rest ih =>
    obtain ⟨k', v'⟩ := p
    simp only [mapFind] at h
    by_cases hk : k' = k
    · subst hk
      simp only [if_true, Option.some.injEq] at h
      subst h
      exact List.mem_cons_self _ _
    · rw [if_neg hk] at h
      exact List.mem_cons_of_mem _ (ih h)

theorem mapFind_of_mem {β : Type} {m : UMap β} {k : Nat} {v : β} (hu : UniqueKeys m)
    (h : (k, v) ∈ m) : mapFind m k = some v := by
  induction m with
  | nil => cases h
  | cons p rest ih =>
    obtain ⟨k', v'⟩ := p
    simp only [UniqueKeys, mapKeys, List.map_cons, List.nodup_cons] at hu
    rcases List.mem_cons.mp h with heq | hmem
    · cases heq
      simp [mapFind]
    · have hne : ¬ k' = k := by
        rintro rfl
        exact hu.1 (List.mem_map.mpr ⟨(k', v), hmem, rfl⟩)
      simp only [mapFind, hne, if_false]
      exact ih hu.2 hmem

theorem mem_outgoingRelations {ns : UMap NodeRow} {a b : Node} :
    (a, b) ∈ outgoingRelations ns ↔ ∃ row, (a, row) ∈ ns ∧ b ∈ mapKeys row.1 := by
  simp only [outgoingRelations, List.mem_flatMap, List.mem_map, Prod.mk.injEq]
  constructor
  · rintro ⟨⟨a', row⟩, hmem, b', hb', rfl, rfl⟩
    exact ⟨row, hmem, hb'⟩
  · rintro ⟨row, hmem, hb⟩
    exact ⟨(a, row), hmem, b, hb, rfl, rfl⟩

theorem outgoingRelations_nodup {ns : UMap NodeRow} (hu : UniqueKeys ns)
    (hrows : ∀ p ∈ ns, UniqueKeys p.2.1) : (outgoingRelations ns).Nodup := by
  unfold outgoingRelations
  rw [List.nodup_flatMap]
  constructor
  · intro p hp
    refine List.Nodup.map ?_ (hrows p hp)
    intro b b' h
    exact (Prod.mk.inj h).2
  · have hpw : List.Pairwise (fun p q : Nat × NodeRow => p.1 ≠ q.1) ns := by
      have := hu
      unfold UniqueKeys mapKeys List.Nodup at this
      rwa [List.pairwise_map] at this
    refine hpw.imp ?_
    intro p q hpq x hx hx'
    simp only [List.mem_map] at hx hx'
    obtain ⟨b, -, rfl⟩ := hx
    obtain ⟨b', -, h⟩ := hx'
    exact hpq (Prod.mk.inj h).1.symm

theorem canonicalPair_eq_iff (a b a' b' : Nat) :
    canonicalPair (a, b) = canonicalPair (a', b') ↔
      (a' = a ∧ b' = b) ∨ (a' = b ∧ b' = a) := by
  simp only [canonicalPair, Prod.mk.injEq]
  omega

theorem reciprocalPair_reached :
    runCalls (SimpleGraph.new true)
        [.createNode, .createNode, .createNode, .link 0 1, .link 1 2, .link 1 0] =
      .returned ([0, 1, 2], [1, 2, 3]) reciprocalPair [] := by
  rfl

theorem reciprocalOuterLoop_spec {ns : UMap NodeRow} (hu : UniqueKeys ns)
    (hrows : ∀ p ∈ ns, UniqueKeys p.2.1) :
    reciprocalOuterLoop [] ns = true ↔
      ∃ a b ra rb, a ≠ b ∧ mapFind ns a = some ra ∧ b ∈ mapKeys ra.1 ∧
        mapFind ns b = some rb ∧ a ∈ mapKeys rb.1 := by
  rw [reciprocalOuterLoop_iff, List.nodup_map_iff_inj_on (outgoingRelations_nodup hu hrows)]
  constructor
  · intro h
    simp only [not_forall] at h
    obtain ⟨⟨a, b⟩, hx, ⟨a', b'⟩, hy, hc, hne⟩ := h
    rw [canonicalPair_eq_iff] at hc
    rcases hc with ⟨h1, h2⟩ | ⟨h1, h2⟩
    · exact absurd (by rw [h1, h2]) hne
    · rw [h1, h2] at hy
      obtain ⟨ra, hra, hb⟩ := mem_outgoingRelations.mp hx
      obtain ⟨rb, hrb, ha⟩ := mem_outgoingRelations.mp hy
      refine ⟨a, b, ra, rb, ?_, mapFind_of_mem hu hra, hb, mapFind_of_mem hu hrb, ha⟩
      intro hab
      apply hne
      rw [h1, h2, hab]
  · rintro ⟨a, b, ra, rb, hab, hra, hb, hrb, ha⟩ h
    have hx : (a, b) ∈ outgoingRelations ns :=
      mem_outgoingRelations.mpr ⟨ra, mem_of_mapFind hra, hb⟩
    have hy : (b, a) ∈ outgoingRelations ns :=
      mem_outgoingRelations.mpr ⟨rb, mem_of_mapFind hrb, ha⟩
    have := h (a, b) hx (b, a) hy ((canonicalPair_eq_iff a b b a).mpr (Or.inr ⟨rfl, rfl⟩))
    exact hab (Prod.mk.inj this).1

/-- C10: on a graph whose maps hold one entry per key,
`containsReciprocalRelations` throws "Cannot state reciprocal link in an
undirected graph." when the graph is undirected, changing nothing; when the
graph is directed it returns, changing nothing, and the value is `true` if
and only if there are two distinct nodes `a` and `b` with rows in
`nodeStructure_` such that `b` is a key of the outgoing map of `a` and `a` a
key of the outgoing map of `b`. -/
theorem containsReciprocalRelations_spec (g : SimpleGraph) (hwf : UniqueNodeKeys g) :
    (g.directed_ = false →
      containsReciprocalRelations g = .threw .cannotStateReciprocal g []) ∧
    (g.directed_ = true →
      ∃ r, containsReciprocalRelations g = .returned r g [] ∧
        (r = true ↔
          ∃ a b ra rb, a ≠ b ∧ mapFind g.nodeStructure_ a = some ra ∧ b ∈ mapKeys ra.1 ∧
            mapFind g.nodeStructure_ b = some rb ∧ a ∈ mapKeys rb.1)) := by
  constructor
  · intro hd
    simp [containsReciprocalRelations, hd]
  · intro hd
    refine ⟨reciprocalOuterLoop [] g.nodeStructure_, ?_, reciprocalOuterLoop_spec hwf.1 hwf.2⟩
    simp [containsReciprocalRelations, hd]

/-- Witness of C10: a directed graph with the relations `0 -> 1` and `1 -> 0`. -/
theorem containsReciprocalRelations_spec_witness :
    UniqueNodeKeys reciprocalPair ∧
    containsReciprocalRelations reciprocalPair = .returned true reciprocalPair [] ∧
    (reciprocalPair.directed_ = true →
      ∃ r, containsReciprocalRelations reciprocalPair = .returned r reciprocalPair [] ∧
        (r = true ↔
          ∃ a b ra rb, a ≠ b ∧ mapFind reciprocalPair.nodeStructure_ a = some ra ∧
            b ∈ mapKeys ra.1 ∧
            mapFind reciprocalPair.nodeStructure_ b = some rb ∧ a ∈ mapKeys rb.1)) := by
  have hwf : UniqueNodeKeys reciprocalPair := by
    refine ⟨by decide, ?_⟩
    intro p hp
    simp only [reciprocalPair, SimpleGraph.new, List.mem_cons, List.mem_singleton,
      List.not_mem_nil, or_false] at hp
    rcases hp with rfl | rfl | rfl <;> decide
  exact ⟨hwf, rfl, (containsReciprocalRelations_spec reciprocalPair hwf).2⟩

theorem outStar_reached :
    ((registerObserver (SimpleGraph.new true) 5).andThen fun _ g =>
      runCalls g [.createNode, .createNode, .createNode, .createNode,
        .link 0 1, .link 0 2, .link 0 3]) =
      .returned ([0, 1, 2, 3], [1, 2, 3]) outStar [] := by
  rfl

theorem getNeighbors_of_row {g : SimpleGraph} {node : Node} {row : NodeRow}
    (h : mapFind g.nodeStructure_ node = some row) :
    getNeighbors g node = .returned (mapKeys row.2 ++ mapKeys row.1) g [] := by
  simp [getNeighbors, getNeighbors_of_find _ h]

/-- In a directed graph the pair `link(nodeA, nodeB)`, `unlink(nodeA, nodeB)` on two
nodes that list each other in none of their maps leaves neither node among
the neighbours of the other. -/
theorem unlink_after_link_directed (g : SimpleGraph) (a b : Node) (ra rb : NodeRow)
    (hd : g.directed_ = true)
    (ha : mapFind g.nodeStructure_ a = some ra) (hb : mapFind g.nodeStructure_ b = some rb)
    (h1 : b ∉ mapKeys ra.1) (h2 : b ∉ mapKeys ra.2)
    (h3 : a ∉ mapKeys rb.1) (h4 : a ∉ mapKeys rb.2) :
    ∃ e g1 g2 c, link g a b = .returned e g1 [] ∧ unlink g1 a b = .returned [e] g2 c ∧
      (∃ ns, getNeighbors g2 a = .returned ns g2 [] ∧ b ∉ ns) ∧
      (∃ ns, getNeighbors g2 b = .returned ns g2 [] ∧ a ∉ ns) := by
  have hno : mapFind ra.1 b = none := (mapFind_eq_none_iff _ _).mpr h1
  obtain ⟨ra', rb', e', ha', hb', hout, hin⟩ := linkState_rows ha hb hno
  have he : mapFind (linkState g a b).edgeStructure_ ((g.highestEdgeID_ + 1) % UINT_MOD)
      = some (a, b) := by
    simp [linkState, mapFind_mapAssign]
  refine ⟨_, _, _, _, link_of_find ha hb, unlink_of_find ha' hb' hout hin he, ?_, ?_⟩
  · have hrow : ∃ row, mapFind (unlinkState (linkState g a b) a b
        ((g.highestEdgeID_ + 1) % UINT_MOD)).nodeStructure_ a = some row ∧
        b ∉ mapKeys row.1 ∧ b ∉ mapKeys row.2 := by
      simp only [unlinkState, linkState, hd, if_true, mapFind_removeRelation,
        mapFind_addRelation, ha, Option.map_some']
      refine ⟨_, rfl, ?_, ?_⟩
      · simp [mem_mapKeys_mapErase]
      · by_cases hab : a = b
        · subst hab; simp [mem_mapKeys_mapErase]
        · simpa [hab] using h2
    obtain ⟨row, hrow, hr1, hr2⟩ := hrow
    refine ⟨_, getNeighbors_of_row hrow, ?_⟩
    simp [hr1, hr2]
  · have hrow : ∃ row, mapFind (unlinkState (linkState g a b) a b
        ((g.highestEdgeID_ + 1) % UINT_MOD)).nodeStructure_ b = some row ∧
        a ∉ mapKeys row.1 ∧ a ∉ mapKeys row.2 := by
      simp only [unlinkState, linkState, hd, if_true, mapFind_removeRelation,
        mapFind_addRelation, hb, Option.map_some']
      refine ⟨_, rfl, ?_, ?_⟩
      · by_cases hab : b = a
        · subst hab; simp [mem_mapKeys_mapErase]
        · simpa [hab] using h3
      · simp [mem_mapKeys_mapErase]
    obtain ⟨row, hrow, hr1, hr2⟩ := hrow
    refine ⟨_, getNeighbors_of_row hrow, ?_⟩
    simp [hr1, hr2]

/-- On every edge that is in the edge table `createNodeOnEdge` throws the
exception of `edgeMustExist_` and changes nothing. -/
theorem createNodeOnEdge_of_present {g : SimpleGraph} {edge : Edge} {p : Node × Node}
    (h : mapFind g.edgeStructure_ edge = some p) :
    createNodeOnEdge g edge = .threw (.edgeMustExist edge "") g [] := by
  simp [createNodeOnEdge, edgeMustExist_, h]

/-- When all three incident edges of the node are outgoing edges of a directed
graph, `deleteNode` returns after three `deletedEdgesUpdate` calls. -/
theorem deleteNode_outStar :
    deleteNode outStar 0 =
      .returned ()
        { outStar with
          numberOfNodes_ := 3
          nodeStructure_ := [(1, ([], [])), (2, ([], [])), (3, ([], []))]
          edgeStructure_ := [] }
        [.deletedEdgesUpdate 5 [1], .deletedEdgesUpdate 5 [2], .deletedEdgesUpdate 5 [3]] := by
  rfl

theorem pathThree_reached (directed : Bool) :
    runCalls (SimpleGraph.new directed)
        [.createNode, .createNode, .createNode, .link 0 1, .link 1 2] =
      .returned ([0, 1, 2], [1, 2]) (pathThree directed) [] := by
  cases directed <;> rfl

theorem cycleThree_reached (directed : Bool) :
    link (pathThree directed) 0 2 = .returned 3 (cycleThree directed) [] := by
  cases directed <;> rfl

theorem starThree_reached (directed : Bool) :
    runCalls (SimpleGraph.new directed)
        [.createNode, .createNode, .createNode, .createNode, .link 0 1, .link 0 2, .link 0 3] =
      .returned ([0, 1, 2, 3], [1, 2, 3]) (starThree directed) [] := by
  cases directed <;> rfl

/-! ## `makeDirected` and `makeUndirected` -/

/-- Two relations `a -> b` and `b -> a` between distinct nodes make the loops of
`containsReciprocalRelations` return `true`. -/
theorem reciprocalOuterLoop_of_reciprocal {ns : UMap NodeRow} {a b : Node} {ra rb : NodeRow}
    (hab : a ≠ b) (hra : mapFind ns a = some ra) (hb : b ∈ mapKeys ra.1)
    (hrb : mapFind ns b = some rb) (ha : a ∈ mapKeys rb.1) :
    reciprocalOuterLoop [] ns = true := by
  rw [reciprocalOuterLoop_iff]
  intro h
  have hx : (a, b) ∈ outgoingRelations ns :=
    mem_outgoingRelations.mpr ⟨ra, mem_of_mapFind hra, hb⟩
  have hy : (b, a) ∈ outgoingRelations ns :=
    mem_outgoingRelations.mpr ⟨rb, mem_of_mapFind hrb, ha⟩
  have := List.inj_on_of_nodup_map h hx hy
    ((canonicalPair_eq_iff a b b a).mpr (Or.inr ⟨rfl, rfl⟩))
  exact hab (Prod.mk.inj this).1

/-- C11: on a directed graph in which two distinct nodes `a` and `b` have rows,
`b` is a key of the outgoing map of `a` and `a` a key of the outgoing map of
`b`, `makeUndirected` throws "Cannot make an undirected graph from a directed
one containing reciprocal relations."; no callback is made and the state at
the throw is the state before the call: flag, node structure, edge table,
node count and counters. -/
theorem makeUndirected_reciprocal_throws (g : SimpleGraph) (a b : Node) (ra rb : NodeRow)
    (hd : g.directed_ = true) (hab : a ≠ b)
    (hra : mapFind g.nodeStructure_ a = some ra) (hb : b ∈ mapKeys ra.1)
    (hrb : mapFind g.nodeStructure_ b = some rb) (ha : a ∈ mapKeys rb.1) :
    makeUndirected g = .threw .cannotMakeUndirected g [] := by
  simp [makeUndirected, containsReciprocalRelations, hd,
    reciprocalOuterLoop_of_reciprocal hab hra hb hrb ha]

/-- Witness of C11: the directed graph with the relations `0 -> 1` and `1 -> 0`. -/
theorem makeUndirected_reciprocal_throws_witness :
    reciprocalPair.directed_ = true ∧ (0 : Node) ≠ 1 ∧
    mapFind reciprocalPair.nodeStructure_ 0 = some ([(1, 1)], [(1, 3)]) ∧
    mapFind reciprocalPair.nodeStructure_ 1 = some ([(0, 3), (2, 2)], [(0, 1)]) ∧
    makeUndirected reciprocalPair = .threw .cannotMakeUndirected reciprocalPair [] :=
  ⟨rfl, by decide, rfl, rfl,
    makeUndirected_reciprocal_throws reciprocalPair 0 1 ([(1, 1)], [(1, 3)])
      ([(0, 3), (2, 2)], [(0, 1)]) rfl (by decide) rfl (by decide) rfl (by decide)⟩

/-- C12 (the code at undirected graphs built by `createNode` and `link`): on the
two linked nodes `makeDirected` dereferences an end iterator, because the
second meeting of the pair calls `linkInNodeStructure_` on the cleared
`nodeStructure_`.  On two nodes without a link `makeDirected` and then
`makeUndirected` return, and leave a graph without any row: the nodes `0`
and `1` are no longer present, though `numberOfNodes_` still holds 2. -/
theorem makeDirected_makeUndirected_loses_nodes :
    makeDirected (twoNodesLinked false) = .undefinedBehavior ∧
    makeDirected (twoNodes false) = .returned () (twoNodesCleared true) [] ∧
    makeUndirected (twoNodesCleared true) = .returned () (twoNodesCleared false) [] ∧
    (twoNodesCleared false).nodeStructure_ = [] ∧
    (twoNodesCleared false).numberOfNodes_ = 2 ∧
    getNeighbors (twoNodes false) 0 = .returned [] (twoNodes false) [] ∧
    getNeighbors (twoNodesCleared false) 0 =
      .threw (.nodeMustExist 0 "") (twoNodesCleared false) [] :=
  ⟨rfl, rfl, rfl, rfl, rfl, rfl, rfl⟩

/-- C13 (the code at an undirected path): on the undirected path `0 - 1 - 2`
the loops of `makeDirected` run on the cleared `nodeStructure_`.  Meeting
`0 - 1` for the first time, in the row of `0`, links nothing and only records
the pair; meeting it again, in the row of `1`, calls
`linkInNodeStructure_(1, 0, 1)`, which dereferences the end iterator of the
cleared structure.  No direction is retained. -/
theorem makeDirected_linked_pair_undefined :
    makeDirectedInnerLoop 0 { pathThree false with nodeStructure_ := [] } [] [(1, 1)] =
      .returned [(0, 1)] { pathThree false with nodeStructure_ := [] } [] ∧
    makeDirectedInnerLoop 1 { pathThree false with nodeStructure_ := [] } [(0, 1)]
      [(0, 1), (2, 2)] = .undefinedBehavior ∧
    linkInNodeStructure_ { pathThree false with nodeStructure_ := [] } 1 0 1 =
      .undefinedBehavior ∧
    makeDirected (pathThree false) = .undefinedBehavior :=
  ⟨rfl, rfl, rfl, rfl⟩

/-- C19 (the code at a single node): on a new undirected graph `createNode()`
and then `makeDirected()` both return; the node structure is empty
afterwards while `numberOfNodes_` holds 1. -/
theorem makeDirected_breaks_node_count :
    ∃ g, runMutations (SimpleGraph.new false) [.createNode, .makeDirected] =
        .returned () g [] ∧
      g.numberOfNodes_ = 1 ∧ g.nodeStructure_.length = 0 :=
  ⟨_, rfl, rfl, rfl⟩

/-! ## Leaves of a star, neighbours, observers -/

/-- On the directed star `getLeavesFromNode(0, 1)` returns the three attached
nodes, whatever bound of at least 2 is put on the depth of the recursion. -/
theorem getLeavesFromNode_directed_star (fuel : Nat) :
    getLeavesFromNode (fuel + 2) (starThree true) 0 1 =
      some (.returned [1, 2, 3] (starThree true) []) := by
  rfl

/-- On the undirected star `getLeavesFromNode(0, 1)` returns no node, whatever
bound of at least 2 is put on the depth of the recursion. -/
theorem getLeavesFromNode_undirected_star (fuel : Nat) :
    getLeavesFromNode (fuel + 2) (starThree false) 0 1 =
      some (.returned [] (starThree false) []) := by
  rfl

/-- C16 (the code at the undirected star): with the center `0` and the nodes
`1`, `2`, `3` attached by `link(0, i)` in an undirected graph,
`getNeighbors(1)` lists the center twice (as incoming and as outgoing
neighbour), so `1` counts as a node with more than one neighbour and is not
appended; `getLeavesFromNode(0, 1)` returns the empty list.  In the
directed star it returns `[1, 2, 3]`. -/
theorem getLeavesFromNode_undirected_star_empty :
    getNeighbors (starThree false) 1 = .returned [0, 0] (starThree false) [] ∧
    getNeighbors (starThree false) 0 =
      .returned [1, 2, 3, 1, 2, 3] (starThree false) [] ∧
    getLeavesFromNode 2 (starThree false) 0 1 = some (.returned [] (starThree false) []) ∧
    getLeavesFromNode 5 (starThree false) 0 1 = some (.returned [] (starThree false) []) ∧
    getLeavesFromNode 2 (starThree true) 0 1 =
      some (.returned [1, 2, 3] (starThree true) []) :=
  ⟨rfl, rfl, rfl, rfl, rfl⟩

theorem mem_setInsert (l : List Nat) (o x : Nat) : x ∈ setInsert l o ↔ x = o ∨ x ∈ l := by
  induction l with
  | nil => simp [setInsert]
  | cons o' rest ih =>
    simp only [setInsert]
    split
    · simp
    · simp only [List.mem_cons, ih]
      tauto

/-- C18: `registerObserver(o)` throws exactly when `o` is in `observers_`, and
otherwise returns a state whose `observers_` holds `o` and the former elements
and nothing else; `unregisterObserver(o)` throws exactly when `o` is not in
`observers_`, and otherwise returns a state whose `observers_` holds the former
elements other than `o` and nothing else.  A call that throws leaves the state
as it was, and a call that returns changes `observers_` only. -/
theorem observer_registry_checked (g : SimpleGraph) (o : Nat) :
    (o ∈ g.observers_ → registerObserver g o = .threw .alreadyObserver g []) ∧
    (o ∉ g.observers_ →
      ∃ obs, registerObserver g o = .returned () { g with observers_ := obs } [] ∧
        ∀ x, x ∈ obs ↔ x = o ∨ x ∈ g.observers_) ∧
    (o ∉ g.observers_ → unregisterObserver g o = .threw .notAnObserver g []) ∧
    (o ∈ g.observers_ →
      ∃ obs, unregisterObserver g o = .returned () { g with observers_ := obs } [] ∧
        ∀ x, x ∈ obs ↔ x ≠ o ∧ x ∈ g.observers_) := by
  refine ⟨?_, ?_, ?_, ?_⟩
  · intro h
    simp [registerObserver, h]
  · intro h
    refine ⟨setInsert g.observers_ o, by simp [registerObserver, h], ?_⟩
    intro x
    exact mem_setInsert _ _ _
  · intro h
    simp [unregisterObserver, h]
  · intro h
    refine ⟨g.observers_.filter (fun x => decide (x ≠ o)), by simp [unregisterObserver, h], ?_⟩
    intro x
    simp [List.mem_filter, and_comm]

/-- Witness of C18: the observer `3` is registered in `twoNodesObserved`, the
observer `4` is not. -/
theorem observer_registry_checked_witness :
    (3 ∈ (twoNodesObserved true).observers_ ∧
      registerObserver (twoNodesObserved true) 3 =
        .threw .alreadyObserver (twoNodesObserved true) [] ∧
      ∃ obs, unregisterObserver (twoNodesObserved true) 3 =
          .returned () { twoNodesObserved true with observers_ := obs } [] ∧
        ∀ x, x ∈ obs ↔ x ≠ 3 ∧ x ∈ (twoNodesObserved true).observers_) ∧
    (4 ∉ (twoNodesObserved true).observers_ ∧
      unregisterObserver (twoNodesObserved true) 4 =
        .threw .notAnObserver (twoNodesObserved true) [] ∧
      ∃ obs, registerObserver (twoNodesObserved true) 4 =
          .returned () { twoNodesObserved true with observers_ := obs } [] ∧
        ∀ x, x ∈ obs ↔ x = 4 ∨ x ∈ (twoNodesObserved true).observers_) := by
  have h3 : 3 ∈ (twoNodesObserved true).observers_ := by decide
  have h4 : 4 ∉ (twoNodesObserved true).observers_ := by decide
  exact ⟨⟨h3, (observer_registry_checked (twoNodesObserved true) 3).1 h3,
      (observer_registry_checked (twoNodesObserved true) 3).2.2.2 h3⟩,
    ⟨h4, (observer_registry_checked (twoNodesObserved true) 4).2.2.1 h4,
      (observer_registry_checked (twoNodesObserved true) 4).2.1 h4⟩⟩

/-- C17 (counterexample): for the middle node of the directed path
`0 -> 1 -> 2`, `getOutgoingNeighbors(1)` is `[2]` and `getIncomingNeighbors(1)`
is `[0]`; `getNeighbors(1)` is `[0, 2]`, the incoming neighbour first, and not
`[2, 0]`. -/
theorem getNeighbors_not_outgoing_first :
    getOutgoingNeighbors (pathThree true) 1 = .returned [2] (pathThree true) [] ∧
    getIncomingNeighbors (pathThree true) 1 = .returned [0] (pathThree true) [] ∧
    getNeighbors (pathThree true) 1 = .returned [0, 2] (pathThree true) [] ∧
    getNeighbors (pathThree true) 1 ≠ .returned ([2] ++ [0]) (pathThree true) [] :=
  ⟨rfl, rfl, rfl, by decide⟩

/-! ## Properties of the rows kept by every mutation -/

theorem mem_mapPut {β : Type} {m : UMap β} {k : Nat} {v : β} {p : Nat × β}
    (h : p ∈ mapPut m k v) : p = (k, v) ∨ p ∈ m := by
  induction m with
  | nil => simpa [mapPut] using h
  | cons q rest ih =>
    obtain ⟨k', v'⟩ := q
    simp only [mapPut] at h
    split at h
    · simpa using h
    · rcases List.mem_cons.mp h with h | h
      · exact Or.inr (h ▸ List.mem_cons_self _ _)
      · rcases ih h with h | h
        · exact Or.inl h
        · exact Or.inr (List.mem_cons_of_mem _ h)

theorem mem_mapModify {β : Type} {m : UMap β} {k : Nat} {f : β → β} {p : Nat × β}
    (h : p ∈ mapModify m k f) : p ∈ m ∨ ∃ v, (p.1, v) ∈ m ∧ p.2 = f v := by
  induction m with
  | nil => cases h
  | cons q rest ih =>
    obtain ⟨k', v'⟩ := q
    simp only [mapModify] at h
    split at h
    · rcases List.mem_cons.mp h with h | h
      · subst h
        exact Or.inr ⟨v', List.mem_cons_self _ _, rfl⟩
      · exact Or.inl (List.mem_cons_of_mem _ h)
    · rcases List.mem_cons.mp h with h | h
      · exact Or.inl (h ▸ List.mem_cons_self _ _)
      · rcases ih h with h | ⟨v, hv, hp⟩
        · exact Or.inl (List.mem_cons_of_mem _ h)
        · exact Or.inr ⟨v, List.mem_cons_of_mem _ hv, hp⟩

theorem mem_mapErase {β : Type} {m : UMap β} {k : Nat} {p : Nat × β}
    (h : p ∈ mapErase m k) : p ∈ m := by
  induction m with
  | nil => cases h
  | cons q rest ih =>
    obtain ⟨k', v'⟩ := q
    simp only [mapErase] at h
    split at h
    · exact List.mem_cons_of_mem _ (ih h)
    · rcases List.mem_cons.mp h with h | h
      · exact h ▸ List.mem_cons_self _ _
      · exact List.mem_cons_of_mem _ (ih h)

theorem allRows_mapModify {R : NodeRow → Prop} {ns : UMap NodeRow} {k : Nat}
    {f : NodeRow → NodeRow} (h : ∀ p ∈ ns, R p.2) (hf : ∀ row, R row → R (f row)) :
    ∀ p ∈ mapModify ns k f, R p.2 := by
  intro p hp
  rcases mem_mapModify hp with hp | ⟨v, hv, hpv⟩
  · exact h p hp
  · rw [hpv]
    exact hf v (h (p.1, v) hv)

theorem linkInNodeStructure_allRows {R : NodeRow → Prop} (hR : RowInvariant R)
    (g : SimpleGraph) (a b : Node) (e : Edge) (h : AllRows R g) :
    (linkInNodeStructure_ g a b e).Returns fun _ g' => AllRows R g' ∧
      g'.edgeStructure_ = g.edgeStructure_ := by
  unfold linkInNodeStructure_
  dsimp only
  split
  · trivial
  · split
    · trivial
    · refine ⟨?_, rfl⟩
      exact allRows_mapModify
        (allRows_mapModify h fun row hr => hR.insertOut row b e hr)
        fun row hr => hR.insertIn row a e hr

theorem link_allRows {R : NodeRow → Prop} (hR : RowInvariant R) (g : SimpleGraph)
    (a b : Node) (h : AllRows R g) : (link g a b).Returns fun _ g' => AllRows R g' := by
  unfold link
  refine Result.Returns_andThen (nodeMustExist_returns g a _) ?_
  intro _ g1 h1
  subst h1
  refine Result.Returns_andThen (nodeMustExist_returns g b _) ?_
  intro _ g1 h1
  subst h1
  refine Result.Returns_andThen (linkInNodeStructure_allRows hR _ a b _ h) ?_
  intro _ g1 h1
  refine Result.Returns_andThen (Q := fun _ g' => AllRows R g') ?_ ?_
  · split
    · exact Result.Returns_mono (linkInNodeStructure_allRows hR g1 b a _ h1.1) fun _ _ h => h.1
    · exact h1.1
  · intro _ g2 h2
    exact h2

theorem unlinkInNodeStructure_allRows {R : NodeRow → Prop} (hR : RowInvariant R)
    (g : SimpleGraph) (a b : Node) (h : AllRows R g) :
    (unlinkInNodeStructure_ g a b).Returns fun _ g' => AllRows R g' := by
  unfold unlinkInNodeStructure_
  dsimp only
  repeat' split
  all_goals first
    | trivial
    | exact allRows_mapModify
        (allRows_mapModify h fun row hr => hR.eraseOut row b hr)
        fun row hr => hR.eraseIn row a hr

theorem unlinkEdgesLoop_nodeStructure (g : SimpleGraph) (es : List Edge) :
    (unlinkEdgesLoop g es).Returns fun _ g' => g'.nodeStructure_ = g.nodeStructure_ := by
  induction es generalizing g with
  | nil => rfl
  | cons e rest ih =>
    unfold unlinkEdgesLoop
    refine Result.Returns_andThen
      (Q := fun _ g' => g'.nodeStructure_ = g.nodeStructure_) ?_ ?_
    · unfold unlinkInEdgeStructure_
      split
      · trivial
      · rfl
    · intro _ g1 h1
      exact Result.Returns_mono (ih g1) fun _ _ h => h.trans h1

theorem unlink_allRows {R : NodeRow → Prop} (hR : RowInvariant R) (g : SimpleGraph)
    (a b : Node) (h : AllRows R g) : (unlink g a b).Returns fun _ g' => AllRows R g' := by
  unfold unlink
  refine Result.Returns_andThen (nodeMustExist_returns g a _) ?_
  intro _ g1 h1
  subst h1
  refine Result.Returns_andThen (nodeMustExist_returns g b _) ?_
  intro _ g1 h1
  subst h1
  refine Result.Returns_andThen (unlinkInNodeStructure_allRows hR g a b h) ?_
  intro e g1 h1
  refine Result.Returns_andThen (unlinkEdgesLoop_nodeStructure g1 [e]) ?_
  intro _ g2 h2
  show AllRows R g2
  unfold AllRows
  rw [h2]
  exact h1

theorem isolateLoop_allRows {R : NodeRow → Prop} (hR : RowInvariant R) (node : Node)
    (g : SimpleGraph) (ns : List Node) (h : AllRows R g) :
    (isolateLoop node g ns).Returns fun _ g' => AllRows R g' := by
  induction ns generalizing g with
  | nil => exact h
  | cons n rest ih =>
    unfold isolateLoop
    refine Result.Returns_andThen (unlink_allRows hR g node n h) ?_
    intro _ g1 h1
    exact ih g1 h1

theorem deleteNode_allRows {R : NodeRow → Prop} (hR : RowInvariant R) (g : SimpleGraph)
    (node : Node) (h : AllRows R g) :
    (deleteNode g node).Returns fun _ g' => AllRows R g' := by
  unfold deleteNode
  refine Result.Returns_andThen (nodeMustExist_returns g node _) ?_
  intro _ g1 h1
  subst h1
  refine Result.Returns_andThen (Q := fun _ g' => AllRows R g') ?_ ?_
  · unfold isolate_
    refine Result.Returns_andThen (getNeighbors_returns g node) ?_
    intro ns g1 h1
    subst h1
    exact isolateLoop_allRows hR node g ns h
  · intro _ g1 h1
    split
    · trivial
    · intro p hp
      exact h1 p (mem_mapErase hp)

theorem createNode_allRows {R : NodeRow → Prop} (hR : RowInvariant R) (g : SimpleGraph)
    (h : AllRows R g) : (createNode g).Returns fun _ g' => AllRows R g' := by
  unfold createNode
  intro p hp
  simp only [mapIndex] at hp
  split at hp
  · exact h p hp
  · rcases mem_mapPut hp with hp | hp
    · rw [hp]; exact hR.empty
    · exact h p hp

theorem createNodeFromNode_allRows {R : NodeRow → Prop} (hR : RowInvariant R)
    (g : SimpleGraph) (origin : Node) (h : AllRows R g) :
    (createNodeFromNode g origin).Returns fun _ g' => AllRows R g' := by
  unfold createNodeFromNode
  refine Result.Returns_andThen (nodeMustExist_returns g origin _) ?_
  intro _ g1 h1
  subst h1
  refine Result.Returns_andThen (createNode_allRows hR g h) ?_
  intro n g1 h1
  refine Result.Returns_andThen (link_allRows hR g1 origin n h1) ?_
  intro _ g2 h2
  exact h2

theorem createNodeOnEdge_allRows {R : NodeRow → Prop} (hR : RowInvariant R)
    (g : SimpleGraph) (edge : Edge) (h : AllRows R g) :
    (createNodeOnEdge g edge).Returns fun _ g' => AllRows R g' := by
  unfold createNodeOnEdge
  refine Result.Returns_andThen (Q := fun _ g' => g = g') ?_ ?_
  · unfold edgeMustExist_
    split
    · trivial
    · rfl
  intro _ g1 h1
  subst h1
  refine Result.Returns_andThen (createNode_allRows hR g h) ?_
  intro n g1 h1
  dsimp only
  refine Result.Returns_andThen (unlink_allRows hR _ _ _ h1) ?_
  intro _ g2 h2
  refine Result.Returns_andThen (link_allRows hR g2 _ n h2) ?_
  intro _ g3 h3
  refine Result.Returns_andThen (link_allRows hR g3 n _ h3) ?_
  intro _ g4 h4
  exact h4

theorem makeDirectedInnerLoop_allRows {R : NodeRow → Prop} (hR : RowInvariant R)
    (nodeA : Node) (rels : UMap Edge) (g : SimpleGraph) (met : List (Nat × Nat))
    (h : AllRows R g) :
    (makeDirectedInnerLoop nodeA g met rels).Returns fun _ g' => AllRows R g' := by
  induction rels generalizing g met with
  | nil => exact h
  | cons p rest ih =>
    obtain ⟨nodeB, edge⟩ := p
    unfold makeDirectedInnerLoop
    dsimp only
    split
    · refine Result.Returns_andThen (linkInNodeStructure_allRows hR g nodeA nodeB edge h) ?_
      intro _ g1 h1
      exact ih g1 met h1.1
    · exact ih g _ h

theorem makeDirectedOuterLoop_allRows {R : NodeRow → Prop} (hR : RowInvariant R)
    (rows : UMap NodeRow) (g : SimpleGraph) (met : List (Nat × Nat)) (h : AllRows R g) :
    (makeDirectedOuterLoop g met rows).Returns fun _ g' => AllRows R g' := by
  induction rows generalizing g met with
  | nil => exact h
  | cons p rest ih =>
    obtain ⟨nodeA, row⟩ := p
    unfold makeDirectedOuterLoop
    refine Result.Returns_andThen (makeDirectedInnerLoop_allRows hR nodeA row.1 g met h) ?_
    intro met' g1 h1
    exact ih g1 met' h1

theorem makeDirected_allRows {R : NodeRow → Prop} (hR : RowInvariant R) (g : SimpleGraph)
    (h : AllRows R g) : (makeDirected g).Returns fun _ g' => AllRows R g' := by
  unfold makeDirected
  split
  · exact h
  · dsimp only
    refine Result.Returns_andThen
      (makeDirectedOuterLoop_allRows hR g.nodeStructure_ _ [] ?_) ?_
    · intro p hp
      cases hp
    · intro _ g1 h1
      exact h1

theorem makeUndirectedInnerLoop_allRows {R : NodeRow → Prop} (hR : RowInvariant R)
    (nodeA : Node) (rels : UMap Edge) (g : SimpleGraph) (h : AllRows R g) :
    (makeUndirectedInnerLoop nodeA g rels).Returns fun _ g' => AllRows R g' := by
  induction rels generalizing g with
  | nil => exact h
  | cons p rest ih =>
    obtain ⟨nodeB, edge⟩ := p
    unfold makeUndirectedInnerLoop
    refine Result.Returns_andThen (linkInNodeStructure_allRows hR g nodeA nodeB edge h) ?_
    intro _ g1 h1
    refine Result.Returns_andThen (linkInNodeStructure_allRows hR g1 nodeB nodeA edge h1.1) ?_
    intro _ g2 h2
    exact ih g2 h2.1

theorem makeUndirectedOuterLoop_allRows {R : NodeRow → Prop} (hR : RowInvariant R)
    (rows : UMap NodeRow) (g : SimpleGraph) (h : AllRows R g) :
    (makeUndirectedOuterLoop g rows).Returns fun _ g' => AllRows R g' := by
  induction rows generalizing g with
  | nil => exact h
  | cons p rest ih =>
    obtain ⟨nodeA, row⟩ := p
    unfold makeUndirectedOuterLoop
    refine Result.Returns_andThen (makeUndirectedInnerLoop_allRows hR nodeA row.1 g h) ?_
    intro _ g1 h1
    exact ih g1 h1

theorem makeUndirected_allRows {R : NodeRow → Prop} (hR : RowInvariant R) (g : SimpleGraph)
    (h : AllRows R g) : (makeUndirected g).Returns fun _ g' => AllRows R g' := by
  unfold makeUndirected
  split
  · exact h
  · refine Result.Returns_andThen (Q := fun _ g' => g = g') ?_ ?_
    · unfold containsReciprocalRelations
      split
      · trivial
      · rfl
    · intro r g1 h1
      subst h1
      split
      · trivial
      · dsimp only
        refine Result.Returns_andThen
          (makeUndirectedOuterLoop_allRows hR g.nodeStructure_ _ ?_) ?_
        · intro p hp
          cases hp
        · intro _ g1 h1
          exact h1

theorem Result.Returns_discard {α : Type} {P : SimpleGraph → Prop} {r : Result α}
    (h : r.Returns fun _ g => P g) : r.discard.Returns fun _ g => P g := by
  unfold Result.discard
  refine Result.Returns_andThen h ?_
  intro _ g hg
  exact hg

theorem applyMutation_allRows {R : NodeRow → Prop} (hR : RowInvariant R) (g : SimpleGraph)
    (m : Mutation) (h : AllRows R g) :
    (applyMutation g m).Returns fun _ g' => AllRows R g' := by
  cases m with
  | createNode => exact Result.Returns_discard (createNode_allRows hR g h)
  | link a b => exact Result.Returns_discard (link_allRows hR g a b h)
  | unlink a b => exact Result.Returns_discard (unlink_allRows hR g a b h)
  | deleteNode n => exact Result.Returns_discard (deleteNode_allRows hR g n h)
  | createNodeFromNode o => exact Result.Returns_discard (createNodeFromNode_allRows hR g o h)
  | createNodeOnEdge e => exact Result.Returns_discard (createNodeOnEdge_allRows hR g e h)
  | makeDirected => exact makeDirected_allRows hR g h
  | makeUndirected => exact makeUndirected_allRows hR g h

/-- A property of the states that every mutation keeps holds after every run. -/
theorem runMutations_invariant {P : SimpleGraph → Prop}
    (hstep : ∀ g m, P g → (applyMutation g m).Returns fun _ g' => P g')
    (ms : List Mutation) (g : SimpleGraph) (h : P g) :
    (runMutations g ms).Returns fun _ g' => P g' := by
  induction ms generalizing g with
  | nil => exact h
  | cons m rest ih =>
    unfold runMutations
    refine Result.Returns_andThen (hstep g m h) ?_
    intro _ g1 h1
    exact ih g1 h1

theorem runMutations_allRows {R : NodeRow → Prop} (hR : RowInvariant R)
    {directed : Bool} {ms : List Mutation} {g : SimpleGraph} {c : List Callback}
    (h : runMutations (SimpleGraph.new directed) ms = .returned () g c) : AllRows R g := by
  have := runMutations_invariant (fun g m hg => applyMutation_allRows hR g m hg) ms
    (SimpleGraph.new directed) (by intro p hp; cases hp)
  rw [h] at this
  exact this

theorem mem_mapKeys_mapPut {β : Type} (m : UMap β) (k x : Nat) (v : β) :
    x ∈ mapKeys (mapPut m k v) ↔ x = k ∨ x ∈ mapKeys m := by
  induction m with
  | nil => simp [mapPut, mapKeys]
  | cons p rest ih =>
    obtain ⟨k', v'⟩ := p
    have ih' : x ∈ List.map Prod.fst (mapPut rest k v) ↔ x = k ∨ x ∈ List.map Prod.fst rest := ih
    simp only [mapPut]
    split
    · simp [mapKeys]
    · simp only [mapKeys, List.map_cons, List.mem_cons, ih']
      tauto

theorem sorted_mapKeys_mapPut {β : Type} (m : UMap β) (k : Nat) (v : β)
    (hs : (mapKeys m).Sorted (· < ·)) (hk : k ∉ mapKeys m) :
    (mapKeys (mapPut m k v)).Sorted (· < ·) := by
  induction m with
  | nil => simp [mapPut, mapKeys]
  | cons p rest ih =>
    obtain ⟨k', v'⟩ := p
    have hs' : (k' :: mapKeys rest).Sorted (· < ·) := hs
    have hk' : k ≠ k' ∧ k ∉ mapKeys rest := by
      simpa [mapKeys] using hk
    rw [List.sorted_cons] at hs'
    simp only [mapPut]
    split
    · rename_i hlt
      show (k :: k' :: mapKeys rest).Sorted (· < ·)
      rw [List.sorted_cons, List.sorted_cons]
      refine ⟨?_, hs'⟩
      intro b hb
      rcases List.mem_cons.mp hb with rfl | hb
      · exact hlt
      · exact lt_trans hlt (hs'.1 b hb)
    · rename_i hlt
      show (k' :: mapKeys (mapPut rest k v)).Sorted (· < ·)
      rw [List.sorted_cons]
      refine ⟨?_, ih hs'.2 hk'.2⟩
      intro b hb
      rcases (mem_mapKeys_mapPut rest k b v).mp hb with rfl | hb
      · omega
      · exact hs'.1 b hb

theorem sorted_mapKeys_mapInsert {β : Type} (m : UMap β) (k : Nat) (v : β)
    (hs : (mapKeys m).Sorted (· < ·)) : (mapKeys (mapInsert m k v)).Sorted (· < ·) := by
  unfold mapInsert
  cases h : mapFind m k with
  | some w => exact hs
  | none => exact sorted_mapKeys_mapPut m k v hs ((mapFind_eq_none_iff m k).mp h)

theorem mapKeys_mapErase_sublist {β : Type} (m : UMap β) (k : Nat) :
    (mapKeys (mapErase m k)).Sublist (mapKeys m) := by
  induction m with
  | nil => exact List.Sublist.refl _
  | cons p rest ih =>
    obtain ⟨k', v'⟩ := p
    simp only [mapErase]
    split
    · exact List.Sublist.cons _ ih
    · exact List.Sublist.cons₂ _ ih

theorem sorted_mapKeys_mapErase {β : Type} (m : UMap β) (k : Nat)
    (hs : (mapKeys m).Sorted (· < ·)) : (mapKeys (mapErase m k)).Sorted (· < ·) :=
  List.Pairwise.sublist (mapKeys_mapErase_sublist m k) hs

theorem rowSorted_invariant : RowInvariant RowSorted where
  empty := ⟨List.sorted_nil, List.sorted_nil⟩
  insertOut := fun row k e h => ⟨sorted_mapKeys_mapInsert row.1 k e h.1, h.2⟩
  insertIn := fun row k e h => ⟨h.1, sorted_mapKeys_mapInsert row.2 k e h.2⟩
  eraseOut := fun row k h => ⟨sorted_mapKeys_mapErase row.1 k h.1, h.2⟩
  eraseIn := fun row k h => ⟨h.1, sorted_mapKeys_mapErase row.2 k h.2⟩

/-- C17 (amended): for a node with a row, `getIncomingNeighbors` and
`getOutgoingNeighbors` return the keys of the incoming and of the outgoing map
of the row, and `getNeighbors` returns the incoming neighbours followed by
the outgoing ones; in every graph that a run of public mutations reaches
from a new graph each of the two parts is in strictly ascending order.  For a
node without a row all three throw the exception of `nodeMustExist_`. -/
theorem getNeighbors_incoming_first (g : SimpleGraph) (n : Node) :
    (∀ row, mapFind g.nodeStructure_ n = some row →
      getIncomingNeighbors g n = .returned (mapKeys row.2) g [] ∧
      getOutgoingNeighbors g n = .returned (mapKeys row.1) g [] ∧
      getNeighbors g n = .returned (mapKeys row.2 ++ mapKeys row.1) g [] ∧
      ∀ (directed : Bool) (ms : List Mutation) (c : List Callback),
        runMutations (SimpleGraph.new directed) ms = .returned () g c →
        (mapKeys row.2).Sorted (· < ·) ∧ (mapKeys row.1).Sorted (· < ·)) ∧
    (mapFind g.nodeStructure_ n = none →
      getIncomingNeighbors g n = .threw (.nodeMustExist n "") g [] ∧
      getOutgoingNeighbors g n = .threw (.nodeMustExist n "") g [] ∧
      getNeighbors g n = .threw (.nodeMustExist n "") g []) := by
  constructor
  · intro row hrow
    refine ⟨?_, ?_, getNeighbors_of_row hrow, ?_⟩
    · simpa using getNeighbors_of_find false hrow
    · simpa using getNeighbors_of_find true hrow
    · intro directed ms c hrun
      have := runMutations_allRows rowSorted_invariant hrun (n, row) (mem_of_mapFind hrow)
      exact ⟨this.2, this.1⟩
  · intro h
    refine ⟨getNeighbors_of_absent false h, getNeighbors_of_absent true h, ?_⟩
    simp [getNeighbors, getNeighbors_of_absent false h]

/-- Witness of C17 (amended): the middle node of the directed path
`0 -> 1 -> 2`, and the absent node `7`. -/
theorem getNeighbors_incoming_first_witness :
    runMutations (SimpleGraph.new true)
        [.createNode, .createNode, .createNode, .link 0 1, .link 1 2] =
      .returned () (pathThree true) [] ∧
    mapFind (pathThree true).nodeStructure_ 1 = some ([(2, 2)], [(0, 1)]) ∧
    getNeighbors (pathThree true) 1 = .returned ([0] ++ [2]) (pathThree true) [] ∧
    ([0].Sorted (· < ·) ∧ [2].Sorted (· < ·)) ∧
    mapFind (pathThree true).nodeStructure_ 7 = none ∧
    getNeighbors (pathThree true) 7 = .threw (.nodeMustExist 7 "") (pathThree true) [] :=
  ⟨rfl, rfl,
    ((getNeighbors_incoming_first (pathThree true) 1).1 ([(2, 2)], [(0, 1)]) rfl).2.2.1,
    ((getNeighbors_incoming_first (pathThree true) 1).1 ([(2, 2)], [(0, 1)]) rfl).2.2.2
      true [.createNode, .createNode, .createNode, .link 0 1, .link 1 2] [] rfl,
    rfl, ((getNeighbors_incoming_first (pathThree true) 7).2 rfl).2.2⟩

theorem createNode_eq_state (g : SimpleGraph) :
    createNode g = .returned g.highestNodeID_ (createNodeState g) [] := rfl

/-! ## Building a path -/

theorem mapKeys_mapModify {β : Type} (m : UMap β) (k : Nat) (f : β → β) :
    mapKeys (mapModify m k f) = mapKeys m := by
  induction m with
  | nil => rfl
  | cons p rest ih =>
    obtain ⟨k', v⟩ := p
    have ih' : List.map Prod.fst (mapModify rest k f) = List.map Prod.fst rest := ih
    simp only [mapModify]
    split <;> simp [mapKeys, ih']

theorem mapKeys_addRelation (ns : UMap NodeRow) (a b : Node) (e : Edge) :
    mapKeys (addRelation ns a b e) = mapKeys ns := by
  simp [addRelation, mapKeys_mapModify]

theorem mapKeys_mapInsert_nil {β : Type} {m : UMap β} (k : Nat) (v : β)
    (h : mapKeys m = []) : mapKeys (mapInsert m k v) = [k] := by
  cases m with
  | nil => rfl
  | cons p rest => simp [mapKeys] at h

theorem mapKeys_mapInsert_after {β : Type} {m : UMap β} {x : Nat} (k : Nat) (v : β)
    (h : mapKeys m = [x]) (hx : x < k) : mapKeys (mapInsert m k v) = [x, k] := by
  match m, h with
  | [(x', w)], h =>
    simp only [mapKeys, List.map_cons, List.map_nil, List.cons.injEq, and_true] at h
    subst h
    have h1 : ¬ x' = k := by omega
    have h2 : ¬ k < x' := by omega
    simp [mapInsert, mapFind, mapPut, mapKeys, h1, h2]

theorem mapKeys_mapInsert_before {β : Type} {m : UMap β} {x : Nat} (k : Nat) (v : β)
    (h : mapKeys m = [x]) (hx : k < x) : mapKeys (mapInsert m k v) = [k, x] := by
  match m, h with
  | [(x', w)], h =>
    simp only [mapKeys, List.map_cons, List.map_nil, List.cons.injEq, and_true] at h
    subst h
    have h1 : ¬ x' = k := by omega
    simp [mapInsert, mapFind, mapPut, mapKeys, h1, hx]

theorem nodesCreated_new (directed : Bool) : NodesCreated directed 0 (SimpleGraph.new directed) where
  directed_eq := rfl
  root_eq := rfl
  counter := fun _ => rfl
  keys_lt := by intro i hi; cases hi
  rows := by intro i hi; omega

theorem createNode_nodesCreated {directed : Bool} {k : Nat} {g : SimpleGraph}
    (h : NodesCreated directed k g) (hk : k < UINT_MOD) :
    ∃ g', createNode g = .returned k g' [] ∧ NodesCreated directed (k + 1) g' := by
  have hc := h.counter hk
  have hfresh : mapFind g.nodeStructure_ k = none := by
    rw [mapFind_eq_none_iff]
    intro hmem
    exact absurd (h.keys_lt k hmem) (by omega)
  have hns : (mapIndex g.nodeStructure_ k ([], [])).2 = mapPut g.nodeStructure_ k ([], []) := by
    simp [mapIndex, hfresh]
  refine ⟨createNodeState g, by rw [createNode_eq_state, hc], ?_⟩
  have hns' : (createNodeState g).nodeStructure_ = mapPut g.nodeStructure_ k ([], []) := by
    show (mapIndex g.nodeStructure_ g.highestNodeID_ ([], [])).2 = _
    rw [hc, hns]
  constructor
  · exact h.directed_eq
  · exact h.root_eq
  · intro hk1
    show (g.highestNodeID_ + 1) % UINT_MOD = k + 1
    rw [hc]
    exact Nat.mod_eq_of_lt hk1
  · intro i hi
    rw [hns'] at hi
    rcases (mem_mapKeys_mapPut _ _ _ _).mp hi with rfl | hi'
    · omega
    · have := h.keys_lt i hi'
      omega
  · intro i hi
    rw [hns', mapFind_mapPut _ _ _ _ hfresh]
    by_cases hik : i = k
    · simp [hik]
    · simp only [hik, if_false]
      exact h.rows i (by omega)

theorem runCalls_createNodes (directed : Bool) (m : Nat) :
    ∀ (k : Nat) (g : SimpleGraph), NodesCreated directed k g → k + m ≤ UINT_MOD →
      ∃ ids g' c, runCalls g (List.replicate m Call.createNode) = .returned ids g' c ∧
        NodesCreated directed (k + m) g' := by
  induction m with
  | zero =>
    intro k g h _
    exact ⟨_, g, [], rfl, h⟩
  | succ m ih =>
    intro k g h hk
    obtain ⟨g1, h1, hg1⟩ := createNode_nodesCreated h (by omega)
    obtain ⟨ids, g2, c, h2, hg2⟩ := ih (k + 1) g1 hg1 (by omega)
    refine ⟨(k :: ids.1, ids.2), g2, [] ++ (c ++ []), ?_, ?_⟩
    · simp only [List.replicate_succ, runCalls, h1, Result.andThen_returned, h2,
        Result.after_returned]
    · have : k + (m + 1) = k + 1 + m := by omega
      rw [this]
      exact hg2

theorem isPathPrefix_of_nodesCreated {directed : Bool} {n : Nat} {g : SimpleGraph}
    (h : NodesCreated directed n g) : IsPathPrefix directed n 0 g where
  directed_eq := h.directed_eq
  root_eq := h.root_eq
  keys_lt := h.keys_lt
  rows := by
    intro i hi
    refine ⟨_, h.rows i hi, ?_, ?_⟩
    · simp only [mapKeys, pathOut, List.map_nil]
      rw [if_neg (by omega), if_neg (by omega)]
      rfl
    · simp only [mapKeys, pathIn, List.map_nil]
      rw [if_neg (by omega), if_neg (by omega)]
      rfl

theorem linkState_row {g : SimpleGraph} {a b : Node} (hab : a ≠ b) {i : Node} {row : NodeRow}
    (h : mapFind g.nodeStructure_ i = some row) :
    ∃ row', mapFind (linkState g a b).nodeStructure_ i = some row' ∧
      row'.1 = (if i = a then mapInsert row.1 b ((g.highestEdgeID_ + 1) % UINT_MOD)
        else if i = b ∧ g.directed_ = false then
          mapInsert row.1 a ((g.highestEdgeID_ + 1) % UINT_MOD)
        else row.1) ∧
      row'.2 = (if i = b then mapInsert row.2 a ((g.highestEdgeID_ + 1) % UINT_MOD)
        else if i = a ∧ g.directed_ = false then
          mapInsert row.2 b ((g.highestEdgeID_ + 1) % UINT_MOD)
        else row.2) := by
  have hba : b ≠ a := fun e => hab e.symm
  cases hd : g.directed_
  · simp only [linkState, hd, Bool.false_eq_true, if_false, mapFind_addRelation, h,
      Option.map_some']
    refine ⟨_, rfl, ?_, ?_⟩
    · by_cases h1 : i = a
      · subst h1; simp [hab]
      · by_cases h2 : i = b
        · subst h2; simp [hba]
        · simp [h1, h2]
    · by_cases h1 : i = a
      · subst h1; simp [hab]
      · by_cases h2 : i = b
        · subst h2; simp [hba]
        · simp [h1, h2]
  · simp only [linkState, hd, if_true, mapFind_addRelation, h, Option.map_some']
    refine ⟨_, rfl, ?_, ?_⟩ <;> simp

theorem mapKeys_linkState (g : SimpleGraph) (a b : Node) :
    mapKeys (linkState g a b).nodeStructure_ = mapKeys g.nodeStructure_ := by
  cases hd : g.directed_ <;> simp [linkState, hd, mapKeys_addRelation]

theorem pathOut_eq (directed : Bool) (j i : Nat) :
    pathOut directed j i =
      (if directed = false ∧ 0 < i ∧ i ≤ j then [i - 1] else []) ++
        (if i < j then [i + 1] else []) := rfl

theorem pathIn_eq (directed : Bool) (j i : Nat) :
    pathIn directed j i =
      (if 0 < i ∧ i ≤ j then [i - 1] else []) ++
        (if directed = false ∧ i < j then [i + 1] else []) := rfl

theorem link_isPathPrefix {directed : Bool} {n j : Nat} {g : SimpleGraph}
    (h : IsPathPrefix directed n j g) (hj : j + 1 < n) :
    ∃ e, link g j (j + 1) = .returned e (linkState g j (j + 1)) [] ∧
      IsPathPrefix directed n (j + 1) (linkState g j (j + 1)) := by
  obtain ⟨rj, hrj, -, -⟩ := h.rows j (by omega)
  obtain ⟨rj1, hrj1, -, -⟩ := h.rows (j + 1) hj
  refine ⟨_, link_of_find hrj hrj1, ?_⟩
  have hne : j ≠ j + 1 := by omega
  constructor
  · exact h.directed_eq
  · exact h.root_eq
  · intro k hk
    rw [mapKeys_linkState] at hk
    exact h.keys_lt k hk
  · intro i hi
    obtain ⟨row, hrow, hout, hin⟩ := h.rows i hi
    obtain ⟨row', hrow', h1, h2⟩ := linkState_row hne hrow
    rw [h.directed_eq] at h1 h2
    refine ⟨row', hrow', ?_, ?_⟩
    · rw [h1]
      clear h1 h2 hin
      by_cases hij : i = j
      · subst hij
        cases directed <;> simp only [pathOut] at hout ⊢ <;> simp at hout ⊢ <;>
          (try split_ifs at hout ⊢) <;>
          first
            | omega
            | exact mapKeys_mapInsert_nil _ _ hout
            | exact mapKeys_mapInsert_after _ _ hout (by omega)
      · by_cases hij1 : i = j + 1
        · subst hij1
          cases directed <;> simp only [pathOut] at hout ⊢ <;> simp at hout ⊢ <;>
            first
              | exact hout
              | exact mapKeys_mapInsert_nil _ _ hout
        · cases directed <;> simp only [pathOut] at hout ⊢ <;> simp [hij, hij1] at hout ⊢ <;>
            (try split_ifs at hout ⊢) <;>
            first
              | omega
              | exact hout
    · rw [h2]
      clear h1 h2 hout
      by_cases hij : i = j
      · subst hij
        cases directed <;> simp only [pathIn] at hin ⊢ <;> simp at hin ⊢ <;>
          (try split_ifs at hin ⊢) <;>
          first
            | omega
            | exact hin
            | exact mapKeys_mapInsert_nil _ _ hin
            | exact mapKeys_mapInsert_after _ _ hin (by omega)
      · by_cases hij1 : i = j + 1
        · subst hij1
          cases directed <;> simp only [pathIn] at hin ⊢ <;> simp at hin ⊢ <;>
            first
              | exact hin
              | exact mapKeys_mapInsert_nil _ _ hin
        · cases directed <;> simp only [pathIn] at hin ⊢ <;> simp [hij, hij1] at hin ⊢ <;>
            (try split_ifs at hin ⊢) <;>
            first
              | omega
              | exact hin

theorem runCalls_links (directed : Bool) (n m : Nat) :
    ∀ (j : Nat) (g : SimpleGraph), IsPathPrefix directed n j g → j + m < n →
      ∃ ids g' c,
        runCalls g ((List.range' j m).map fun i => Call.link i (i + 1)) = .returned ids g' c ∧
        IsPathPrefix directed n (j + m) g' := by
  induction m with
  | zero =>
    intro j g h _
    exact ⟨_, g, [], rfl, h⟩
  | succ m ih =>
    intro j g h hj
    obtain ⟨e, h1, hg1⟩ := link_isPathPrefix h (by omega)
    obtain ⟨ids, g2, c, h2, hg2⟩ := ih (j + 1) _ hg1 (by omega)
    refine ⟨(ids.1, e :: ids.2), g2, [] ++ (c ++ []), ?_, ?_⟩
    · simp only [List.range'_succ, List.map_cons, runCalls, h1, Result.andThen_returned, h2,
        Result.after_returned]
    · have : j + (m + 1) = j + 1 + m := by omega
      rw [this]
      exact hg2

/-- The calls `pathCalls n` return on a new graph and leave the path on `n` nodes. -/
theorem pathCalls_reaches (directed : Bool) (n : Nat) (h1 : 1 ≤ n) (hM : n ≤ UINT_MOD) :
    ∃ ids g c, runCalls (SimpleGraph.new directed) (pathCalls n) = .returned ids g c ∧
      IsPathPrefix directed n (n - 1) g := by
  obtain ⟨⟨ns1, es1⟩, g1, c1, hr1, hg1⟩ :=
    runCalls_createNodes directed n 0 _ (nodesCreated_new directed) (by omega)
  rw [Nat.zero_add] at hg1
  obtain ⟨⟨ns2, es2⟩, g2, c2, hr2, hg2⟩ :=
    runCalls_links directed n (n - 1) 0 g1 (isPathPrefix_of_nodesCreated hg1) (by omega)
  rw [Nat.zero_add] at hg2
  refine ⟨(ns1 ++ ns2, es1 ++ es2), g2, c1 ++ c2, ?_, hg2⟩
  unfold pathCalls
  rw [List.range_eq_range']
  exact runCalls_append _ _ _ _ _ _ _ _ _ _ _ hr1 hr2

/-! ## Traversals of a path -/

@[simp] theorem Bounded.andThen_of_returned {α β : Type} (v : α) (g : SimpleGraph)
    (c : List Callback) (f : α → SimpleGraph → Bounded β) :
    Bounded.andThen (some (Result.returned v g c)) f = (f v g).map (Result.after c) := rfl

@[simp] theorem Bounded.andThen_of_threw {α β : Type} (ex : GraphException) (g : SimpleGraph)
    (c : List Callback) (f : α → SimpleGraph → Bounded β) :
    Bounded.andThen (some (Result.threw ex g c : Result α)) f = some (Result.threw ex g c) := rfl

@[simp] theorem Bounded.andThen_none {α β : Type} (f : α → SimpleGraph → Bounded β) :
    Bounded.andThen (none : Bounded α) f = none := rfl

@[simp] theorem Option.map_after_nil {α : Type} (r : Bounded α) :
    Option.map (Result.after []) r = r := by
  cases r <;> simp

theorem metOnlyOnceLoop_false
    (recur : Node → List Node → SimpleGraph → Bounded (Bool × List Node)) (o : Node)
    (ns : List Node) (met : List Node) (g : SimpleGraph) :
    metOnlyOnceLoop recur o ns false met g = some (.returned (false, met) g []) := by
  cases ns <;> simp [metOnlyOnceLoop]

theorem metOnlyOnceLoop_skip
    (recur : Node → List Node → SimpleGraph → Bounded (Bool × List Node)) (o : Node)
    (ns : List Node) (flag : Bool) (met : List Node) (g : SimpleGraph) :
    metOnlyOnceLoop recur o (o :: ns) flag met g = metOnlyOnceLoop recur o ns flag met g := by
  cases flag
  · rw [metOnlyOnceLoop_false, metOnlyOnceLoop_false]
  · simp [metOnlyOnceLoop]

theorem metOnlyOnceLoop_nil
    (recur : Node → List Node → SimpleGraph → Bounded (Bool × List Node)) (o : Node)
    (flag : Bool) (met : List Node) (g : SimpleGraph) :
    metOnlyOnceLoop recur o [] flag met g = some (.returned (flag, met) g []) := rfl

theorem metOnlyOnceLoop_one
    (recur : Node → List Node → SimpleGraph → Bounded (Bool × List Node)) {o x : Node}
    (hx : x ≠ o) (ns : List Node) (met : List Node) (g : SimpleGraph) (r : Bool × List Node)
    (hr : recur x met g = some (.returned r g [])) :
    metOnlyOnceLoop recur o (x :: ns) true met g = metOnlyOnceLoop recur o ns r.1 r.2 g := by
  simp [metOnlyOnceLoop, hx, hr]

/-- Following a chain `i -> i + 1 -> ... -> n - 1` of outgoing neighbours, where
a node may also list the node before it, `nodesAreMetOnlyOnce_` returns `true`
and has met the nodes `i .. n - 1`. -/
theorem nodesAreMetOnlyOnce_chain {g : SimpleGraph} {n lo : Nat}
    (H : ∀ i, lo ≤ i → i < n → ∃ skip, (skip = [] ∨ skip = [i - 1]) ∧
      getOutgoingNeighbors g i =
        .returned (skip ++ (if i + 1 < n then [i + 1] else [])) g []) :
    ∀ (m i fuel : Nat) (met : List Nat), i + m = n → 0 < m → lo ≤ i → m ≤ fuel →
      (∀ x ∈ met, x < i) →
      nodesAreMetOnlyOnce_ fuel g i met (i - 1) =
        some (.returned (true, (List.range' i m).reverse ++ met) g []) := by
  intro m
  induction m with
  | zero => intro i fuel met _ h0; omega
  | succ m ih =>
    intro i fuel met him _ hlo hfuel hmet
    obtain ⟨f, rfl⟩ : ∃ f, fuel = f + 1 := ⟨fuel - 1, by omega⟩
    have hnot : i ∉ met := fun hmem => lt_irrefl i (hmet i hmem)
    obtain ⟨skip, hskip, hout⟩ := H i hlo (by omega)
    have hloop : ∀ (recur : Node → List Node → SimpleGraph → Bounded (Bool × List Node))
        (rest : List Node) (flag : Bool) (met' : List Node),
        metOnlyOnceLoop recur (i - 1) (skip ++ rest) flag met' g =
          metOnlyOnceLoop recur (i - 1) rest flag met' g := by
      intro recur rest flag met'
      rcases hskip with rfl | rfl
      · rfl
      · exact metOnlyOnceLoop_skip _ _ _ _ _ _
    simp only [nodesAreMetOnlyOnce_, hout, Bounded.andThen_of_returned, Option.map_after_nil,
      hnot, decide_False, Bool.not_false, if_false, hloop]
    by_cases hlast : i + 1 < n
    · have hm : 0 < m := by omega
      have hmet' : ∀ x ∈ i :: met, x < i + 1 := by
        intro x hx
        rcases List.mem_cons.mp hx with rfl | hx
        · omega
        · have := hmet x hx
          omega
      have hrec := ih (i + 1) f (i :: met) (by omega) hm (by omega) (by omega) hmet'
      rw [Nat.add_sub_cancel] at hrec
      have hne : i + 1 ≠ i - 1 := by omega
      rw [if_pos hlast, metOnlyOnceLoop_one _ hne _ _ _ _ hrec, metOnlyOnceLoop_nil]
      simp [List.range'_succ]
    · have hm : m = 0 := by omega
      subst hm
      rw [if_neg hlast, metOnlyOnceLoop_nil]
      simp [List.range']

theorem isPathPrefix_outgoing {directed : Bool} {n j : Nat} {g : SimpleGraph}
    (h : IsPathPrefix directed n j g) {i : Nat} (hi : i < n) :
    getOutgoingNeighbors g i = .returned (pathOut directed j i) g [] := by
  obtain ⟨row, hrow, hout, -⟩ := h.rows i hi
  rw [← hout]
  simpa [getOutgoingNeighbors] using getNeighbors_of_find true hrow

theorem isPathPrefix_neighbors {directed : Bool} {n j : Nat} {g : SimpleGraph}
    (h : IsPathPrefix directed n j g) {i : Nat} (hi : i < n) :
    getNeighbors g i = .returned (pathIn directed j i ++ pathOut directed j i) g [] := by
  obtain ⟨row, hrow, hout, hin⟩ := h.rows i hi
  rw [← hout, ← hin]
  exact getNeighbors_of_row hrow

theorem isTree_of_chain {g : SimpleGraph} {n : Nat} (hn : 0 < n) (hroot : g.root_ = 0)
    (hkeys : ∀ k ∈ mapKeys g.nodeStructure_, k < n)
    (H : ∀ i, 0 ≤ i → i < n → ∃ skip, (skip = [] ∨ skip = [i - 1]) ∧
      getOutgoingNeighbors g i =
        .returned (skip ++ (if i + 1 < n then [i + 1] else [])) g [])
    (fuel : Nat) (hfuel : n ≤ fuel) :
    isTree fuel g = some (.returned true g []) := by
  have hrun := nodesAreMetOnlyOnce_chain H n 0 fuel [] (by omega) hn (le_refl _) hfuel
    (by intro x hx; cases hx)
  simp only [Nat.zero_sub, List.append_nil] at hrun
  simp only [isTree, hroot, hrun, Bounded.andThen_of_returned, Option.map_after_nil,
    Bool.not_true, Bool.false_eq_true, if_false]
  congr 2
  rw [List.all_eq_true]
  intro k hk
  have := hkeys k hk
  simp only [List.mem_reverse, List.mem_range'_1, decide_eq_true_eq]
  omega

theorem isTree_path {directed : Bool} {n : Nat} {g : SimpleGraph} (hn : 0 < n)
    (h : IsPathPrefix directed n (n - 1) g) (fuel : Nat) (hfuel : n ≤ fuel) :
    isTree fuel g = some (.returned true g []) := by
  refine isTree_of_chain hn h.root_eq h.keys_lt ?_ fuel hfuel
  intro i _ hi
  refine ⟨if directed = false ∧ 0 < i ∧ i ≤ n - 1 then [i - 1] else [], ?_, ?_⟩
  · split
    · exact Or.inr rfl
    · exact Or.inl rfl
  · rw [isPathPrefix_outgoing h hi, pathOut_eq]
    congr 2
    by_cases hc : i < n - 1
    · rw [if_pos hc, if_pos (by omega)]
    · rw [if_neg hc, if_neg (by omega)]

/-- Outgoing neighbours in the path closed by `link(0, n - 1)`. -/
theorem cycle_outgoing {directed : Bool} {n : Nat} {g : SimpleGraph} (h3 : 3 ≤ n)
    (h : IsPathPrefix directed n (n - 1) g) :
    getOutgoingNeighbors (linkState g 0 (n - 1)) 0 =
      .returned [1, n - 1] (linkState g 0 (n - 1)) [] ∧
    (∀ i, 0 < i → i + 1 < n →
      getOutgoingNeighbors (linkState g 0 (n - 1)) i =
        .returned (pathOut directed (n - 1) i) (linkState g 0 (n - 1)) []) ∧
    getOutgoingNeighbors (linkState g 0 (n - 1)) (n - 1) =
      .returned (if directed = false then [0, n - 2] else []) (linkState g 0 (n - 1)) [] := by
  have hne : (0 : Nat) ≠ n - 1 := by omega
  refine ⟨?_, ?_, ?_⟩
  · obtain ⟨row, hrow, hout, -⟩ := h.rows 0 (by omega)
    obtain ⟨row', hrow', h1, -⟩ := linkState_row hne hrow
    rw [if_pos rfl] at h1
    have hk : mapKeys row'.1 = [1, n - 1] := by
      rw [h1]
      refine mapKeys_mapInsert_after _ _ ?_ (by omega)
      have c1 : ¬ (directed = false ∧ 0 < 0 ∧ 0 ≤ n - 1) := fun hc => absurd hc.2.1 (by omega)
      have c2 : 0 < n - 1 := by omega
      rw [hout, pathOut_eq, if_neg c1, if_pos c2]
      rfl
    rw [← hk]
    simpa [getOutgoingNeighbors] using getNeighbors_of_find true hrow'
  · intro i h0 hi
    obtain ⟨row, hrow, hout, -⟩ := h.rows i (by omega)
    obtain ⟨row', hrow', h1, -⟩ := linkState_row hne hrow
    have c1 : ¬ i = 0 := by omega
    have c2 : ¬ (i = n - 1 ∧ g.directed_ = false) := fun hc => absurd hc.1 (by omega)
    rw [if_neg c1, if_neg c2] at h1
    rw [← hout, ← h1]
    simpa [getOutgoingNeighbors] using getNeighbors_of_find true hrow'
  · obtain ⟨row, hrow, hout, -⟩ := h.rows (n - 1) (by omega)
    obtain ⟨row', hrow', h1, -⟩ := linkState_row hne hrow
    have c1 : ¬ n - 1 = 0 := by omega
    rw [if_neg c1, h.directed_eq] at h1
    have hk : mapKeys row'.1 = if directed = false then [0, n - 2] else [] := by
      rw [h1]
      have c3 : ¬ (n - 1 < n - 1) := lt_irrefl _
      rw [pathOut_eq, if_neg c3, List.append_nil] at hout
      by_cases hd : directed = false
      · have c4 : directed = false ∧ 0 < n - 1 ∧ n - 1 ≤ n - 1 := ⟨hd, by omega, le_refl _⟩
        rw [if_pos ⟨rfl, hd⟩, if_pos hd]
        rw [if_pos c4] at hout
        have h2 : n - 1 - 1 = n - 2 := by omega
        rw [h2] at hout
        exact mapKeys_mapInsert_before _ _ hout (by omega)
      · have c4 : ¬ (directed = false ∧ 0 < n - 1 ∧ n - 1 ≤ n - 1) := fun hc => hd hc.1
        have c5 : ¬ (n - 1 = n - 1 ∧ directed = false) := fun hc => hd hc.2
        rw [if_neg c5, if_neg hd]
        rw [if_neg c4] at hout
        exact hout
    rw [← hk]
    simpa [getOutgoingNeighbors] using getNeighbors_of_find true hrow'

theorem cycle_link {directed : Bool} {n : Nat} {g : SimpleGraph} (h3 : 3 ≤ n)
    (h : IsPathPrefix directed n (n - 1) g) :
    ∃ e, link g 0 (n - 1) = .returned e (linkState g 0 (n - 1)) [] := by
  obtain ⟨r0, hr0, -, -⟩ := h.rows 0 (by omega)
  obtain ⟨r1, hr1, -, -⟩ := h.rows (n - 1) (by omega)
  exact ⟨_, link_of_find hr0 hr1⟩

/-- A call of `nodesAreMetOnlyOnce_` on a node that was met before returns
`false` without entering the loop. -/
theorem nodesAreMetOnlyOnce_met {g : SimpleGraph} {node : Node} {ns : List Node}
    (hout : getOutgoingNeighbors g node = .returned ns g []) (fuel : Nat) (met : List Nat)
    (origin : Node) (hmet : node ∈ met) :
    nodesAreMetOnlyOnce_ (fuel + 1) g node met origin = some (.returned (false, met) g []) := by
  simp [nodesAreMetOnlyOnce_, hout, hmet, metOnlyOnceLoop_false]

theorem isTree_directed_cycle {n : Nat} {g : SimpleGraph} (h3 : 3 ≤ n)
    (h : IsPathPrefix true n (n - 1) g) (fuel : Nat) (hfuel : n < fuel) :
    isTree fuel (linkState g 0 (n - 1)) = some (.returned false (linkState g 0 (n - 1)) []) := by
  obtain ⟨h0, hmid, hlast⟩ := cycle_outgoing h3 h
  simp only [Bool.true_eq_false, if_false] at hlast
  have H : ∀ i, 1 ≤ i → i < n → ∃ skip, (skip = [] ∨ skip = [i - 1]) ∧
      getOutgoingNeighbors (linkState g 0 (n - 1)) i =
        .returned (skip ++ (if i + 1 < n then [i + 1] else [])) (linkState g 0 (n - 1)) [] := by
    intro i hi1 hin
    refine ⟨[], Or.inl rfl, ?_⟩
    by_cases hc : i + 1 < n
    · have c1 : ¬ (true = false ∧ 0 < i ∧ i ≤ n - 1) := by simp
      have c2 : i < n - 1 := by omega
      rw [hmid i (by omega) hc, pathOut_eq, if_neg c1, if_pos c2, if_pos hc]
    · have : i = n - 1 := by omega
      subst this
      rw [hlast, if_neg hc]
      rfl
  obtain ⟨f, rfl⟩ : ∃ f, fuel = f + 1 := ⟨fuel - 1, by omega⟩
  obtain ⟨f', rfl⟩ : ∃ f', f = f' + 1 := ⟨f - 1, by omega⟩
  have hrun := nodesAreMetOnlyOnce_chain H (n - 1) 1 (f' + 1) [0] (by omega) (by omega)
    (le_refl _) (by omega) (by intro x hx; simp at hx; omega)
  simp only [Nat.sub_self] at hrun
  have hmem : n - 1 ∈ (List.range' 1 (n - 1)).reverse ++ [0] := by
    simp only [List.mem_append, List.mem_reverse, List.mem_range'_1]
    left
    omega
  have hrun2 := nodesAreMetOnlyOnce_met hlast f' ((List.range' 1 (n - 1)).reverse ++ [0]) 0 hmem
  have hroot : (linkState g 0 (n - 1)).root_ = 0 := h.root_eq
  have hne1 : (1 : Nat) ≠ 0 := by omega
  have hne2 : n - 1 ≠ 0 := by omega
  simp only [isTree, hroot, nodesAreMetOnlyOnce_, h0, Bounded.andThen_of_returned,
    Option.map_after_nil, List.not_mem_nil, decide_False, Bool.not_false, if_false]
  rw [metOnlyOnceLoop_one _ hne1 _ _ _ _ hrun, metOnlyOnceLoop_one _ hne2 _ _ _ _ hrun2,
    metOnlyOnceLoop_nil]
  rfl

/-- In the undirected path closed by `link(0, n - 1)`, the traversal that
has met `0` and goes from `i` to `n - 1` comes back to `0` and returns `false`. -/
theorem nodesAreMetOnlyOnce_closed_chain {g : SimpleGraph} {n : Nat} (h3 : 3 ≤ n)
    (h0 : ∃ ns, getOutgoingNeighbors g 0 = .returned ns g [])
    (hmid : ∀ i, 0 < i → i + 1 < n → getOutgoingNeighbors g i = .returned [i - 1, i + 1] g [])
    (hlast : getOutgoingNeighbors g (n - 1) = .returned [0, n - 2] g []) :
    ∀ (m i fuel : Nat) (met : List Nat), i + m = n → 0 < m → 1 ≤ i → m + 1 ≤ fuel →
      0 ∈ met → (∀ x ∈ met, x < i) →
      ∃ met', nodesAreMetOnlyOnce_ fuel g i met (i - 1) = some (.returned (false, met') g []) := by
  intro m
  induction m with
  | zero => intro i fuel met _ h; omega
  | succ m ih =>
    intro i fuel met him _ hi1 hfuel hzero hmet
    obtain ⟨f, rfl⟩ : ∃ f, fuel = f + 1 := ⟨fuel - 1, by omega⟩
    have hnot : i ∉ met := fun hmem => lt_irrefl i (hmet i hmem)
    by_cases hlast' : i + 1 < n
    · have hmet' : ∀ x ∈ i :: met, x < i + 1 := by
        intro x hx
        rcases List.mem_cons.mp hx with rfl | hx
        · omega
        · have := hmet x hx
          omega
      obtain ⟨met', hrec⟩ := ih (i + 1) f (i :: met) (by omega) (by omega) (by omega)
        (by omega) (List.mem_cons_of_mem _ hzero) hmet'
      rw [Nat.add_sub_cancel] at hrec
      have hne : i + 1 ≠ i - 1 := by omega
      refine ⟨met', ?_⟩
      simp only [nodesAreMetOnlyOnce_, hmid i (by omega) hlast', Bounded.andThen_of_returned,
        Option.map_after_nil, hnot, decide_False, Bool.not_false, if_false]
      rw [metOnlyOnceLoop_skip, metOnlyOnceLoop_one _ hne _ _ _ _ hrec, metOnlyOnceLoop_nil]
    · have hi : i = n - 1 := by omega
      subst hi
      obtain ⟨f', rfl⟩ : ∃ f', f = f' + 1 := ⟨f - 1, by omega⟩
      obtain ⟨ns0, hns0⟩ := h0
      have hrec := nodesAreMetOnlyOnce_met hns0 f' ((n - 1) :: met) (n - 1)
        (List.mem_cons_of_mem _ hzero)
      have hne : (0 : Nat) ≠ n - 1 - 1 := by omega
      refine ⟨(n - 1) :: met, ?_⟩
      simp only [nodesAreMetOnlyOnce_, hlast, Bounded.andThen_of_returned,
        Option.map_after_nil, hnot, decide_False, Bool.not_false, if_false]
      rw [metOnlyOnceLoop_one _ hne _ _ _ _ hrec, metOnlyOnceLoop_false]

theorem isTree_undirected_cycle {n : Nat} {g : SimpleGraph} (h3 : 3 ≤ n)
    (h : IsPathPrefix false n (n - 1) g) (fuel : Nat) (hfuel : n < fuel) :
    isTree fuel (linkState g 0 (n - 1)) = some (.returned false (linkState g 0 (n - 1)) []) := by
  obtain ⟨h0, hmid, hlast⟩ := cycle_outgoing h3 h
  simp only [if_true] at hlast
  have hmid' : ∀ i, 0 < i → i + 1 < n →
      getOutgoingNeighbors (linkState g 0 (n - 1)) i =
        .returned [i - 1, i + 1] (linkState g 0 (n - 1)) [] := by
    intro i hi0 hin
    have c1 : false = false ∧ 0 < i ∧ i ≤ n - 1 := ⟨rfl, hi0, by omega⟩
    have c2 : i < n - 1 := by omega
    rw [hmid i hi0 hin, pathOut_eq, if_pos c1, if_pos c2]
    rfl
  obtain ⟨f, rfl⟩ : ∃ f, fuel = f + 1 := ⟨fuel - 1, by omega⟩
  obtain ⟨met', hrun⟩ := nodesAreMetOnlyOnce_closed_chain h3 ⟨_, h0⟩ hmid' hlast (n - 1) 1 f [0]
    (by omega) (by omega) (le_refl _) (by omega) (List.mem_singleton.mpr rfl)
    (by intro x hx; simp at hx; omega)
  simp only [Nat.sub_self] at hrun
  have hroot : (linkState g 0 (n - 1)).root_ = 0 := h.root_eq
  have hne1 : (1 : Nat) ≠ 0 := by omega
  simp only [isTree, hroot, nodesAreMetOnlyOnce_, h0, Bounded.andThen_of_returned,
    Option.map_after_nil, List.not_mem_nil, decide_False, Bool.not_false, if_false]
  rw [metOnlyOnceLoop_one _ hne1 _ _ _ _ hrun, metOnlyOnceLoop_false]
  rfl

/-! ## `isTree` and `getLeaves` on a path -/

/-- C14: for `3 ≤ n` (and `n` at most the number of `unsigned int` values, so
that `0 .. n - 1` are nodes), on a new graph, directed or undirected, the calls
that create the nodes `0 .. n - 1` and link them as a path by `link(i, i + 1)`
return and leave the root `0`; `isTree()` returns `true` on the graph they
leave, and after `link(0, n - 1)` it returns `false`, in both cases for every
bound above `n` on the depth of the recursion. -/
theorem isTree_path_and_cycle (directed : Bool) (n : Nat) (h3 : 3 ≤ n) (hM : n ≤ UINT_MOD) :
    ∃ ids g c, runCalls (SimpleGraph.new directed) (pathCalls n) = .returned ids g c ∧
      g.root_ = 0 ∧
      (∀ fuel, n < fuel → isTree fuel g = some (.returned true g [])) ∧
      ∃ e g', link g 0 (n - 1) = .returned e g' [] ∧
        ∀ fuel, n < fuel → isTree fuel g' = some (.returned false g' []) := by
  obtain ⟨ids, g, c, hrun, hpath⟩ := pathCalls_reaches directed n (by omega) hM
  obtain ⟨e, hlink⟩ := cycle_link h3 hpath
  refine ⟨ids, g, c, hrun, hpath.root_eq, ?_, e, _, hlink, ?_⟩
  · intro fuel hfuel
    exact isTree_path (by omega) hpath fuel (by omega)
  · intro fuel hfuel
    cases directed
    · exact isTree_undirected_cycle h3 hpath fuel hfuel
    · exact isTree_directed_cycle h3 hpath fuel hfuel

/-- Witness of C14: `n = 3`, the spec's instance, where the calls leave the
graphs `pathThree` and `cycleThree`. -/
theorem isTree_path_and_cycle_witness :
    (3 ≤ 3 ∧ 3 ≤ UINT_MOD) ∧
    (∃ ids g c, runCalls (SimpleGraph.new false) (pathCalls 3) = .returned ids g c ∧
      g.root_ = 0 ∧
      (∀ fuel, 3 < fuel → isTree fuel g = some (.returned true g [])) ∧
      ∃ e g', link g 0 (3 - 1) = .returned e g' [] ∧
        ∀ fuel, 3 < fuel → isTree fuel g' = some (.returned false g' [])) ∧
    runCalls (SimpleGraph.new false) (pathCalls 3) =
      .returned ([0, 1, 2], [1, 2]) (pathThree false) [] ∧
    isTree 4 (pathThree false) = some (.returned true (pathThree false) []) ∧
    isTree 4 (pathThree true) = some (.returned true (pathThree true) []) ∧
    isTree 4 (cycleThree false) = some (.returned false (cycleThree false) []) ∧
    isTree 4 (cycleThree true) = some (.returned false (cycleThree true) []) :=
  ⟨⟨le_refl 3, by decide⟩, isTree_path_and_cycle false 3 (le_refl 3) (by decide),
    rfl, rfl, rfl, rfl, rfl⟩

/-- C15 (counterexample): on the directed path `0 -> 1 -> 2` with root `0`,
`getLeaves()` returns `[0]`, which does not hold the end node `2`; on the
undirected path it returns the empty list. -/
theorem getLeaves_path_misses_end :
    runCalls (SimpleGraph.new true) (pathCalls 3) =
      .returned ([0, 1, 2], [1, 2]) (pathThree true) [] ∧
    (pathThree true).root_ = 0 ∧
    getLeaves 4 (pathThree true) = some (.returned [0] (pathThree true) []) ∧
    (2 : Node) ∉ [0] ∧
    getLeaves 4 (pathThree false) = some (.returned [] (pathThree false) []) :=
  ⟨rfl, rfl, rfl, by decide, rfl⟩

/-- C15 (amended): for `3 ≤ n` (and `n` at most the number of `unsigned int`
values), on a new directed graph the calls that create the nodes `0 .. n - 1`
and link them as a path by `link(i, i + 1)` return and leave the root `0`, and
on the graph they leave `getLeaves()` returns exactly `[0]`: the root has
the single neighbour `1`, so it is appended as a leaf and the traversal does
not go on.  This holds for every positive bound on the depth of the
recursion. -/
theorem getLeaves_directed_path (n : Nat) (h3 : 3 ≤ n) (hM : n ≤ UINT_MOD) :
    ∃ ids g c, runCalls (SimpleGraph.new true) (pathCalls n) = .returned ids g c ∧
      g.root_ = 0 ∧
      getNeighbors g 0 = .returned [1] g [] ∧
      ∀ fuel, getLeaves (fuel + 1) g = some (.returned [0] g []) := by
  obtain ⟨ids, g, c, hrun, hpath⟩ := pathCalls_reaches true n (by omega) hM
  have hn : getNeighbors g 0 = .returned [1] g [] := by
    have c1 : ¬ (0 < 0 ∧ 0 ≤ n - 1) := fun hc => absurd hc.1 (by omega)
    have c2 : ¬ (true = false ∧ 0 < n - 1) := fun hc => absurd hc.1 (by simp)
    have c3 : ¬ (true = false ∧ 0 < 0 ∧ 0 ≤ n - 1) := fun hc => absurd hc.1 (by simp)
    have c4 : 0 < n - 1 := by omega
    rw [isPathPrefix_neighbors hpath (by omega), pathIn_eq, pathOut_eq, if_neg c1, if_neg c2,
      if_neg c3, if_pos c4]
    rfl
  refine ⟨ids, g, c, hrun, hpath.root_eq, hn, ?_⟩
  intro fuel
  simp [getLeaves, fillListOfLeaves_, hpath.root_eq, hn]

/-- Witness of C15 (amended): `n = 3`. -/
theorem getLeaves_directed_path_witness :
    (3 ≤ 3 ∧ 3 ≤ UINT_MOD) ∧
    ∃ ids g c, runCalls (SimpleGraph.new true) (pathCalls 3) = .returned ids g c ∧
      g.root_ = 0 ∧
      getNeighbors g 0 = .returned [1] g [] ∧
      ∀ fuel, getLeaves (fuel + 1) g = some (.returned [0] g []) :=
  ⟨⟨le_refl 3, by decide⟩, getLeaves_directed_path 3 (le_refl 3) (by decide)⟩

/-! ## Invariant 1 -/

theorem outAt_addRelation {ns : UMap NodeRow} {a b : Node} {ra : NodeRow} (e : Edge)
    (ha : mapFind ns a = some ra) (x y : Node) :
    outAt (addRelation ns a b e) x y =
      if x = a ∧ y = b then some ((outAt ns a b).getD e) else outAt ns x y := by
  unfold outAt
  rw [mapFind_addRelation]
  by_cases hx : x = a
  · subst hx
    simp only [ha, Option.map_some', Option.some_bind, if_true, mapFind_mapInsert, true_and]
  · simp only [hx, false_and, if_false]
    cases mapFind ns x <;> simp

theorem inAt_addRelation {ns : UMap NodeRow} {a b : Node} {rb : NodeRow} (e : Edge)
    (hb : mapFind ns b = some rb) (x y : Node) :
    inAt (addRelation ns a b e) x y =
      if x = b ∧ y = a then some ((inAt ns b a).getD e) else inAt ns x y := by
  unfold inAt
  rw [mapFind_addRelation]
  by_cases hx : x = b
  · subst hx
    simp only [hb, Option.map_some', Option.some_bind, if_true, mapFind_mapInsert, true_and]
  · simp only [hx, false_and, if_false]
    cases mapFind ns x <;> simp

theorem outAt_removeRelation (ns : UMap NodeRow) (a b x y : Node) :
    outAt (removeRelation ns a b) x y = if x = a ∧ y = b then none else outAt ns x y := by
  unfold outAt
  rw [mapFind_removeRelation]
  by_cases hx : x = a
  · subst hx
    cases mapFind ns x <;> simp [mapFind_mapErase]
  · simp only [hx, false_and, if_false]
    cases mapFind ns x <;> simp

theorem inAt_removeRelation (ns : UMap NodeRow) (a b x y : Node) :
    inAt (removeRelation ns a b) x y = if x = b ∧ y = a then none else inAt ns x y := by
  unfold inAt
  rw [mapFind_removeRelation]
  by_cases hx : x = b
  · subst hx
    cases mapFind ns x <;> simp [mapFind_mapErase]
  · simp only [hx, false_and, if_false]
    cases mapFind ns x <;> simp

theorem mapFind_createNodeState (g : SimpleGraph) (x : Node) :
    mapFind (createNodeState g).nodeStructure_ x =
      if x = g.highestNodeID_ ∧ mapFind g.nodeStructure_ x = none then some ([], [])
      else mapFind g.nodeStructure_ x := by
  show mapFind (mapIndex g.nodeStructure_ g.highestNodeID_ ([], [])).2 x = _
  unfold mapIndex
  cases h : mapFind g.nodeStructure_ g.highestNodeID_ with
  | some row =>
    by_cases hx : x = g.highestNodeID_
    · subst hx; simp [h]
    · simp [hx]
  | none =>
    simp only [mapFind_mapPut _ _ _ _ h]
    by_cases hx : x = g.highestNodeID_
    · subst hx; simp [h]
    · simp [hx]

theorem outAt_createNodeState (g : SimpleGraph) (x y : Node) :
    outAt (createNodeState g).nodeStructure_ x y = outAt g.nodeStructure_ x y := by
  unfold outAt
  rw [mapFind_createNodeState]
  split
  · rename_i h
    simp [h.2, mapFind]
  · rfl

theorem inAt_createNodeState (g : SimpleGraph) (x y : Node) :
    inAt (createNodeState g).nodeStructure_ x y = inAt g.nodeStructure_ x y := by
  unfold inAt
  rw [mapFind_createNodeState]
  split
  · rename_i h
    simp [h.2, mapFind]
  · rfl

theorem outAt_mapErase (ns : UMap NodeRow) (n x y : Node) :
    outAt (mapErase ns n) x y = if x = n then none else outAt ns x y := by
  unfold outAt
  rw [mapFind_mapErase]
  split <;> rfl

theorem inAt_mapErase (ns : UMap NodeRow) (n x y : Node) :
    inAt (mapErase ns n) x y = if x = n then none else inAt ns x y := by
  unfold inAt
  rw [mapFind_mapErase]
  split <;> rfl

/-- What a returning `link` did. -/
theorem link_returned {g g' : SimpleGraph} {a b : Node} {e : Edge} {c : List Callback}
    (h : link g a b = .returned e g' c) :
    ∃ ra rb, mapFind g.nodeStructure_ a = some ra ∧ mapFind g.nodeStructure_ b = some rb ∧
      e = (g.highestEdgeID_ + 1) % UINT_MOD ∧ g' = linkState g a b := by
  cases ha : mapFind g.nodeStructure_ a with
  | none => rw [link_of_absent_first b ha] at h; cases h
  | some ra =>
    cases hb : mapFind g.nodeStructure_ b with
    | none => rw [link_of_absent_second ha hb] at h; cases h
    | some rb =>
      rw [link_of_find ha hb] at h
      simp only [Result.returned.injEq] at h
      exact ⟨ra, rb, rfl, rfl, h.1.symm, h.2.1.symm⟩

/-- What a returning `unlinkInNodeStructure_` did. -/
theorem unlinkInNodeStructure_returned {g g' : SimpleGraph} {a b : Node} {e : Edge}
    {c : List Callback} (h : unlinkInNodeStructure_ g a b = .returned e g' c) :
    outAt g.nodeStructure_ a b = some e ∧
      g' = { g with nodeStructure_ := removeRelation g.nodeStructure_ a b } := by
  unfold unlinkInNodeStructure_ at h
  dsimp only at h
  split at h
  · cases h
  · rename_i rowA hA
    split at h
    · cases h
    · rename_i foundEdge hOut
      split at h
      · cases h
      · split at h
        · cases h
        · simp only [Result.returned.injEq] at h
          refine ⟨?_, h.2.1.symm⟩
          simp [outAt, hA, hOut, h.1]

/-- What a returning `unlink` did. -/
theorem unlink_returned {g g' : SimpleGraph} {a b : Node} {v : List Edge} {c : List Callback}
    (h : unlink g a b = .returned v g' c) :
    ∃ e, outAt g.nodeStructure_ a b = some e ∧ g' = unlinkState g a b e := by
  unfold unlink at h
  obtain ⟨_, g1, _, _, h1, h, -⟩ := Result.andThen_eq_returned h
  have e1 := Result.Returns_of_eq (nodeMustExist_returns g a _) h1
  subst e1
  obtain ⟨_, g1, _, _, h1, h, -⟩ := Result.andThen_eq_returned h
  have e1 := Result.Returns_of_eq (nodeMustExist_returns g b _) h1
  subst e1
  obtain ⟨e, g1, _, _, h1, h, -⟩ := Result.andThen_eq_returned h
  obtain ⟨hout, rfl⟩ := unlinkInNodeStructure_returned h1
  refine ⟨e, hout, ?_⟩
  obtain ⟨_, g2, _, _, h2, h, -⟩ := Result.andThen_eq_returned h
  simp only [unlinkEdgesLoop, unlinkInEdgeStructure_] at h2
  split at h2
  · cases h2
  · simp only [Result.andThen_returned, Result.after_returned, Result.returned.injEq] at h2
    obtain ⟨-, rfl, -⟩ := h2
    simp only [notifyDeletedEdges, Result.andThen_returned, Result.after_returned,
      Result.returned.injEq] at h
    exact h.2.1.symm

theorem edgesInAdjacency_createNodeState {g : SimpleGraph} (h : EdgesInAdjacency g) :
    EdgesInAdjacency (createNodeState g) := by
  intro e a b he
  have := h e a b he
  show outAt (createNodeState g).nodeStructure_ a b = some e ∧
    (if g.directed_ = true then inAt (createNodeState g).nodeStructure_ b a = some e
     else outAt (createNodeState g).nodeStructure_ b a = some e)
  simpa only [outAt_createNodeState, inAt_createNodeState] using this

theorem noEntry_createNodeState {g : SimpleGraph} {a b : Node} (h : NoEntry g a b) :
    NoEntry (createNodeState g) a b := by
  show outAt (createNodeState g).nodeStructure_ a b = none ∧
    (if g.directed_ = true then inAt (createNodeState g).nodeStructure_ b a = none
     else outAt (createNodeState g).nodeStructure_ b a = none)
  simpa only [outAt_createNodeState, inAt_createNodeState] using h

/-- Entries of the outgoing maps after a `link` on a pair without entry. -/
theorem outAt_linkState {g : SimpleGraph} {a b : Node} {ra rb : NodeRow}
    (ha : mapFind g.nodeStructure_ a = some ra) (hb : mapFind g.nodeStructure_ b = some rb)
    (hno : NoEntry g a b) (x y : Node) :
    outAt (linkState g a b).nodeStructure_ x y =
      if (x = a ∧ y = b) ∨ (g.directed_ = false ∧ x = b ∧ y = a) then
        some ((g.highestEdgeID_ + 1) % UINT_MOD)
      else outAt g.nodeStructure_ x y := by
  obtain ⟨h1, h2⟩ := hno
  cases hd : g.directed_
  · simp only [hd, Bool.false_eq_true, if_false] at h2
    have hb' : ∃ r, mapFind (addRelation g.nodeStructure_ a b
        ((g.highestEdgeID_ + 1) % UINT_MOD)) b = some r := by
      rw [mapFind_addRelation, hb]; exact ⟨_, rfl⟩
    obtain ⟨r, hr⟩ := hb'
    have key : ((if b = a ∧ a = b then some ((g.highestEdgeID_ + 1) % UINT_MOD)
        else (none : Option Edge)).getD ((g.highestEdgeID_ + 1) % UINT_MOD)) =
        (g.highestEdgeID_ + 1) % UINT_MOD := by
      split <;> rfl
    simp only [linkState, hd, Bool.false_eq_true, if_false, outAt_addRelation _ hr,
      outAt_addRelation _ ha, h1, h2, true_and, Option.getD_none, key]
    by_cases c1 : x = b ∧ y = a
    · simp [c1]
    · by_cases c2 : x = a ∧ y = b
      · simp [c2]
      · simp [c1, c2]
  · simp [linkState, hd, outAt_addRelation _ ha, h1]

/-- Entries of the incoming maps after a `link` on a pair without entry in a
directed graph. -/
theorem inAt_linkState {g : SimpleGraph} {a b : Node} {rb : NodeRow}
    (hd : g.directed_ = true) (hb : mapFind g.nodeStructure_ b = some rb)
    (hno : NoEntry g a b) (x y : Node) :
    inAt (linkState g a b).nodeStructure_ x y =
      if x = b ∧ y = a then some ((g.highestEdgeID_ + 1) % UINT_MOD)
      else inAt g.nodeStructure_ x y := by
  obtain ⟨-, h2⟩ := hno
  simp only [hd, if_true] at h2
  simp only [linkState, hd, if_true, inAt_addRelation _ hb, h2, Option.getD_none]

theorem edgesInAdjacency_link {g g' : SimpleGraph} {a b : Node} {e : Edge}
    {c : List Callback} (h : EdgesInAdjacency g) (hno : NoEntry g a b)
    (hl : link g a b = .returned e g' c) : EdgesInAdjacency g' := by
  obtain ⟨ra, rb, ha, hb, -, rfl⟩ := link_returned hl
  intro e' a' b' he'
  have hes : mapFind (linkState g a b).edgeStructure_ e' =
      if e' = (g.highestEdgeID_ + 1) % UINT_MOD then some (a, b)
      else mapFind g.edgeStructure_ e' := by
    simp [linkState, mapFind_mapAssign]
  have hdir : (linkState g a b).directed_ = g.directed_ := rfl
  rw [hes] at he'
  rw [hdir, outAt_linkState ha hb hno, outAt_linkState ha hb hno]
  by_cases hee : e' = (g.highestEdgeID_ + 1) % UINT_MOD
  · rw [if_pos hee] at he'
    simp only [Option.some.injEq, Prod.mk.injEq] at he'
    obtain ⟨rfl, rfl⟩ := he'
    subst hee
    cases hd : g.directed_
    · simp
    · simp [inAt_linkState hd hb hno]
  · rw [if_neg hee] at he'
    obtain ⟨ho, hi⟩ := h e' a' b' he'
    obtain ⟨n1, n2⟩ := hno
    cases hd : g.directed_
    · simp only [hd, Bool.false_eq_true, if_false] at hi n2 ⊢
      have c1 : ¬ (a' = a ∧ b' = b) := by
        rintro ⟨rfl, rfl⟩; rw [n1] at ho; cases ho
      have c2 : ¬ (a' = b ∧ b' = a) := by
        rintro ⟨rfl, rfl⟩; rw [n2] at ho; cases ho
      have c3 : ¬ (b' = a ∧ a' = b) := fun hc => c2 ⟨hc.2, hc.1⟩
      have c4 : ¬ (b' = b ∧ a' = a) := fun hc => c1 ⟨hc.2, hc.1⟩
      simp [c1, c2, c3, c4, ho, hi]
    · simp only [hd, if_true] at hi n2 ⊢
      have c1 : ¬ (a' = a ∧ b' = b) := by
        rintro ⟨rfl, rfl⟩; rw [n1] at ho; cases ho
      have c4 : ¬ (b' = b ∧ a' = a) := fun hc => c1 ⟨hc.2, hc.1⟩
      rw [inAt_linkState hd hb ⟨n1, by simpa [hd] using n2⟩]
      simp [c1, c4, ho, hi]

theorem edgesInAdjacency_unlink {g g' : SimpleGraph} {a b : Node} {v : List Edge}
    {c : List Callback} (h : EdgesInAdjacency g) (hu : unlink g a b = .returned v g' c) :
    EdgesInAdjacency g' := by
  obtain ⟨e0, hout, rfl⟩ := unlink_returned hu
  intro e' a' b' he'
  have hes : mapFind (unlinkState g a b e0).edgeStructure_ e' =
      if e' = e0 then none else mapFind g.edgeStructure_ e' := by
    simp [unlinkState, mapFind_mapErase]
  rw [hes] at he'
  by_cases hee : e' = e0
  · rw [if_pos hee] at he'; cases he'
  · rw [if_neg hee] at he'
    obtain ⟨ho, hi⟩ := h e' a' b' he'
    have c1 : ¬ (a' = a ∧ b' = b) := by
      rintro ⟨rfl, rfl⟩
      rw [hout] at ho
      exact hee (Option.some.inj ho).symm
    have c4 : ¬ (b' = b ∧ a' = a) := fun hc => c1 ⟨hc.2, hc.1⟩
    show outAt (removeRelation g.nodeStructure_ a b) a' b' = some e' ∧
      (if g.directed_ = true then inAt (removeRelation g.nodeStructure_ a b) b' a' = some e'
       else outAt (removeRelation g.nodeStructure_ a b) b' a' = some e')
    rw [outAt_removeRelation, outAt_removeRelation, inAt_removeRelation, if_neg c1, if_neg c4]
    refine ⟨ho, ?_⟩
    cases hd : g.directed_
    · simp only [hd, Bool.false_eq_true, if_false] at hi ⊢
      have c2 : ¬ (b' = a ∧ a' = b) := by
        rintro ⟨rfl, rfl⟩
        rw [hout] at hi
        exact hee (Option.some.inj hi).symm
      rw [if_neg c2]
      exact hi
    · simpa only [hd, if_true] using hi

/-- What a returning loop of `isolate_` did to the rows of `node`: the
neighbours it was given are distinct, each had an entry in the outgoing map
of `node`, these entries are gone, and no entry was added. -/
theorem isolateLoop_returned (node : Node) (list : List Node) :
    ∀ (g g1 : SimpleGraph) (c : List Callback),
      isolateLoop node g list = .returned () g1 c →
      (EdgesInAdjacency g → EdgesInAdjacency g1) ∧
      g1.directed_ = g.directed_ ∧
      list.Nodup ∧
      (∀ y ∈ list, ∃ e, outAt g.nodeStructure_ node y = some e) ∧
      (∀ y, outAt g1.nodeStructure_ node y =
        if y ∈ list then none else outAt g.nodeStructure_ node y) ∧
      (∀ y, inAt g.nodeStructure_ node y = none → inAt g1.nodeStructure_ node y = none) := by
  induction list with
  | nil =>
    intro g g1 c h
    simp only [isolateLoop, Result.returned.injEq] at h
    obtain ⟨-, rfl, -⟩ := h
    refine ⟨id, rfl, List.nodup_nil, ?_, ?_, ?_⟩
    · intro y hy
      cases hy
    · intro y
      simp
    · intro y hy
      exact hy
  | cons m rest ih =>
    intro g g1 c h
    unfold isolateLoop at h
    obtain ⟨v, g2, c2, c3, hu, hrest, -⟩ := Result.andThen_eq_returned h
    obtain ⟨e0, hout, hg2⟩ := unlink_returned hu
    obtain ⟨i1, i2, i3, i4, i5, i6⟩ := ih g2 g1 c3 hrest
    have hout2 : ∀ y, outAt g2.nodeStructure_ node y =
        if y = m then none else outAt g.nodeStructure_ node y := by
      intro y
      rw [hg2]
      show outAt (removeRelation g.nodeStructure_ node m) node y = _
      rw [outAt_removeRelation]
      simp
    have hin2 : ∀ y, inAt g.nodeStructure_ node y = none →
        inAt g2.nodeStructure_ node y = none := by
      intro y hy
      rw [hg2]
      show inAt (removeRelation g.nodeStructure_ node m) node y = _
      rw [inAt_removeRelation]
      split
      · rfl
      · exact hy
    refine ⟨fun h0 => i1 (edgesInAdjacency_unlink h0 hu), ?_, ?_, ?_, ?_, ?_⟩
    · rw [i2, hg2]; rfl
    · rw [List.nodup_cons]
      refine ⟨?_, i3⟩
      intro hm
      obtain ⟨e, he⟩ := i4 m hm
      rw [hout2 m, if_pos rfl] at he
      cases he
    · intro y hy
      rcases List.mem_cons.mp hy with rfl | hy
      · exact ⟨e0, hout⟩
      · obtain ⟨e, he⟩ := i4 y hy
        rw [hout2 y] at he
        split at he
        · cases he
        · exact ⟨e, he⟩
    · intro y
      rw [i5 y, hout2 y]
      by_cases h1 : y ∈ rest
      · simp [h1]
      · by_cases h2 : y = m
        · simp [h2]
        · simp [h1, h2]
    · intro y hy
      exact i6 y (hin2 y hy)

/-- What a returning `deleteNode` did. -/
theorem deleteNode_returned {g g' : SimpleGraph} {node : Node} {c : List Callback}
    (h : deleteNode g node = .returned () g' c) :
    ∃ row g1 c1, mapFind g.nodeStructure_ node = some row ∧
      isolateLoop node g (mapKeys row.2 ++ mapKeys row.1) = .returned () g1 c1 ∧
      g'.nodeStructure_ = mapErase g1.nodeStructure_ node ∧
      g'.edgeStructure_ = g1.edgeStructure_ ∧ g'.directed_ = g1.directed_ := by
  unfold deleteNode at h
  obtain ⟨_, g0, _, _, h1, h, -⟩ := Result.andThen_eq_returned h
  have e1 := Result.Returns_of_eq (nodeMustExist_returns g node _) h1
  subst e1
  cases hrow : mapFind g.nodeStructure_ node with
  | none => rw [nodeMustExist_of_absent _ hrow] at h1; cases h1
  | some row =>
    obtain ⟨_, g1, c1, _, h2, h, -⟩ := Result.andThen_eq_returned h
    unfold isolate_ at h2
    rw [getNeighbors_of_row hrow] at h2
    simp only [Result.andThen_returned, Result.after_nil] at h2
    refine ⟨row, g1, c1, rfl, h2, ?_⟩
    split at h
    · cases h
    · simp only [Result.returned.injEq] at h
      obtain ⟨-, rfl, -⟩ := h
      exact ⟨rfl, rfl, rfl⟩

theorem edgesInAdjacency_deleteNode {g g' : SimpleGraph} {node : Node} {c : List Callback}
    (h : EdgesInAdjacency g) (hd : deleteNode g node = .returned () g' c) :
    EdgesInAdjacency g' := by
  obtain ⟨row, g1, c1, hrow, hloop, hns, hes, hdir⟩ := deleteNode_returned hd
  obtain ⟨i1, i2, i3, i4, i5, i6⟩ := isolateLoop_returned node _ g g1 c1 hloop
  have hinEmpty : ∀ y, y ∉ mapKeys row.2 := by
    intro y hy
    obtain ⟨e, he⟩ := i4 y (List.mem_append_left _ hy)
    have hy1 : y ∈ mapKeys row.1 := by
      rw [mem_mapKeys_iff]
      simp only [outAt, hrow, Option.some_bind] at he
      exact ⟨e, he⟩
    exact (List.nodup_append.mp i3).2.2 hy hy1
  have hin : ∀ y, inAt g1.nodeStructure_ node y = none := by
    intro y
    apply i6
    simp only [inAt, hrow, Option.some_bind]
    exact (mapFind_eq_none_iff _ _).mpr (hinEmpty y)
  have hout : ∀ y, outAt g1.nodeStructure_ node y = none := by
    intro y
    rw [i5 y]
    split
    · rfl
    · rename_i hy
      simp only [outAt, hrow, Option.some_bind]
      exact (mapFind_eq_none_iff _ _).mpr fun hmem => hy (List.mem_append_right _ hmem)
  have h1 := i1 h
  intro e a b he
  rw [hes] at he
  obtain ⟨ho, hi⟩ := h1 e a b he
  have ha : a ≠ node := by
    rintro rfl
    rw [hout b] at ho
    cases ho
  rw [hns, hdir, outAt_mapErase, outAt_mapErase, inAt_mapErase, if_neg ha]
  refine ⟨ho, ?_⟩
  cases hd1 : g1.directed_
  · simp only [hd1, Bool.false_eq_true, if_false] at hi ⊢
    have hb : b ≠ node := by
      rintro rfl
      rw [hout a] at hi
      cases hi
    rw [if_neg hb]
    exact hi
  · simp only [hd1, if_true] at hi ⊢
    have hb : b ≠ node := by
      rintro rfl
      rw [hin a] at hi
      cases hi
    rw [if_neg hb]
    exact hi

theorem edgesInAdjacency_createNodeFromNode {g g' : SimpleGraph} {origin : Node} {n : Node}
    {c : List Callback} (h : EdgesInAdjacency g) (hno : NoEntry g origin g.highestNodeID_)
    (hc : createNodeFromNode g origin = .returned n g' c) : EdgesInAdjacency g' := by
  unfold createNodeFromNode at hc
  obtain ⟨_, g0, _, _, h1, hc, -⟩ := Result.andThen_eq_returned hc
  have e1 := Result.Returns_of_eq (nodeMustExist_returns g origin _) h1
  subst e1
  rw [createNode_eq_state] at hc
  simp only [Result.andThen_returned, Result.after_nil] at hc
  obtain ⟨e, g2, _, _, hl, hc, -⟩ := Result.andThen_eq_returned hc
  simp only [Result.returned.injEq] at hc
  obtain ⟨-, rfl, -⟩ := hc
  exact edgesInAdjacency_link (edgesInAdjacency_createNodeState h)
    (noEntry_createNodeState hno) hl

theorem Result.discard_eq_returned {α : Type} {r : Result α} {g : SimpleGraph}
    {c : List Callback} (h : r.discard = .returned () g c) : ∃ v, r = .returned v g c := by
  unfold Result.discard at h
  obtain ⟨v, g1, c1, c2, h1, h2, hc⟩ := Result.andThen_eq_returned h
  simp only [Result.returned.injEq] at h2
  obtain ⟨-, rfl, rfl⟩ := h2
  refine ⟨v, ?_⟩
  rw [h1, hc, List.append_nil]

theorem linkInNodeStructure_cleared {g : SimpleGraph} (h : g.nodeStructure_ = []) (a b : Node)
    (e : Edge) : linkInNodeStructure_ g a b e = .undefinedBehavior := by
  unfold linkInNodeStructure_
  rw [h]
  rfl

theorem makeUndirectedInnerLoop_cleared {g g' : SimpleGraph} {nodeA : Node} {rels : UMap Edge}
    {c : List Callback} (h : g.nodeStructure_ = [])
    (hr : makeUndirectedInnerLoop nodeA g rels = .returned () g' c) : rels = [] ∧ g' = g := by
  cases rels with
  | nil =>
    simp only [makeUndirectedInnerLoop, Result.returned.injEq] at hr
    exact ⟨rfl, hr.2.1.symm⟩
  | cons p rest =>
    obtain ⟨nodeB, edge⟩ := p
    unfold makeUndirectedInnerLoop at hr
    rw [linkInNodeStructure_cleared h] at hr
    cases hr

theorem makeUndirectedOuterLoop_cleared (rows : UMap NodeRow) :
    ∀ {g g' : SimpleGraph} {c : List Callback}, g.nodeStructure_ = [] →
      makeUndirectedOuterLoop g rows = .returned () g' c →
      g' = g ∧ ∀ p ∈ rows, p.2.1 = [] := by
  induction rows with
  | nil =>
    intro g g' c _ hr
    simp only [makeUndirectedOuterLoop, Result.returned.injEq] at hr
    exact ⟨hr.2.1.symm, fun p hp => by cases hp⟩
  | cons p rest ih =>
    intro g g' c h hr
    obtain ⟨nodeA, row⟩ := p
    unfold makeUndirectedOuterLoop at hr
    obtain ⟨_, g1, c1, c2, h1, h2, -⟩ := Result.andThen_eq_returned hr
    obtain ⟨hrow, rfl⟩ := makeUndirectedInnerLoop_cleared h h1
    obtain ⟨hg, hrest⟩ := ih h h2
    refine ⟨hg, ?_⟩
    intro p hp
    rcases List.mem_cons.1 hp with rfl | hp
    · exact hrow
    · exact hrest p hp

/-- A returning `makeUndirected` keeps Invariant 1: on an undirected graph it
changes nothing, and on a directed graph it returns only when no row of the
node structure has an outgoing relation, in which case the invariant says that
the edge table holds no record. -/
theorem edgesInAdjacency_makeUndirected {g g' : SimpleGraph} {c : List Callback}
    (h : EdgesInAdjacency g) (hm : makeUndirected g = .returned () g' c) :
    EdgesInAdjacency g' := by
  unfold makeUndirected at hm
  cases hd : g.directed_
  · simp only [hd, Bool.not_false, if_true, Result.returned.injEq] at hm
    obtain ⟨-, rfl, -⟩ := hm
    exact h
  · simp only [hd, Bool.not_true, Bool.false_eq_true, if_false, containsReciprocalRelations,
      Result.andThen, Result.after_nil] at hm
    split at hm
    · cases hm
    · obtain ⟨_, g1, c1, c2, h1, h2, -⟩ := Result.andThen_eq_returned hm
      obtain ⟨rfl, hrows⟩ := makeUndirectedOuterLoop_cleared g.nodeStructure_ rfl h1
      simp only [Result.returned.injEq] at h2
      obtain ⟨-, rfl, -⟩ := h2
      intro e a b he
      exfalso
      have ho := (h e a b he).1
      unfold outAt at ho
      cases hfa : mapFind g.nodeStructure_ a with
      | none => rw [hfa] at ho; cases ho
      | some row =>
        rw [hfa] at ho
        have hr := hrows _ (mem_of_mapFind hfa)
        change mapFind row.1 b = some e at ho
        change row.1 = [] at hr
        rw [hr] at ho
        cases ho

theorem edgesInAdjacency_applyMutation {g g' : SimpleGraph} {m : Mutation}
    {c : List Callback} (h : EdgesInAdjacency g) (hm : Conforms g m)
    (ha : applyMutation g m = .returned () g' c) : EdgesInAdjacency g' := by
  cases m with
  | createNode =>
    obtain ⟨v, hv⟩ := Result.discard_eq_returned ha
    rw [createNode_eq_state] at hv
    simp only [Result.returned.injEq] at hv
    obtain ⟨-, rfl, -⟩ := hv
    exact edgesInAdjacency_createNodeState h
  | link a b =>
    obtain ⟨v, hv⟩ := Result.discard_eq_returned ha
    exact edgesInAdjacency_link h hm hv
  | unlink a b =>
    obtain ⟨v, hv⟩ := Result.discard_eq_returned ha
    exact edgesInAdjacency_unlink h hv
  | deleteNode n =>
    obtain ⟨v, hv⟩ := Result.discard_eq_returned ha
    exact edgesInAdjacency_deleteNode h hv
  | createNodeFromNode o =>
    obtain ⟨v, hv⟩ := Result.discard_eq_returned ha
    exact edgesInAdjacency_createNodeFromNode h hm hv
  | createNodeOnEdge e => exact absurd hm id
  | makeDirected => exact absurd hm id
  | makeUndirected => exact edgesInAdjacency_makeUndirected h ha

theorem edgesInAdjacency_runMutations (ms : List Mutation) :
    ∀ (g g' : SimpleGraph) (c : List Callback), EdgesInAdjacency g → ConformingRun g ms →
      runMutations g ms = .returned () g' c → EdgesInAdjacency g' := by
  induction ms with
  | nil =>
    intro g g' c h _ hr
    simp only [runMutations, Result.returned.injEq] at hr
    obtain ⟨-, rfl, -⟩ := hr
    exact h
  | cons m rest ih =>
    intro g g' c h hc hr
    unfold runMutations at hr
    obtain ⟨_, g1, c1, c2, h1, h2, -⟩ := Result.andThen_eq_returned hr
    exact ih g1 g' c2 (edgesInAdjacency_applyMutation h hc.1 h1) (hc.2 g1 c1 h1) h2

theorem conformingRun_cons {g : SimpleGraph} {m : Mutation} {rest : List Mutation}
    (g1 : SimpleGraph) (c1 : List Callback) (hm : Conforms g m)
    (h1 : applyMutation g m = .returned () g1 c1)
    (hrest : ConformingRun g1 rest) : ConformingRun g (m :: rest) := by
  refine ⟨hm, ?_⟩
  intro g' c h
  rw [h1] at h
  simp only [Result.returned.injEq] at h
  obtain ⟨-, rfl, -⟩ := h
  exact hrest

/-- The two mutations that the amended Invariant 1 leaves out break it when
they return: after `createNode()`, `link(0, 0)`, `makeDirected()` on a new
undirected graph the edge table holds the record `1 -> (0, 0)` and the node
structure is empty, and after `createNode()`, `link(0, 0)`,
`createNodeOnEdge(7)` on a new directed graph the edge table holds the record
`7 -> (0, 0)` while the outgoing map of `0` has no entry for `0`. -/
theorem excluded_mutations_break_invariant :
    (runMutations (SimpleGraph.new false) [.createNode, .link 0 0, .makeDirected] =
        .returned () selfLoopCleared [] ∧
      ConformingRun (SimpleGraph.new false) [.createNode, .link 0 0] ∧
      mapFind selfLoopCleared.edgeStructure_ 1 = some (0, 0) ∧
      outAt selfLoopCleared.nodeStructure_ 0 0 = none ∧
      ¬ EdgesInAdjacency selfLoopCleared) ∧
    (runMutations (SimpleGraph.new true) [.createNode, .link 0 0, .createNodeOnEdge 7] =
        .returned () absentEdgeRegistered [] ∧
      ConformingRun (SimpleGraph.new true) [.createNode, .link 0 0] ∧
      mapFind absentEdgeRegistered.edgeStructure_ 7 = some (0, 0) ∧
      outAt absentEdgeRegistered.nodeStructure_ 0 0 = none ∧
      ¬ EdgesInAdjacency absentEdgeRegistered) := by
  refine ⟨⟨rfl, ?_, rfl, rfl, ?_⟩, ⟨rfl, ?_, rfl, rfl, ?_⟩⟩
  · refine conformingRun_cons _ [] trivial rfl ?_
    refine conformingRun_cons _ [] ⟨rfl, rfl⟩ rfl ?_
    trivial
  · intro h
    have := (h 1 0 0 rfl).1
    revert this
    decide
  · refine conformingRun_cons _ [] trivial rfl ?_
    refine conformingRun_cons _ [] ⟨rfl, rfl⟩ rfl ?_
    trivial
  · intro h
    have := (h 7 0 0 rfl).1
    revert this
    decide

/-- C20 (counterexample): on a new directed graph `createNode()`, `createNode()`,
`link(0, 1)`, `link(0, 1)` all return; afterwards the edge table holds the
record `2 -> (0, 1)`, but the outgoing map of `0` maps `1` to the edge `1` of
the first call and the incoming map of `1` maps `0` to `1` as well, because
`std::map::insert` keeps an existing entry. -/
theorem second_link_breaks_invariant :
    runMutations (SimpleGraph.new true) [.createNode, .createNode, .link 0 1, .link 0 1] =
      .returned () twoNodesLinkedTwice [] ∧
    mapFind twoNodesLinkedTwice.edgeStructure_ 2 = some (0, 1) ∧
    outAt twoNodesLinkedTwice.nodeStructure_ 0 1 = some 1 ∧
    inAt twoNodesLinkedTwice.nodeStructure_ 1 0 = some 1 ∧
    ¬ EdgesInAdjacency twoNodesLinkedTwice := by
  refine ⟨rfl, rfl, rfl, rfl, ?_⟩
  intro h
  have := (h 2 0 1 rfl).1
  revert this
  decide

/-- C20 (amended): in every state that a returning run of `createNode`, `link`,
`unlink`, `deleteNode`, `createNodeFromNode` and `makeUndirected` calls
reaches from a new graph, where `link(a, b)` (also the one inside
`createNodeFromNode`) is only called when the outgoing map of `a` has no entry for `b` and the incoming map
of `b` (directed) or the outgoing map of `b` (undirected) has none for `a`,
Invariant 1 holds: for every record `e -> (a, b)` of the edge table the
outgoing map of `a` maps `b` to `e`, and the incoming map of `b` maps `a` to
`e` when the graph is directed, the outgoing map of `b` maps `a` to `e` when
it is undirected. -/
theorem edges_in_adjacency_invariant (directed : Bool) (ms : List Mutation)
    (g : SimpleGraph) (c : List Callback)
    (hrun : runMutations (SimpleGraph.new directed) ms = .returned () g c)
    (hconf : ConformingRun (SimpleGraph.new directed) ms) :
    ∀ e a b, mapFind g.edgeStructure_ e = some (a, b) →
      outAt g.nodeStructure_ a b = some e ∧
      (if g.directed_ = true then inAt g.nodeStructure_ b a = some e
       else outAt g.nodeStructure_ b a = some e) := by
  have h0 : EdgesInAdjacency (SimpleGraph.new directed) := by
    intro e a b he
    cases he
  exact edgesInAdjacency_runMutations ms _ g c h0 hconf hrun

/-- Witness of C20 (amended): a run with a `createNodeFromNode`, an `unlink` and a
`deleteNode` on a new directed graph, and a run with two `makeUndirected` calls
that leaves the undirected path on three nodes. -/
theorem edges_in_adjacency_invariant_witness :
    (runMutations (SimpleGraph.new true)
        [.createNode, .createNode, .link 0 1, .createNodeFromNode 1, .unlink 0 1,
         .deleteNode 0] = .returned () oneEdgeLeft [] ∧
    ConformingRun (SimpleGraph.new true)
        [.createNode, .createNode, .link 0 1, .createNodeFromNode 1, .unlink 0 1,
         .deleteNode 0] ∧
    mapFind oneEdgeLeft.edgeStructure_ 2 = some (1, 2) ∧
    (outAt oneEdgeLeft.nodeStructure_ 1 2 = some 2 ∧
      (if oneEdgeLeft.directed_ = true then inAt oneEdgeLeft.nodeStructure_ 2 1 = some 2
       else outAt oneEdgeLeft.nodeStructure_ 2 1 = some 2))) ∧
    (runMutations (SimpleGraph.new true)
        [.makeUndirected, .createNode, .createNode, .link 0 1, .makeUndirected,
         .createNodeFromNode 1] = .returned () (pathThree false) [] ∧
    ConformingRun (SimpleGraph.new true)
        [.makeUndirected, .createNode, .createNode, .link 0 1, .makeUndirected,
         .createNodeFromNode 1] ∧
    mapFind (pathThree false).edgeStructure_ 2 = some (1, 2) ∧
    (outAt (pathThree false).nodeStructure_ 1 2 = some 2 ∧
      (if (pathThree false).directed_ = true then
        inAt (pathThree false).nodeStructure_ 2 1 = some 2
       else outAt (pathThree false).nodeStructure_ 2 1 = some 2))) := by
  have hconf : ConformingRun (SimpleGraph.new true)
      [.createNode, .createNode, .link 0 1, .createNodeFromNode 1, .unlink 0 1,
       .deleteNode 0] := by
    refine conformingRun_cons _ [] trivial rfl ?_
    refine conformingRun_cons _ [] trivial rfl ?_
    refine conformingRun_cons _ [] ⟨rfl, rfl⟩ rfl ?_
    refine conformingRun_cons _ [] ⟨rfl, rfl⟩ rfl ?_
    refine conformingRun_cons _ [] trivial rfl ?_
    refine conformingRun_cons _ [] trivial rfl ?_
    trivial
  have hconf2 : ConformingRun (SimpleGraph.new true)
      [.makeUndirected, .createNode, .createNode, .link 0 1, .makeUndirected,
       .createNodeFromNode 1] := by
    refine conformingRun_cons _ [] trivial rfl ?_
    refine conformingRun_cons _ [] trivial rfl ?_
    refine conformingRun_cons _ [] trivial rfl ?_
    refine conformingRun_cons _ [] ⟨rfl, rfl⟩ rfl ?_
    refine conformingRun_cons _ [] trivial rfl ?_
    refine conformingRun_cons _ [] ⟨rfl, rfl⟩ rfl ?_
    trivial
  exact ⟨⟨rfl, hconf, rfl,
    edges_in_adjacency_invariant true
      [.createNode, .createNode, .link 0 1, .createNodeFromNode 1, .unlink 0 1, .deleteNode 0]
      oneEdgeLeft [] rfl hconf 2 1 2 rfl⟩,
    ⟨rfl, hconf2, rfl,
    edges_in_adjacency_invariant true
      [.makeUndirected, .createNode, .createNode, .link 0 1, .makeUndirected,
       .createNodeFromNode 1]
      (pathThree false) [] rfl hconf2 2 1 2 rfl⟩⟩

theorem getEdge_of_outAt {g : SimpleGraph} {a b : Node} {e : Edge}
    (h : outAt g.nodeStructure_ a b = some e) : getEdge g a b = .returned e g [] := by
  unfold outAt at h
  unfold getEdge
  cases ha : mapFind g.nodeStructure_ a with
  | none => rw [ha] at h; cases h
  | some row =>
    rw [ha] at h
    change mapFind row.1 b = some e at h
    simp only [h]

theorem outAt_linkState_pair {g : SimpleGraph} {a b : Node} {ra rb : NodeRow}
    (ha : mapFind g.nodeStructure_ a = some ra) (hb : mapFind g.nodeStructure_ b = some rb) :
    outAt (linkState g a b).nodeStructure_ a b =
      some ((outAt g.nodeStructure_ a b).getD ((g.highestEdgeID_ + 1) % UINT_MOD)) := by
  unfold linkState
  cases hd : g.directed_
  · simp only [Bool.false_eq_true, if_false]
    have hb' : ∃ rb', mapFind (addRelation g.nodeStructure_ a b
        ((g.highestEdgeID_ + 1) % UINT_MOD)) b = some rb' := by
      rw [mapFind_addRelation, hb]
      exact ⟨_, rfl⟩
    obtain ⟨rb', hb'⟩ := hb'
    rw [outAt_addRelation _ hb', outAt_addRelation _ ha]
    by_cases hab : a = b
    · subst hab
      have c0 : a = a ∧ a = a := ⟨rfl, rfl⟩
      rw [if_pos c0, if_pos c0]
      rfl
    · have c1 : ¬ (a = b ∧ b = a) := fun h => hab h.1
      have c2 : a = a ∧ b = b := ⟨rfl, rfl⟩
      rw [if_neg c1, outAt_addRelation _ ha, if_pos c2]
  · simp only [if_true]
    rw [outAt_addRelation _ ha]
    simp

theorem mapInsert_of_find {β : Type} {m : UMap β} {k : Nat} {v : β} (v' : β)
    (h : mapFind m k = some v) : mapInsert m k v' = m := by
  unfold mapInsert
  rw [h]

theorem mapModify_eq_self {β : Type} {m : UMap β} {k : Nat} {v : β} {f : β → β}
    (h : mapFind m k = some v) (hf : f v = v) : mapModify m k f = m := by
  induction m with
  | nil => rfl
  | cons p rest ih =>
    obtain ⟨k', v'⟩ := p
    unfold mapModify
    unfold mapFind at h
    by_cases hk : k' = k
    · rw [if_pos hk] at h ⊢
      cases h
      rw [hf]
    · rw [if_neg hk] at h ⊢
      rw [ih h]

theorem addRelation_eq_self {ns : UMap NodeRow} {a b : Node} {e0 e0' : Edge} (e : Edge)
    (ho : outAt ns a b = some e0) (hi : inAt ns b a = some e0') : addRelation ns a b e = ns := by
  unfold addRelation
  have h1 : mapModify ns a (fun row => (mapInsert row.1 b e, row.2)) = ns := by
    unfold outAt at ho
    cases ha : mapFind ns a with
    | none => rw [ha] at ho; cases ho
    | some ra =>
      rw [ha] at ho
      change mapFind ra.1 b = some e0 at ho
      refine mapModify_eq_self ha ?_
      show (mapInsert ra.1 b e, ra.2) = ra
      rw [mapInsert_of_find e ho]
  rw [h1]
  unfold inAt at hi
  cases hb : mapFind ns b with
  | none => rw [hb] at hi; cases hi
  | some rb =>
    rw [hb] at hi
    change mapFind rb.2 a = some e0' at hi
    refine mapModify_eq_self hb ?_
    show (rb.1, mapInsert rb.2 a e) = rb
    rw [mapInsert_of_find e hi]

theorem outAt_addRelation_isSome {ns : UMap NodeRow} {a b : Node} {ra : NodeRow} (e : Edge)
    (ha : mapFind ns a = some ra) {x y : Node} (h : (outAt ns x y).isSome = true) :
    (outAt (addRelation ns a b e) x y).isSome = true := by
  rw [outAt_addRelation e ha]
  split
  · rfl
  · exact h

theorem inAt_addRelation_isSome {ns : UMap NodeRow} {a b : Node} {rb : NodeRow} (e : Edge)
    (hb : mapFind ns b = some rb) {x y : Node} (h : (inAt ns x y).isSome = true) :
    (inAt (addRelation ns a b e) x y).isSome = true := by
  rw [inAt_addRelation e hb]
  split
  · rfl
  · exact h

theorem addRelation_pair_isSome {ns : UMap NodeRow} {a b : Node} {ra rb : NodeRow} (e : Edge)
    (ha : mapFind ns a = some ra) (hb : mapFind ns b = some rb) :
    (outAt (addRelation ns a b e) a b).isSome = true ∧
    (inAt (addRelation ns a b e) b a).isSome = true := by
  rw [outAt_addRelation e ha, inAt_addRelation e hb]
  simp

theorem addRelation_eq_self_of_isSome {ns : UMap NodeRow} {a b : Node} (e : Edge)
    (ho : (outAt ns a b).isSome = true) (hi : (inAt ns b a).isSome = true) :
    addRelation ns a b e = ns := by
  obtain ⟨e0, h0⟩ := Option.isSome_iff_exists.1 ho
  obtain ⟨e0', h0'⟩ := Option.isSome_iff_exists.1 hi
  exact addRelation_eq_self e h0 h0'

theorem mapFind_addRelation_some {ns : UMap NodeRow} (a b : Node) (e : Edge) {n : Node}
    {row : NodeRow} (h : mapFind ns n = some row) :
    ∃ row', mapFind (addRelation ns a b e) n = some row' := by
  rw [mapFind_addRelation, h]
  exact ⟨_, rfl⟩

/-- A second `link` on the same ordered pair leaves the whole node structure as
the first call left it. -/
theorem linkState_twice_nodeStructure {g : SimpleGraph} {a b : Node} {ra rb : NodeRow}
    (ha : mapFind g.nodeStructure_ a = some ra) (hb : mapFind g.nodeStructure_ b = some rb) :
    (linkState (linkState g a b) a b).nodeStructure_ = (linkState g a b).nodeStructure_ := by
  have hdir : (linkState g a b).directed_ = g.directed_ := rfl
  cases hd : g.directed_
  · have hns : (linkState g a b).nodeStructure_ =
        addRelation (addRelation g.nodeStructure_ a b ((g.highestEdgeID_ + 1) % UINT_MOD)) b a
          ((g.highestEdgeID_ + 1) % UINT_MOD) := by
      simp [linkState, hd]
    have hns2 : (linkState (linkState g a b) a b).nodeStructure_ =
        addRelation (addRelation (linkState g a b).nodeStructure_ a b
          (((linkState g a b).highestEdgeID_ + 1) % UINT_MOD)) b a
          (((linkState g a b).highestEdgeID_ + 1) % UINT_MOD) := by
      unfold linkState
      simp [hd]
    obtain ⟨ra1, ha1⟩ := mapFind_addRelation_some a b ((g.highestEdgeID_ + 1) % UINT_MOD) ha
    obtain ⟨rb1, hb1⟩ := mapFind_addRelation_some a b ((g.highestEdgeID_ + 1) % UINT_MOD) hb
    obtain ⟨p1, p2⟩ := addRelation_pair_isSome ((g.highestEdgeID_ + 1) % UINT_MOD) ha hb
    obtain ⟨q1, q2⟩ := addRelation_pair_isSome (a := b) (b := a)
      ((g.highestEdgeID_ + 1) % UINT_MOD) hb1 ha1
    have p1' := outAt_addRelation_isSome (a := b) (b := a)
      ((g.highestEdgeID_ + 1) % UINT_MOD) hb1 p1
    have p2' := inAt_addRelation_isSome (a := b) (b := a)
      ((g.highestEdgeID_ + 1) % UINT_MOD) ha1 p2
    rw [← hns] at p1' p2' q1 q2
    rw [hns2, addRelation_eq_self_of_isSome _ p1' p2', addRelation_eq_self_of_isSome _ q1 q2]
  · have hns : (linkState g a b).nodeStructure_ =
        addRelation g.nodeStructure_ a b ((g.highestEdgeID_ + 1) % UINT_MOD) := by
      simp [linkState, hd]
    have hns2 : (linkState (linkState g a b) a b).nodeStructure_ =
        addRelation (linkState g a b).nodeStructure_ a b
          (((linkState g a b).highestEdgeID_ + 1) % UINT_MOD) := by
      unfold linkState
      simp [hd]
    obtain ⟨p1, p2⟩ := addRelation_pair_isSome ((g.highestEdgeID_ + 1) % UINT_MOD) ha hb
    rw [← hns] at p1 p2
    rw [hns2, addRelation_eq_self_of_isSome _ p1 p2]

theorem heldByAdjacency_addRelation {ns : UMap NodeRow} {a b : Node} {ra rb : NodeRow}
    {e e' : Edge} (ha : mapFind ns a = some ra) (hb : mapFind ns b = some rb)
    (h : HeldByAdjacency (addRelation ns a b e) e') : e' = e ∨ HeldByAdjacency ns e' := by
  obtain ⟨x, y, h | h⟩ := h
  · rw [outAt_addRelation e ha] at h
    split at h
    · cases ho : outAt ns a b with
      | none =>
        rw [ho] at h
        simp only [Option.getD_none, Option.some.injEq] at h
        exact Or.inl h.symm
      | some e0 =>
        rw [ho] at h
        simp only [Option.getD_some, Option.some.injEq] at h
        exact Or.inr ⟨a, b, Or.inl (by rw [ho, h])⟩
    · exact Or.inr ⟨x, y, Or.inl h⟩
  · rw [inAt_addRelation e hb] at h
    split at h
    · cases ho : inAt ns b a with
      | none =>
        rw [ho] at h
        simp only [Option.getD_none, Option.some.injEq] at h
        exact Or.inl h.symm
      | some e0 =>
        rw [ho] at h
        simp only [Option.getD_some, Option.some.injEq] at h
        exact Or.inr ⟨b, a, Or.inr (by rw [ho, h])⟩
    · exact Or.inr ⟨x, y, Or.inr h⟩

/-- An edge that the adjacency holds after `link` is the new edge or one that
the adjacency held before. -/
theorem heldByAdjacency_linkState {g : SimpleGraph} {a b : Node} {ra rb : NodeRow} {e' : Edge}
    (ha : mapFind g.nodeStructure_ a = some ra) (hb : mapFind g.nodeStructure_ b = some rb)
    (h : HeldByAdjacency (linkState g a b).nodeStructure_ e') :
    e' = (g.highestEdgeID_ + 1) % UINT_MOD ∨ HeldByAdjacency g.nodeStructure_ e' := by
  cases hd : g.directed_
  · have hns : (linkState g a b).nodeStructure_ =
        addRelation (addRelation g.nodeStructure_ a b ((g.highestEdgeID_ + 1) % UINT_MOD)) b a
          ((g.highestEdgeID_ + 1) % UINT_MOD) := by
      simp [linkState, hd]
    rw [hns] at h
    obtain ⟨ra1, ha1⟩ := mapFind_addRelation_some a b ((g.highestEdgeID_ + 1) % UINT_MOD) ha
    obtain ⟨rb1, hb1⟩ := mapFind_addRelation_some a b ((g.highestEdgeID_ + 1) % UINT_MOD) hb
    rcases heldByAdjacency_addRelation hb1 ha1 h with h | h
    · exact Or.inl h
    · exact heldByAdjacency_addRelation ha hb h
  · have hns : (linkState g a b).nodeStructure_ =
        addRelation g.nodeStructure_ a b ((g.highestEdgeID_ + 1) % UINT_MOD) := by
      simp [linkState, hd]
    rw [hns] at h
    exact heldByAdjacency_addRelation ha hb h

theorem twoNodes_holds_no_edge (e : Edge) : ¬ HeldByAdjacency (twoNodes true).nodeStructure_ e := by
  rintro ⟨x, y, h | h⟩
  · unfold outAt at h
    have hx : (twoNodes true).nodeStructure_ = [(0, ([], [])), (1, ([], []))] := rfl
    rw [hx] at h
    simp only [mapFind] at h
    split at h
    · cases h
    · split at h
      · cases h
      · cases h
  · unfold inAt at h
    have hx : (twoNodes true).nodeStructure_ = [(0, ([], [])), (1, ([], []))] := rfl
    rw [hx] at h
    simp only [mapFind] at h
    split at h
    · cases h
    · split at h
      · cases h
      · cases h

/-- C23 (counterexample): on the directed graph with the unrelated nodes `0` and
`1`, `link(0, 1)` returns the edge `1` and a second `link(0, 1)` returns the
edge `2`; after it `getEdge(0, 1)` returns `1`, not `2`, because
`std::map::insert` keeps the entry that the first call wrote. -/
theorem second_link_keeps_first_edge :
    link (twoNodes true) 0 1 = .returned 1 (twoNodesLinked true) [] ∧
    link (twoNodesLinked true) 0 1 = .returned 2 twoNodesLinkedTwice [] ∧
    getEdge twoNodesLinkedTwice 0 1 = .returned 1 twoNodesLinkedTwice [] ∧
    getEdge twoNodesLinkedTwice 0 1 ≠ .returned 2 twoNodesLinkedTwice [] := by
  refine ⟨rfl, rfl, rfl, ?_⟩
  decide

/-- C23 (amended): when `link(a, b)` returns `e1` and a second `link(a, b)`
returns `e2`, the edge `e2` differs from `e1` and the second call leaves the
node structure, and with it the adjacency entry of the pair, as it was:
`getEdge(a, b)` returns the same edge after the second call as after the
first, which is `e1` (and so not `e2`) when the outgoing map of `a` had no
entry for `b` before the first call, and the edge of that entry otherwise.
The edge table holds the record `(a, b)` under `e1` and under `e2`.  When no
adjacency map held `e2` before the two calls, none holds it after them: `e2`
is then unreachable from adjacency. -/
theorem second_link_keeps_adjacency (g g1 g2 : SimpleGraph) (a b : Node) (e1 e2 : Edge)
    (c1 c2 : List Callback)
    (h1 : link g a b = .returned e1 g1 c1) (h2 : link g1 a b = .returned e2 g2 c2) :
    e2 ≠ e1 ∧
    g2.nodeStructure_ = g1.nodeStructure_ ∧
    (∃ e, getEdge g1 a b = .returned e g1 [] ∧ getEdge g2 a b = .returned e g2 [] ∧
      (outAt g.nodeStructure_ a b = none → e = e1 ∧ e ≠ e2) ∧
      (∀ e0, outAt g.nodeStructure_ a b = some e0 → e = e0)) ∧
    mapFind g2.edgeStructure_ e1 = some (a, b) ∧
    mapFind g2.edgeStructure_ e2 = some (a, b) ∧
    (¬ HeldByAdjacency g.nodeStructure_ e2 → ¬ HeldByAdjacency g2.nodeStructure_ e2) := by
  obtain ⟨ra, rb, ha, hb, he1, hg1⟩ := link_returned h1
  obtain ⟨ra1, rb1, ha1, hb1, he2, hg2⟩ := link_returned h2
  have hc1 : g1.highestEdgeID_ = e1 := by rw [hg1, he1]; rfl
  rw [hc1] at he2
  have hlt : e1 < UINT_MOD := by
    rw [he1]
    exact Nat.mod_lt _ (by decide)
  have key : ∀ x : Nat, x < 4294967296 → (x + 1) % 4294967296 ≠ x := by
    intro x hx
    omega
  have hne : e2 ≠ e1 := by
    rw [he2]
    exact key e1 hlt
  have hns : g2.nodeStructure_ = g1.nodeStructure_ := by
    rw [hg2, hg1]
    exact linkState_twice_nodeStructure ha hb
  have ho1 : outAt g1.nodeStructure_ a b = some ((outAt g.nodeStructure_ a b).getD e1) := by
    rw [hg1, he1]
    exact outAt_linkState_pair ha hb
  have ho2 : outAt g2.nodeStructure_ a b = some ((outAt g.nodeStructure_ a b).getD e1) := by
    rw [hns]
    exact ho1
  refine ⟨hne, hns, ⟨_, getEdge_of_outAt ho1, getEdge_of_outAt ho2, ?_, ?_⟩, ?_, ?_, ?_⟩
  · intro hno
    rw [hno]
    exact ⟨rfl, fun h => hne h.symm⟩
  · intro e0 h0
    rw [h0]
    rfl
  · have h21 : g2.edgeStructure_ = mapAssign g1.edgeStructure_ e2 (a, b) := by
      rw [hg2, he2, hc1.symm]
      rfl
    have h10 : g1.edgeStructure_ = mapAssign g.edgeStructure_ e1 (a, b) := by
      rw [hg1, he1]
      rfl
    rw [h21, h10, mapFind_mapAssign, mapFind_mapAssign]
    simp [hne.symm]
  · have : g2.edgeStructure_ = mapAssign g1.edgeStructure_ e2 (a, b) := by
      rw [hg2, he2, hc1.symm]
      rfl
    rw [this, mapFind_mapAssign]
    simp
  · intro hnot hheld
    rw [hns, hg1] at hheld
    rcases heldByAdjacency_linkState ha hb hheld with h | h
    · exact hne (h.trans he1.symm)
    · exact hnot h

/-- Witness of C23 (amended): the two `link(0, 1)` calls on the directed graph
with the unrelated nodes `0` and `1`. -/
theorem second_link_keeps_adjacency_witness :
    link (twoNodes true) 0 1 = .returned 1 (twoNodesLinked true) [] ∧
    link (twoNodesLinked true) 0 1 = .returned 2 twoNodesLinkedTwice [] ∧
    ¬ HeldByAdjacency (twoNodes true).nodeStructure_ 2 ∧
    ((2 : Edge) ≠ 1 ∧
    twoNodesLinkedTwice.nodeStructure_ = (twoNodesLinked true).nodeStructure_ ∧
    (∃ e, getEdge (twoNodesLinked true) 0 1 = .returned e (twoNodesLinked true) [] ∧
      getEdge twoNodesLinkedTwice 0 1 = .returned e twoNodesLinkedTwice [] ∧
      (outAt (twoNodes true).nodeStructure_ 0 1 = none → e = 1 ∧ e ≠ 2) ∧
      (∀ e0, outAt (twoNodes true).nodeStructure_ 0 1 = some e0 → e = e0)) ∧
    mapFind twoNodesLinkedTwice.edgeStructure_ 1 = some (0, 1) ∧
    mapFind twoNodesLinkedTwice.edgeStructure_ 2 = some (0, 1) ∧
    (¬ HeldByAdjacency (twoNodes true).nodeStructure_ 2 →
      ¬ HeldByAdjacency twoNodesLinkedTwice.nodeStructure_ 2)) :=
  ⟨rfl, rfl, twoNodes_holds_no_edge 2,
    second_link_keeps_adjacency (twoNodes true) (twoNodesLinked true) twoNodesLinkedTwice 0 1 1 2
      [] [] rfl rfl⟩

theorem getNeighbors_cases (g : SimpleGraph) (n : Node) :
    (∃ nb, getNeighbors g n = .returned nb g []) ∨ ∃ ex, getNeighbors g n = .threw ex g [] := by
  cases h : mapFind g.nodeStructure_ n with
  | none =>
    right
    refine ⟨.nodeMustExist n "", ?_⟩
    unfold getNeighbors
    rw [getNeighbors_of_absent false h]
    rfl
  | some row => exact Or.inl ⟨_, getNeighbors_of_row h⟩

theorem getNeighbors_threw_absent {g : SimpleGraph} {x : Node} {ex : GraphException}
    (h : getNeighbors g x = .threw ex g []) : x ∉ mapKeys g.nodeStructure_ := by
  cases hrow : mapFind g.nodeStructure_ x with
  | none => exact (mapFind_eq_none_iff _ _).1 hrow
  | some row =>
    rw [getNeighbors_of_row hrow] at h
    cases h

theorem ReportsExactly.congr {S S' : Node → Prop} {T T' : GraphException → Prop}
    {g : SimpleGraph} {found : List Node} {r : Bounded (List Node)}
    (h : ReportsExactly S T g found r) (hS : ∀ x, S x ↔ S' x) (hT : ∀ ex, T ex → T' ex) :
    ReportsExactly S' T' g found r := by
  rcases h with ⟨L, hr, hL⟩ | ⟨ex, hr, hex⟩
  · exact Or.inl ⟨L, hr, fun x => (hL x).trans (hS x)⟩
  · exact Or.inr ⟨ex, hr, hT ex hex⟩

theorem fillLeavesLoop_reportsExactly {g : SimpleGraph}
    (recur : Node → List Node → SimpleGraph → Bounded (List Node)) (origin : Node)
    (S : Node → Node → Prop) (T : Node → GraphException → Prop) :
    ∀ (nbs found : List Node),
      (∀ n ∈ nbs, n ≠ origin → ∀ found', ReportsExactly (S n) (T n) g found' (recur n found' g)) →
      ReportsExactly (fun x => ∃ n ∈ nbs, n ≠ origin ∧ S n x)
        (fun ex => ∃ n ∈ nbs, n ≠ origin ∧ T n ex) g found
        (fillLeavesLoop recur origin nbs found g) := by
  intro nbs
  induction nbs with
  | nil =>
    intro found _
    refine Or.inl ⟨[], by simp [fillLeavesLoop], ?_⟩
    intro x
    simp
  | cons n rest ih =>
    intro found hrec
    have hrest : ∀ m ∈ rest, m ≠ origin → ∀ found',
        ReportsExactly (S m) (T m) g found' (recur m found' g) :=
      fun m hm => hrec m (List.mem_cons_of_mem _ hm)
    unfold fillLeavesLoop
    by_cases hn : n ≠ origin
    · rw [if_pos hn]
      rcases hrec n (List.mem_cons_self _ _) hn found with ⟨L1, h1, hL1⟩ | ⟨ex, h1, hex⟩
      · rw [h1, Bounded.andThen_of_returned, Option.map_after_nil]
        rcases ih (found ++ L1) hrest with ⟨L2, h2, hL2⟩ | ⟨ex, h2, hex⟩
        · refine Or.inl ⟨L1 ++ L2, by rw [h2, List.append_assoc], ?_⟩
          intro x
          rw [List.mem_append, hL1, hL2]
          constructor
          · rintro (h | ⟨m, hm, hmo, hs⟩)
            · exact ⟨n, List.mem_cons_self _ _, hn, h⟩
            · exact ⟨m, List.mem_cons_of_mem _ hm, hmo, hs⟩
          · rintro ⟨m, hm, hmo, hs⟩
            rcases List.mem_cons.1 hm with rfl | hm
            · exact Or.inl hs
            · exact Or.inr ⟨m, hm, hmo, hs⟩
        · obtain ⟨m, hm, hmo, ht⟩ := hex
          exact Or.inr ⟨ex, h2, m, List.mem_cons_of_mem _ hm, hmo, ht⟩
      · rw [h1, Bounded.andThen_of_threw]
        exact Or.inr ⟨ex, rfl, n, List.mem_cons_self _ _, hn, hex⟩
    · rw [if_neg hn]
      refine (ih found hrest).congr ?_ ?_
      · intro x
        constructor
        · rintro ⟨m, hm, hmo, hs⟩
          exact ⟨m, List.mem_cons_of_mem _ hm, hmo, hs⟩
        · rintro ⟨m, hm, hmo, hs⟩
          rcases List.mem_cons.1 hm with rfl | hm
          · exact absurd hmo hn
          · exact ⟨m, hm, hmo, hs⟩
      · rintro ex ⟨m, hm, hmo, hs⟩
        exact ⟨m, List.mem_cons_of_mem _ hm, hmo, hs⟩

theorem limitedReaches_self (g : SimpleGraph) (s : LeavesCall) :
    LimitedReaches g s s.startingNode :=
  ⟨s, Relation.ReflTransGen.refl, rfl⟩

theorem limitedReaches_of_step {g : SimpleGraph} {s t : LeavesCall} {x : Node}
    (hst : LimitedStep g s t) (h : LimitedReaches g t x) : LimitedReaches g s x := by
  obtain ⟨u, hu, hx⟩ := h
  exact ⟨u, Relation.ReflTransGen.head hst hu, hx⟩

theorem limitedReaches_cases {g : SimpleGraph} {s : LeavesCall} {x : Node}
    (h : LimitedReaches g s x) :
    x = s.startingNode ∨ ∃ t, LimitedStep g s t ∧ LimitedReaches g t x := by
  obtain ⟨u, hu, hx⟩ := h
  rcases Relation.ReflTransGen.cases_head hu with h | ⟨t, hst, htu⟩
  · left
    rw [← hx, h]
  · exact Or.inr ⟨t, hst, u, htu, hx⟩

/-- A call on a node with at most one neighbour appends the node, whatever the
budget and the flag. -/
theorem fillListOfLeaves_appends {g : SimpleGraph} {node : Node} {neighbors : List Node}
    (hnb : getNeighbors g node = .returned neighbors g []) (hlen : neighbors.length ≤ 1)
    (k : Nat) (found : List Node) (origin : Node) (limited : Bool) (budget : Nat) :
    fillListOfLeaves_ (k + 1) g node found origin limited budget =
      some (.returned (found ++ [node]) g []) := by
  unfold fillListOfLeaves_
  rw [hnb, Bounded.andThen_of_returned, Option.map_after_nil]
  have hl : ¬ neighbors.length > 1 := by omega
  rw [if_neg hl]

theorem fillListOfLeaves_reportsExactly (g : SimpleGraph) :
    ∀ (m fuel : Nat) (node : Node) (found : List Node) (origin : Node),
      m < UINT_MOD → m < fuel →
      ReportsExactly
        (fun x => LimitedReaches g ⟨node, origin, m⟩ x ∧ AtMostOneNeighbor g x)
        (fun ex => ∃ x, LimitedReaches g ⟨node, origin, m⟩ x ∧
          getNeighbors g x = .threw ex g [])
        g found (fillListOfLeaves_ fuel g node found origin true m) := by
  intro m
  induction m with
  | zero =>
    intro fuel node found origin _ hfuel
    obtain ⟨fuel, rfl⟩ : ∃ f, fuel = f + 1 := ⟨fuel - 1, by omega⟩
    rcases getNeighbors_cases g node with ⟨nb, hnb⟩ | ⟨ex, hex⟩
    · by_cases hlen : nb.length > 1
      · unfold fillListOfLeaves_
        rw [hnb, Bounded.andThen_of_returned, Option.map_after_nil, if_pos hlen]
        simp only [Bool.not_true, Bool.false_or, gt_iff_lt, lt_self_iff_false, decide_False,
          Bool.false_eq_true, if_false]
        refine Or.inl ⟨[], by simp, ?_⟩
        intro x
        simp only [List.not_mem_nil, false_iff, not_and]
        intro hreach hone
        rcases limitedReaches_cases hreach with hx | ⟨t, hst, -⟩
        · change x = node at hx
          rw [hx] at hone
          obtain ⟨nb', hnb', hle⟩ := hone
          rw [hnb] at hnb'
          simp only [Result.returned.injEq] at hnb'
          rw [← hnb'.1] at hle
          omega
        · obtain ⟨_, _, _, h0, _⟩ := hst
          exact absurd h0 (lt_irrefl 0)
      · rw [fillListOfLeaves_appends hnb (by omega)]
        refine Or.inl ⟨[node], rfl, ?_⟩
        intro x
        rw [List.mem_singleton]
        constructor
        · rintro rfl
          exact ⟨limitedReaches_self g ⟨x, origin, 0⟩, nb, hnb, by omega⟩
        · rintro ⟨hreach, -⟩
          rcases limitedReaches_cases hreach with h | ⟨t, hst, -⟩
          · exact h
          · obtain ⟨_, _, _, h0, _⟩ := hst
            exact absurd h0 (lt_irrefl 0)
    · unfold fillListOfLeaves_
      rw [hex, Bounded.andThen_of_threw]
      exact Or.inr ⟨ex, rfl, node, limitedReaches_self g ⟨node, origin, 0⟩, hex⟩
  | succ m ih =>
    intro fuel node found origin hM hfuel
    obtain ⟨fuel, rfl⟩ : ∃ f, fuel = f + 1 := ⟨fuel - 1, by omega⟩
    rcases getNeighbors_cases g node with ⟨nb, hnb⟩ | ⟨ex, hex⟩
    · by_cases hlen : nb.length > 1
      · unfold fillListOfLeaves_
        rw [hnb, Bounded.andThen_of_returned, Option.map_after_nil, if_pos hlen]
        have hdec : (m + 1 + UINT_MOD - 1) % UINT_MOD = m := by
          unfold UINT_MOD at hM ⊢
          omega
        have hc : (!true || decide (m + 1 > 0)) = true := by simp
        rw [if_pos hc, hdec]
        have hloop := fillLeavesLoop_reportsExactly
          (fun n found g => fillListOfLeaves_ fuel g n found node true m) origin
          (fun n x => LimitedReaches g ⟨n, node, m⟩ x ∧ AtMostOneNeighbor g x)
          (fun n ex => ∃ x, LimitedReaches g ⟨n, node, m⟩ x ∧
            getNeighbors g x = .threw ex g [])
          nb found
          (fun n _ _ found' => ih fuel n found' node (by omega) (by omega))
        have hstep : ∀ n, n ∈ nb → n ≠ origin →
            LimitedStep g ⟨node, origin, m + 1⟩ ⟨n, node, m⟩ :=
          fun n hn hno => ⟨nb, hnb, hlen, Nat.succ_pos m, hn, hno, rfl, rfl⟩
        refine hloop.congr ?_ ?_
        · intro x
          constructor
          · rintro ⟨n, hn, hno, hreach, hone⟩
            exact ⟨limitedReaches_of_step (hstep n hn hno) hreach, hone⟩
          · rintro ⟨hreach, hone⟩
            rcases limitedReaches_cases hreach with hx | ⟨t, hst, ht⟩
            · exfalso
              change x = node at hx
              rw [hx] at hone
              obtain ⟨nb', hnb', hle⟩ := hone
              rw [hnb] at hnb'
              simp only [Result.returned.injEq] at hnb'
              rw [← hnb'.1] at hle
              omega
            · obtain ⟨tn, tor, tm⟩ := t
              obtain ⟨nb', hnb', -, -, hmem, hno, hor, hbud⟩ := hst
              change getNeighbors g node = _ at hnb'
              rw [hnb] at hnb'
              simp only [Result.returned.injEq] at hnb'
              obtain ⟨rfl, -⟩ := hnb'
              change tn ∈ nb at hmem
              change tn ≠ origin at hno
              change tor = node at hor
              change tm + 1 = m + 1 at hbud
              subst hor
              have : tm = m := by omega
              subst this
              exact ⟨tn, hmem, hno, ht, hone⟩
        · rintro ex ⟨n, hn, hno, x, hreach, hx⟩
          exact ⟨x, limitedReaches_of_step (hstep n hn hno) hreach, hx⟩
      · rw [fillListOfLeaves_appends hnb (by omega)]
        refine Or.inl ⟨[node], rfl, ?_⟩
        intro x
        rw [List.mem_singleton]
        constructor
        · rintro rfl
          exact ⟨limitedReaches_self g ⟨x, origin, m + 1⟩, nb, hnb, by omega⟩
        · rintro ⟨hreach, -⟩
          rcases limitedReaches_cases hreach with h | ⟨t, hst, -⟩
          · exact h
          · obtain ⟨nb', hnb', hl, _⟩ := hst
            change getNeighbors g node = _ at hnb'
            rw [hnb] at hnb'
            simp only [Result.returned.injEq] at hnb'
            rw [← hnb'.1] at hl
            omega
    · unfold fillListOfLeaves_
      rw [hex, Bounded.andThen_of_threw]
      exact Or.inr ⟨ex, rfl, node, limitedReaches_self g ⟨node, origin, m + 1⟩, hex⟩

theorem twoLevelTree_reached :
    runMutations (SimpleGraph.new true)
      [.createNode, .createNodeFromNode 0, .createNodeFromNode 0, .createNodeFromNode 1,
       .createNodeFromNode 2] = .returned () twoLevelTree [] := rfl

theorem getLeavesFromNode_twoLevelTree (fuel : Nat) :
    getLeavesFromNode (fuel + 2) twoLevelTree 0 1 = some (.returned [] twoLevelTree []) := rfl

/-- C24 (counterexample): in the directed graph where the node `0` has the
children `1` and `2`, the node `1` the child `3` and the node `2` the child
`4`, `getLeavesFromNode(0, 1)` returns the empty list: the nodes `1` and `2`
are reached with the budget zero, each has two neighbours (its parent and its
child), and nothing is appended for them. -/
theorem getLeavesFromNode_budget_zero_not_reported :
    runMutations (SimpleGraph.new true)
      [.createNode, .createNodeFromNode 0, .createNodeFromNode 0, .createNodeFromNode 1,
       .createNodeFromNode 2] = .returned () twoLevelTree [] ∧
    getNeighbors twoLevelTree 1 = .returned [0, 3] twoLevelTree [] ∧
    getNeighbors twoLevelTree 2 = .returned [0, 4] twoLevelTree [] ∧
    (∀ fuel, getLeavesFromNode (fuel + 2) twoLevelTree 0 1 =
      some (.returned [] twoLevelTree [])) ∧
    (∀ found, fillListOfLeaves_ 1 twoLevelTree 1 found 0 true 0 =
      some (.returned found twoLevelTree [])) :=
  ⟨rfl, rfl, rfl, fun _ => rfl, fun _ => rfl⟩

/-- C24 (amended): for every graph, node `n` and nonzero `maxDepth`,
`getLeavesFromNode(n, maxDepth)` comes to an end with at most `maxDepth + 1`
nested calls of `fillListOfLeaves_` and leaves the graph as it is.  The
traversal starts at `n` with the budget `maxDepth` and descends from a node
with more than one neighbour and a budget above zero into each neighbour other
than the node it came from, with the budget less one.  When it returns, the
returned list holds exactly the nodes it reaches that have at most one
neighbour (`getNeighbors` returns at most one element for them), also those
reached with the budget zero; otherwise it throws the exception of
`getNeighbors` on a node it reaches that is not in the graph.  A node with
more than one neighbour that is reached when the remaining budget is zero
appends nothing and is not descended into, and a node with at most one
neighbour is appended whatever the budget. -/
theorem getLeavesFromNode_reports_reached_leaves (g : SimpleGraph) (n : Node) (maxDepth : Nat)
    (h0 : maxDepth ≠ 0) (hM : maxDepth < UINT_MOD) (fuel : Nat) (hfuel : maxDepth < fuel) :
    ((∃ leaves, getLeavesFromNode fuel g n maxDepth = some (.returned leaves g []) ∧
        (∀ x, x ∈ leaves ↔ LimitedReaches g ⟨n, n, maxDepth⟩ x ∧ AtMostOneNeighbor g x) ∧
        ∀ x ∈ leaves, ∃ neighbors, getNeighbors g x = .returned neighbors g [] ∧
          neighbors.length ≤ 1) ∨
      ∃ ex, getLeavesFromNode fuel g n maxDepth = some (.threw ex g []) ∧
        ∃ x, LimitedReaches g ⟨n, n, maxDepth⟩ x ∧ x ∉ mapKeys g.nodeStructure_ ∧
          getNeighbors g x = .threw ex g []) ∧
    (∀ (node origin : Node) (found neighbors : List Node),
      getNeighbors g node = .returned neighbors g [] → 1 < neighbors.length →
      ∀ k, fillListOfLeaves_ (k + 1) g node found origin true 0 = some (.returned found g [])) ∧
    (∀ (node origin : Node) (found neighbors : List Node) (budget : Nat),
      getNeighbors g node = .returned neighbors g [] → neighbors.length ≤ 1 →
      ∀ k, fillListOfLeaves_ (k + 1) g node found origin true budget =
        some (.returned (found ++ [node]) g [])) := by
  refine ⟨?_, ?_, ?_⟩
  · have hd : decide (maxDepth ≠ 0) = true := by simpa using h0
    have := fillListOfLeaves_reportsExactly g maxDepth fuel n [] n hM hfuel
    unfold getLeavesFromNode
    rw [hd]
    rcases this with ⟨L, hL, hleaf⟩ | ⟨ex, hex, hT⟩
    · left
      refine ⟨L, ?_, hleaf, fun x hx => ((hleaf x).1 hx).2⟩
      rw [hL]
      rfl
    · obtain ⟨x, hx, hthrew⟩ := hT
      exact Or.inr ⟨ex, hex, x, hx, getNeighbors_threw_absent hthrew, hthrew⟩
  · intro node origin found neighbors hnb hlen k
    unfold fillListOfLeaves_
    rw [hnb, Bounded.andThen_of_returned, Option.map_after_nil]
    have hlen' : neighbors.length > 1 := hlen
    rw [if_pos hlen']
    rfl
  · intro node origin found neighbors budget hnb hlen k
    exact fillListOfLeaves_appends hnb hlen k found origin true budget

/-- Witness of C24 (amended): `getLeavesFromNode(0, 2)` on the graph
`twoLevelTree` returns the nodes `3` and `4`, which are reached with the
budget zero and have one neighbour each. -/
theorem getLeavesFromNode_reports_reached_leaves_witness :
    ((2 : Nat) ≠ 0 ∧ 2 < UINT_MOD ∧ 2 < 3) ∧
    getLeavesFromNode 3 twoLevelTree 0 2 = some (.returned [3, 4] twoLevelTree []) ∧
    (((∃ leaves, getLeavesFromNode 3 twoLevelTree 0 2 =
          some (.returned leaves twoLevelTree []) ∧
        (∀ x, x ∈ leaves ↔
          LimitedReaches twoLevelTree ⟨0, 0, 2⟩ x ∧ AtMostOneNeighbor twoLevelTree x) ∧
        ∀ x ∈ leaves, ∃ neighbors,
          getNeighbors twoLevelTree x = .returned neighbors twoLevelTree [] ∧
          neighbors.length ≤ 1) ∨
      ∃ ex, getLeavesFromNode 3 twoLevelTree 0 2 = some (.threw ex twoLevelTree []) ∧
        ∃ x, LimitedReaches twoLevelTree ⟨0, 0, 2⟩ x ∧
          x ∉ mapKeys twoLevelTree.nodeStructure_ ∧
          getNeighbors twoLevelTree x = .threw ex twoLevelTree []) ∧
    (∀ (node origin : Node) (found neighbors : List Node),
      getNeighbors twoLevelTree node = .returned neighbors twoLevelTree [] →
      1 < neighbors.length →
      ∀ k, fillListOfLeaves_ (k + 1) twoLevelTree node found origin true 0 =
        some (.returned found twoLevelTree [])) ∧
    (∀ (node origin : Node) (found neighbors : List Node) (budget : Nat),
      getNeighbors twoLevelTree node = .returned neighbors twoLevelTree [] →
      neighbors.length ≤ 1 →
      ∀ k, fillListOfLeaves_ (k + 1) twoLevelTree node found origin true budget =
        some (.returned (found ++ [node]) twoLevelTree []))) :=
  ⟨⟨by decide, by decide, by decide⟩, rfl,
    getLeavesFromNode_reports_reached_leaves twoLevelTree 0 2 (by decide) (by decide) 3
      (by decide)⟩

theorem NoNewIds.same (g : SimpleGraph) : NoNewIds g g :=
  ⟨rfl, rfl, rfl, fun _ h => h, fun _ h => h⟩

theorem NoNewIds.comp {g g' g'' : SimpleGraph} (h : NoNewIds g g') (h' : NoNewIds g' g'') :
    NoNewIds g g'' :=
  ⟨h'.1.trans h.1, h'.2.1.trans h.2.1, h'.2.2.1.trans h.2.2.1,
    fun n hn => h.2.2.2.1 n (h'.2.2.2.1 n hn), fun e he => h.2.2.2.2 e (h'.2.2.2.2 e he)⟩

theorem linkInNodeStructure_noNewIds (g : SimpleGraph) (a b : Node) (e : Edge) :
    (linkInNodeStructure_ g a b e).Returns fun _ g' => NoNewIds g g' := by
  unfold linkInNodeStructure_
  dsimp only
  split
  · trivial
  · split
    · trivial
    · refine ⟨rfl, rfl, rfl, ?_, fun _ h => h⟩
      intro n hn
      simpa only [mapKeys_mapModify] using hn

theorem unlink_noNewIds (g : SimpleGraph) (a b : Node) :
    (unlink g a b).Returns fun _ g' => NoNewIds g g' := by
  cases h : unlink g a b with
  | returned v g' c =>
    obtain ⟨e, -, rfl⟩ := unlink_returned h
    refine ⟨rfl, rfl, rfl, ?_, ?_⟩
    · intro n hn
      simpa only [unlinkState, removeRelation, mapKeys_mapModify] using hn
    · intro x hx
      exact ((mem_mapKeys_mapErase _ _ _).1 hx).2
  | threw ex g' c => trivial
  | undefinedBehavior => trivial

theorem isolateLoop_noNewIds (node : Node) (g : SimpleGraph) (ns : List Node) :
    (isolateLoop node g ns).Returns fun _ g' => NoNewIds g g' := by
  induction ns generalizing g with
  | nil => exact NoNewIds.same g
  | cons n rest ih =>
    unfold isolateLoop
    refine Result.Returns_andThen (unlink_noNewIds g node n) ?_
    intro _ g1 h1
    exact Result.Returns_mono (ih g1) fun _ _ h => h1.comp h

theorem deleteNode_noNewIds (g : SimpleGraph) (node : Node) :
    (deleteNode g node).Returns fun _ g' => NoNewIds g g' := by
  unfold deleteNode
  refine Result.Returns_andThen (nodeMustExist_returns g node _) ?_
  rintro _ _ rfl
  refine Result.Returns_andThen (Q := fun _ g' => NoNewIds g g') ?_ ?_
  · unfold isolate_
    refine Result.Returns_andThen (getNeighbors_returns g node) ?_
    rintro ns _ rfl
    exact isolateLoop_noNewIds node g ns
  · intro _ g1 h1
    split
    · trivial
    · refine ⟨h1.1, h1.2.1, h1.2.2.1, ?_, h1.2.2.2.2⟩
      intro n hn
      exact h1.2.2.2.1 n ((mem_mapKeys_mapErase _ _ _).1 hn).2

theorem makeDirectedInnerLoop_noNewIds (nodeA : Node) (rels : UMap Edge) (g : SimpleGraph)
    (met : List (Nat × Nat)) :
    (makeDirectedInnerLoop nodeA g met rels).Returns fun _ g' => NoNewIds g g' := by
  induction rels generalizing g met with
  | nil => exact NoNewIds.same g
  | cons p rest ih =>
    obtain ⟨nodeB, edge⟩ := p
    unfold makeDirectedInnerLoop
    dsimp only
    split
    · refine Result.Returns_andThen (linkInNodeStructure_noNewIds g nodeA nodeB edge) ?_
      intro _ g1 h1
      exact Result.Returns_mono (ih g1 met) fun _ _ h => h1.comp h
    · exact ih g _

theorem makeDirectedOuterLoop_noNewIds (rows : UMap NodeRow) (g : SimpleGraph)
    (met : List (Nat × Nat)) :
    (makeDirectedOuterLoop g met rows).Returns fun _ g' => NoNewIds g g' := by
  induction rows generalizing g met with
  | nil => exact NoNewIds.same g
  | cons p rest ih =>
    obtain ⟨nodeA, row⟩ := p
    unfold makeDirectedOuterLoop
    refine Result.Returns_andThen (makeDirectedInnerLoop_noNewIds nodeA row.1 g met) ?_
    intro met' g1 h1
    exact Result.Returns_mono (ih g1 met') fun _ _ h => h1.comp h

theorem noNewIds_cleared (g : SimpleGraph) :
    NoNewIds g { g with nodeStructure_ := [] } :=
  ⟨rfl, rfl, rfl, fun _ h => (by cases h), fun _ h => h⟩

theorem makeDirected_noNewIds (g : SimpleGraph) :
    (makeDirected g).Returns fun _ g' => NoNewIds g g' := by
  unfold makeDirected
  split
  · exact NoNewIds.same g
  · dsimp only
    refine Result.Returns_andThen (makeDirectedOuterLoop_noNewIds g.nodeStructure_ _ []) ?_
    intro _ g1 h1
    exact (noNewIds_cleared g).comp (h1.comp ⟨rfl, rfl, rfl, fun _ h => h, fun _ h => h⟩)

theorem makeUndirectedInnerLoop_noNewIds (nodeA : Node) (rels : UMap Edge) (g : SimpleGraph) :
    (makeUndirectedInnerLoop nodeA g rels).Returns fun _ g' => NoNewIds g g' := by
  induction rels generalizing g with
  | nil => exact NoNewIds.same g
  | cons p rest ih =>
    obtain ⟨nodeB, edge⟩ := p
    unfold makeUndirectedInnerLoop
    refine Result.Returns_andThen (linkInNodeStructure_noNewIds g nodeA nodeB edge) ?_
    intro _ g1 h1
    refine Result.Returns_andThen (linkInNodeStructure_noNewIds g1 nodeB nodeA edge) ?_
    intro _ g2 h2
    exact Result.Returns_mono (ih g2) fun _ _ h => (h1.comp h2).comp h

theorem makeUndirectedOuterLoop_noNewIds (rows : UMap NodeRow) (g : SimpleGraph) :
    (makeUndirectedOuterLoop g rows).Returns fun _ g' => NoNewIds g g' := by
  induction rows generalizing g with
  | nil => exact NoNewIds.same g
  | cons p rest ih =>
    obtain ⟨nodeA, row⟩ := p
    unfold makeUndirectedOuterLoop
    refine Result.Returns_andThen (makeUndirectedInnerLoop_noNewIds nodeA row.1 g) ?_
    intro _ g1 h1
    exact Result.Returns_mono (ih g1) fun _ _ h => h1.comp h

theorem makeUndirected_noNewIds (g : SimpleGraph) :
    (makeUndirected g).Returns fun _ g' => NoNewIds g g' := by
  unfold makeUndirected
  split
  · exact NoNewIds.same g
  · refine Result.Returns_andThen (Q := fun _ g' => g = g') ?_ ?_
    · unfold containsReciprocalRelations
      split
      · trivial
      · rfl
    · intro r g1 h1
      subst h1
      split
      · trivial
      · dsimp only
        refine Result.Returns_andThen (makeUndirectedOuterLoop_noNewIds g.nodeStructure_ _) ?_
        intro _ g1 h1
        exact (noNewIds_cleared g).comp (h1.comp ⟨rfl, rfl, rfl, fun _ h => h, fun _ h => h⟩)

theorem mem_mapKeys_createNodeState {g : SimpleGraph} {n : Nat}
    (h : n ∈ mapKeys (createNodeState g).nodeStructure_) :
    n ∈ mapKeys g.nodeStructure_ ∨ n = g.highestNodeID_ := by
  rw [mem_mapKeys_iff] at h
  obtain ⟨v, hv⟩ := h
  rw [mapFind_createNodeState] at hv
  split at hv
  · rename_i hc
    exact Or.inr hc.1
  · exact Or.inl ((mem_mapKeys_iff _ _).2 ⟨v, hv⟩)

theorem mem_mapKeys_linkState_edges {g : SimpleGraph} {a b : Node} {e : Nat}
    (h : e ∈ mapKeys (linkState g a b).edgeStructure_) :
    e ∈ mapKeys g.edgeStructure_ ∨ e = (g.highestEdgeID_ + 1) % UINT_MOD := by
  rw [mem_mapKeys_iff] at h
  obtain ⟨v, hv⟩ := h
  change mapFind (mapAssign g.edgeStructure_ _ (a, b)) e = some v at hv
  rw [mapFind_mapAssign] at hv
  split at hv
  · rename_i hc
    exact Or.inr hc
  · exact Or.inl ((mem_mapKeys_iff _ _).2 ⟨v, hv⟩)

/-- What a returning mutation other than `createNodeOnEdge` does to the
counters and to the keys of the two structures. -/
theorem applyMutation_ids {g g' : SimpleGraph} {m : Mutation} {c : List Callback}
    (hm : ∀ e, m ≠ .createNodeOnEdge e) (ha : applyMutation g m = .returned () g' c) :
    g'.highestNodeID_ =
      (if m.newNodes = 0 then g.highestNodeID_ else (g.highestNodeID_ + 1) % UINT_MOD) ∧
    g'.highestEdgeID_ =
      (if m.newEdges = 0 then g.highestEdgeID_ else (g.highestEdgeID_ + 1) % UINT_MOD) ∧
    (∀ n ∈ mapKeys g'.nodeStructure_,
      n ∈ mapKeys g.nodeStructure_ ∨ (m.newNodes ≠ 0 ∧ n = g.highestNodeID_)) ∧
    (∀ e ∈ mapKeys g'.edgeStructure_,
      e ∈ mapKeys g.edgeStructure_ ∨
        (m.newEdges ≠ 0 ∧ e = (g.highestEdgeID_ + 1) % UINT_MOD)) := by
  have frame : NoNewIds g g' → m.newNodes = 0 → m.newEdges = 0 →
      g'.highestNodeID_ =
        (if m.newNodes = 0 then g.highestNodeID_ else (g.highestNodeID_ + 1) % UINT_MOD) ∧
      g'.highestEdgeID_ =
        (if m.newEdges = 0 then g.highestEdgeID_ else (g.highestEdgeID_ + 1) % UINT_MOD) ∧
      (∀ n ∈ mapKeys g'.nodeStructure_,
        n ∈ mapKeys g.nodeStructure_ ∨ (m.newNodes ≠ 0 ∧ n = g.highestNodeID_)) ∧
      (∀ e ∈ mapKeys g'.edgeStructure_,
        e ∈ mapKeys g.edgeStructure_ ∨
          (m.newEdges ≠ 0 ∧ e = (g.highestEdgeID_ + 1) % UINT_MOD)) := by
    intro h hn he
    rw [if_pos hn, if_pos he]
    exact ⟨h.1, h.2.1, fun n hn => Or.inl (h.2.2.2.1 n hn), fun e he => Or.inl (h.2.2.2.2 e he)⟩
  cases m with
  | createNode =>
    obtain ⟨v, hv⟩ := Result.discard_eq_returned ha
    rw [createNode_eq_state] at hv
    simp only [Result.returned.injEq] at hv
    obtain ⟨-, rfl, -⟩ := hv
    refine ⟨rfl, rfl, ?_, fun e he => Or.inl he⟩
    intro n hn
    rcases mem_mapKeys_createNodeState hn with h | h
    · exact Or.inl h
    · exact Or.inr ⟨(by simp [Mutation.newNodes, Mutation.newEdges]), h⟩
  | link a b =>
    obtain ⟨v, hv⟩ := Result.discard_eq_returned ha
    obtain ⟨ra, rb, -, -, -, rfl⟩ := link_returned hv
    refine ⟨rfl, rfl, ?_, ?_⟩
    · intro n hn
      rw [mapKeys_linkState] at hn
      exact Or.inl hn
    · intro e he
      rcases mem_mapKeys_linkState_edges he with h | h
      · exact Or.inl h
      · exact Or.inr ⟨(by simp [Mutation.newNodes, Mutation.newEdges]), h⟩
  | unlink a b =>
    obtain ⟨v, hv⟩ := Result.discard_eq_returned ha
    have hh := unlink_noNewIds g a b
    rw [hv] at hh
    exact frame hh rfl rfl
  | deleteNode n =>
    obtain ⟨v, hv⟩ := Result.discard_eq_returned ha
    have hh := deleteNode_noNewIds g n
    rw [hv] at hh
    exact frame hh rfl rfl
  | createNodeFromNode o =>
    obtain ⟨v, hv⟩ := Result.discard_eq_returned ha
    unfold createNodeFromNode at hv
    obtain ⟨_, g0, _, _, h1, hv, -⟩ := Result.andThen_eq_returned hv
    have e1 := Result.Returns_of_eq (nodeMustExist_returns g o _) h1
    subst e1
    rw [createNode_eq_state] at hv
    simp only [Result.andThen_returned, Result.after_nil] at hv
    obtain ⟨e, g2, _, _, hl, hv, -⟩ := Result.andThen_eq_returned hv
    simp only [Result.returned.injEq] at hv
    obtain ⟨-, rfl, -⟩ := hv
    obtain ⟨ra, rb, -, -, -, rfl⟩ := link_returned hl
    refine ⟨rfl, rfl, ?_, ?_⟩
    · intro n hn
      rw [mapKeys_linkState] at hn
      rcases mem_mapKeys_createNodeState hn with h | h
      · exact Or.inl h
      · exact Or.inr ⟨(by simp [Mutation.newNodes, Mutation.newEdges]), h⟩
    · intro e he
      rcases mem_mapKeys_linkState_edges he with h | h
      · exact Or.inl h
      · exact Or.inr ⟨(by simp [Mutation.newNodes, Mutation.newEdges]), h⟩
  | createNodeOnEdge e => exact absurd rfl (hm e)
  | makeDirected =>
    have hh := makeDirected_noNewIds g
    change makeDirected g = _ at ha
    rw [ha] at hh
    exact frame hh rfl rfl
  | makeUndirected =>
    have hh := makeUndirected_noNewIds g
    change makeUndirected g = _ at ha
    rw [ha] at hh
    exact frame hh rfl rfl

theorem runMutations_cons_returned {g g' : SimpleGraph} {m : Mutation} {ms : List Mutation}
    {c : List Callback} (h : runMutations g (m :: ms) = .returned () g' c) :
    ∃ g1 c1 c2, applyMutation g m = .returned () g1 c1 ∧
      runMutations g1 ms = .returned () g' c2 := by
  unfold runMutations at h
  obtain ⟨_, g1, c1, c2, h1, h2, -⟩ := Result.andThen_eq_returned h
  exact ⟨g1, c1, c2, h1, h2⟩

theorem runMutations_append_returned (ms1 : List Mutation) :
    ∀ {g g1 g2 : SimpleGraph} {ms2 : List Mutation} {c1 c2 : List Callback},
      runMutations g ms1 = .returned () g1 c1 → runMutations g1 ms2 = .returned () g2 c2 →
      runMutations g (ms1 ++ ms2) = .returned () g2 (c1 ++ c2) := by
  induction ms1 with
  | nil =>
    intro g g1 g2 ms2 c1 c2 h1 h2
    simp only [runMutations, Result.returned.injEq] at h1
    obtain ⟨-, rfl, rfl⟩ := h1
    simpa using h2
  | cons m rest ih =>
    intro g g1 g2 ms2 c1 c2 h1 h2
    unfold runMutations at h1
    obtain ⟨_, g0, c0, c0', h0, hrest, rfl⟩ := Result.andThen_eq_returned h1
    have := ih hrest h2
    rw [List.cons_append]
    unfold runMutations
    rw [h0, Result.andThen_returned, this]
    simp

/-- The counters and the keys after a returning run without `createNodeOnEdge`
during which no counter wraps. -/
theorem runMutations_ids (ms : List Mutation) :
    ∀ (g g' : SimpleGraph) (c : List Callback),
      (∀ e, Mutation.createNodeOnEdge e ∉ ms) →
      runMutations g ms = .returned () g' c →
      g.highestNodeID_ + nodeCreations ms < UINT_MOD →
      g.highestEdgeID_ + edgeCreations ms < UINT_MOD →
      IdsWithinCounters g →
      g'.highestNodeID_ = g.highestNodeID_ + nodeCreations ms ∧
      g'.highestEdgeID_ = g.highestEdgeID_ + edgeCreations ms ∧
      IdsWithinCounters g' := by
  induction ms with
  | nil =>
    intro g g' c _ h _ _ hinv
    simp only [runMutations, Result.returned.injEq] at h
    obtain ⟨-, rfl, -⟩ := h
    exact ⟨rfl, rfl, hinv⟩
  | cons m rest ih =>
    intro g g' c hno h hN hE hinv
    obtain ⟨g1, c1, c2, h1, h2⟩ := runMutations_cons_returned h
    have hm : ∀ e, m ≠ .createNodeOnEdge e := fun e he =>
      hno e (by rw [he]; exact List.mem_cons_self _ _)
    obtain ⟨i1, i2, i3, i4⟩ := applyMutation_ids hm h1
    have hNc : nodeCreations (m :: rest) = m.newNodes + nodeCreations rest := by
      simp [nodeCreations]
    have hEc : edgeCreations (m :: rest) = m.newEdges + edgeCreations rest := by
      simp [edgeCreations]
    rw [hNc] at hN ⊢
    rw [hEc] at hE ⊢
    have hn01 : m.newNodes = 0 ∨ m.newNodes = 1 := by
      cases m <;> simp [Mutation.newNodes]
    have he01 : m.newEdges = 0 ∨ m.newEdges = 1 := by
      cases m <;> simp [Mutation.newEdges]
      exact absurd rfl (hm _)
    have j1 : g1.highestNodeID_ = g.highestNodeID_ + m.newNodes := by
      rw [i1]
      rcases hn01 with h0 | h0
      · rw [if_pos h0, h0]
        rfl
      · have : ¬ m.newNodes = 0 := by omega
        rw [if_neg this, h0]
        apply Nat.mod_eq_of_lt
        omega
    have j2 : g1.highestEdgeID_ = g.highestEdgeID_ + m.newEdges := by
      rw [i2]
      rcases he01 with h0 | h0
      · rw [if_pos h0, h0]
        rfl
      · have : ¬ m.newEdges = 0 := by omega
        rw [if_neg this, h0]
        apply Nat.mod_eq_of_lt
        omega
    have hinv1 : IdsWithinCounters g1 := by
      constructor
      · intro n hn
        rcases i3 n hn with h | ⟨h, rfl⟩
        · have := hinv.1 n h
          omega
        · omega
      · intro e he
        rcases i4 e he with h | ⟨h, rfl⟩
        · have := hinv.2 e h
          omega
        · have : (g.highestEdgeID_ + 1) % UINT_MOD = g.highestEdgeID_ + 1 := by
            apply Nat.mod_eq_of_lt
            omega
          omega
    obtain ⟨k1, k2, k3⟩ := ih g1 g' c2 (fun e he => hno e (List.mem_cons_of_mem _ he)) h2
      (by omega) (by omega) hinv1
    exact ⟨by omega, by omega, k3⟩

/-- On the graph with the node `0` and the edge `1` from `0` to `0`,
`createNodeOnEdge(7)` returns although the edge table has no edge `7`: the test
of `edgeMustExist_` lets the absent id pass, `edgeStructure_[edge]` registers
the record `(0, 0)` under it, and `unlink(0, 0)` finds the edge `1`.  Afterwards
the edge table holds the id `7` while `getHighestEdgeID()` returns `3`. -/
theorem createNodeOnEdge_registers_absent_id :
    runMutations (SimpleGraph.new true) [.createNode, .link 0 0, .createNodeOnEdge 7] =
      .returned () absentEdgeRegistered [] ∧
    7 ∈ mapKeys absentEdgeRegistered.edgeStructure_ ∧
    getHighestEdgeID absentEdgeRegistered = .returned 3 absentEdgeRegistered [] := by
  refine ⟨rfl, ?_, rfl⟩
  decide

/-- C21 (counterexample): after `createNode()`, `createNode()`, `link(0, 1)` on a
new graph the edge table holds the edge `1` and `getHighestEdgeID()` returns
`1`: the edge id equals the counter, it is not below it, because `link`
increments `highestEdgeID_` before it uses it.  And the node counter decreases:
in the state with the counter `4294967295`, which `4294967295` pairs of
`createNode()` and `deleteNode` reach, `createNode()` leaves the counter `0`. -/
theorem edge_id_equals_counter :
    runMutations (SimpleGraph.new true) [.createNode, .createNode, .link 0 1] =
      .returned () (twoNodesLinked true) [] ∧
    getHighestEdgeID (twoNodesLinked true) = .returned 1 (twoNodesLinked true) [] ∧
    1 ∈ mapKeys (twoNodesLinked true).edgeStructure_ ∧
    ¬ (∀ e ∈ mapKeys (twoNodesLinked true).edgeStructure_, e < 1) ∧
    runCalls (SimpleGraph.new true) (createDeleteCalls 4294967295) =
      .returned (List.range 4294967295, []) (emptyWithCounter 4294967295) [] ∧
    ∃ g', createNode (emptyWithCounter 4294967295) = .returned 4294967295 g' [] ∧
      getHighestNodeID g' = .returned 0 g' [] := by
  refine ⟨rfl, rfl, ?_, ?_, createDeleteCalls_reaches 4294967295 (by decide), ?_⟩
  · decide
  · decide
  · exact ⟨_, createNode_eq_state _, rfl⟩

/-- C21 (amended): let a run of `createNode`, `link`, `unlink`, `deleteNode`,
`createNodeFromNode`, `makeDirected` and `makeUndirected` calls on a new graph
return, with fewer than `2^32` node creations and fewer than `2^32` edge
creations in it, so that no counter wraps.  Then the two counters after any
part of the run are at most what they are after the whole run, and in the
state reached every NodeId in the node structure is strictly below
`getHighestNodeID()` and every EdgeId in the edge table is at most
`getHighestEdgeID()`, the value that the latest `link` returned. -/
theorem counters_bound_ids (directed : Bool) (ms1 ms2 : List Mutation)
    (g1 g2 : SimpleGraph) (c1 c2 : List Callback)
    (h1 : runMutations (SimpleGraph.new directed) ms1 = .returned () g1 c1)
    (h2 : runMutations g1 ms2 = .returned () g2 c2)
    (hno : ∀ e, Mutation.createNodeOnEdge e ∉ ms1 ++ ms2)
    (hN : nodeCreations (ms1 ++ ms2) < UINT_MOD)
    (hE : edgeCreations (ms1 ++ ms2) < UINT_MOD) :
    g1.highestNodeID_ ≤ g2.highestNodeID_ ∧ g1.highestEdgeID_ ≤ g2.highestEdgeID_ ∧
    ∃ hn he, getHighestNodeID g2 = .returned hn g2 [] ∧
      getHighestEdgeID g2 = .returned he g2 [] ∧
      (∀ n ∈ mapKeys g2.nodeStructure_, n < hn) ∧
      (∀ e ∈ mapKeys g2.edgeStructure_, e ≤ he) := by
  have hNs : nodeCreations (ms1 ++ ms2) = nodeCreations ms1 + nodeCreations ms2 := by
    simp [nodeCreations]
  have hEs : edgeCreations (ms1 ++ ms2) = edgeCreations ms1 + edgeCreations ms2 := by
    simp [edgeCreations]
  rw [hNs] at hN
  rw [hEs] at hE
  have hinv0 : IdsWithinCounters (SimpleGraph.new directed) :=
    ⟨fun _ h => (by cases h), fun _ h => (by cases h)⟩
  have z1 : (SimpleGraph.new directed).highestNodeID_ = 0 := rfl
  have z2 : (SimpleGraph.new directed).highestEdgeID_ = 0 := rfl
  obtain ⟨a1, a2, a3⟩ := runMutations_ids ms1 _ g1 c1
    (fun e he => hno e (List.mem_append_left _ he)) h1 (by rw [z1]; omega) (by rw [z2]; omega)
    hinv0
  rw [z1] at a1
  rw [z2] at a2
  obtain ⟨b1, b2, b3⟩ := runMutations_ids ms2 g1 g2 c2
    (fun e he => hno e (List.mem_append_right _ he)) h2 (by omega) (by omega) a3
  exact ⟨by omega, by omega, _, _, rfl, rfl, b3.1, b3.2⟩

/-- Witness of C21 (amended): the run `createNode()`, `createNode()`,
`link(0, 1)`, split after the first call. -/
theorem counters_bound_ids_witness :
    runMutations (SimpleGraph.new true) [.createNode] =
      .returned () (createNodeState (SimpleGraph.new true)) [] ∧
    runMutations (createNodeState (SimpleGraph.new true)) [.createNode, .link 0 1] =
      .returned () (twoNodesLinked true) [] ∧
    ((createNodeState (SimpleGraph.new true)).highestNodeID_ ≤
        (twoNodesLinked true).highestNodeID_ ∧
      (createNodeState (SimpleGraph.new true)).highestEdgeID_ ≤
        (twoNodesLinked true).highestEdgeID_ ∧
      ∃ hn he, getHighestNodeID (twoNodesLinked true) = .returned hn (twoNodesLinked true) [] ∧
        getHighestEdgeID (twoNodesLinked true) = .returned he (twoNodesLinked true) [] ∧
        (∀ n ∈ mapKeys (twoNodesLinked true).nodeStructure_, n < hn) ∧
        (∀ e ∈ mapKeys (twoNodesLinked true).edgeStructure_, e ≤ he)) :=
  ⟨rfl, rfl,
    counters_bound_ids true [.createNode] [.createNode, .link 0 1] _ _ [] [] rfl rfl
      (fun e he => by simp at he) (by decide) (by decide)⟩

theorem isolateLoop_keys (node : Node) (g : SimpleGraph) (ns : List Node) :
    (isolateLoop node g ns).Returns fun _ g' =>
      mapKeys g'.nodeStructure_ = mapKeys g.nodeStructure_ := by
  induction ns generalizing g with
  | nil => rfl
  | cons n rest ih =>
    unfold isolateLoop
    refine Result.Returns_andThen
      (Q := fun _ g' => mapKeys g'.nodeStructure_ = mapKeys g.nodeStructure_) ?_ ?_
    · cases h : unlink g node n with
      | returned v g' c =>
        obtain ⟨e, -, rfl⟩ := unlink_returned h
        simp only [Result.Returns, unlinkState, removeRelation, mapKeys_mapModify]
      | threw ex g' c => trivial
      | undefinedBehavior => trivial
    · intro _ g1 h1
      exact Result.Returns_mono (ih g1) fun _ _ h => h.trans h1

theorem deleteNode_keys {g g' : SimpleGraph} {node : Node} {c : List Callback}
    (h : deleteNode g node = .returned () g' c) :
    node ∈ mapKeys g.nodeStructure_ ∧ g'.root_ = g.root_ ∧
    ∀ x, x ≠ node → x ∈ mapKeys g.nodeStructure_ → x ∈ mapKeys g'.nodeStructure_ := by
  have hroot : g'.root_ = g.root_ := by
    have hh := deleteNode_noNewIds g node
    rw [h] at hh
    exact hh.2.2.1
  obtain ⟨row, g1, c1, hrow, hloop, hns, -, -⟩ := deleteNode_returned h
  have hk := isolateLoop_keys node g (mapKeys row.2 ++ mapKeys row.1)
  rw [hloop] at hk
  refine ⟨(mem_mapKeys_iff _ _).2 ⟨row, hrow⟩, hroot, ?_⟩
  intro x hx hmem
  rw [hns, mem_mapKeys_mapErase]
  refine ⟨hx, ?_⟩
  have hk' : mapKeys g1.nodeStructure_ = mapKeys g.nodeStructure_ := hk
  rw [hk']
  exact hmem

theorem not_mem_mapKeys_of_nil {g : SimpleGraph} {x : Node}
    (h : g.nodeStructure_ = []) : x ∉ mapKeys g.nodeStructure_ := by
  rw [h]
  exact List.not_mem_nil x

theorem rootPresent_of_row {g : SimpleGraph} {x : Node} (h : RootPresentOrNext g)
    (hx : x ∈ mapKeys g.nodeStructure_) : g.root_ ∈ mapKeys g.nodeStructure_ := by
  rcases h with h | ⟨h, -⟩
  · exact h
  · exact absurd hx (not_mem_mapKeys_of_nil h)

theorem mem_mapKeys_createNodeState_iff (g : SimpleGraph) (x : Nat) :
    x ∈ mapKeys (createNodeState g).nodeStructure_ ↔
      x = g.highestNodeID_ ∨ x ∈ mapKeys g.nodeStructure_ := by
  constructor
  · intro h
    exact (mem_mapKeys_createNodeState h).symm
  · intro h
    rw [mem_mapKeys_iff, mapFind_createNodeState]
    by_cases hc : x = g.highestNodeID_ ∧ mapFind g.nodeStructure_ x = none
    · rw [if_pos hc]
      exact ⟨_, rfl⟩
    · rw [if_neg hc]
      rcases h with h | h
      · cases hf : mapFind g.nodeStructure_ x with
        | none => exact absurd ⟨h, hf⟩ hc
        | some v => exact ⟨v, rfl⟩
      · exact (mem_mapKeys_iff _ _).1 h

/-- A permitted operation that returns keeps Invariant 1 and leaves the root
in the node structure. -/
theorem applyOperation_rootPresent {g g' : SimpleGraph} {op : Operation} {c : List Callback}
    (hE : EdgesInAdjacency g) (hR : RootPresentOrNext g) (hp : Permitted g op)
    (ha : applyOperation g op = .returned () g' c) :
    EdgesInAdjacency g' ∧ g'.root_ ∈ mapKeys g'.nodeStructure_ := by
  cases op with
  | setRoot r =>
    change setRoot g r = _ at ha
    unfold setRoot at ha
    obtain ⟨_, g0, _, _, h1, ha, -⟩ := Result.andThen_eq_returned ha
    have e1 := Result.Returns_of_eq (nodeMustExist_returns g r _) h1
    subst e1
    simp only [Result.returned.injEq] at ha
    obtain ⟨-, rfl, -⟩ := ha
    refine ⟨hE, ?_⟩
    cases hrow : mapFind g.nodeStructure_ r with
    | none => rw [nodeMustExist_of_absent _ hrow] at h1; cases h1
    | some row => exact (mem_mapKeys_iff _ _).2 ⟨row, hrow⟩
  | createNodeFromEdge e => exact absurd hp id
  | mutate m =>
    change applyMutation g m = _ at ha
    cases m with
    | createNode =>
      have hc : Conforms g (Mutation.createNode) := hp
      refine ⟨edgesInAdjacency_applyMutation hE hc ha, ?_⟩
      obtain ⟨v, hv⟩ := Result.discard_eq_returned ha
      rw [createNode_eq_state] at hv
      simp only [Result.returned.injEq] at hv
      obtain ⟨-, rfl, -⟩ := hv
      rw [mem_mapKeys_createNodeState_iff]
      rcases hR with h | ⟨-, h⟩
      · exact Or.inr h
      · exact Or.inl h
    | link a b =>
      have hc : Conforms g (Mutation.link a b) := hp
      refine ⟨edgesInAdjacency_applyMutation hE hc ha, ?_⟩
      obtain ⟨v, hv⟩ := Result.discard_eq_returned ha
      obtain ⟨ra, rb, hra, -, -, rfl⟩ := link_returned hv
      rw [mapKeys_linkState]
      exact rootPresent_of_row hR ((mem_mapKeys_iff _ _).2 ⟨ra, hra⟩)
    | unlink a b =>
      have hc : Conforms g (Mutation.unlink a b) := hp
      refine ⟨edgesInAdjacency_applyMutation hE hc ha, ?_⟩
      obtain ⟨v, hv⟩ := Result.discard_eq_returned ha
      obtain ⟨e, hout, rfl⟩ := unlink_returned hv
      have hmem : a ∈ mapKeys g.nodeStructure_ := by
        unfold outAt at hout
        cases hrow : mapFind g.nodeStructure_ a with
        | none => rw [hrow] at hout; cases hout
        | some row => exact (mem_mapKeys_iff _ _).2 ⟨row, hrow⟩
      simp only [unlinkState, removeRelation, mapKeys_mapModify]
      exact rootPresent_of_row hR hmem
    | deleteNode n =>
      obtain ⟨v, hv⟩ := Result.discard_eq_returned ha
      refine ⟨edgesInAdjacency_deleteNode hE hv, ?_⟩
      obtain ⟨hn, hroot, hkeep⟩ := deleteNode_keys hv
      rw [hroot]
      exact hkeep _ (fun h => hp h.symm) (rootPresent_of_row hR hn)
    | createNodeFromNode o =>
      have hc : Conforms g (Mutation.createNodeFromNode o) := hp
      refine ⟨edgesInAdjacency_applyMutation hE hc ha, ?_⟩
      obtain ⟨v, hv⟩ := Result.discard_eq_returned ha
      unfold createNodeFromNode at hv
      obtain ⟨_, g0, _, _, h1, hv, -⟩ := Result.andThen_eq_returned hv
      have e1 := Result.Returns_of_eq (nodeMustExist_returns g o _) h1
      subst e1
      have hmem : o ∈ mapKeys g.nodeStructure_ := by
        cases hrow : mapFind g.nodeStructure_ o with
        | none => rw [nodeMustExist_of_absent _ hrow] at h1; cases h1
        | some row => exact (mem_mapKeys_iff _ _).2 ⟨row, hrow⟩
      rw [createNode_eq_state] at hv
      simp only [Result.andThen_returned, Result.after_nil] at hv
      obtain ⟨e, g2, _, _, hl, hv, -⟩ := Result.andThen_eq_returned hv
      simp only [Result.returned.injEq] at hv
      obtain ⟨-, rfl, -⟩ := hv
      obtain ⟨ra, rb, -, -, -, rfl⟩ := link_returned hl
      rw [mapKeys_linkState, mem_mapKeys_createNodeState_iff]
      exact Or.inr (rootPresent_of_row hR hmem)
    | createNodeOnEdge e => exact absurd hp id
    | makeDirected => exact absurd hp id
    | makeUndirected => exact absurd hp id

theorem runOperations_rootPresent (ops : List Operation) :
    ∀ (g g' : SimpleGraph) (c : List Callback), EdgesInAdjacency g → RootPresentOrNext g →
      PermittedRun g ops → runOperations g ops = .returned () g' c →
      EdgesInAdjacency g' ∧ (ops ≠ [] → g'.root_ ∈ mapKeys g'.nodeStructure_) := by
  induction ops with
  | nil =>
    intro g g' c hE _ _ h
    simp only [runOperations, Result.returned.injEq] at h
    obtain ⟨-, rfl, -⟩ := h
    exact ⟨hE, fun h => absurd rfl h⟩
  | cons op rest ih =>
    intro g g' c hE hR hp h
    unfold runOperations at h
    obtain ⟨_, g1, c1, c2, h1, h2, -⟩ := Result.andThen_eq_returned h
    obtain ⟨hE1, hR1⟩ := applyOperation_rootPresent hE hR hp.1 h1
    obtain ⟨hE2, hR2⟩ := ih g1 g' c2 hE1 (Or.inl hR1) (hp.2 g1 c1 h1) h2
    refine ⟨hE2, fun _ => ?_⟩
    cases rest with
    | nil =>
      simp only [runOperations, Result.returned.injEq] at h2
      obtain ⟨-, rfl, -⟩ := h2
      exact hR1
    | cons op2 rest2 => exact hR2 (List.cons_ne_nil _ _)

theorem permittedRun_cons {g : SimpleGraph} {op : Operation} {rest : List Operation}
    (g1 : SimpleGraph) (c1 : List Callback) (hp : Permitted g op)
    (h1 : applyOperation g op = .returned () g1 c1)
    (hrest : PermittedRun g1 rest) : PermittedRun g (op :: rest) := by
  refine ⟨hp, ?_⟩
  intro g' c h
  rw [h1] at h
  simp only [Result.returned.injEq] at h
  obtain ⟨-, rfl, -⟩ := h
  exact hrest

/-- C22 (counterexample): the fresh graph has the root `0` and an empty node
structure, so its root is not present; after `createNode()` and
`deleteNode(0)` the root is absent again; and after `createNode()`,
`createNode()`, `link(1, 0)`, `link(1, 0)`, `deleteNode(1)` the edge table
holds the record `2 -> (1, 0)` whose endpoint `1` is not in the node
structure, because `deleteNode` removes only the edge that the adjacency
holds for the pair. -/
theorem fresh_graph_root_absent :
    (∀ directed, (SimpleGraph.new directed).root_ ∉
      mapKeys (SimpleGraph.new directed).nodeStructure_) ∧
    (runMutations (SimpleGraph.new true) [.createNode, .deleteNode 0] =
      .returned () (emptyWithCounter 1) [] ∧
      (emptyWithCounter 1).root_ ∉ mapKeys (emptyWithCounter 1).nodeStructure_) ∧
    runMutations (SimpleGraph.new true)
      [.createNode, .createNode, .link 1 0, .link 1 0, .deleteNode 1] =
      .returned () danglingEndpoint [] ∧
    mapFind danglingEndpoint.edgeStructure_ 2 = some (1, 0) ∧
    1 ∉ mapKeys danglingEndpoint.nodeStructure_ := by
  refine ⟨?_, ⟨rfl, ?_⟩, rfl, rfl, ?_⟩
  · intro directed
    exact List.not_mem_nil _
  · exact List.not_mem_nil _
  · decide

/-- C22 (amended): let a run of `createNode`, `link`, `unlink`, `deleteNode`,
`createNodeFromNode` and `setRoot` calls on a fresh graph return, in which
`link(a, b)` (also the one inside `createNodeFromNode`) is only called when the
adjacency holds no entry for the pair and `deleteNode` is never called on the
root.  Then every NodeId that is an endpoint of a record of the edge table is
present in the node structure, and when the run has at least one call the
root is present in the node structure. -/
theorem endpoints_and_root_present (directed : Bool) (ops : List Operation)
    (g : SimpleGraph) (c : List Callback)
    (hrun : runOperations (SimpleGraph.new directed) ops = .returned () g c)
    (hperm : PermittedRun (SimpleGraph.new directed) ops) :
    (∀ e a b, mapFind g.edgeStructure_ e = some (a, b) →
      a ∈ mapKeys g.nodeStructure_ ∧ b ∈ mapKeys g.nodeStructure_) ∧
    (ops ≠ [] → g.root_ ∈ mapKeys g.nodeStructure_) := by
  have h0 : EdgesInAdjacency (SimpleGraph.new directed) := by
    intro e a b he
    cases he
  obtain ⟨hE, hR⟩ := runOperations_rootPresent ops _ g c h0 (Or.inr ⟨rfl, rfl⟩) hperm hrun
  refine ⟨?_, hR⟩
  intro e a b he
  obtain ⟨h1, h2⟩ := hE e a b he
  have key : ∀ x y e', outAt g.nodeStructure_ x y = some e' → x ∈ mapKeys g.nodeStructure_ := by
    intro x y e' h
    unfold outAt at h
    cases hrow : mapFind g.nodeStructure_ x with
    | none => rw [hrow] at h; cases h
    | some row => exact (mem_mapKeys_iff _ _).2 ⟨row, hrow⟩
  refine ⟨key _ _ _ h1, ?_⟩
  split at h2
  · unfold inAt at h2
    cases hrow : mapFind g.nodeStructure_ b with
    | none => rw [hrow] at h2; cases h2
    | some row => exact (mem_mapKeys_iff _ _).2 ⟨row, hrow⟩
  · exact key _ _ _ h2

/-- Witness of C22 (amended): `createNode()`, `createNodeFromNode(0)`,
`createNodeFromNode(1)`, `setRoot(1)`, `unlink(0, 1)`, `deleteNode(0)` on a fresh
directed graph leave the nodes `1` and `2`, the root `1` and the edge `2` from
`1` to `2`. -/
theorem endpoints_and_root_present_witness :
    runOperations (SimpleGraph.new true)
      [.mutate .createNode, .mutate (.createNodeFromNode 0), .mutate (.createNodeFromNode 1),
       .setRoot 1, .mutate (.unlink 0 1), .mutate (.deleteNode 0)] =
      .returned () { oneEdgeLeft with root_ := 1 } [] ∧
    mapFind oneEdgeLeft.edgeStructure_ 2 = some (1, 2) ∧
    ((1 : Node) ∈ mapKeys oneEdgeLeft.nodeStructure_ ∧
      (2 : Node) ∈ mapKeys oneEdgeLeft.nodeStructure_) ∧
    (({ oneEdgeLeft with root_ := 1 } : SimpleGraph).root_ ∈
      mapKeys oneEdgeLeft.nodeStructure_) := by
  have hperm : PermittedRun (SimpleGraph.new true)
      [.mutate .createNode, .mutate (.createNodeFromNode 0), .mutate (.createNodeFromNode 1),
       .setRoot 1, .mutate (.unlink 0 1), .mutate (.deleteNode 0)] := by
    refine permittedRun_cons _ [] trivial rfl ?_
    refine permittedRun_cons _ [] ⟨rfl, rfl⟩ rfl ?_
    refine permittedRun_cons _ [] ⟨rfl, rfl⟩ rfl ?_
    refine permittedRun_cons _ [] trivial rfl ?_
    refine permittedRun_cons _ [] trivial rfl ?_
    refine permittedRun_cons _ [] (by show (0 : Nat) ≠ 1; decide) rfl ?_
    trivial
  have h := endpoints_and_root_present true
    [.mutate .createNode, .mutate (.createNodeFromNode 0), .mutate (.createNodeFromNode 1),
     .setRoot 1, .mutate (.unlink 0 1), .mutate (.deleteNode 0)]
    { oneEdgeLeft with root_ := 1 } [] rfl hperm
  exact ⟨rfl, rfl, h.1 2 1 2 rfl, h.2 (List.cons_ne_nil _ _)⟩

theorem IsCycle.add_mul {g : SimpleGraph} {k : Nat} {c : Nat → Node} (h : IsCycle g k c)
    (a n : Nat) : c (a + k * n) = c a := by
  induction n with
  | zero => rfl
  | succ n ih =>
    have : a + k * (n + 1) = (a + k * n) + k := by ring
    rw [this, h.periodic, ih]

theorem IsCycle.mod {g : SimpleGraph} {k : Nat} {c : Nat → Node} (h : IsCycle g k c)
    (i : Nat) : c i = c (i % k) := by
  have := h.add_mul (i % k) (i / k)
  rw [Nat.mod_add_div] at this
  exact this

theorem IsCycle.ne_of_lt {g : SimpleGraph} {k : Nat} {c : Nat → Node} (h : IsCycle g k c)
    (a d : Nat) (hd : 0 < d) (hdk : d < k) : c (a + d) ≠ c a := by
  intro he
  rw [h.mod (a + d), h.mod a] at he
  have hk : 0 < k := by omega
  have := h.distinct _ _ (Nat.mod_lt _ hk) (Nat.mod_lt _ hk) he
  have h2 := Nat.sub_mod_eq_zero_of_mod_eq this
  rw [Nat.add_sub_cancel_left, Nat.mod_eq_of_lt hdk] at h2
  omega

theorem IsCycle.shift {g : SimpleGraph} {k : Nat} {c : Nat → Node} (h : IsCycle g k c)
    (j : Nat) : IsCycle g k fun i => c (j + i) where
  periodic := by
    intro i
    show c (j + (i + k)) = c (j + i)
    rw [← Nat.add_assoc, h.periodic]
  distinct := by
    intro a b ha hb hab
    by_contra hne
    rcases Nat.lt_or_gt_of_ne hne with hlt | hlt
    · have := h.ne_of_lt (j + a) (b - a) (by omega) (by omega)
      apply this
      have e : j + a + (b - a) = j + b := by omega
      rw [e]
      exact hab.symm
    · have := h.ne_of_lt (j + b) (a - b) (by omega) (by omega)
      apply this
      have e : j + b + (a - b) = j + a := by omega
      rw [e]
      exact hab
  edges := by
    intro i
    exact h.edges (j + i)

theorem getOutgoingNeighbors_of_row {g : SimpleGraph} {node : Node} {row : NodeRow}
    (h : mapFind g.nodeStructure_ node = some row) :
    getOutgoingNeighbors g node = .returned (mapKeys row.1) g [] := by
  unfold getOutgoingNeighbors
  rw [getNeighbors_of_find true h]
  rfl

theorem getOutgoingNeighbors_of_absent {g : SimpleGraph} {node : Node}
    (h : mapFind g.nodeStructure_ node = none) :
    getOutgoingNeighbors g node = .threw (.nodeMustExist node "") g [] :=
  getNeighbors_of_absent true h

theorem Bounded.andThen_eq_some_returned {α β : Type} {r : Bounded α}
    {f : α → SimpleGraph → Bounded β} {v : β} {g : SimpleGraph} {c : List Callback}
    (h : Bounded.andThen r f = some (.returned v g c)) :
    ∃ v1 g1 c1 c2, r = some (.returned v1 g1 c1) ∧ f v1 g1 = some (.returned v g c2) ∧
      c = c1 ++ c2 := by
  cases r with
  | none => cases h
  | some r =>
    cases r with
    | returned v1 g1 c1 =>
      rw [Bounded.andThen_of_returned] at h
      cases hf : f v1 g1 with
      | none => rw [hf] at h; cases h
      | some r2 =>
        rw [hf] at h
        cases r2 with
        | returned v2 g2 c2 =>
          simp only [Option.map_some', Result.after_returned, Option.some.injEq,
            Result.returned.injEq] at h
          obtain ⟨rfl, rfl, rfl⟩ := h
          exact ⟨v1, g1, c1, c2, rfl, hf, rfl⟩
        | threw ex g2 c2 => simp at h
        | undefinedBehavior => simp at h
    | threw ex g1 c1 => cases h
    | undefinedBehavior => cases h

theorem metOnlyOnceLoop_state {g : SimpleGraph}
    {recur : Node → List Node → SimpleGraph → Bounded (Bool × List Node)} (origin : Node)
    (hrec : ∀ n met v g' c, recur n met g = some (.returned v g' c) → g' = g ∧ c = []) :
    ∀ (nbs : List Node) (flag : Bool) (met : List Node) v g' c,
      metOnlyOnceLoop recur origin nbs flag met g = some (.returned v g' c) →
      g' = g ∧ c = [] := by
  intro nbs
  induction nbs with
  | nil =>
    intro flag met v g' c h
    simp only [metOnlyOnceLoop, Option.some.injEq, Result.returned.injEq] at h
    exact ⟨h.2.1.symm, h.2.2.symm⟩
  | cons w rest ih =>
    intro flag met v g' c h
    cases flag with
    | false =>
      rw [metOnlyOnceLoop_false] at h
      simp only [Option.some.injEq, Result.returned.injEq] at h
      exact ⟨h.2.1.symm, h.2.2.symm⟩
    | true =>
      by_cases hw : w = origin
      · subst hw
        rw [metOnlyOnceLoop_skip] at h
        exact ih _ _ _ _ _ h
      · unfold metOnlyOnceLoop at h
        simp only [Bool.not_true, Bool.false_eq_true, if_false, if_neg hw] at h
        obtain ⟨v1, g1, c1, c2, h1, h2, rfl⟩ := Bounded.andThen_eq_some_returned h
        obtain ⟨rfl, rfl⟩ := hrec _ _ _ _ _ h1
        obtain ⟨rfl, rfl⟩ := ih _ _ _ _ _ h2
        exact ⟨rfl, rfl⟩

theorem nodesAreMetOnlyOnce_state (g : SimpleGraph) :
    ∀ (fuel : Nat) (node : Node) (met : List Node) (origin : Node) v g' c,
      nodesAreMetOnlyOnce_ fuel g node met origin = some (.returned v g' c) →
      g' = g ∧ c = [] := by
  intro fuel
  induction fuel with
  | zero =>
    intro node met origin v g' c h
    cases h
  | succ fuel ih =>
    intro node met origin v g' c h
    unfold nodesAreMetOnlyOnce_ at h
    cases hrow : mapFind g.nodeStructure_ node with
    | none =>
      rw [getOutgoingNeighbors_of_absent hrow] at h
      cases h
    | some row =>
      rw [getOutgoingNeighbors_of_row hrow, Bounded.andThen_of_returned,
        Option.map_after_nil] at h
      exact metOnlyOnceLoop_state origin (fun n met v g' c h => ih n met node v g' c h)
        _ _ _ _ _ _ h

theorem card_unmet_mono (K : Finset Nat) {met met' : List Nat} (h : ∀ x ∈ met, x ∈ met') :
    (K \ met'.toFinset).card ≤ (K \ met.toFinset).card := by
  apply Finset.card_le_card
  apply Finset.sdiff_subset_sdiff (Finset.Subset.refl K)
  intro x hx
  rw [List.mem_toFinset] at hx ⊢
  exact h x hx

theorem card_unmet_lt (K : Finset Nat) {met : List Nat} {node : Nat} (hK : node ∈ K)
    (hnode : node ∉ met) :
    (K \ (node :: met).toFinset).card < (K \ met.toFinset).card := by
  apply Finset.card_lt_card
  rw [Finset.ssubset_iff_of_subset]
  · refine ⟨node, ?_, ?_⟩
    · rw [Finset.mem_sdiff, List.mem_toFinset]
      exact ⟨hK, hnode⟩
    · rw [Finset.mem_sdiff, List.mem_toFinset]
      intro h
      exact h.2 (List.mem_cons_self _ _)
  · apply Finset.sdiff_subset_sdiff (Finset.Subset.refl K)
    intro x hx
    rw [List.mem_toFinset] at hx ⊢
    exact List.mem_cons_of_mem _ hx

theorem metOnlyOnceLoop_terminates {g : SimpleGraph}
    (recur : Node → List Node → SimpleGraph → Bounded (Bool × List Node)) (origin : Node)
    (bound : Nat)
    (hrec : ∀ (w : Node) (met1 : List Node),
      ((mapKeys g.nodeStructure_).toFinset \ met1.toFinset).card < bound →
      (∃ flag met', recur w met1 g = some (.returned (flag, met') g []) ∧
        ∀ x ∈ met1, x ∈ met') ∨
      ((¬ NeighborsExist g ∨ w ∉ mapKeys g.nodeStructure_) ∧
        ∃ ex, recur w met1 g = some (.threw ex g []))) :
    ∀ (nbs : List Node) (flag : Bool) (met1 : List Node),
      (∀ w ∈ nbs, NeighborsExist g → w ∈ mapKeys g.nodeStructure_) →
      ((mapKeys g.nodeStructure_).toFinset \ met1.toFinset).card < bound →
      (∃ flag' met', metOnlyOnceLoop recur origin nbs flag met1 g =
          some (.returned (flag', met') g []) ∧ ∀ x ∈ met1, x ∈ met') ∨
      (¬ NeighborsExist g ∧
        ∃ ex, metOnlyOnceLoop recur origin nbs flag met1 g = some (.threw ex g [])) := by
  intro nbs
  induction nbs with
  | nil =>
    intro flag met1 _ _
    exact Or.inl ⟨flag, met1, rfl, fun _ h => h⟩
  | cons w rest ih =>
    intro flag met1 hnbs hcard
    have hrest : ∀ w ∈ rest, NeighborsExist g → w ∈ mapKeys g.nodeStructure_ :=
      fun x hx => hnbs x (List.mem_cons_of_mem _ hx)
    cases flag with
    | false =>
      rw [metOnlyOnceLoop_false]
      exact Or.inl ⟨false, met1, rfl, fun _ h => h⟩
    | true =>
      by_cases hw : w = origin
      · subst hw
        rw [metOnlyOnceLoop_skip]
        exact ih true met1 hrest hcard
      · unfold metOnlyOnceLoop
        simp only [Bool.not_true, Bool.false_eq_true, if_false, if_neg hw]
        rcases hrec w met1 hcard with ⟨f1, m1, h1, hm1⟩ | ⟨hno, ex, h1⟩
        · rw [h1, Bounded.andThen_of_returned, Option.map_after_nil]
          have hcard1 := lt_of_le_of_lt (card_unmet_mono _ hm1) hcard
          rcases ih f1 m1 hrest hcard1 with ⟨f2, m2, h2, hm2⟩ | ⟨hno, ex, h2⟩
          · exact Or.inl ⟨f2, m2, h2, fun x hx => hm2 x (hm1 x hx)⟩
          · exact Or.inr ⟨hno, ex, h2⟩
        · rw [h1, Bounded.andThen_of_threw]
          refine Or.inr ⟨?_, ex, rfl⟩
          rcases hno with hno | hno
          · exact hno
          · exact fun hne => hno (hnbs w (List.mem_cons_self _ _) hne)

theorem nodesAreMetOnlyOnce_terminates (g : SimpleGraph) :
    ∀ (fuel : Nat) (node : Node) (met : List Node) (origin : Node),
      ((mapKeys g.nodeStructure_).toFinset \ met.toFinset).card < fuel →
      (∃ flag met', nodesAreMetOnlyOnce_ fuel g node met origin =
          some (.returned (flag, met') g []) ∧ ∀ x ∈ met, x ∈ met') ∨
      ((¬ NeighborsExist g ∨ node ∉ mapKeys g.nodeStructure_) ∧
        ∃ ex, nodesAreMetOnlyOnce_ fuel g node met origin = some (.threw ex g [])) := by
  intro fuel
  induction fuel with
  | zero =>
    intro node met origin h
    exact absurd h (Nat.not_lt_zero _)
  | succ fuel ih =>
    intro node met origin hcard
    unfold nodesAreMetOnlyOnce_
    cases hrow : mapFind g.nodeStructure_ node with
    | none =>
      rw [getOutgoingNeighbors_of_absent hrow, Bounded.andThen_of_threw]
      exact Or.inr ⟨Or.inr ((mapFind_eq_none_iff _ _).1 hrow), _, rfl⟩
    | some row =>
      rw [getOutgoingNeighbors_of_row hrow, Bounded.andThen_of_returned, Option.map_after_nil]
      have hK : node ∈ (mapKeys g.nodeStructure_).toFinset :=
        List.mem_toFinset.2 ((mem_mapKeys_iff _ _).2 ⟨row, hrow⟩)
      have hnbs : ∀ w ∈ mapKeys row.1, NeighborsExist g → w ∈ mapKeys g.nodeStructure_ :=
        fun w hw hne => hne node w ⟨row, hrow, hw⟩
      by_cases hmet : node ∈ met
      · simp only [hmet, decide_True, Bool.not_true, if_true]
        rw [metOnlyOnceLoop_false]
        exact Or.inl ⟨false, met, rfl, fun _ h => h⟩
      · simp only [hmet, decide_False, Bool.not_false, if_false]
        have hcard1 : ((mapKeys g.nodeStructure_).toFinset \ (node :: met).toFinset).card <
            fuel := by
          have := card_unmet_lt _ hK hmet
          omega
        rcases metOnlyOnceLoop_terminates
            (fun n met g => nodesAreMetOnlyOnce_ fuel g n met node) origin fuel
            (fun w met1 h => ih w met1 node h) (mapKeys row.1) true (node :: met) hnbs hcard1
          with ⟨f2, m2, h2, hm2⟩ | ⟨hno, ex, h2⟩
        · exact Or.inl ⟨f2, m2, h2, fun x hx => hm2 x (List.mem_cons_of_mem _ hx)⟩
        · exact Or.inr ⟨Or.inl hno, ex, h2⟩


theorem LoopMet.step {g : SimpleGraph} {node w : Node} {met0 P M M1 : List Node}
    (hL : LoopMet g node met0 P M) (hW : MetOnce g w node M M1) :
    LoopMet g node met0 (P ++ [w]) M1 where
  mono := fun x hx => hW.mono x (hL.mono x hx)
  done := by
    intro p hp
    rcases List.mem_append.1 hp with h | h
    · exact ⟨hW.mono p (hL.done p h).1, (hL.done p h).2⟩
    · rw [List.mem_singleton] at h
      subst h
      exact ⟨hW.here, fun h0 => hW.fresh (hL.mono p h0)⟩
  closed := by
    intro v hv hv0 x hout
    by_cases hvM : v ∈ M
    · rcases hL.closed v hvM hv0 x hout with h | h
      · exact Or.inl ⟨hW.mono x h.1, h.2⟩
      · exact Or.inr h
    · rcases hW.closed v hv hvM x hout with h | h
      · exact Or.inl ⟨h.1, fun h0 => h.2 (hL.mono x h0)⟩
      · exact Or.inr h.2
  acyclic := by
    intro k c hk hc hall hsucc
    by_cases hA : ∃ j, c j ∈ M1 ∧ c j ∉ M
    · obtain ⟨j, hj⟩ := hA
      by_cases hA1 : ∀ m, c (j + m) ∈ M1 ∧ c (j + m) ∉ M
      · exact hW.acyclic k (fun i => c (j + i)) hk (hc.shift j) hA1
      · have hex : ∀ m, (c (j + m) ∈ M1 ∧ c (j + m) ∉ M) ∨
            ∃ a, (c a ∈ M1 ∧ c a ∉ M) ∧ ¬ (c (a + 1) ∈ M1 ∧ c (a + 1) ∉ M) := by
          intro m
          induction m with
          | zero => exact Or.inl hj
          | succ m ih =>
            rcases ih with h | h
            · by_cases hn : c (j + (m + 1)) ∈ M1 ∧ c (j + (m + 1)) ∉ M
              · exact Or.inl hn
              · exact Or.inr ⟨j + m, h, hn⟩
            · exact Or.inr h
        have hbreak : ∃ a, (c a ∈ M1 ∧ c a ∉ M) ∧ ¬ (c (a + 1) ∈ M1 ∧ c (a + 1) ∉ M) := by
          by_contra hno
          apply hA1
          intro m
          rcases hex m with h | h
          · exact h
          · exact absurd h hno
        obtain ⟨a, ha, ha1⟩ := hbreak
        rcases hW.closed (c a) ha.1 ha.2 (c (a + 1)) (hc.edges a) with h | ⟨hcw, hcn⟩
        · exact ha1 h
        · have h2 := hsucc (a + 1) hcn
          rcases List.mem_append.1 h2 with hP | hw
          · have hwalk : ∀ t, t + 2 ≤ k → c (a + 2 + t) ∈ M ∧ c (a + 2 + t) ∉ met0 := by
              intro t
              induction t with
              | zero =>
                intro _
                exact hL.done _ hP
              | succ t ih =>
                intro ht
                have := ih (by omega)
                rcases hL.closed _ this.1 this.2 _ (hc.edges (a + 2 + t)) with h | h
                · exact h
                · exfalso
                  have hne := hc.ne_of_lt (a + 1) (t + 2) (by omega) (by omega)
                  apply hne
                  have e : a + 1 + (t + 2) = a + 2 + t + 1 := by omega
                  rw [e, h, hcn]
            have hend := (hwalk (k - 2) (by omega)).1
            have e : a + 2 + (k - 2) = a + k := by omega
            rw [e, hc.periodic, hcw] at hend
            exact hW.fresh hend
          · rw [List.mem_singleton] at hw
            have hne := hc.ne_of_lt a 2 (by omega) (by omega)
            apply hne
            rw [hw, hcw]
    · have hB : ∀ j, c j ∈ M1 → c j ∈ M := by
        intro j hj
        by_contra hn
        exact hA ⟨j, hj, hn⟩
      refine hL.acyclic k c hk hc ?_ ?_
      · intro i
        rcases hall i with h | h
        · exact Or.inl ⟨hB i h.1, h.2⟩
        · exact Or.inr h
      · intro i hi
        rcases List.mem_append.1 (hsucc i hi) with h | h
        · exact h
        · rw [List.mem_singleton] at h
          exfalso
          apply hW.fresh
          have := hB (i + 1) (by rw [h]; exact hW.here)
          rw [h] at this
          exact this

theorem metOnlyOnceLoop_true {g : SimpleGraph}
    (recur : Node → List Node → SimpleGraph → Bounded (Bool × List Node))
    {node : Node} (origin : Node) {met0 : List Node} (hnode : node ∈ met0)
    (hstate : ∀ n met v g' c, recur n met g = some (.returned v g' c) → g' = g ∧ c = [])
    (hrec : ∀ w M M1, recur w M g = some (.returned (true, M1) g []) → node ∈ M →
      MetOnce g w node M M1) :
    ∀ (nbs P M met' : List Node) (g' : SimpleGraph) (c : List Callback),
      metOnlyOnceLoop recur origin nbs true M g = some (.returned (true, met') g' c) →
      LoopMet g node met0 P M →
      ∃ P', LoopMet g node met0 P' met' ∧ (∀ p ∈ P, p ∈ P') ∧
        ∀ x ∈ nbs, x ≠ origin → x ∈ P' := by
  intro nbs
  induction nbs with
  | nil =>
    intro P M met' g' c h hL
    simp only [metOnlyOnceLoop, Option.some.injEq, Result.returned.injEq, Prod.mk.injEq,
      true_and] at h
    obtain ⟨rfl, -, -⟩ := h
    exact ⟨P, hL, fun _ h => h, fun x hx => absurd hx (List.not_mem_nil x)⟩
  | cons w rest ih =>
    intro P M met' g' c h hL
    by_cases hw : w = origin
    · subst hw
      rw [metOnlyOnceLoop_skip] at h
      obtain ⟨P', h1, h2, h3⟩ := ih P M met' g' c h hL
      refine ⟨P', h1, h2, ?_⟩
      intro x hx hxo
      rcases List.mem_cons.1 hx with h | h
      · exact absurd h hxo
      · exact h3 x h hxo
    · unfold metOnlyOnceLoop at h
      simp only [Bool.not_true, Bool.false_eq_true, if_false, if_neg hw] at h
      obtain ⟨⟨f1, M1⟩, g1, c1, c2, h1, h2, -⟩ := Bounded.andThen_eq_some_returned h
      obtain ⟨rfl, rfl⟩ := hstate _ _ _ _ _ h1
      cases f1 with
      | false =>
        rw [metOnlyOnceLoop_false] at h2
        simp at h2
      | true =>
        have hW := hrec w M M1 h1 (hL.mono node hnode)
        obtain ⟨P', i1, i2, i3⟩ := ih (P ++ [w]) M1 met' g' c2 h2 (hL.step hW)
        refine ⟨P', i1, fun p hp => i2 p (List.mem_append_left _ hp), ?_⟩
        intro x hx hxo
        rcases List.mem_cons.1 hx with h | h
        · subst h
          exact i2 x (List.mem_append_right _ (List.mem_singleton_self x))
        · exact i3 x h hxo

theorem nodesAreMetOnlyOnce_true (g : SimpleGraph) :
    ∀ (fuel : Nat) (node : Node) (met : List Node) (origin : Node) (met' : List Node),
      nodesAreMetOnlyOnce_ fuel g node met origin = some (.returned (true, met') g []) →
      (origin ∈ met ∨ origin = node) → MetOnce g node origin met met' := by
  intro fuel
  induction fuel with
  | zero =>
    intro node met origin met' h
    cases h
  | succ fuel ih =>
    intro node met origin met' h horigin
    unfold nodesAreMetOnlyOnce_ at h
    cases hrow : mapFind g.nodeStructure_ node with
    | none =>
      rw [getOutgoingNeighbors_of_absent hrow] at h
      cases h
    | some row =>
      rw [getOutgoingNeighbors_of_row hrow, Bounded.andThen_of_returned,
        Option.map_after_nil] at h
      by_cases hmet : node ∈ met
      · simp only [hmet, decide_True, Bool.not_true, if_true] at h
        rw [metOnlyOnceLoop_false] at h
        simp at h
      · simp only [hmet, decide_False, Bool.not_false, if_false] at h
        have hL0 : LoopMet g node (node :: met) [] (node :: met) :=
          { mono := fun _ h => h
            done := fun p hp => absurd hp (List.not_mem_nil p)
            closed := fun v hv hv0 => absurd hv hv0
            acyclic := by
              intro k c hk hc hall _
              have h0 : c 0 = node := by
                rcases hall 0 with h | h
                · exact absurd h.1 h.2
                · exact h
              have h1 : c 1 = node := by
                rcases hall 1 with h | h
                · exact absurd h.1 h.2
                · exact h
              exact hc.ne_of_lt 0 1 (by omega) (by omega) (by rw [Nat.zero_add, h1, h0]) }
        obtain ⟨P', hL, -, hnb⟩ := metOnlyOnceLoop_true
          (fun n met g => nodesAreMetOnlyOnce_ fuel g n met node) origin
          (List.mem_cons_self node met)
          (fun n met v g' c h => nodesAreMetOnlyOnce_state g fuel n met node v g' c h)
          (fun w M M1 h hM => ih w M node M1 h (Or.inl hM))
          (mapKeys row.1) [] (node :: met) met' g [] h hL0
        refine
          { fresh := hmet
            here := hL.mono node (List.mem_cons_self _ _)
            mono := fun x hx => hL.mono x (List.mem_cons_of_mem _ hx)
            closed := ?_
            acyclic := ?_ }
        · intro v hv hvmet x hout
          by_cases hvn : v = node
          · subst hvn
            obtain ⟨row', hrow', hx⟩ := hout
            rw [hrow] at hrow'
            cases hrow'
            by_cases hxo : x = origin
            · exact Or.inr ⟨rfl, hxo⟩
            · have := hL.done x (hnb x hx hxo)
              exact Or.inl ⟨this.1, fun h0 => this.2 (List.mem_cons_of_mem _ h0)⟩
          · have hv0 : v ∉ node :: met := by
              intro h0
              rcases List.mem_cons.1 h0 with h1 | h1
              · exact hvn h1
              · exact hvmet h1
            rcases hL.closed v hv hv0 x hout with h1 | h1
            · exact Or.inl ⟨h1.1, fun h0 => h1.2 (List.mem_cons_of_mem _ h0)⟩
            · rw [h1]
              exact Or.inl ⟨hL.mono node (List.mem_cons_self _ _), hmet⟩
        · intro k c hk hc hall
          refine hL.acyclic k c hk hc ?_ ?_
          · intro i
            by_cases hi : c i = node
            · exact Or.inr hi
            · refine Or.inl ⟨(hall i).1, ?_⟩
              intro h0
              rcases List.mem_cons.1 h0 with h1 | h1
              · exact hi h1
              · exact (hall i).2 h1
          · intro i hi
            have hout := hc.edges i
            rw [hi] at hout
            obtain ⟨row', hrow', hx⟩ := hout
            rw [hrow] at hrow'
            cases hrow'
            apply hnb _ hx
            intro hxo
            rcases horigin with ho | ho
            · exact (hall (i + 1)).2 (by rw [hxo]; exact ho)
            · exact hc.ne_of_lt i 1 (by omega) (by omega) (by rw [hxo, ho, hi])


theorem mirrored_nil : Mirrored [] := fun _ _ => Iff.rfl

theorem mirrored_addRelation {ns : UMap NodeRow} {a b : Node} {ra rb : NodeRow} (e : Edge)
    (ha : mapFind ns a = some ra) (hb : mapFind ns b = some rb) (h : Mirrored ns) :
    Mirrored (addRelation ns a b e) := by
  intro x y
  rw [outAt_addRelation e ha, inAt_addRelation e hb]
  by_cases hc : x = a ∧ y = b
  · have hc' : y = b ∧ x = a := ⟨hc.2, hc.1⟩
    rw [if_pos hc, if_pos hc']
    simp
  · have hc' : ¬ (y = b ∧ x = a) := fun h => hc ⟨h.2, h.1⟩
    rw [if_neg hc, if_neg hc']
    exact h x y

theorem mirrored_removeRelation {ns : UMap NodeRow} (a b : Node) (h : Mirrored ns) :
    Mirrored (removeRelation ns a b) := by
  intro x y
  rw [outAt_removeRelation, inAt_removeRelation]
  by_cases hc : x = a ∧ y = b
  · have hc' : y = b ∧ x = a := ⟨hc.2, hc.1⟩
    rw [if_pos hc, if_pos hc']
  · have hc' : ¬ (y = b ∧ x = a) := fun h => hc ⟨h.2, h.1⟩
    rw [if_neg hc, if_neg hc']
    exact h x y

theorem linkInNodeStructure_mirrored (g : SimpleGraph) (a b : Node) (e : Edge)
    (h : Mirrored g.nodeStructure_) :
    (linkInNodeStructure_ g a b e).Returns fun _ g' => Mirrored g'.nodeStructure_ := by
  cases ha : mapFind g.nodeStructure_ a with
  | none =>
    unfold linkInNodeStructure_
    simp only [ha]
    trivial
  | some ra =>
    cases hb : mapFind g.nodeStructure_ b with
    | none =>
      unfold linkInNodeStructure_
      simp only [ha]
      have hb' : mapFind (mapModify g.nodeStructure_ a
          (fun row => (mapInsert row.1 b e, row.2))) b = none := by
        rw [mapFind_mapModify]
        by_cases hab : b = a
        · subst hab
          rw [hb] at ha
          cases ha
        · rw [if_neg hab, hb]
      simp only [hb']
      trivial
    | some rb =>
      rw [linkInNodeStructure_of_find e ha hb]
      exact mirrored_addRelation e ha hb h

theorem mirrored_linkState {g : SimpleGraph} {a b : Node} {ra rb : NodeRow}
    (ha : mapFind g.nodeStructure_ a = some ra) (hb : mapFind g.nodeStructure_ b = some rb)
    (h : Mirrored g.nodeStructure_) : Mirrored (linkState g a b).nodeStructure_ := by
  unfold linkState
  cases hd : g.directed_
  · simp only [Bool.false_eq_true, if_false]
    have h1 := mirrored_addRelation ((g.highestEdgeID_ + 1) % UINT_MOD) ha hb h
    have ha1 : ∃ r, mapFind (addRelation g.nodeStructure_ a b
        ((g.highestEdgeID_ + 1) % UINT_MOD)) a = some r := by
      rw [mapFind_addRelation, ha]
      exact ⟨_, rfl⟩
    have hb1 : ∃ r, mapFind (addRelation g.nodeStructure_ a b
        ((g.highestEdgeID_ + 1) % UINT_MOD)) b = some r := by
      rw [mapFind_addRelation, hb]
      exact ⟨_, rfl⟩
    obtain ⟨_, ha1⟩ := ha1
    obtain ⟨_, hb1⟩ := hb1
    exact mirrored_addRelation _ hb1 ha1 h1
  · simp only [if_true]
    exact mirrored_addRelation _ ha hb h

theorem link_mirrored (g : SimpleGraph) (a b : Node) (h : Mirrored g.nodeStructure_) :
    (link g a b).Returns fun _ g' => Mirrored g'.nodeStructure_ := by
  cases hl : link g a b with
  | returned v g' c =>
    obtain ⟨ra, rb, ha, hb, -, rfl⟩ := link_returned hl
    exact mirrored_linkState ha hb h
  | threw ex g' c => trivial
  | undefinedBehavior => trivial

theorem unlink_mirrored (g : SimpleGraph) (a b : Node) (h : Mirrored g.nodeStructure_) :
    (unlink g a b).Returns fun _ g' => Mirrored g'.nodeStructure_ := by
  cases hl : unlink g a b with
  | returned v g' c =>
    obtain ⟨e, -, rfl⟩ := unlink_returned hl
    exact mirrored_removeRelation a b h
  | threw ex g' c => trivial
  | undefinedBehavior => trivial

theorem mirrored_createNodeState {g : SimpleGraph} (h : Mirrored g.nodeStructure_) :
    Mirrored (createNodeState g).nodeStructure_ := by
  intro x y
  rw [outAt_createNodeState, inAt_createNodeState]
  exact h x y

theorem createNode_mirrored (g : SimpleGraph) (h : Mirrored g.nodeStructure_) :
    (createNode g).Returns fun _ g' => Mirrored g'.nodeStructure_ := by
  rw [createNode_eq_state]
  exact mirrored_createNodeState h

theorem isolateLoop_mirrored (node : Node) (g : SimpleGraph) (ns : List Node)
    (h : Mirrored g.nodeStructure_) :
    (isolateLoop node g ns).Returns fun _ g' => Mirrored g'.nodeStructure_ := by
  induction ns generalizing g with
  | nil => exact h
  | cons n rest ih =>
    unfold isolateLoop
    refine Result.Returns_andThen (unlink_mirrored g node n h) ?_
    intro _ g1 h1
    exact ih g1 h1

theorem deleteNode_mirrored (g : SimpleGraph) (node : Node) (h : Mirrored g.nodeStructure_) :
    (deleteNode g node).Returns fun _ g' => Mirrored g'.nodeStructure_ := by
  cases hd : deleteNode g node with
  | threw ex g' c => trivial
  | undefinedBehavior => trivial
  | returned v g' c =>
    obtain ⟨row, g1, c1, hrow, hloop, hns, -, -⟩ := deleteNode_returned hd
    have hm1 : Mirrored g1.nodeStructure_ := by
      have := isolateLoop_mirrored node g (mapKeys row.2 ++ mapKeys row.1) h
      rw [hloop] at this
      exact this
    obtain ⟨-, -, hnodup, hall, hout, hin⟩ := isolateLoop_returned node _ g g1 c1 hloop
    have houtG : ∀ y, outAt g.nodeStructure_ node y = mapFind row.1 y := by
      intro y
      unfold outAt
      rw [hrow]
      rfl
    have hinG : ∀ y, inAt g.nodeStructure_ node y = mapFind row.2 y := by
      intro y
      unfold inAt
      rw [hrow]
      rfl
    have hout1 : ∀ y, outAt g1.nodeStructure_ node y = none := by
      intro y
      rw [hout]
      split
      · rfl
      · rename_i hy
        rw [houtG, mapFind_eq_none_iff]
        exact fun h0 => hy (List.mem_append_right _ h0)
    have hin1 : ∀ y, inAt g1.nodeStructure_ node y = none := by
      intro y
      apply hin
      rw [hinG, mapFind_eq_none_iff]
      intro hy
      have hy1 : y ∈ mapKeys row.1 := by
        obtain ⟨e, he⟩ := hall y (List.mem_append_left _ hy)
        rw [houtG] at he
        exact (mem_mapKeys_iff _ _).2 ⟨e, he⟩
      exact (List.nodup_append.1 hnodup).2.2 hy hy1
    show Mirrored g'.nodeStructure_
    rw [hns]
    intro x y
    rw [outAt_mapErase, inAt_mapErase]
    by_cases hx : x = node
    · rw [if_pos hx]
      by_cases hy : y = node
      · rw [if_pos hy]
      · rw [if_neg hy]
        constructor
        · intro h0
          exact absurd rfl h0
        · intro h0
          exfalso
          rw [hx] at h0
          have h2 := (hm1 node y).2 h0
          exact h2 (hout1 y)
    · rw [if_neg hx]
      by_cases hy : y = node
      · rw [if_pos hy]
        constructor
        · intro h0
          exfalso
          rw [hy] at h0
          exact (hm1 x node).1 h0 (hin1 x)
        · intro h0
          exact absurd rfl h0
      · rw [if_neg hy]
        exact hm1 x y

theorem createNodeFromNode_mirrored (g : SimpleGraph) (origin : Node)
    (h : Mirrored g.nodeStructure_) :
    (createNodeFromNode g origin).Returns fun _ g' => Mirrored g'.nodeStructure_ := by
  unfold createNodeFromNode
  refine Result.Returns_andThen (nodeMustExist_returns g origin _) ?_
  rintro _ _ rfl
  refine Result.Returns_andThen (createNode_mirrored g h) ?_
  intro n g1 h1
  refine Result.Returns_andThen (link_mirrored g1 origin n h1) ?_
  intro _ g2 h2
  exact h2

theorem createNodeOnEdge_mirrored (g : SimpleGraph) (edge : Edge)
    (h : Mirrored g.nodeStructure_) :
    (createNodeOnEdge g edge).Returns fun _ g' => Mirrored g'.nodeStructure_ := by
  unfold createNodeOnEdge
  refine Result.Returns_andThen (Q := fun _ g' => g = g') ?_ ?_
  · unfold edgeMustExist_
    split
    · trivial
    · rfl
  intro _ g1 h1
  subst h1
  refine Result.Returns_andThen (createNode_mirrored g h) ?_
  intro n g1 h1
  dsimp only
  refine Result.Returns_andThen (unlink_mirrored _ _ _ h1) ?_
  intro _ g2 h2
  refine Result.Returns_andThen (link_mirrored g2 _ n h2) ?_
  intro _ g3 h3
  refine Result.Returns_andThen (link_mirrored g3 n _ h3) ?_
  intro _ g4 h4
  exact h4

theorem makeDirectedInnerLoop_mirrored (nodeA : Node) (rels : UMap Edge) (g : SimpleGraph)
    (met : List (Nat × Nat)) (h : Mirrored g.nodeStructure_) :
    (makeDirectedInnerLoop nodeA g met rels).Returns fun _ g' =>
      Mirrored g'.nodeStructure_ := by
  induction rels generalizing g met with
  | nil => exact h
  | cons p rest ih =>
    obtain ⟨nodeB, edge⟩ := p
    unfold makeDirectedInnerLoop
    dsimp only
    split
    · refine Result.Returns_andThen (linkInNodeStructure_mirrored g nodeA nodeB edge h) ?_
      intro _ g1 h1
      exact ih g1 met h1
    · exact ih g _ h

theorem makeDirectedOuterLoop_mirrored (rows : UMap NodeRow) (g : SimpleGraph)
    (met : List (Nat × Nat)) (h : Mirrored g.nodeStructure_) :
    (makeDirectedOuterLoop g met rows).Returns fun _ g' => Mirrored g'.nodeStructure_ := by
  induction rows generalizing g met with
  | nil => exact h
  | cons p rest ih =>
    obtain ⟨nodeA, row⟩ := p
    unfold makeDirectedOuterLoop
    refine Result.Returns_andThen (makeDirectedInnerLoop_mirrored nodeA row.1 g met h) ?_
    intro met' g1 h1
    exact ih g1 met' h1

theorem makeDirected_mirrored (g : SimpleGraph) (h : Mirrored g.nodeStructure_) :
    (makeDirected g).Returns fun _ g' => Mirrored g'.nodeStructure_ := by
  unfold makeDirected
  split
  · exact h
  · dsimp only
    refine Result.Returns_andThen
      (makeDirectedOuterLoop_mirrored g.nodeStructure_ _ [] mirrored_nil) ?_
    intro _ g1 h1
    exact h1

theorem makeUndirectedInnerLoop_mirrored (nodeA : Node) (rels : UMap Edge) (g : SimpleGraph)
    (h : Mirrored g.nodeStructure_) :
    (makeUndirectedInnerLoop nodeA g rels).Returns fun _ g' =>
      Mirrored g'.nodeStructure_ := by
  induction rels generalizing g with
  | nil => exact h
  | cons p rest ih =>
    obtain ⟨nodeB, edge⟩ := p
    unfold makeUndirectedInnerLoop
    refine Result.Returns_andThen (linkInNodeStructure_mirrored g nodeA nodeB edge h) ?_
    intro _ g1 h1
    refine Result.Returns_andThen (linkInNodeStructure_mirrored g1 nodeB nodeA edge h1) ?_
    intro _ g2 h2
    exact ih g2 h2

theorem makeUndirectedOuterLoop_mirrored (rows : UMap NodeRow) (g : SimpleGraph)
    (h : Mirrored g.nodeStructure_) :
    (makeUndirectedOuterLoop g rows).Returns fun _ g' => Mirrored g'.nodeStructure_ := by
  induction rows generalizing g with
  | nil => exact h
  | cons p rest ih =>
    obtain ⟨nodeA, row⟩ := p
    unfold makeUndirectedOuterLoop
    refine Result.Returns_andThen (makeUndirectedInnerLoop_mirrored nodeA row.1 g h) ?_
    intro _ g1 h1
    exact ih g1 h1

theorem makeUndirected_mirrored (g : SimpleGraph) (h : Mirrored g.nodeStructure_) :
    (makeUndirected g).Returns fun _ g' => Mirrored g'.nodeStructure_ := by
  unfold makeUndirected
  split
  · exact h
  · refine Result.Returns_andThen (Q := fun _ g' => g = g') ?_ ?_
    · unfold containsReciprocalRelations
      split
      · trivial
      · rfl
    · intro r g1 h1
      subst h1
      split
      · trivial
      · dsimp only
        refine Result.Returns_andThen
          (makeUndirectedOuterLoop_mirrored g.nodeStructure_ _ mirrored_nil) ?_
        intro _ g1 h1
        exact h1

theorem applyMutation_mirrored (g : SimpleGraph) (m : Mutation)
    (h : Mirrored g.nodeStructure_) :
    (applyMutation g m).Returns fun _ g' => Mirrored g'.nodeStructure_ := by
  cases m with
  | createNode => exact Result.Returns_discard (createNode_mirrored g h)
  | link a b => exact Result.Returns_discard (link_mirrored g a b h)
  | unlink a b => exact Result.Returns_discard (unlink_mirrored g a b h)
  | deleteNode n => exact Result.Returns_discard (deleteNode_mirrored g n h)
  | createNodeFromNode o => exact Result.Returns_discard (createNodeFromNode_mirrored g o h)
  | createNodeOnEdge e => exact Result.Returns_discard (createNodeOnEdge_mirrored g e h)
  | makeDirected => exact makeDirected_mirrored g h
  | makeUndirected => exact makeUndirected_mirrored g h

theorem createNodeFromEdge_mirrored (g : SimpleGraph) (origin : Edge)
    (h : Mirrored g.nodeStructure_) :
    (createNodeFromEdge g origin).Returns fun _ g' => Mirrored g'.nodeStructure_ := by
  unfold createNodeFromEdge
  refine Result.Returns_andThen (Q := fun _ g' => g = g') ?_ ?_
  · unfold edgeMustExist_
    split
    · trivial
    · rfl
  intro _ g1 h1
  subst h1
  refine Result.Returns_andThen (createNodeOnEdge_mirrored g origin h) ?_
  intro anchor g1 h1
  refine Result.Returns_andThen (createNodeFromNode_mirrored g1 anchor h1) ?_
  intro _ g2 h2
  exact h2

theorem applyOperation_mirrored (g : SimpleGraph) (op : Operation)
    (h : Mirrored g.nodeStructure_) :
    (applyOperation g op).Returns fun _ g' => Mirrored g'.nodeStructure_ := by
  cases op with
  | mutate m => exact applyMutation_mirrored g m h
  | createNodeFromEdge e => exact Result.Returns_discard (createNodeFromEdge_mirrored g e h)
  | setRoot r =>
    show (setRoot g r).Returns _
    unfold setRoot
    refine Result.Returns_andThen (nodeMustExist_returns g r _) ?_
    rintro _ _ rfl
    exact h

theorem runOperations_mirrored (ops : List Operation) (g : SimpleGraph)
    (h : Mirrored g.nodeStructure_) :
    (runOperations g ops).Returns fun _ g' => Mirrored g'.nodeStructure_ := by
  induction ops generalizing g with
  | nil => exact h
  | cons op rest ih =>
    unfold runOperations
    refine Result.Returns_andThen (applyOperation_mirrored g op h) ?_
    intro _ g1 h1
    exact ih g1 h1

theorem neighborsExist_of_mirrored {g : SimpleGraph} (h : Mirrored g.nodeStructure_) :
    NeighborsExist g := by
  intro v w ⟨row, hrow, hw⟩
  obtain ⟨e, he⟩ := (mem_mapKeys_iff _ _).1 hw
  have ho : outAt g.nodeStructure_ v w ≠ none := by
    unfold outAt
    rw [hrow]
    show mapFind row.1 w ≠ none
    rw [he]
    exact Option.some_ne_none e
  have hi := (h v w).1 ho
  unfold inAt at hi
  cases hr : mapFind g.nodeStructure_ w with
  | none =>
    rw [hr] at hi
    exact absurd rfl hi
  | some r => exact (mem_mapKeys_iff _ _).2 ⟨r, hr⟩

/-- In every state that a returning run of public operations reaches from a new
graph, every outgoing neighbour of a node is a node of the graph. -/
theorem runOperations_neighborsExist {directed : Bool} {ops : List Operation}
    {g : SimpleGraph} {c : List Callback}
    (h : runOperations (SimpleGraph.new directed) ops = .returned () g c) :
    NeighborsExist g := by
  have := runOperations_mirrored ops (SimpleGraph.new directed) mirrored_nil
  rw [h] at this
  exact neighborsExist_of_mirrored this

theorem outgoing_reachable_mem {g : SimpleGraph} {met' : List Node} {root : Node}
    (hroot : root ∈ met')
    (hclosed : ∀ v, v ∈ met' → ∀ w, Outgoing g v w → w ∈ met') {x : Node}
    (h : Relation.ReflTransGen (Outgoing g) root x) : x ∈ met' := by
  induction h with
  | refl => exact hroot
  | tail _ hbc ih => exact hclosed _ ih _ hbc

/-- The call `nodesAreMetOnlyOnce_(root_, metNode, root_)` of `isTree` does not
return `true` when a cycle of three or more nodes can be reached from the
root. -/
theorem nodesAreMetOnlyOnce_cycle {g : SimpleGraph} {k : Nat} {c : Nat → Node} (hk : 3 ≤ k)
    (hc : IsCycle g k c) (hreach : Relation.ReflTransGen (Outgoing g) g.root_ (c 0))
    (fuel : Nat) (met' : List Node) :
    nodesAreMetOnlyOnce_ fuel g g.root_ [] g.root_ ≠ some (.returned (true, met') g []) := by
  intro h
  have hM := nodesAreMetOnlyOnce_true g fuel g.root_ [] g.root_ met' h (Or.inr rfl)
  have hclosed : ∀ v, v ∈ met' → ∀ w, Outgoing g v w → w ∈ met' := by
    intro v hv w hout
    rcases hM.closed v hv (List.not_mem_nil v) w hout with h1 | h1
    · exact h1.1
    · rw [h1.2]
      exact hM.here
  have h0 : c 0 ∈ met' := outgoing_reachable_mem hM.here hclosed hreach
  have hall : ∀ i, c i ∈ met' := by
    intro i
    induction i with
    | zero => exact h0
    | succ i ih => exact hclosed _ ih _ (hc.edges i)
  exact hM.acyclic k c hk hc fun i => ⟨hall i, List.not_mem_nil _⟩

theorem isTree_outcome (g : SimpleGraph) (fuel : Nat)
    (hroot : g.root_ ∈ mapKeys g.nodeStructure_)
    (hfuel : (mapKeys g.nodeStructure_).length < fuel) :
    (∃ flag met', nodesAreMetOnlyOnce_ fuel g g.root_ [] g.root_ =
        some (.returned (flag, met') g []) ∧
      isTree fuel g = some (.returned
        (if flag then (mapKeys g.nodeStructure_).all fun n => decide (n ∈ met') else false)
        g [])) ∨
    (¬ NeighborsExist g ∧ ∃ ex, isTree fuel g = some (.threw ex g [])) := by
  have hcard : ((mapKeys g.nodeStructure_).toFinset \ ([] : List Nat).toFinset).card < fuel := by
    refine lt_of_le_of_lt ?_ hfuel
    refine le_trans (Finset.card_le_card Finset.sdiff_subset) ?_
    exact List.toFinset_card_le _
  rcases nodesAreMetOnlyOnce_terminates g fuel g.root_ [] g.root_ hcard with
    ⟨flag, met', h, -⟩ | ⟨hno, ex, h⟩
  · left
    refine ⟨flag, met', h, ?_⟩
    unfold isTree
    rw [h, Bounded.andThen_of_returned, Option.map_after_nil]
    cases flag <;> rfl
  · right
    refine ⟨?_, ex, ?_⟩
    · rcases hno with h1 | h1
      · exact h1
      · exact absurd hroot h1
    · unfold isTree
      rw [h, Bounded.andThen_of_threw]

/-- C25: on every graph whose root is in the node structure `isTree()` comes to
an end, with at most as many nested calls of `nodesAreMetOnlyOnce_` as the
graph has nodes plus one: it returns a value and leaves the graph as it is,
or, when some outgoing map names a node that is not in the node structure, it
may end by the exception of `getOutgoingNeighbors` for that node.  When a
cycle of `k >= 3` pairwise distinct nodes `c 0 -> c 1 -> ... -> c (k - 1) -> c 0`
of outgoing relations can be reached from the root along outgoing relations,
the value returned is `false`.  In every state that a returning run of public
operations reaches from a new graph every outgoing neighbour is in the node
structure, so that there `isTree()` returns a value, and returns `false` when
such a cycle can be reached. -/
theorem isTree_terminates_and_rejects_cycles (g : SimpleGraph) (fuel : Nat)
    (hroot : g.root_ ∈ mapKeys g.nodeStructure_)
    (hfuel : (mapKeys g.nodeStructure_).length < fuel) :
    ((∃ b, isTree fuel g = some (.returned b g [])) ∨
      (¬ NeighborsExist g ∧ ∃ ex, isTree fuel g = some (.threw ex g []))) ∧
    (∀ (k : Nat) (c : Nat → Node), 3 ≤ k → IsCycle g k c →
      Relation.ReflTransGen (Outgoing g) g.root_ (c 0) →
      isTree fuel g = some (.returned false g []) ∨
        (¬ NeighborsExist g ∧ ∃ ex, isTree fuel g = some (.threw ex g []))) ∧
    (∀ (directed : Bool) (ops : List Operation) (cb : List Callback),
      runOperations (SimpleGraph.new directed) ops = .returned () g cb →
      NeighborsExist g ∧ (∃ b, isTree fuel g = some (.returned b g [])) ∧
      ∀ (k : Nat) (c : Nat → Node), 3 ≤ k → IsCycle g k c →
        Relation.ReflTransGen (Outgoing g) g.root_ (c 0) →
        isTree fuel g = some (.returned false g [])) := by
  have hout := isTree_outcome g fuel hroot hfuel
  have hcycle : ∀ (k : Nat) (c : Nat → Node), 3 ≤ k → IsCycle g k c →
      Relation.ReflTransGen (Outgoing g) g.root_ (c 0) →
      isTree fuel g = some (.returned false g []) ∨
        (¬ NeighborsExist g ∧ ∃ ex, isTree fuel g = some (.threw ex g [])) := by
    intro k c hk hc hreach
    rcases hout with ⟨flag, met', h1, h⟩ | h
    · left
      cases flag with
      | false => exact h
      | true => exact absurd h1 (nodesAreMetOnlyOnce_cycle hk hc hreach fuel met')
    · exact Or.inr h
  refine ⟨?_, hcycle, ?_⟩
  · rcases hout with ⟨flag, met', -, h⟩ | h
    · exact Or.inl ⟨_, h⟩
    · exact Or.inr h
  · intro directed ops cb hrun
    have hne := runOperations_neighborsExist hrun
    refine ⟨hne, ?_, ?_⟩
    · rcases hout with ⟨flag, met', -, h⟩ | h
      · exact ⟨_, h⟩
      · exact absurd hne h.1
    · intro k c hk hc hreach
      rcases hcycle k c hk hc hreach with h | h
      · exact h
      · exact absurd hne h.1

/-- Witness of C25: on the undirected graph `cycleThree` the nodes `0, 1, 2` form
a cycle of outgoing relations and `isTree()` returns `false`. -/
theorem isTree_terminates_and_rejects_cycles_witness :
    ((cycleThree false).root_ ∈ mapKeys (cycleThree false).nodeStructure_ ∧
      (mapKeys (cycleThree false).nodeStructure_).length < 4) ∧
    IsCycle (cycleThree false) 3 (fun i => i % 3) ∧
    isTree 4 (cycleThree false) = some (.returned false (cycleThree false) []) ∧
    (((∃ b, isTree 4 (cycleThree false) = some (.returned b (cycleThree false) [])) ∨
      (¬ NeighborsExist (cycleThree false) ∧
        ∃ ex, isTree 4 (cycleThree false) = some (.threw ex (cycleThree false) []))) ∧
    (∀ (k : Nat) (c : Nat → Node), 3 ≤ k → IsCycle (cycleThree false) k c →
      Relation.ReflTransGen (Outgoing (cycleThree false)) (cycleThree false).root_ (c 0) →
      isTree 4 (cycleThree false) = some (.returned false (cycleThree false) []) ∨
        (¬ NeighborsExist (cycleThree false) ∧
          ∃ ex, isTree 4 (cycleThree false) = some (.threw ex (cycleThree false) []))) ∧
    (∀ (directed : Bool) (ops : List Operation) (cb : List Callback),
      runOperations (SimpleGraph.new directed) ops = .returned () (cycleThree false) cb →
      NeighborsExist (cycleThree false) ∧
      (∃ b, isTree 4 (cycleThree false) = some (.returned b (cycleThree false) [])) ∧
      ∀ (k : Nat) (c : Nat → Node), 3 ≤ k → IsCycle (cycleThree false) k c →
        Relation.ReflTransGen (Outgoing (cycleThree false)) (cycleThree false).root_ (c 0) →
        isTree 4 (cycleThree false) = some (.returned false (cycleThree false) []))) := by
  refine ⟨⟨by decide, by decide⟩, ?_, rfl,
    isTree_terminates_and_rejects_cycles (cycleThree false) 4 (by decide) (by decide)⟩
  refine ⟨?_, ?_, ?_⟩
  · intro i
    show (i + 3) % 3 = i % 3
    omega
  · intro i j hi hj h
    have h' : i % 3 = j % 3 := h
    omega
  · intro i
    have h3 : i % 3 = 0 ∨ i % 3 = 1 ∨ i % 3 = 2 := by omega
    show Outgoing (cycleThree false) (i % 3) ((i + 1) % 3)
    rcases h3 with h | h | h
    · have e : (i + 1) % 3 = 1 := by omega
      rw [h, e]
      exact ⟨_, rfl, by decide⟩
    · have e : (i + 1) % 3 = 2 := by omega
      rw [h, e]
      exact ⟨_, rfl, by decide⟩
    · have e : (i + 1) % 3 = 0 := by omega
      rw [h, e]
      exact ⟨_, rfl, by decide⟩

theorem runMutations_append_split (ms1 : List Mutation) :
    ∀ {g g2 : SimpleGraph} {ms2 : List Mutation} {c : List Callback},
      runMutations g (ms1 ++ ms2) = .returned () g2 c →
      ∃ g1 c1 c2, runMutations g ms1 = .returned () g1 c1 ∧
        runMutations g1 ms2 = .returned () g2 c2 := by
  induction ms1 with
  | nil =>
    intro g g2 ms2 c h
    exact ⟨g, [], c, rfl, h⟩
  | cons m rest ih =>
    intro g g2 ms2 c h
    rw [List.cons_append] at h
    obtain ⟨g0, c0, c0', h0, hrest⟩ := runMutations_cons_returned h
    obtain ⟨g1, c1, c2, h1, h2⟩ := ih hrest
    refine ⟨g1, c0 ++ c1, c2, ?_, h2⟩
    unfold runMutations
    rw [h0, Result.andThen_returned, h1]
    rfl

theorem parentOf_append_of_le (origins : List Nat) (o : Nat) {v : Nat}
    (hv : v ≤ origins.length) : parentOf (origins ++ [o]) v = parentOf origins v := by
  unfold parentOf
  by_cases h0 : v = 0
  · rw [if_pos h0, if_pos h0]
  · rw [if_neg h0, if_neg h0]
    have hlt : v - 1 < origins.length := by omega
    simp only [List.getD_eq_getElem?_getD]
    rw [List.getElem?_append_left hlt]

theorem parentOf_append_last (origins : List Nat) (o : Nat) :
    parentOf (origins ++ [o]) (origins.length + 1) = o := by
  unfold parentOf
  have h0 : ¬ origins.length + 1 = 0 := by omega
  rw [if_neg h0]
  simp only [List.getD_eq_getElem?_getD, Nat.add_sub_cancel]
  rw [List.getElem?_append_right (le_refl _)]
  simp

theorem parentOf_of_gt (origins : List Nat) {v : Nat} (hv : origins.length < v) :
    parentOf origins v = 0 := by
  unfold parentOf
  by_cases h0 : v = 0
  · rw [if_pos h0]
  · rw [if_neg h0]
    have hle : origins.length ≤ v - 1 := by omega
    simp only [List.getD_eq_getElem?_getD]
    rw [List.getElem?_eq_none hle]
    rfl

theorem isOutTree_root (g : SimpleGraph)
    (h : runMutations (SimpleGraph.new true) [.createNode] = .returned () g []) :
    IsOutTree [] g := by
  have hg : g = createNodeState (SimpleGraph.new true) := by
    have : runMutations (SimpleGraph.new true) [.createNode] =
        .returned () (createNodeState (SimpleGraph.new true)) [] := rfl
    rw [this] at h
    simp only [Result.returned.injEq, true_and, and_true] at h
    exact h.symm
  subst hg
  refine
    { directed_eq := rfl
      root_eq := rfl
      counter := rfl
      absent := ?_
      rows := ?_
      parent_lt := ?_ }
  · intro v hv
    show mapFind [(0, (([] : UMap Edge), ([] : UMap Edge)))] v = none
    have : ¬ (0 = v) := by
      simp only [List.length_nil] at hv
      omega
    simp [mapFind, this]
  · intro v hv
    have hv0 : v = 0 := by
      simp only [List.length_nil] at hv
      omega
    subst hv0
    refine ⟨([], []), rfl, rfl, List.sorted_nil, ?_⟩
    intro w
    simp only [List.length_nil]
    constructor
    · intro h
      cases h
    · intro h
      omega
  · intro v h0 hv
    simp only [List.length_nil] at hv
    omega

theorem createNodeFromNode_isOutTree {origins : List Nat} {g g' : SimpleGraph} {o n : Nat}
    {c : List Callback} (h : IsOutTree origins g) (hlen : origins.length + 1 < UINT_MOD)
    (hc : createNodeFromNode g o = .returned n g' c) : IsOutTree (origins ++ [o]) g' := by
  unfold createNodeFromNode at hc
  obtain ⟨_, g0, _, _, h1, hc, -⟩ := Result.andThen_eq_returned hc
  have e1 := Result.Returns_of_eq (nodeMustExist_returns g o _) h1
  subst e1
  have ho : o ≤ origins.length := by
    by_contra hgt
    rw [nodeMustExist_of_absent _ (h.absent o (by omega))] at h1
    cases h1
  rw [createNode_eq_state] at hc
  simp only [Result.andThen_returned, Result.after_nil] at hc
  obtain ⟨e, g2, _, _, hl, hc, -⟩ := Result.andThen_eq_returned hc
  simp only [Result.returned.injEq] at hc
  obtain ⟨-, rfl, -⟩ := hc
  obtain ⟨ra, rb, -, -, -, rfl⟩ := link_returned hl
  have hcount : g.highestNodeID_ = origins.length + 1 := by
    rw [h.counter]
    exact Nat.mod_eq_of_lt hlen
  have hd : (createNodeState g).directed_ = true := h.directed_eq
  have hns : (linkState (createNodeState g) o g.highestNodeID_).nodeStructure_ =
      addRelation (createNodeState g).nodeStructure_ o (origins.length + 1)
        (((createNodeState g).highestEdgeID_ + 1) % UINT_MOD) := by
    unfold linkState
    simp only [hd, if_true, hcount]
  have hfind : ∀ x, mapFind (linkState (createNodeState g) o g.highestNodeID_).nodeStructure_ x =
      (if x = origins.length + 1 then
        some (([] : UMap Edge), mapInsert ([] : UMap Edge) o
          (((createNodeState g).highestEdgeID_ + 1) % UINT_MOD))
      else (mapFind g.nodeStructure_ x).map fun row =>
        (if x = o then mapInsert row.1 (origins.length + 1)
          (((createNodeState g).highestEdgeID_ + 1) % UINT_MOD) else row.1, row.2)) := by
    intro x
    rw [hns, mapFind_addRelation, mapFind_createNodeState, hcount]
    by_cases hx : x = origins.length + 1
    · have hnone : mapFind g.nodeStructure_ x = none := h.absent x (by omega)
      have hxo : ¬ x = o := by omega
      rw [if_pos ⟨hx, hnone⟩, if_pos hx]
      simp only [Option.map_some', if_neg hxo, if_pos hx]
    · have hc : ¬ (x = origins.length + 1 ∧ mapFind g.nodeStructure_ x = none) :=
        fun h => hx h.1
      rw [if_neg hc, if_neg hx]
      cases mapFind g.nodeStructure_ x with
      | none => rfl
      | some row => simp only [Option.map_some', if_neg hx]
  have hlen' : (origins ++ [o]).length = origins.length + 1 := by simp
  refine
    { directed_eq := h.directed_eq
      root_eq := h.root_eq
      counter := ?_
      absent := ?_
      rows := ?_
      parent_lt := ?_ }
  · show (g.highestNodeID_ + 1) % UINT_MOD = ((origins ++ [o]).length + 1) % UINT_MOD
    rw [hcount, hlen']
  · intro v hv
    rw [hlen'] at hv
    rw [hfind, if_neg (by omega), h.absent v (by omega)]
    rfl
  · intro v hv
    rw [hlen'] at hv
    by_cases hvl : v = origins.length + 1
    · subst hvl
      refine ⟨(([] : UMap Edge), mapInsert ([] : UMap Edge) o
        (((createNodeState g).highestEdgeID_ + 1) % UINT_MOD)), by rw [hfind, if_pos rfl], ?_,
        List.sorted_nil, ?_⟩
      · rw [if_neg (by omega), parentOf_append_last]
        rfl
      · intro w
        constructor
        · intro hw
          cases hw
        · rintro ⟨hw0, hwl, hwp⟩
          exfalso
          rw [hlen'] at hwl
          by_cases hwN : w = origins.length + 1
          · rw [hwN, parentOf_append_last] at hwp
            omega
          · rw [parentOf_append_of_le origins o (by omega)] at hwp
            have := h.parent_lt w hw0 (by omega)
            omega
    · have hvN : v ≤ origins.length := by omega
      obtain ⟨row, hrow, hin, hsorted, hout⟩ := h.rows v hvN
      refine ⟨_, by rw [hfind, if_neg hvl, hrow]; rfl, ?_, ?_, ?_⟩
      · show mapKeys row.2 = _
        rw [hin, parentOf_append_of_le origins o hvN]
      · show (mapKeys (if v = o then mapInsert row.1 (origins.length + 1) _ else row.1)).Sorted _
        split
        · exact sorted_mapKeys_mapInsert _ _ _ hsorted
        · exact hsorted
      · intro w
        show w ∈ mapKeys (if v = o then mapInsert row.1 (origins.length + 1) _ else row.1) ↔ _
        rw [hlen']
        by_cases hwN : w = origins.length + 1
        · subst hwN
          rw [parentOf_append_last]
          have hnot : origins.length + 1 ∉ mapKeys row.1 := by
            intro hmem
            have := ((hout _).1 hmem).2.1
            omega
          by_cases hvo : v = o
          · rw [if_pos hvo, mem_mapKeys_mapInsert]
            constructor
            · intro _
              exact ⟨by omega, le_refl _, hvo.symm⟩
            · intro _
              exact Or.inl rfl
          · rw [if_neg hvo]
            constructor
            · intro hmem
              exact absurd hmem hnot
            · rintro ⟨-, -, h3⟩
              exact absurd h3.symm hvo
        · have hiff : w ∈ mapKeys (if v = o then mapInsert row.1 (origins.length + 1)
              (((createNodeState g).highestEdgeID_ + 1) % UINT_MOD) else row.1) ↔
              w ∈ mapKeys row.1 := by
            split
            · rw [mem_mapKeys_mapInsert]
              constructor
              · rintro (h1 | h1)
                · exact absurd h1 hwN
                · exact h1
              · exact Or.inr
            · exact Iff.rfl
          rw [hiff, hout]
          constructor
          · rintro ⟨a1, a2, a3⟩
            exact ⟨a1, by omega, by rw [parentOf_append_of_le origins o a2]; exact a3⟩
          · rintro ⟨a1, a2, a3⟩
            have a2' : w ≤ origins.length := by omega
            exact ⟨a1, a2', by rw [parentOf_append_of_le origins o a2'] at a3; exact a3⟩
  · intro v h0 hv
    rw [hlen'] at hv
    by_cases hvN : v = origins.length + 1
    · rw [hvN, parentOf_append_last]
      omega
    · rw [parentOf_append_of_le origins o (by omega)]
      exact h.parent_lt v h0 (by omega)

theorem treeCalls_isOutTree (origins : List Nat) :
    ∀ (g : SimpleGraph) (c : List Callback), origins.length < UINT_MOD →
      runMutations (SimpleGraph.new true) (treeCalls origins) = .returned () g c →
      IsOutTree origins g := by
  induction origins using List.reverseRecOn with
  | nil =>
    intro g c _ h
    have hc : c = [] := by
      have : runMutations (SimpleGraph.new true) (treeCalls []) =
          .returned () (createNodeState (SimpleGraph.new true)) [] := rfl
      rw [this] at h
      simp only [Result.returned.injEq, true_and] at h
      exact h.2.symm
    subst hc
    exact isOutTree_root g h
  | append_singleton origins o ih =>
    intro g c hlen h
    have hcalls : treeCalls (origins ++ [o]) = treeCalls origins ++ [.createNodeFromNode o] := by
      simp [treeCalls]
    rw [hcalls] at h
    obtain ⟨g1, c1, c2, h1, h2⟩ := runMutations_append_split _ h
    have hlen' : (origins ++ [o]).length = origins.length + 1 := by simp
    rw [hlen'] at hlen
    have ht := ih g1 c1 (by omega) h1
    obtain ⟨g2, c3, c4, h3, h4⟩ := runMutations_cons_returned h2
    simp only [runMutations, Result.returned.injEq, true_and] at h4
    obtain ⟨rfl, -⟩ := h4
    obtain ⟨n, hn⟩ := Result.discard_eq_returned h3
    exact createNodeFromNode_isOutTree ht hlen hn


theorem parentOf_le {origins : List Nat}
    (hp : ∀ v, 0 < v → v ≤ origins.length → parentOf origins v < v) (v : Nat) :
    parentOf origins v ≤ v := by
  by_cases h0 : v = 0
  · subst h0
    exact Nat.le_of_eq rfl
  · by_cases hv : v ≤ origins.length
    · exact Nat.le_of_lt (hp v (by omega) hv)
    · rw [parentOf_of_gt origins (by omega)]
      exact Nat.zero_le v

theorem iterate_parentOf_le {origins : List Nat}
    (hp : ∀ v, 0 < v → v ≤ origins.length → parentOf origins v < v) (n v : Nat) :
    (parentOf origins)^[n] v ≤ v := by
  induction n generalizing v with
  | zero => exact le_refl v
  | succ n ih =>
    rw [Function.iterate_succ_apply]
    exact le_trans (ih _) (parentOf_le hp v)

theorem isAncestor_le {origins : List Nat}
    (hp : ∀ v, 0 < v → v ≤ origins.length → parentOf origins v < v) {v x : Nat}
    (h : IsAncestor origins v x) : v ≤ x := by
  obtain ⟨n, rfl⟩ := h
  exact iterate_parentOf_le hp n x

theorem isAncestor_root {origins : List Nat}
    (hp : ∀ v, 0 < v → v ≤ origins.length → parentOf origins v < v) (x : Nat) :
    IsAncestor origins 0 x := by
  induction x using Nat.strong_induction_on with
  | _ x ih =>
    by_cases h0 : x = 0
    · exact ⟨0, h0⟩
    · have hlt : parentOf origins x < x := by
        by_cases hv : x ≤ origins.length
        · exact hp x (by omega) hv
        · rw [parentOf_of_gt origins (by omega)]
          omega
      obtain ⟨n, hn⟩ := ih _ hlt
      exact ⟨n + 1, by rw [Function.iterate_succ_apply]; exact hn⟩

theorem isAncestor_child {origins : List Nat} {v w x : Nat} (hw : parentOf origins w = v)
    (h : IsAncestor origins w x) : IsAncestor origins v x := by
  obtain ⟨n, hn⟩ := h
  exact ⟨n + 1, by rw [Function.iterate_succ_apply', hn, hw]⟩

theorem isAncestor_split {origins : List Nat} {v : Nat} :
    ∀ (n x : Nat), (parentOf origins)^[n] x = v → x ≠ v →
      ∃ w, w ≠ v ∧ parentOf origins w = v ∧ IsAncestor origins w x := by
  intro n
  induction n with
  | zero =>
    intro x h hx
    exact absurd h hx
  | succ n ih =>
    intro x h hx
    rw [Function.iterate_succ_apply'] at h
    by_cases hw : (parentOf origins)^[n] x = v
    · exact ih x hw hx
    · exact ⟨_, hw, h, n, rfl⟩

theorem isAncestor_disjoint {origins : List Nat}
    (hp : ∀ v, 0 < v → v ≤ origins.length → parentOf origins v < v) {v w1 w2 x : Nat}
    (h1 : parentOf origins w1 = v) (h2 : parentOf origins w2 = v) (hv1 : v < w1)
    (hv2 : v < w2) (hne : w1 ≠ w2) (ha1 : IsAncestor origins w1 x)
    (ha2 : IsAncestor origins w2 x) : False := by
  obtain ⟨a, ha⟩ := ha1
  obtain ⟨b, hb⟩ := ha2
  have key : ∀ (a b : Nat) (u1 u2 : Nat), parentOf origins u1 = v → v < u2 → u1 ≠ u2 →
      (parentOf origins)^[a] x = u1 → (parentOf origins)^[b] x = u2 → a ≤ b → False := by
    intro a b u1 u2 hu1 hvu2 hu hxa hxb hab
    obtain ⟨d, rfl⟩ : ∃ d, b = d + a := ⟨b - a, by omega⟩
    rw [Function.iterate_add_apply, hxa] at hxb
    cases d with
    | zero => exact hu hxb
    | succ d =>
      rw [Function.iterate_succ_apply, hu1] at hxb
      have := iterate_parentOf_le hp d v
      omega
  rcases Nat.le_total a b with hab | hab
  · exact key a b w1 w2 h1 hv2 hne ha hb hab
  · exact key b a w2 w1 h2 hv1 (fun h => hne h.symm) hb ha hab

theorem isOutTree_neighbors {origins : List Nat} {g : SimpleGraph} (h : IsOutTree origins g)
    {v : Nat} (hv : v ≤ origins.length) :
    ∃ ch : List Nat, getOutgoingNeighbors g v = .returned ch g [] ∧
      getNeighbors g v =
        .returned ((if v = 0 then [] else [parentOf origins v]) ++ ch) g [] ∧
      ch.Sorted (· < ·) ∧
      ∀ w, w ∈ ch ↔ (0 < w ∧ w ≤ origins.length ∧ parentOf origins w = v) := by
  obtain ⟨row, hrow, hin, hsorted, hout⟩ := h.rows v hv
  refine ⟨mapKeys row.1, getOutgoingNeighbors_of_row hrow, ?_, hsorted, hout⟩
  rw [getNeighbors_of_row hrow, hin]

theorem leafOf_iff {origins : List Nat} {g : SimpleGraph} (h : IsOutTree origins g) (x : Nat) :
    getOutgoingNeighbors g x = .returned [] g [] ↔ LeafOf origins x := by
  constructor
  · intro hx
    have hxN : x ≤ origins.length := by
      by_contra hgt
      rw [getOutgoingNeighbors_of_absent (h.absent x (by omega))] at hx
      cases hx
    obtain ⟨ch, h1, -, -, hch⟩ := isOutTree_neighbors h hxN
    rw [h1] at hx
    simp only [Result.returned.injEq, and_true] at hx
    subst hx
    refine ⟨hxN, ?_⟩
    intro w hw0 hwN hpw
    have := (hch w).2 ⟨hw0, hwN, hpw⟩
    cases this
  · rintro ⟨hxN, hno⟩
    obtain ⟨ch, h1, -, -, hch⟩ := isOutTree_neighbors h hxN
    have : ch = [] := by
      apply List.eq_nil_iff_forall_not_mem.2
      intro w hw
      obtain ⟨a1, a2, a3⟩ := (hch w).1 hw
      exact hno w a1 a2 a3
    rw [h1, this]

theorem fillListOfLeaves_succ (fuel : Nat) (g : SimpleGraph) (startingNode : Node)
    (foundLeaves : List Node) (originNode : Node) (limitedRecursions : Bool)
    (maxRecursions : Nat) :
    fillListOfLeaves_ (fuel + 1) g startingNode foundLeaves originNode limitedRecursions
        maxRecursions =
      Bounded.andThen (some (getNeighbors g startingNode)) fun neighbors g =>
        if neighbors.length > 1 then
          if !limitedRecursions || decide (maxRecursions > 0) then
            fillLeavesLoop
              (fun n found g => fillListOfLeaves_ fuel g n found startingNode limitedRecursions
                ((maxRecursions + UINT_MOD - 1) % UINT_MOD))
              originNode neighbors foundLeaves g
          else some (.returned foundLeaves g [])
        else some (.returned (foundLeaves ++ [startingNode]) g []) := by
  rw [fillListOfLeaves_]

theorem fillLeavesLoop_children {origins : List Nat} {g : SimpleGraph}
    (hp : ∀ v, 0 < v → v ≤ origins.length → parentOf origins v < v)
    (recur : Node → List Node → SimpleGraph → Bounded (List Node)) (v origin : Nat)
    (hrec : ∀ (w : Nat) (found : List Nat), 0 < w → w ≤ origins.length →
      parentOf origins w = v →
      ∃ L, recur w found g = some (.returned (found ++ L) g []) ∧ L.Nodup ∧
        ∀ x, x ∈ L ↔ (LeafOf origins x ∧ IsAncestor origins w x)) :
    ∀ (ws found : List Nat),
      (∀ w ∈ ws, 0 < w ∧ w ≤ origins.length ∧ parentOf origins w = v ∧ v < w ∧ w ≠ origin) →
      ws.Nodup →
      ∃ L, fillLeavesLoop recur origin ws found g = some (.returned (found ++ L) g []) ∧
        L.Nodup ∧ ∀ x, x ∈ L ↔ (LeafOf origins x ∧ ∃ w ∈ ws, IsAncestor origins w x) := by
  intro ws
  induction ws with
  | nil =>
    intro found _ _
    refine ⟨[], ?_, List.nodup_nil, ?_⟩
    · rw [List.append_nil]
      rfl
    · intro x
      constructor
      · intro hx
        cases hx
      · rintro ⟨-, w, hw, -⟩
        cases hw
  | cons w rest ih =>
    intro found hws hnodup
    obtain ⟨a1, a2, a3, a4, a5⟩ := hws w (List.mem_cons_self _ _)
    obtain ⟨L1, hL1, hnd1, hmem1⟩ := hrec w found a1 a2 a3
    obtain ⟨L2, hL2, hnd2, hmem2⟩ := ih (found ++ L1)
      (fun u hu => hws u (List.mem_cons_of_mem _ hu)) (List.nodup_cons.1 hnodup).2
    refine ⟨L1 ++ L2, ?_, ?_, ?_⟩
    · unfold fillLeavesLoop
      rw [if_pos a5, hL1, Bounded.andThen_of_returned, Option.map_after_nil, hL2,
        List.append_assoc]
    · rw [List.nodup_append]
      refine ⟨hnd1, hnd2, ?_⟩
      intro x hx1 hx2
      obtain ⟨-, hax1⟩ := (hmem1 x).1 hx1
      obtain ⟨-, u, hu, hax2⟩ := (hmem2 x).1 hx2
      obtain ⟨b1, b2, b3, b4, b5⟩ := hws u (List.mem_cons_of_mem _ hu)
      have hne : w ≠ u := by
        intro hwu
        rw [hwu] at hnodup
        exact (List.nodup_cons.1 hnodup).1 hu
      exact isAncestor_disjoint hp a3 b3 a4 b4 hne hax1 hax2
    · intro x
      rw [List.mem_append, hmem1, hmem2]
      constructor
      · rintro (⟨h1, h2⟩ | ⟨h1, u, hu, h2⟩)
        · exact ⟨h1, w, List.mem_cons_self _ _, h2⟩
        · exact ⟨h1, u, List.mem_cons_of_mem _ hu, h2⟩
      · rintro ⟨h1, u, hu, h2⟩
        rcases List.mem_cons.1 hu with h3 | h3
        · subst h3
          exact Or.inl ⟨h1, h2⟩
        · exact Or.inr ⟨h1, u, h3, h2⟩

theorem fillListOfLeaves_subtree {origins : List Nat} {g : SimpleGraph}
    (h : IsOutTree origins g) :
    ∀ (fuel v : Nat) (found : List Nat) (m : Nat), 0 < v → v ≤ origins.length →
      origins.length - v < fuel →
      ∃ L, fillListOfLeaves_ fuel g v found (parentOf origins v) false m =
          some (.returned (found ++ L) g []) ∧ L.Nodup ∧
        ∀ x, x ∈ L ↔ (LeafOf origins x ∧ IsAncestor origins v x) := by
  intro fuel
  induction fuel with
  | zero =>
    intro v found m _ _ hf
    exact absurd hf (Nat.not_lt_zero _)
  | succ fuel ih =>
    intro v found m hv0 hvN hf
    obtain ⟨ch, -, hnb, hsorted, hch⟩ := isOutTree_neighbors h hvN
    have hv0' : ¬ v = 0 := by omega
    rw [if_neg hv0'] at hnb
    have hpv := h.parent_lt v hv0 hvN
    rw [fillListOfLeaves_succ, hnb, Bounded.andThen_of_returned, Option.map_after_nil]
    cases ch with
    | nil =>
      have hlen : ¬ ([parentOf origins v] ++ ([] : List Nat)).length > 1 := by simp
      rw [if_neg hlen]
      refine ⟨[v], rfl, List.nodup_singleton v, ?_⟩
      intro x
      rw [List.mem_singleton]
      constructor
      · intro hx
        subst hx
        refine ⟨⟨hvN, ?_⟩, 0, rfl⟩
        intro w hw0 hwN hpw
        have := (hch w).2 ⟨hw0, hwN, hpw⟩
        cases this
      · rintro ⟨hleaf, n, hn⟩
        by_contra hx
        obtain ⟨w, hwv, hpw, haw⟩ := isAncestor_split n x hn hx
        have hwx := isAncestor_le h.parent_lt haw
        have hw0 : 0 < w := by
          by_contra h0
          have : w = 0 := by omega
          subst this
          have : parentOf origins 0 = 0 := rfl
          omega
        have := (hch w).2 ⟨hw0, le_trans hwx hleaf.1, hpw⟩
        cases this
    | cons w0 rest =>
      have hlen : ([parentOf origins v] ++ (w0 :: rest)).length > 1 := by simp
      rw [if_pos hlen]
      have hcond : (!false || decide (m > 0)) = true := by simp
      rw [if_pos hcond]
      have hloop : ∀ recur, fillLeavesLoop recur (parentOf origins v)
          ([parentOf origins v] ++ (w0 :: rest)) found g =
          fillLeavesLoop recur (parentOf origins v) (w0 :: rest) found g := by
        intro recur
        show fillLeavesLoop recur (parentOf origins v)
          (parentOf origins v :: (w0 :: rest)) found g = _
        rw [fillLeavesLoop]
        have : ¬ parentOf origins v ≠ parentOf origins v := fun h => h rfl
        rw [if_neg this]
      rw [hloop]
      have hws : ∀ w ∈ w0 :: rest, 0 < w ∧ w ≤ origins.length ∧ parentOf origins w = v ∧
          v < w ∧ w ≠ parentOf origins v := by
        intro w hw
        obtain ⟨b1, b2, b3⟩ := (hch w).1 hw
        have := h.parent_lt w b1 b2
        refine ⟨b1, b2, b3, by omega, by omega⟩
      obtain ⟨L, hL, hnd, hmem⟩ := fillLeavesLoop_children h.parent_lt
        (fun n found g => fillListOfLeaves_ fuel g n found v false
          ((m + UINT_MOD - 1) % UINT_MOD)) v (parentOf origins v)
        (fun w found' hw0 hwN hpw => by
          have := ih w found' ((m + UINT_MOD - 1) % UINT_MOD) hw0 hwN
            (by have := h.parent_lt w hw0 hwN; omega)
          rw [hpw] at this
          exact this)
        (w0 :: rest) found hws hsorted.nodup
      refine ⟨L, hL, hnd, ?_⟩
      intro x
      rw [hmem]
      constructor
      · rintro ⟨hleaf, w, hw, haw⟩
        exact ⟨hleaf, isAncestor_child (hws w hw).2.2.1 haw⟩
      · rintro ⟨hleaf, n, hn⟩
        have hx : x ≠ v := by
          intro hxv
          subst hxv
          obtain ⟨b1, b2, b3⟩ := (hch w0).1 (List.mem_cons_self _ _)
          exact hleaf.2 w0 b1 b2 b3
        obtain ⟨w, hwv, hpw, haw⟩ := isAncestor_split n x hn hx
        have hwx := isAncestor_le h.parent_lt haw
        have hw0 : 0 < w := by
          by_contra h0
          have : w = 0 := by omega
          subst this
          have : parentOf origins 0 = 0 := rfl
          omega
        exact ⟨hleaf, w, (hch w).2 ⟨hw0, le_trans hwx hleaf.1, hpw⟩, haw⟩

theorem getLeaves_isOutTree {origins : List Nat} {g : SimpleGraph} (h : IsOutTree origins g)
    (fuel : Nat) (hfuel : origins.length + 1 < fuel) :
    ∃ children leaves, getOutgoingNeighbors g g.root_ = .returned children g [] ∧
      getNeighbors g g.root_ = .returned children g [] ∧
      getLeaves fuel g = some (.returned leaves g []) ∧
      (2 ≤ children.length → leaves.Nodup ∧
        ∀ x, x ∈ leaves ↔ getOutgoingNeighbors g x = .returned [] g []) ∧
      (children.length ≤ 1 → leaves = [g.root_]) := by
  obtain ⟨ch, hout, hnb, hsorted, hch⟩ := isOutTree_neighbors h (Nat.zero_le origins.length)
  rw [if_pos rfl, List.nil_append] at hnb
  obtain ⟨fuel, rfl⟩ : ∃ f, fuel = f + 1 := ⟨fuel - 1, by omega⟩
  rw [h.root_eq]
  by_cases hlen : ch.length > 1
  · have hws : ∀ w ∈ ch, 0 < w ∧ w ≤ origins.length ∧ parentOf origins w = 0 ∧ 0 < w ∧
        w ≠ 0 := by
      intro w hw
      obtain ⟨b1, b2, b3⟩ := (hch w).1 hw
      exact ⟨b1, b2, b3, b1, by omega⟩
    obtain ⟨L, hL, hnd, hmem⟩ := fillLeavesLoop_children h.parent_lt
      (fun n found g => fillListOfLeaves_ fuel g n found 0 defaultLimitedRecursions
        ((defaultMaxRecursions + UINT_MOD - 1) % UINT_MOD)) 0 0
      (fun w found' hw0 hwN hpw => by
        have := fillListOfLeaves_subtree h fuel w found'
          ((defaultMaxRecursions + UINT_MOD - 1) % UINT_MOD) hw0 hwN (by omega)
        rw [hpw] at this
        exact this)
      ch [] hws hsorted.nodup
    refine ⟨ch, L, hout, hnb, ?_, ?_, ?_⟩
    · unfold getLeaves
      rw [h.root_eq, fillListOfLeaves_succ, hnb, Bounded.andThen_of_returned,
        Option.map_after_nil, if_pos hlen]
      have hcond : (!defaultLimitedRecursions || decide (defaultMaxRecursions > 0)) = true :=
        rfl
      rw [if_pos hcond, hL]
      rfl
    · intro _
      refine ⟨hnd, ?_⟩
      intro x
      rw [hmem, leafOf_iff h]
      constructor
      · exact fun hx => hx.1
      · intro hleaf
        refine ⟨hleaf, ?_⟩
        have hx : x ≠ 0 := by
          intro hx0
          subst hx0
          cases ch with
          | nil => simp at hlen
          | cons w0 rest =>
            obtain ⟨b1, b2, b3⟩ := (hch w0).1 (List.mem_cons_self _ _)
            exact hleaf.2 w0 b1 b2 b3
        obtain ⟨n, hn⟩ := isAncestor_root h.parent_lt x
        obtain ⟨w, hwv, hpw, haw⟩ := isAncestor_split n x hn hx
        have hwx := isAncestor_le h.parent_lt haw
        exact ⟨w, (hch w).2 ⟨by omega, le_trans hwx hleaf.1, hpw⟩, haw⟩
    · intro hle
      omega
  · refine ⟨ch, [0], hout, hnb, ?_, ?_, ?_⟩
    · unfold getLeaves
      rw [h.root_eq, fillListOfLeaves_succ, hnb, Bounded.andThen_of_returned,
        Option.map_after_nil, if_neg hlen]
      rfl
    · intro h2
      omega
    · intro _
      rfl

/-- C26 (amended): let `createNode()` and then `createNodeFromNode(o)` for every `o` of a
list of fewer than `2^32` origins return on a new directed graph.  Then the
root is the node `0`, `getNeighbors` lists for it its outgoing neighbours
only, and `getLeaves()` returns with at most as many nested calls of
`fillListOfLeaves_` as the graph has nodes and leaves the graph as it is.
When the root has at least two outgoing neighbours the returned list has no
node twice and holds exactly the nodes for which `getOutgoingNeighbors`
returns the empty list; when the root has at most one neighbour the returned
list is `[root]`. -/
theorem getLeaves_of_tree (origins : List Nat) (g : SimpleGraph) (c : List Callback)
    (hlen : origins.length < UINT_MOD)
    (hrun : runMutations (SimpleGraph.new true) (treeCalls origins) = .returned () g c)
    (fuel : Nat) (hfuel : origins.length + 1 < fuel) :
    g.root_ = 0 ∧
    ∃ children leaves, getOutgoingNeighbors g g.root_ = .returned children g [] ∧
      getNeighbors g g.root_ = .returned children g [] ∧
      getLeaves fuel g = some (.returned leaves g []) ∧
      (2 ≤ children.length → leaves.Nodup ∧
        ∀ x, x ∈ leaves ↔ getOutgoingNeighbors g x = .returned [] g []) ∧
      (children.length ≤ 1 → leaves = [g.root_]) := by
  have h := treeCalls_isOutTree origins g c hlen hrun
  exact ⟨h.root_eq, getLeaves_isOutTree h fuel hfuel⟩

/-- Witness of C26 (amended): the origins `0, 0, 1, 2` give the graph `twoLevelTree`, on
which `getLeaves()` returns the nodes `3` and `4`. -/
theorem getLeaves_of_tree_witness :
    (([0, 0, 1, 2] : List Nat).length < UINT_MOD ∧
      runMutations (SimpleGraph.new true) (treeCalls [0, 0, 1, 2]) =
        .returned () twoLevelTree [] ∧
      ([0, 0, 1, 2] : List Nat).length + 1 < 6) ∧
    getLeaves 6 twoLevelTree = some (.returned [3, 4] twoLevelTree []) ∧
    (twoLevelTree.root_ = 0 ∧
    ∃ children leaves,
      getOutgoingNeighbors twoLevelTree twoLevelTree.root_ = .returned children twoLevelTree [] ∧
      getNeighbors twoLevelTree twoLevelTree.root_ = .returned children twoLevelTree [] ∧
      getLeaves 6 twoLevelTree = some (.returned leaves twoLevelTree []) ∧
      (2 ≤ children.length → leaves.Nodup ∧
        ∀ x, x ∈ leaves ↔ getOutgoingNeighbors twoLevelTree x = .returned [] twoLevelTree []) ∧
      (children.length ≤ 1 → leaves = [twoLevelTree.root_])) :=
  ⟨⟨by decide, rfl, by decide⟩, rfl,
    getLeaves_of_tree [0, 0, 1, 2] twoLevelTree [] (by decide) rfl 6 (by decide)⟩

theorem createNodeFromNode_of_find {g : SimpleGraph} {o : Node} {ro : NodeRow}
    (ho : mapFind g.nodeStructure_ o = some ro) :
    createNodeFromNode g o =
      .returned g.highestNodeID_ (linkState (createNodeState g) o g.highestNodeID_) [] := by
  unfold createNodeFromNode
  rw [nodeMustExist_of_find _ ho, Result.andThen_returned, Result.after_nil,
    createNode_eq_state, Result.andThen_returned, Result.after_nil]
  have h1 : ∃ r, mapFind (createNodeState g).nodeStructure_ o = some r := by
    rw [mapFind_createNodeState]
    split
    · exact ⟨_, rfl⟩
    · exact ⟨_, ho⟩
  have h2 : ∃ r, mapFind (createNodeState g).nodeStructure_ g.highestNodeID_ = some r := by
    rw [mapFind_createNodeState]
    split
    · exact ⟨_, rfl⟩
    · rename_i hc
      cases hf : mapFind g.nodeStructure_ g.highestNodeID_ with
      | none => exact absurd ⟨rfl, hf⟩ hc
      | some r => exact ⟨r, rfl⟩
  obtain ⟨r1, h1⟩ := h1
  obtain ⟨r2, h2⟩ := h2
  rw [link_of_find h1 h2]
  rfl

theorem treeCalls_returns (origins : List Nat) :
    (∀ (i o : Nat), origins[i]? = some o → o ≤ i) → origins.length < UINT_MOD →
    ∃ g, runMutations (SimpleGraph.new true) (treeCalls origins) = .returned () g [] := by
  induction origins using List.reverseRecOn with
  | nil =>
    intro _ _
    exact ⟨_, rfl⟩
  | append_singleton origins o ih =>
    intro hvalid hlen
    have hlen' : (origins ++ [o]).length = origins.length + 1 := by simp
    rw [hlen'] at hlen
    obtain ⟨g1, h1⟩ := ih (fun i x hx => hvalid i x (by
      have hi : i < origins.length := by
        by_contra hge
        rw [List.getElem?_eq_none (by omega)] at hx
        cases hx
      rw [List.getElem?_append_left hi]
      exact hx)) (by omega)
    have ho : o ≤ origins.length := hvalid origins.length o (by simp)
    have ht := treeCalls_isOutTree origins g1 [] (by omega) h1
    obtain ⟨row, hrow, -⟩ := ht.rows o ho
    have hcalls : treeCalls (origins ++ [o]) = treeCalls origins ++ [.createNodeFromNode o] := by
      simp [treeCalls]
    rw [hcalls]
    refine ⟨linkState (createNodeState g1) o g1.highestNodeID_, ?_⟩
    have h2 : runMutations g1 [.createNodeFromNode o] =
        .returned () (linkState (createNodeState g1) o g1.highestNodeID_) [] := by
      simp only [runMutations, applyMutation, Result.discard, createNodeFromNode_of_find hrow,
        Result.andThen_returned, Result.after_nil]
    exact runMutations_append_returned _ h1 h2

theorem two_le_length_of_mem {l : List Nat} {a b : Nat} (ha : a ∈ l) (hb : b ∈ l)
    (hab : a ≠ b) : 2 ≤ l.length := by
  match l, ha, hb with
  | [x], ha, hb =>
    rw [List.mem_singleton] at ha hb
    exact absurd (ha.trans hb.symm) hab
  | _ :: _ :: _, _, _ => simp

theorem fillListOfLeaves_diverges (g : SimpleGraph) (S : Node → Node → Prop)
    (hS : ∀ v o, S v o → ∃ first rest, getNeighbors g v = .returned (first :: rest) g [] ∧
      rest ≠ [] ∧ first ≠ o ∧ S first v) :
    ∀ (fuel : Nat) (v o : Node) (found : List Node) (m : Nat), S v o →
      fillListOfLeaves_ fuel g v found o false m = none := by
  intro fuel
  induction fuel with
  | zero =>
    intro v o found m _
    rfl
  | succ fuel ih =>
    intro v o found m hvo
    obtain ⟨first, rest, hnb, hrest, hne, hnext⟩ := hS v o hvo
    rw [fillListOfLeaves_succ, hnb, Bounded.andThen_of_returned, Option.map_after_nil]
    have hlen : (first :: rest).length > 1 := by
      cases rest with
      | nil => exact absurd rfl hrest
      | cons _ _ => simp
    have hcond : (!false || decide (m > 0)) = true := by simp
    rw [if_pos hlen, if_pos hcond, fillLeavesLoop, if_pos hne, ih first v found _ hnext]
    rfl

theorem wrapOrigins_length : wrapOrigins.length = 4294967295 := by
  unfold wrapOrigins
  rw [List.length_cons, List.length_cons, List.length_replicate]
  rfl

theorem wrapOrigins_valid : ∀ (i o : Nat), wrapOrigins[i]? = some o → o ≤ i := by
  intro i o h
  unfold wrapOrigins at h
  match i with
  | 0 =>
    rw [List.getElem?_cons_zero] at h
    cases h
    exact le_refl _
  | 1 =>
    rw [List.getElem?_cons_succ, List.getElem?_cons_zero] at h
    cases h
    exact le_refl _
  | i + 2 =>
    rw [List.getElem?_cons_succ, List.getElem?_cons_succ] at h
    have := List.getElem?_mem h
    rw [List.mem_replicate] at this
    omega

theorem parentOf_wrapOrigins :
    parentOf wrapOrigins 1 = 0 ∧ parentOf wrapOrigins 2 = 1 ∧ parentOf wrapOrigins 3 = 0 := by
  have hne : UINT_MOD - 3 ≠ 0 := by decide
  obtain ⟨k, hk⟩ : ∃ k, UINT_MOD - 3 = k + 1 := ⟨UINT_MOD - 4, by decide⟩
  unfold parentOf wrapOrigins
  rw [hk]
  refine ⟨rfl, rfl, rfl⟩

/-- C26 (counterexample): `createNode()` followed by `4294967296` calls of
`createNodeFromNode` that all return: the first `4294967295` of them create the
nodes `1 .. 4294967295` (`1` from the root, `2` from `1`, the others from the
root), which brings `highestNodeID_` back to `0`, so that the last call,
`createNodeFromNode(2)`, is given the id `0` by `createNode()` and links the node
`2` to the root.  The root then has at least two outgoing neighbours, and
`getLeaves()` does not return: the calls for the nodes `0`, `2`, `1`, `0`, ...
follow each other without end, so that no bound on the depth of the recursion
is enough. -/
theorem getLeaves_after_wrap_diverges :
    (wrapOrigins ++ [2]).length = UINT_MOD ∧
    ∃ g, runMutations (SimpleGraph.new true) (treeCalls (wrapOrigins ++ [2])) =
        .returned () g [] ∧
      g.root_ = 0 ∧
      (∃ children, getOutgoingNeighbors g g.root_ = .returned children g [] ∧
        2 ≤ children.length) ∧
      ∀ fuel, getLeaves fuel g = none := by
  have hlenN := wrapOrigins_length
  refine ⟨by rw [List.length_append, hlenN]; rfl, ?_⟩
  obtain ⟨g1, h1⟩ := treeCalls_returns wrapOrigins wrapOrigins_valid
    (by rw [hlenN]; decide)
  have ht := treeCalls_isOutTree wrapOrigins g1 [] (by rw [hlenN]; decide) h1
  obtain ⟨p1, p2, p3⟩ := parentOf_wrapOrigins
  obtain ⟨row0, hrow0, hin0, -, hout0⟩ := ht.rows 0 (by omega)
  obtain ⟨row1, hrow1, hin1, -, hout1⟩ := ht.rows 1 (by rw [hlenN]; omega)
  obtain ⟨row2, hrow2, hin2, -, -⟩ := ht.rows 2 (by rw [hlenN]; omega)
  rw [if_pos rfl] at hin0
  rw [if_neg (by omega), p1] at hin1
  rw [if_neg (by omega), p2] at hin2
  have hcount : g1.highestNodeID_ = 0 := by
    rw [ht.counter, hlenN]
    rfl
  have h2 : runMutations g1 [.createNodeFromNode 2] =
      .returned () (linkState (createNodeState g1) 2 g1.highestNodeID_) [] := by
    simp only [runMutations, applyMutation, Result.discard, createNodeFromNode_of_find hrow2,
      Result.andThen_returned, Result.after_nil]
  have hd : (createNodeState g1).directed_ = true := ht.directed_eq
  have hfind : ∀ x, mapFind (linkState (createNodeState g1) 2 g1.highestNodeID_).nodeStructure_ x =
      (mapFind g1.nodeStructure_ x).map fun row =>
        (if x = 2 then mapInsert row.1 0 (((createNodeState g1).highestEdgeID_ + 1) % UINT_MOD)
          else row.1,
         if x = 0 then mapInsert row.2 2 (((createNodeState g1).highestEdgeID_ + 1) % UINT_MOD)
          else row.2) := by
    intro x
    have hns : (linkState (createNodeState g1) 2 g1.highestNodeID_).nodeStructure_ =
        addRelation (createNodeState g1).nodeStructure_ 2 0
          (((createNodeState g1).highestEdgeID_ + 1) % UINT_MOD) := by
      unfold linkState
      simp only [hd, if_true, hcount]
    rw [hns, mapFind_addRelation, mapFind_createNodeState, hcount]
    have hc : ¬ (x = 0 ∧ mapFind g1.nodeStructure_ x = none) := by
      rintro ⟨rfl, hx⟩
      rw [hrow0] at hx
      cases hx
    rw [if_neg hc]
  have hcalls : treeCalls (wrapOrigins ++ [2]) =
      treeCalls wrapOrigins ++ [.createNodeFromNode 2] := by
    simp [treeCalls]
  refine ⟨linkState (createNodeState g1) 2 g1.highestNodeID_, ?_, ht.root_eq, ?_, ?_⟩
  · rw [hcalls]
    exact runMutations_append_returned _ h1 h2
  · have hr : (linkState (createNodeState g1) 2 g1.highestNodeID_).root_ = 0 := ht.root_eq
    rw [hr]
    have hf0 := hfind 0
    rw [hrow0] at hf0
    refine ⟨mapKeys row0.1, ?_, ?_⟩
    · rw [getOutgoingNeighbors_of_row hf0]
      rfl
    · have m1 : 1 ∈ mapKeys row0.1 := (hout0 1).2 ⟨by omega, by rw [hlenN]; omega, p1⟩
      have m3 : 3 ∈ mapKeys row0.1 := (hout0 3).2 ⟨by omega, by rw [hlenN]; omega, p3⟩
      exact two_le_length_of_mem m1 m3 (by omega)
  · have hS : ∀ v o, WrapCycle v o → ∃ first rest,
        getNeighbors (linkState (createNodeState g1) 2 g1.highestNodeID_) v =
          .returned (first :: rest) (linkState (createNodeState g1) 2 g1.highestNodeID_) [] ∧
        rest ≠ [] ∧ first ≠ o ∧ WrapCycle first v := by
      have n0 : ∃ rest, getNeighbors (linkState (createNodeState g1) 2 g1.highestNodeID_) 0 =
          .returned (2 :: rest) (linkState (createNodeState g1) 2 g1.highestNodeID_) [] ∧
          rest ≠ [] := by
        have hf0 := hfind 0
        rw [hrow0] at hf0
        refine ⟨mapKeys row0.1, ?_, ?_⟩
        · rw [getNeighbors_of_row hf0]
          show Result.returned (mapKeys (mapInsert row0.2 2 _) ++ mapKeys row0.1) _ _ = _
          rw [mapKeys_mapInsert_nil 2 _ hin0]
          rfl
        · have m1 : 1 ∈ mapKeys row0.1 := (hout0 1).2 ⟨by omega, by rw [hlenN]; omega, p1⟩
          exact List.ne_nil_of_mem m1
      have n1 : ∃ rest, getNeighbors (linkState (createNodeState g1) 2 g1.highestNodeID_) 1 =
          .returned (0 :: rest) (linkState (createNodeState g1) 2 g1.highestNodeID_) [] ∧
          rest ≠ [] := by
        have hf1 := hfind 1
        rw [hrow1] at hf1
        refine ⟨mapKeys row1.1, ?_, ?_⟩
        · rw [getNeighbors_of_row hf1]
          show Result.returned (mapKeys row1.2 ++ mapKeys row1.1) _ _ = _
          rw [hin1]
          rfl
        · have m2 : 2 ∈ mapKeys row1.1 := (hout1 2).2 ⟨by omega, by rw [hlenN]; omega, p2⟩
          exact List.ne_nil_of_mem m2
      have n2 : ∃ rest, getNeighbors (linkState (createNodeState g1) 2 g1.highestNodeID_) 2 =
          .returned (1 :: rest) (linkState (createNodeState g1) 2 g1.highestNodeID_) [] ∧
          rest ≠ [] := by
        have hf2 := hfind 2
        rw [hrow2] at hf2
        refine ⟨mapKeys (mapInsert row2.1 0
          (((createNodeState g1).highestEdgeID_ + 1) % UINT_MOD)), ?_, ?_⟩
        · rw [getNeighbors_of_row hf2]
          show Result.returned (mapKeys row2.2 ++ mapKeys (mapInsert row2.1 0 _)) _ _ = _
          rw [hin2]
          rfl
        · have m0 : 0 ∈ mapKeys (mapInsert row2.1 0
              (((createNodeState g1).highestEdgeID_ + 1) % UINT_MOD)) :=
            (mem_mapKeys_mapInsert _ _ _ _).2 (Or.inl rfl)
          exact List.ne_nil_of_mem m0
      intro v o hvo
      rcases hvo with ⟨rfl, rfl⟩ | ⟨rfl, rfl⟩ | ⟨rfl, rfl⟩ | ⟨rfl, rfl⟩
      · obtain ⟨rest, h, hr⟩ := n0
        exact ⟨2, rest, h, hr, by decide, Or.inr (Or.inl ⟨rfl, rfl⟩)⟩
      · obtain ⟨rest, h, hr⟩ := n2
        exact ⟨1, rest, h, hr, by decide, Or.inr (Or.inr (Or.inl ⟨rfl, rfl⟩))⟩
      · obtain ⟨rest, h, hr⟩ := n1
        exact ⟨0, rest, h, hr, by decide, Or.inr (Or.inr (Or.inr ⟨rfl, rfl⟩))⟩
      · obtain ⟨rest, h, hr⟩ := n0
        exact ⟨2, rest, h, hr, by decide, Or.inr (Or.inl ⟨rfl, rfl⟩)⟩
    intro fuel
    unfold getLeaves
    have hr : (linkState (createNodeState g1) 2 g1.highestNodeID_).root_ = 0 := ht.root_eq
    rw [hr]
    exact fillListOfLeaves_diverges _ WrapCycle hS fuel 0 0 [] _ (Or.inl ⟨rfl, rfl⟩)

/-! ## A second `link` after the edge counter has wrapped -/

theorem linkUnlink_step (c : Nat) (h1 : 1 ≤ c) (hc : c + 1 < UINT_MOD) :
    runMutations (linkedWithCounter c) [.link 1 0, .unlink 1 0] =
      .returned () (linkedWithCounter (c + 1)) [] := by
  have hm : (c + 1) % UINT_MOD = c + 1 := Nat.mod_eq_of_lt hc
  have hne : ¬ (1 = c + 1) := by omega
  have hlt : ¬ (c + 1 < 1) := by omega
  have ha : mapFind (linkedWithCounter c).nodeStructure_ 1 = some ([], [(0, 1)]) := rfl
  have hb : mapFind (linkedWithCounter c).nodeStructure_ 0 = some ([(1, 1)], []) := rfl
  have hl : link (linkedWithCounter c) 1 0 =
      .returned (c + 1) (linkState (linkedWithCounter c) 1 0) [] := by
    rw [link_of_find ha hb]
    simp only [linkedWithCounter, hm]
  have hs : linkState (linkedWithCounter c) 1 0 =
      { linkedWithCounter (c + 1) with
        nodeStructure_ := [(0, ([(1, 1)], [(1, c + 1)])), (1, ([(0, c + 1)], [(0, 1)]))]
        edgeStructure_ := [(1, (0, 1)), (c + 1, (1, 0))] } := by
    simp [linkState, linkedWithCounter, twoNodesLinked, twoNodes, SimpleGraph.new, hm,
      addRelation, mapModify, mapInsert, mapFind, mapPut, mapAssign, hne, hlt]
  have hu : unlink (linkState (linkedWithCounter c) 1 0) 1 0 =
      .returned [c + 1] (linkedWithCounter (c + 1)) [] := by
    rw [hs]
    have ha' : mapFind ({ linkedWithCounter (c + 1) with
        nodeStructure_ := [(0, ([(1, 1)], [(1, c + 1)])), (1, ([(0, c + 1)], [(0, 1)]))]
        edgeStructure_ := [(1, (0, 1)), (c + 1, (1, 0))] } : SimpleGraph).nodeStructure_ 1 =
        some ([(0, c + 1)], [(0, 1)]) := rfl
    have hb' : mapFind ({ linkedWithCounter (c + 1) with
        nodeStructure_ := [(0, ([(1, 1)], [(1, c + 1)])), (1, ([(0, c + 1)], [(0, 1)]))]
        edgeStructure_ := [(1, (0, 1)), (c + 1, (1, 0))] } : SimpleGraph).nodeStructure_ 0 =
        some ([(1, 1)], [(1, c + 1)]) := rfl
    have hout : mapFind (([(0, c + 1)], [(0, 1)]) : NodeRow).1 0 = some (c + 1) := rfl
    have hin : mapFind (([(1, 1)], [(1, c + 1)]) : NodeRow).2 1 = some (c + 1) := rfl
    have he : mapFind ({ linkedWithCounter (c + 1) with
        nodeStructure_ := [(0, ([(1, 1)], [(1, c + 1)])), (1, ([(0, c + 1)], [(0, 1)]))]
        edgeStructure_ := [(1, (0, 1)), (c + 1, (1, 0))] } : SimpleGraph).edgeStructure_
        (c + 1) = some (1, 0) := by
      simp [mapFind, hne]
    rw [unlink_of_find ha' hb' hout hin he]
    simp [unlinkState, linkedWithCounter, twoNodesLinked, twoNodes, SimpleGraph.new,
      removeRelation, mapModify, mapErase, hne]
  simp only [runMutations, applyMutation, Result.discard, hl, hu, Result.andThen_returned,
    Result.after_nil]

/-- Running `n` pairs `link(1, 0); unlink(1, 0)` on the graph with the edge
`1` from `0` to `1` raises the edge counter by `n` and changes nothing else. -/
theorem linkUnlinkCalls_reaches (n : Nat) (hn : n + 1 < UINT_MOD) :
    runMutations (linkedWithCounter 1) (linkUnlinkCalls n) =
      .returned () (linkedWithCounter (n + 1)) [] := by
  induction n with
  | zero => rfl
  | succ k ih =>
    have hk : k + 1 < UINT_MOD := by omega
    have := runMutations_append_returned _ (ih hk) (linkUnlink_step (k + 1) (by omega) hn)
    simpa [linkUnlinkCalls, List.range_succ, List.flatMap_append] using this

/-- The state `linkedBeforeWrap` is reached from a new directed graph by
`createNode()`, `createNode()`, `link(0, 1)` and `UINT_MOD - 2` pairs
`link(1, 0); unlink(1, 0)`; its adjacency holds the edge `1` for the pair
`(0, 1)`.  There `link(0, 1)` returns `0` and a second `link(0, 1)` returns
`1`: the edge that `getEdge(0, 1)` returns afterwards, the one of the old
entry, is the edge the second call returned. -/
theorem second_link_after_wrap :
    runMutations (SimpleGraph.new true)
      ([.createNode, .createNode, .link 0 1] ++ linkUnlinkCalls (UINT_MOD - 2)) =
      .returned () linkedBeforeWrap [] ∧
    outAt linkedBeforeWrap.nodeStructure_ 0 1 = some 1 ∧
    ∃ g1 g2, link linkedBeforeWrap 0 1 = .returned 0 g1 [] ∧
      link g1 0 1 = .returned 1 g2 [] ∧ getEdge g2 0 1 = .returned 1 g2 [] := by
  refine ⟨?_, rfl, _, _, rfl, rfl, rfl⟩
  have h0 : runMutations (SimpleGraph.new true) [.createNode, .createNode, .link 0 1] =
      .returned () (linkedWithCounter 1) [] := rfl
  have h1 := linkUnlinkCalls_reaches (UINT_MOD - 2) (by decide)
  have e : UINT_MOD - 2 + 1 = UINT_MOD - 1 := by decide
  rw [e] at h1
  exact runMutations_append_returned _ h0 h1

/-! ## Edges held by the adjacency maps of reachable states -/

theorem HeldBefore.keep (g : SimpleGraph) : HeldBefore g g := fun _ h => h

theorem HeldBefore.chain {g g' g'' : SimpleGraph} (h : HeldBefore g g') (h' : HeldBefore g' g'') :
    HeldBefore g g'' := fun e he => h e (h' e he)

theorem not_heldByAdjacency_nil (e : Edge) : ¬ HeldByAdjacency [] e := by
  rintro ⟨x, y, h | h⟩ <;> cases h

theorem heldBefore_of_cleared (g : SimpleGraph) {g' : SimpleGraph}
    (h : g'.nodeStructure_ = []) : HeldBefore g g' := by
  intro e he
  rw [h] at he
  exact absurd he (not_heldByAdjacency_nil e)

theorem heldByAdjacency_removeRelation {ns : UMap NodeRow} {a b : Node} {e : Edge}
    (h : HeldByAdjacency (removeRelation ns a b) e) : HeldByAdjacency ns e := by
  obtain ⟨x, y, h | h⟩ := h
  · rw [outAt_removeRelation] at h
    split at h
    · cases h
    · exact ⟨x, y, Or.inl h⟩
  · rw [inAt_removeRelation] at h
    split at h
    · cases h
    · exact ⟨x, y, Or.inr h⟩

theorem heldByAdjacency_mapErase {ns : UMap NodeRow} {n : Node} {e : Edge}
    (h : HeldByAdjacency (mapErase ns n) e) : HeldByAdjacency ns e := by
  obtain ⟨x, y, h | h⟩ := h
  · rw [outAt_mapErase] at h
    split at h
    · cases h
    · exact ⟨x, y, Or.inl h⟩
  · rw [inAt_mapErase] at h
    split at h
    · cases h
    · exact ⟨x, y, Or.inr h⟩

theorem heldByAdjacency_createNodeState {g : SimpleGraph} {e : Edge}
    (h : HeldByAdjacency (createNodeState g).nodeStructure_ e) :
    HeldByAdjacency g.nodeStructure_ e := by
  obtain ⟨x, y, h | h⟩ := h
  · rw [outAt_createNodeState] at h
    exact ⟨x, y, Or.inl h⟩
  · rw [inAt_createNodeState] at h
    exact ⟨x, y, Or.inr h⟩

theorem unlink_heldBefore (g : SimpleGraph) (a b : Node) :
    (unlink g a b).Returns fun _ g' => HeldBefore g g' := by
  cases h : unlink g a b with
  | returned v g' c =>
    obtain ⟨e, -, rfl⟩ := unlink_returned h
    intro e' he'
    exact heldByAdjacency_removeRelation he'
  | threw ex g' c => trivial
  | undefinedBehavior => trivial

theorem isolateLoop_heldBefore (node : Node) (g : SimpleGraph) (ns : List Node) :
    (isolateLoop node g ns).Returns fun _ g' => HeldBefore g g' := by
  induction ns generalizing g with
  | nil => exact HeldBefore.keep g
  | cons n rest ih =>
    unfold isolateLoop
    refine Result.Returns_andThen (unlink_heldBefore g node n) ?_
    intro _ g1 h1
    exact Result.Returns_mono (ih g1) fun _ _ h => h1.chain h

theorem deleteNode_heldBefore (g : SimpleGraph) (node : Node) :
    (deleteNode g node).Returns fun _ g' => HeldBefore g g' := by
  unfold deleteNode
  refine Result.Returns_andThen (nodeMustExist_returns g node _) ?_
  rintro _ _ rfl
  refine Result.Returns_andThen (Q := fun _ g' => HeldBefore g g') ?_ ?_
  · unfold isolate_
    refine Result.Returns_andThen (getNeighbors_returns g node) ?_
    rintro ns _ rfl
    exact isolateLoop_heldBefore node g ns
  · intro _ g1 h1
    split
    · trivial
    · intro e he
      exact h1 e (heldByAdjacency_mapErase he)

theorem makeDirectedInnerLoop_stays_cleared (nodeA : Node) (rels : UMap Edge) (g : SimpleGraph)
    (met : List (Nat × Nat)) (h : g.nodeStructure_ = []) :
    (makeDirectedInnerLoop nodeA g met rels).Returns fun _ g' => g'.nodeStructure_ = [] := by
  induction rels generalizing met with
  | nil => exact h
  | cons p rest ih =>
    obtain ⟨nodeB, edge⟩ := p
    unfold makeDirectedInnerLoop
    dsimp only
    split
    · rw [linkInNodeStructure_cleared h]
      trivial
    · exact ih _

theorem makeDirectedOuterLoop_stays_cleared (rows : UMap NodeRow) (g : SimpleGraph)
    (met : List (Nat × Nat)) (h : g.nodeStructure_ = []) :
    (makeDirectedOuterLoop g met rows).Returns fun _ g' => g'.nodeStructure_ = [] := by
  induction rows generalizing g met with
  | nil => exact h
  | cons p rest ih =>
    obtain ⟨nodeA, row⟩ := p
    unfold makeDirectedOuterLoop
    refine Result.Returns_andThen (makeDirectedInnerLoop_stays_cleared nodeA row.1 g met h) ?_
    intro met' g1 h1
    exact ih g1 met' h1

theorem makeDirected_heldBefore (g : SimpleGraph) :
    (makeDirected g).Returns fun _ g' => HeldBefore g g' := by
  unfold makeDirected
  split
  · exact HeldBefore.keep g
  · dsimp only
    refine Result.Returns_andThen
      (makeDirectedOuterLoop_stays_cleared g.nodeStructure_ _ [] rfl) ?_
    intro _ g1 h1
    exact heldBefore_of_cleared g h1

theorem makeUndirected_heldBefore {g g' : SimpleGraph} {c : List Callback}
    (hm : makeUndirected g = .returned () g' c) : HeldBefore g g' := by
  unfold makeUndirected at hm
  cases hd : g.directed_
  · simp only [hd, Bool.not_false, if_true, Result.returned.injEq] at hm
    obtain ⟨-, rfl, -⟩ := hm
    exact HeldBefore.keep g
  · simp only [hd, Bool.not_true, Bool.false_eq_true, if_false, containsReciprocalRelations,
      Result.andThen, Result.after_nil] at hm
    split at hm
    · cases hm
    · obtain ⟨_, g1, c1, c2, h1, h2, -⟩ := Result.andThen_eq_returned hm
      obtain ⟨rfl, -⟩ := makeUndirectedOuterLoop_cleared g.nodeStructure_ rfl h1
      simp only [Result.returned.injEq] at h2
      obtain ⟨-, rfl, -⟩ := h2
      exact heldBefore_of_cleared g rfl

/-- An edge that the adjacency holds after a returning mutation other than
`createNodeOnEdge` was held before it, or is the edge that the `link` call of
the mutation gave. -/
theorem applyMutation_held {g g' : SimpleGraph} {m : Mutation} {c : List Callback}
    (hm : ∀ e, m ≠ .createNodeOnEdge e) (ha : applyMutation g m = .returned () g' c) (e : Edge)
    (he : HeldByAdjacency g'.nodeStructure_ e) :
    HeldByAdjacency g.nodeStructure_ e ∨
      (m.newEdges ≠ 0 ∧ e = (g.highestEdgeID_ + 1) % UINT_MOD) := by
  cases m with
  | createNode =>
    obtain ⟨v, hv⟩ := Result.discard_eq_returned ha
    rw [createNode_eq_state] at hv
    simp only [Result.returned.injEq] at hv
    obtain ⟨-, rfl, -⟩ := hv
    exact Or.inl (heldByAdjacency_createNodeState he)
  | link a b =>
    obtain ⟨v, hv⟩ := Result.discard_eq_returned ha
    obtain ⟨ra, rb, hra, hrb, -, rfl⟩ := link_returned hv
    rcases heldByAdjacency_linkState hra hrb he with h | h
    · exact Or.inr ⟨(by simp [Mutation.newEdges]), h⟩
    · exact Or.inl h
  | unlink a b =>
    obtain ⟨v, hv⟩ := Result.discard_eq_returned ha
    have hh := unlink_heldBefore g a b
    rw [hv] at hh
    exact Or.inl (hh e he)
  | deleteNode n =>
    obtain ⟨v, hv⟩ := Result.discard_eq_returned ha
    have hh := deleteNode_heldBefore g n
    rw [hv] at hh
    exact Or.inl (hh e he)
  | createNodeFromNode o =>
    obtain ⟨v, hv⟩ := Result.discard_eq_returned ha
    unfold createNodeFromNode at hv
    obtain ⟨_, g0, _, _, h1, hv, -⟩ := Result.andThen_eq_returned hv
    have e1 := Result.Returns_of_eq (nodeMustExist_returns g o _) h1
    subst e1
    rw [createNode_eq_state] at hv
    simp only [Result.andThen_returned, Result.after_nil] at hv
    obtain ⟨e', g2, _, _, hl, hv, -⟩ := Result.andThen_eq_returned hv
    simp only [Result.returned.injEq] at hv
    obtain ⟨-, rfl, -⟩ := hv
    obtain ⟨ra, rb, hra, hrb, -, rfl⟩ := link_returned hl
    rcases heldByAdjacency_linkState hra hrb he with h | h
    · exact Or.inr ⟨(by simp [Mutation.newEdges]), h⟩
    · exact Or.inl (heldByAdjacency_createNodeState h)
  | createNodeOnEdge e' => exact absurd rfl (hm e')
  | makeDirected =>
    have hh := makeDirected_heldBefore g
    change makeDirected g = _ at ha
    rw [ha] at hh
    exact Or.inl (hh e he)
  | makeUndirected => exact Or.inl (makeUndirected_heldBefore ha e he)

/-- After a returning run without `createNodeOnEdge` during which the edge
counter does not wrap, every edge that an adjacency map holds is at most
`highestEdgeID_`. -/
theorem runMutations_held (ms : List Mutation) :
    ∀ (g g' : SimpleGraph) (c : List Callback),
      (∀ e, Mutation.createNodeOnEdge e ∉ ms) →
      runMutations g ms = .returned () g' c →
      g.highestEdgeID_ + edgeCreations ms < UINT_MOD →
      (∀ e : Nat, HeldByAdjacency g.nodeStructure_ e → e ≤ g.highestEdgeID_) →
      g'.highestEdgeID_ = g.highestEdgeID_ + edgeCreations ms ∧
      ∀ e : Nat, HeldByAdjacency g'.nodeStructure_ e → e ≤ g'.highestEdgeID_ := by
  induction ms with
  | nil =>
    intro g g' c _ h _ hinv
    simp only [runMutations, Result.returned.injEq] at h
    obtain ⟨-, rfl, -⟩ := h
    exact ⟨rfl, hinv⟩
  | cons m rest ih =>
    intro g g' c hno h hE hinv
    obtain ⟨g1, c1, c2, h1, h2⟩ := runMutations_cons_returned h
    have hm : ∀ e, m ≠ .createNodeOnEdge e := fun e he =>
      hno e (by rw [he]; exact List.mem_cons_self _ _)
    obtain ⟨-, i2, -, -⟩ := applyMutation_ids hm h1
    have hEc : edgeCreations (m :: rest) = m.newEdges + edgeCreations rest := by
      simp [edgeCreations]
    rw [hEc] at hE ⊢
    have hle : m.newEdges ≤ 1 := by
      cases m <;> first | exact absurd rfl (hm _) | simp [Mutation.newEdges]
    have hc1 : g1.highestEdgeID_ = g.highestEdgeID_ + m.newEdges := by
      rw [i2]
      by_cases h0 : m.newEdges = 0
      · rw [if_pos h0, h0]
        rfl
      · rw [if_neg h0]
        have : m.newEdges = 1 := by omega
        rw [this, Nat.mod_eq_of_lt (by omega)]
    have hinv1 : ∀ e : Nat, HeldByAdjacency g1.nodeStructure_ e → e ≤ g1.highestEdgeID_ := by
      intro e he
      rcases applyMutation_held hm h1 e he with h | ⟨hn, rfl⟩
      · have := hinv e h
        omega
      · have : m.newEdges = 1 := by omega
        rw [hc1, this, Nat.mod_eq_of_lt (by omega)]
    obtain ⟨j1, j2⟩ := ih g1 g' c2 (fun e he => hno e (List.mem_cons_of_mem _ he)) h2
      (by omega) hinv1
    exact ⟨by omega, j2⟩

/-- In a state reached from a new graph by a returning run without
`createNodeOnEdge` after which two more edges fit below `UINT_MOD`, the edge
`e2` that a second `link(a, b)` returns is held by no adjacency map, neither
before the two calls nor after them. -/
theorem second_link_edge_unreachable (directed : Bool) (ms : List Mutation) (g : SimpleGraph)
    (c : List Callback)
    (hrun : runMutations (SimpleGraph.new directed) ms = .returned () g c)
    (hno : ∀ e, Mutation.createNodeOnEdge e ∉ ms) (hE : edgeCreations ms + 2 < UINT_MOD)
    (a b : Node) (e1 e2 : Nat) (g1 g2 : SimpleGraph) (c1 c2 : List Callback)
    (h1 : link g a b = .returned e1 g1 c1) (h2 : link g1 a b = .returned e2 g2 c2) :
    ¬ HeldByAdjacency g.nodeStructure_ e2 ∧ ¬ HeldByAdjacency g2.nodeStructure_ e2 := by
  have h0 : (SimpleGraph.new directed).highestEdgeID_ = 0 := rfl
  obtain ⟨hc, hinv⟩ := runMutations_held ms _ g c hno hrun (by rw [h0]; omega)
    (fun e he => absurd he (not_heldByAdjacency_nil e))
  rw [h0, Nat.zero_add] at hc
  obtain ⟨ra, rb, ha, hb, he1, hg1⟩ := link_returned h1
  obtain ⟨ra1, rb1, ha1, hb1, he2, hg2⟩ := link_returned h2
  have hc1 : g1.highestEdgeID_ = e1 := by rw [hg1, he1]; rfl
  rw [hc1] at he2
  have hv1 : e1 = g.highestEdgeID_ + 1 := by
    rw [he1, Nat.mod_eq_of_lt (by omega)]
  have hv2 : e2 = g.highestEdgeID_ + 2 := by
    rw [he2, hv1, Nat.mod_eq_of_lt (by omega)]
  have hnot : ¬ HeldByAdjacency g.nodeStructure_ e2 := by
    intro h
    have := hinv e2 h
    omega
  refine ⟨hnot, ?_⟩
  intro hheld
  have hns : g2.nodeStructure_ = g1.nodeStructure_ := by
    rw [hg2, hg1]
    exact linkState_twice_nodeStructure ha hb
  rw [hns, hg1] at hheld
  rcases heldByAdjacency_linkState ha hb hheld with h | h
  · rw [← he1] at h
    have h' : (e2 : Nat) = e1 := h
    omega
  · exact hnot h

/-- The two `link(0, 1)` calls on the directed graph with the unrelated nodes
`0` and `1`, which `createNode()`, `createNode()` reach: the edge `2` of the
second call is held by no adjacency map. -/
theorem second_link_edge_unreachable_twoNodes :
    ¬ HeldByAdjacency (twoNodes true).nodeStructure_ 2 ∧
    ¬ HeldByAdjacency twoNodesLinkedTwice.nodeStructure_ 2 :=
  second_link_edge_unreachable true [.createNode, .createNode] (twoNodes true) [] rfl
    (fun e he => by simp at he) (by decide) 0 1 1 2 (twoNodesLinked true) twoNodesLinkedTwice
    [] [] rfl rfl

end Bpp
